import Mathlib

/-!
System file reader and writer (sfm-read.c, sfm-write.c)

A shallow embedding of the case codec and of the header handling of the PSPP
system file reader and writer, with the properties proved about them.

Memory is held as lists of bytes (`Nat` below 256) in address order.  A
`flt64` or `union value` cell is eight consecutive bytes; an `int32` is four.
The host byte order (`WORDS_BIGENDIAN`) is the parameter `big` of every
definition that reads or writes a number through memory.
-/

namespace Sfm

/-! ## Bytes in memory -/

/-- Value of a byte string whose first byte is the least significant one. -/
def le_val : List Nat → Nat
  | [] => 0
  | b :: bs => b + 256 * le_val bs

/-- The `n` low bytes of `v`, least significant first. -/
def le_bytes : Nat → Nat → List Nat
  | 0, _ => []
  | n + 1, v => v % 256 :: le_bytes n (v / 256)

/-- Unsigned number held in memory `bs` on a host of byte order `big`. -/
def mem_val (big : Bool) (bs : List Nat) : Nat :=
  if big then le_val bs.reverse else le_val bs

/-- Memory image of the `n`-byte unsigned number `v` on a host of byte order `big`. -/
def mem_bytes (big : Bool) (n v : Nat) : List Nat :=
  if big then (le_bytes n v).reverse else le_bytes n v

/-- Every element of the list is a byte. -/
def is_bytes (bs : List Nat) : Prop := ∀ b ∈ bs, b < 256

instance (bs : List Nat) : Decidable (is_bytes bs) := by
  unfold is_bytes; infer_instance

/-- An 8-byte cell: a `flt64` or one segment of a string. -/
def is_seg (s : List Nat) : Prop := s.length = 8 ∧ is_bytes s

instance (s : List Nat) : Decidable (is_seg s) := by
  unfold is_seg; infer_instance

/-- Signed reading of a 32-bit pattern (two's complement `int32`). -/
def int32_of_bits (v : Nat) : Int :=
  if v % 2 ^ 32 < 2 ^ 31 then (v % 2 ^ 32 : Nat) else (v % 2 ^ 32 : Nat) - (2 ^ 32 : Nat)

/-- The 32-bit pattern of an integer (conversion to `int32` keeps the low 32 bits). -/
def bits_of_int32 (i : Int) : Nat := (i % (2 ^ 32 : Nat)).toNat

/-- The `int32` held in the four bytes `bs`. -/
def int32_val (big : Bool) (bs : List Nat) : Int := int32_of_bits (mem_val big bs)

/-- Memory image of an `int32`. -/
def int32_bytes (big : Bool) (i : Int) : List Nat := mem_bytes big 4 (bits_of_int32 i)

/-- Transcription of `bswap_int32`: bytes 0,3 and 1,2 of the cell are exchanged. -/
def bswap_int32 (x : List Nat) : List Nat := x.reverse

/-- Transcription of `bswap_flt64`: bytes 0,7 1,6 2,5 and 3,4 of the cell are exchanged. -/
def bswap_flt64 (x : List Nat) : List Nat := x.reverse

/-- Transcription of `memset (p + off, c, n)` on the memory `p`. -/
def memset (p : List Nat) (off c n : Nat) : List Nat :=
  p.take off ++ List.replicate (min n (p.length - off)) c ++ p.drop (off + n)

/-- Transcription of `memcpy (p + off, src, src.length)` on the memory `p`. -/
def memcpy (p : List Nat) (off : Nat) (src : List Nat) : List Nat :=
  p.take off ++ src.take (p.length - off) ++ p.drop (off + src.length)

/-- The bytes `p[off .. off + n)`. -/
def mem_read (p : List Nat) (off n : Nat) : List Nat := (p.drop off).take n

/-! ## IEEE 754 binary64

`FPREP_IEEE754` is the only floating-point representation the two files
support.  A finite binary64 number is an integer multiple of `2 ^ (-1074)`;
the model keeps that integer, so comparison, truncation and subtraction are
exact integer arithmetic followed, for subtraction, by rounding to nearest
(ties to even), the default rounding mode. -/

/-- The unit in which finite doubles are counted: `1.0` is `flt_one` units of `2 ^ (-1074)`. -/
def flt_one : Nat := 2 ^ 1074

/-- The value of a `double`. -/
inductive flt_class where
  | nan : flt_class
  | inf (neg : Bool) : flt_class
  | fin (scaled : Int) : flt_class
  deriving DecidableEq

/-- The value denoted by a 64-bit pattern. -/
def flt64_decode (bits : Nat) : flt_class :=
  let sign := bits / 2 ^ 63 % 2
  let e := bits / 2 ^ 52 % 2048
  let m := bits % 2 ^ 52
  if e = 2047 then (if m = 0 then flt_class.inf (sign = 1) else flt_class.nan)
  else
    let mag : Nat := if e = 0 then m else (2 ^ 52 + m) * 2 ^ (e - 1)
    flt_class.fin (if sign = 1 then -(mag : Int) else (mag : Int))

/-- The value of the `flt64` held in the cell `s`. -/
def flt64_val (big : Bool) (s : List Nat) : flt_class := flt64_decode (mem_val big s)

/-- The C comparison `a == b` on doubles. -/
def flt_eq : flt_class → flt_class → Bool
  | flt_class.fin a, flt_class.fin b => a = b
  | flt_class.inf a, flt_class.inf b => a = b
  | _, _ => false

/-- The C comparison `a <= b` on doubles. -/
def flt_le : flt_class → flt_class → Bool
  | flt_class.fin a, flt_class.fin b => a ≤ b
  | flt_class.inf a, flt_class.inf b => a || !b
  | flt_class.inf a, flt_class.fin _ => a
  | flt_class.fin _, flt_class.inf b => !b
  | _, _ => false

/-- Conversion of an `int` to `double` (exact for 32-bit integers). -/
def flt_of_int (i : Int) : flt_class := flt_class.fin (i * (flt_one : Int))

/-- The C cast `(int) x`, truncation toward zero, of a finite double. -/
def flt_to_int : flt_class → Int
  | flt_class.fin a => Int.tdiv a (flt_one : Int)
  | _ => 0

/-- Number of binary digits of `n`, by halving at most `fuel` times. -/
def bitlen : Nat → Nat → Nat
  | 0, _ => 0
  | fuel + 1, n => if n = 0 then 0 else bitlen fuel (n / 2) + 1

/-- Pattern of the double nearest to `mag` units (ties to even), without the sign bit. -/
def flt64_round_mag (mag : Nat) : Nat :=
  if mag < 2 ^ 53 then mag
  else
    let shift := bitlen 2200 mag - 53
    let q := mag / 2 ^ shift
    let rem := mag % 2 ^ shift
    let half := 2 ^ (shift - 1)
    let q1 := if half < rem ∨ (rem = half ∧ q % 2 = 1) then q + 1 else q
    let r := (shift + 1) * 2 ^ 52 + (q1 - 2 ^ 52)
    if 2047 * 2 ^ 52 ≤ r then 2047 * 2 ^ 52 else r

/-- Pattern of the double `(double) k - b` for an instruction byte `k >= 1` and the
double of pattern `bbits`.  An exact zero difference is `+0.0`; a NaN operand
gives that NaN, quieted. -/
def flt64_sub_byte (k : Nat) (bbits : Nat) : Nat :=
  match flt64_decode bbits with
  | flt_class.nan => bbits % 2 ^ 64 / 2 ^ 52 * 2 ^ 52 + (bbits % 2 ^ 51 + 2 ^ 51)
  | flt_class.inf neg => (if neg then 0 else 2 ^ 63) + 2047 * 2 ^ 52
  | flt_class.fin b =>
    let d : Int := (k : Int) * (flt_one : Int) - b
    (if d < 0 then 2 ^ 63 else 0) + flt64_round_mag d.natAbs

/-- Pattern of `-FLT64_MAX`, the system-missing value `SYSMIS` of the host. -/
def NEG_FLT64_MAX_BITS : Nat := 0xFFEFFFFFFFFFFFFF

/-- Memory image of `-FLT64_MAX` (`SYSMIS`). -/
def SYSMIS (big : Bool) : List Nat := mem_bytes big 8 NEG_FLT64_MAX_BITS

/-- Pattern of the double `100.0`. -/
def BIAS_100_BITS : Nat := 0x4059000000000000

/-- Transcription of `COMPRESSION_BIAS`. -/
def COMPRESSION_BIAS : Int := 100

/-! ## The compressing writer (sfm-write.c)

`struct sfm_writer` keeps the 128-element compression buffer `buf` and the
pointers `ptr`, `end`, `x`, `y` into it.  Here `buf` is the buffer's memory
(`[]` for the null pointer), `ptr` and `end_` count `flt64` elements from its
start and `x`, `y` count bytes from its start.  `file` is what has reached the
file so far and `io` lists the outcomes of the coming `fwrite` calls (an
exhausted list means success). -/

namespace Writer

/-- Transcription of the writer's `struct sfm_var`. -/
structure sfm_var where
  width : Int
  fv : Nat
  flt64_cnt : Nat
  deriving DecidableEq

/-- Transcription of `struct sfm_writer`. -/
structure sfm_writer where
  needs_translation : Bool
  compress : Bool
  case_cnt : Int
  flt64_cnt : Nat
  buf : List Nat
  end_ : Nat
  ptr : Nat
  x : Nat
  y : Nat
  vars : List sfm_var
  file : List Nat
  io : List Bool
  deriving DecidableEq

/-- Transcription of `buf_write`: one `fwrite` of all of `data`, which returns 1 only if
the whole item was written; an item of no bytes is never reported as written. -/
def buf_write (w : sfm_writer) (data : List Nat) : Bool × sfm_writer :=
  match w.io with
  | [] => if data.length = 0 then (false, w) else (true, { w with file := w.file ++ data })
  | ok :: rest =>
    if ok && decide (data.length ≠ 0) then (true, { w with file := w.file ++ data, io := rest })
    else (false, { w with io := rest })

/-- Transcription of `ensure_buf_space`. -/
def ensure_buf_space (w : sfm_writer) : Bool × sfm_writer :=
  if w.ptr ≥ w.end_ then
    let w1 := { w with buf := memset w.buf w.x 0 (w.y - w.x) }
    let w2 := { w1 with x := w1.y }
    let w3 := { w2 with ptr := 0 }
    buf_write w3 (mem_read w3.buf 0 (8 * 128))
  else (true, w)

/-- Transcription of `put_instruction`. -/
def put_instruction (w : sfm_writer) (instruction : Nat) : sfm_writer :=
  if w.x ≥ w.y then
    match ensure_buf_space w with
    | (false, w1) => w1
    | (true, w1) =>
      let w2 := { w1 with x := 8 * w1.ptr, ptr := w1.ptr + 1 }
      let w3 := { w2 with y := 8 * w2.ptr }
      { w3 with buf := w3.buf.set w3.x instruction, x := w3.x + 1 }
  else { w with buf := w.buf.set w.x instruction, x := w.x + 1 }

/-- Transcription of `put_element`. -/
def put_element (w : sfm_writer) (elem : List Nat) : sfm_writer :=
  match ensure_buf_space w with
  | (false, w1) => w1
  | (true, w1) => { w1 with buf := memcpy w1.buf (8 * w1.ptr) (elem.take 8), ptr := w1.ptr + 1 }

/-- The numeric branch of the loop body of `write_compressed_data`, for the element `e`. -/
def write_compressed_num (big : Bool) (w : sfm_writer) (e : List Nat) : sfm_writer :=
  let v := flt64_val big e
  if flt_eq v (flt64_decode NEG_FLT64_MAX_BITS) then put_instruction w 255
  else if flt_le (flt_of_int (1 - COMPRESSION_BIAS)) v
      && flt_le v (flt_of_int (251 - COMPRESSION_BIAS))
      && flt_eq v (flt_of_int (flt_to_int v)) then
    put_instruction w ((flt_to_int v + COMPRESSION_BIAS) % 256).toNat
  else put_element (put_instruction w 253) e

/-- The inner loop of `write_compressed_data` over the `j` remaining elements of a
string variable; returns the writer and the advanced `elem`. -/
def write_compressed_str : Nat → sfm_writer → List Nat → sfm_writer × List Nat
  | 0, w, elem => (w, elem)
  | j + 1, w, elem =>
    let w1 :=
      if elem.take 8 = List.replicate 8 32 then put_instruction w 254
      else put_element (put_instruction w 253) (elem.take 8)
    write_compressed_str j w1 (elem.drop 8)

/-- The loop of `write_compressed_data` over the variables still to be written. -/
def write_compressed_vars (big : Bool) : List sfm_var → sfm_writer → List Nat → sfm_writer
  | [], w, _ => w
  | v :: vs, w, elem =>
    if v.width = 0 then
      write_compressed_vars big vs (write_compressed_num big w (elem.take 8)) (elem.drop 8)
    else
      let r := write_compressed_str v.flt64_cnt w elem
      write_compressed_vars big vs r.1 r.2

/-- Transcription of `write_compressed_data`. -/
def write_compressed_data (big : Bool) (w : sfm_writer) (elem : List Nat) : sfm_writer :=
  write_compressed_vars big w.vars w elem

/-- A block of `n` bytes as `local_alloc` or `xnmalloc` return it: its contents are
whatever `junk` the memory held. -/
def alloc (junk : List Nat) (n : Nat) : List Nat :=
  junk.take n ++ List.replicate (n - junk.length) 0

/-- The loop of `sfm_write_case` that fills the bounce buffer `bounce` from the case
`c` (the memory of its `union value` array), `cur` being `bounce_cur - bounce`. -/
def fill_bounce : List sfm_var → List Nat → List Nat → Nat → List Nat
  | [], _, bounce, _ => bounce
  | v :: vs, c, bounce, cur =>
    let b1 :=
      if v.width = 0 then memcpy bounce (8 * cur) (mem_read c (8 * v.fv) 8)
      else memcpy bounce (8 * cur) (mem_read c (8 * v.fv) v.width.toNat)
    fill_bounce vs c b1 (cur + v.flt64_cnt)

/-- Transcription of `sfm_write_case`; `junk` is the previous content of the memory
that `local_alloc` hands out for the bounce buffer. -/
def sfm_write_case (big : Bool) (w : sfm_writer) (c junk : List Nat) : Int × sfm_writer :=
  let w1 := { w with case_cnt := w.case_cnt + 1 }
  if !w1.needs_translation && !w1.compress then
    (1, (buf_write w1 (mem_read c 0 (8 * w1.flt64_cnt))).2)
  else
    let bounce := fill_bounce w1.vars c (alloc junk (8 * w1.flt64_cnt)) 0
    if !w1.compress then (1, (buf_write w1 bounce).2)
    else (1, write_compressed_data big w1 bounce)

/-! ### Opening and closing the writer

The dictionary, the variables and their value labels and missing values belong
to files that are outside sfm-write.c; they are kept here as plain records.
Strings are lists of character codes without the terminating null. -/

/-- Transcription of the enumeration constant `NUMERIC` of a variable's `type`. -/
def NUMERIC : Int := 0

/-- Transcription of the enumeration constant `ALPHA` of a variable's `type`. -/
def ALPHA : Int := 1

/-- Transcription of `struct fmt_spec`. -/
structure fmt_spec where
  type : Nat
  w : Int
  d : Int
  deriving DecidableEq

/-- Modelled from the spec: the missing-value specification of a variable (the
`struct missing_values` that `mv_has_range`, `mv_pop_range`, `mv_has_value` and
`mv_pop_value` work on): an optional range and up to three discrete values, each held
as the 8 bytes of a `union value`. -/
structure missing_values where
  range : Option (List Nat × List Nat)
  values : List (List Nat)
  deriving DecidableEq

/-- Transcription of `struct val_lab`: a value and its label. -/
structure val_lab where
  value : List Nat
  label : List Nat
  deriving DecidableEq

/-- The fields of `struct variable` that the writer uses. -/
structure variable_ where
  name : List Nat
  short_name : List Nat
  type : Int
  width : Int
  fv : Nat
  nv : Nat
  miss : missing_values
  print : fmt_spec
  write : fmt_spec
  val_labs : List val_lab
  label : Option (List Nat)
  measure : Int
  display_width : Int
  alignment : Int
  deriving DecidableEq

/-- The fields of `struct dictionary` that the writer uses; the weighting variable is
given by its position among the variables. -/
structure dictionary where
  var : List variable_
  weight : Option Nat
  label : Option (List Nat)
  documents : Option (List Nat)
  deriving DecidableEq

/-- Transcription of `struct sfm_write_options`. -/
structure sfm_write_options where
  create_writeable : Bool
  compress : Bool
  version : Int
  deriving DecidableEq

/-- The fields of `struct tm` that `write_header` uses. -/
structure tm where
  tm_mday : Int
  tm_mon : Int
  tm_year : Int
  tm_hour : Int
  tm_min : Int
  tm_sec : Int
  deriving DecidableEq

/-- What the writer takes from outside sfm-write.c: the strings `version`,
`host_system` and `bare_version`, the clock (`none` when `time` fails), the `spss`
column of the `formats` table, the short names that `dict_assign_short_names` gives
the variables, the order in which `val_labs_first_sorted` hands out labels, the
outcomes of `open`, `fh_open` and `fdopen`, and the content of the memory that
`xnmalloc` returns for the compression buffer. -/
structure host where
  version : List Nat
  host_system : List Nat
  bare_version : List Nat
  time : Option tm
  formats_spss : Nat → Int
  short_names : List variable_ → List (List Nat)
  val_labs_sorted : List val_lab → List val_lab
  open_ok : Bool
  fh_open_ok : Bool
  fdopen_ok : Bool
  buf_junk : List Nat

/-- Transcription of the macro `DIV_RND_UP`. -/
def DIV_RND_UP (x y : Int) : Int := Int.tdiv (x + (y - 1)) y

/-- Transcription of the macro `ROUND_UP`. -/
def ROUND_UP (x y : Int) : Int := Int.tdiv (x + (y - 1)) y * y

/-- Transcription of the macro `REM_RND_UP`. -/
def REM_RND_UP (x y : Int) : Int := if Int.tmod x y ≠ 0 then y - Int.tmod x y else 0

/-- Transcription of `var_flt64_cnt`. -/
def var_flt64_cnt (v : variable_) : Int :=
  if v.type = NUMERIC then 1 else DIV_RND_UP v.width 8

/-- Transcription of `does_dict_need_translation`, `case_idx` being the running index. -/
def does_dict_need_translation_from : List variable_ → Nat → Int
  | [], _ => 1
  | v :: vs, case_idx =>
    if v.fv ≠ case_idx then 0 else does_dict_need_translation_from vs (case_idx + v.nv)

/-- Transcription of `does_dict_need_translation`. -/
def does_dict_need_translation (d : dictionary) : Int :=
  does_dict_need_translation_from d.var 0

/-- Transcription of `rerange`. -/
def rerange (x : Int) : Int :=
  let x1 := if x < 0 then -x else x
  if x1 ≥ 100 then Int.tmod x1 100 else x1

/-- Transcription of `append_string_max`: `dest` is what the destination holds so far
and `cap` its capacity. -/
def append_string_max (dest src : List Nat) (cap : Nat) : List Nat :=
  dest ++ src.take (min (cap - dest.length) src.length)

/-- Transcription of `buf_copy_str_rpad`: `src` cut to `n` bytes and padded on the
right with spaces. -/
def buf_copy_str_rpad (n : Nat) (src : List Nat) : List Nat :=
  src.take n ++ List.replicate (n - src.length) 32

/-- The characters that `sprintf` produces for the conversion `%02d`. -/
def fmt_02d (v : Int) : List Nat :=
  if v < 0 then 45 :: (Nat.toDigits 10 v.natAbs).map Char.toNat
  else if v < 10 then 48 :: (Nat.toDigits 10 v.natAbs).map Char.toNat
  else (Nat.toDigits 10 v.natAbs).map Char.toNat

/-- The table `month_name` of `write_header`. -/
def month_name : List (List Nat) :=
  [[74, 97, 110], [70, 101, 98], [77, 97, 114], [65, 112, 114], [77, 97, 121],
   [74, 117, 110], [74, 117, 108], [65, 117, 103], [83, 101, 112], [79, 99, 116],
   [78, 111, 118], [68, 101, 99]]

/-- The first `n` bytes of the character array that holds the string `s`. -/
def str_bytes (n : Nat) (s : List Nat) : List Nat :=
  s.take n ++ List.replicate (n - s.length) 0

/-- The fields `creation_date` and `creation_time` as `write_header` fills them. -/
def creation_stamp (t : Option tm) : List Nat × List Nat :=
  match t with
  | none => ([48, 49, 32, 74, 97, 110, 32, 55, 48], [48, 48, 58, 48, 48, 58, 48, 48])
  | some tmp =>
    let day := rerange tmp.tm_mday
    let mon := rerange (tmp.tm_mon + 1)
    let year := rerange tmp.tm_year
    let hour := rerange (tmp.tm_hour + 1)
    let min := rerange (tmp.tm_min + 1)
    let sec := rerange (tmp.tm_sec + 1)
    (str_bytes 9 (fmt_02d day ++ [32] ++ month_name.getD (mon - 1).toNat [] ++ [32]
        ++ fmt_02d year),
     str_bytes 8 (fmt_02d (hour - 1) ++ [58] ++ fmt_02d (min - 1) ++ [58]
        ++ fmt_02d (sec - 1)))

/-- Pattern of `FLT64_MAX`. -/
def FLT64_MAX_BITS : Nat := 0x7FEFFFFFFFFFFFFF

/-- Pattern of `second_lowest_flt64`, the double next above `-FLT64_MAX`. -/
def SECOND_LOWEST_BITS : Nat := 0xFFEFFFFFFFFFFFFE

/-- Modelled from the spec: the layout of `struct sysfile_header` (declared in sfmP.h):
4 bytes `rec_type`, 60 bytes `prod_name`, the `int32` fields `layout_code`, `case_size`,
`compress`, `weight_idx`, `case_cnt`, the `flt64` field `bias`, 9 bytes
`creation_date`, 8 bytes `creation_time`, 64 bytes `file_label` and 3 bytes `padding`,
176 bytes in all. -/
structure sysfile_header where
  rec_type : List Nat
  prod_name : List Nat
  layout_code : List Nat
  case_size : List Nat
  compress : List Nat
  weight_idx : List Nat
  case_cnt : List Nat
  bias : List Nat
  creation_date : List Nat
  creation_time : List Nat
  file_label : List Nat
  padding : List Nat
  deriving DecidableEq

/-- The memory of a `struct sysfile_header`. -/
def sysfile_header.bytes (h : sysfile_header) : List Nat :=
  h.rec_type ++ h.prod_name ++ h.layout_code ++ h.case_size ++ h.compress ++ h.weight_idx
    ++ h.case_cnt ++ h.bias ++ h.creation_date ++ h.creation_time ++ h.file_label
    ++ h.padding

/-- Modelled from the spec: `offsetof (struct sysfile_header, case_cnt)`. -/
def OFFSET_CASE_CNT : Nat := 80

/-- The sum of `var_flt64_cnt` over the variables, as the loops of `write_header`
form it. -/
def sum_flt64_cnt : List variable_ → Int
  | [] => 0
  | v :: vs => var_flt64_cnt v + sum_flt64_cnt vs

/-- The header that `write_header` builds for the dictionary `d`. -/
def make_header (big : Bool) (env : host) (compress : Bool) (d : dictionary) :
    sysfile_header :=
  let p0 : List Nat :=
    [64, 40, 35, 41, 32, 83, 80, 83, 83, 32, 68, 65, 84, 65, 32, 70, 73, 76, 69, 32]
  let p1 := append_string_max p0 env.version 60
  let p2 := append_string_max p1 [32, 45, 32] 60
  let p3 := append_string_max p2 env.host_system 60
  let stamp := creation_stamp env.time
  { rec_type := [36, 70, 76, 50]
    prod_name := p3 ++ List.replicate (60 - p3.length) 32
    layout_code := int32_bytes big 2
    case_size := int32_bytes big (sum_flt64_cnt d.var)
    compress := int32_bytes big (if compress then 1 else 0)
    weight_idx :=
      match d.weight with
      | some i => int32_bytes big (1 + sum_flt64_cnt (d.var.take i))
      | none => int32_bytes big 0
    case_cnt := int32_bytes big (-1)
    bias := mem_bytes big 8 BIAS_100_BITS
    creation_date := stamp.1
    creation_time := stamp.2
    file_label := buf_copy_str_rpad 64 (d.label.getD [])
    padding := [0, 0, 0] }

/-- Transcription of `write_header`. -/
def write_header (big : Bool) (env : host) (w : sfm_writer) (d : dictionary) :
    Bool × sfm_writer :=
  let w1 := { w with flt64_cnt := (sum_flt64_cnt d.var).toNat }
  buf_write w1 (make_header big env w1.compress d).bytes

/-- Transcription of `write_format_spec`. -/
def write_format_spec (env : host) (src : fmt_spec) : Int :=
  Int.lor (Int.lor (env.formats_spss src.type * 65536) (src.w * 256)) src.d

/-- The missing values `m` and their count `nm` as `write_variable` collects them. -/
def missing_cells (big : Bool) (v : variable_) : List (List Nat) :=
  let r : List (List Nat) :=
    match v.miss.range with
    | some (x, y) =>
      [if flt_eq (flt64_val big x) (flt64_decode SECOND_LOWEST_BITS)
          then mem_bytes big 8 SECOND_LOWEST_BITS else x,
       if flt_eq (flt64_val big y) (flt64_decode FLT64_MAX_BITS)
          then mem_bytes big 8 FLT64_MAX_BITS else y]
    | none => []
  r ++ v.miss.values.map (fun value =>
    if v.type = NUMERIC then value
    else (value.take (min v.width.toNat 8)) ++ List.replicate (8 - min v.width.toNat 8) 32)

/-- The 32 bytes of a `struct sysfile_variable` (declared in sfmP.h): six `int32`
fields and the 8-byte name. -/
def sysfile_variable_bytes (big : Bool) (type has_var_label n_missing_values print
    write : Int) (name : List Nat) : List Nat :=
  int32_bytes big 2 ++ int32_bytes big type ++ int32_bytes big has_var_label
    ++ int32_bytes big n_missing_values ++ int32_bytes big print ++ int32_bytes big write
    ++ name

/-- The loop of `write_variable` that writes `n` continuation records. -/
def write_continuations (big : Bool) : Nat → sfm_writer → Bool × sfm_writer
  | 0, w => (true, w)
  | n + 1, w =>
    match buf_write w (sysfile_variable_bytes big (-1) 0 0 0 0 (List.replicate 8 0)) with
    | (false, w1) => (false, w1)
    | (true, w1) => write_continuations big n w1

/-- The number of elements of the array `char label[255]` in the local `struct label`
of `write_variable`, which is the last member of the struct (`int32 label_len` and the
array, packed: 259 bytes). -/
def label_capacity : Nat := 255

/-- The local `struct label` of `write_variable` as the code fills it for the label
`label`, and what the code stores behind it. `l.label_len` is `min (strlen, 255)`;
`memcpy` stores the label and `memset` the blanks from `l.label[0]` up to
`l.label[ext_len - 1]`. The first component holds `label_len` and the bytes stored
inside the 255 bytes of `l.label`; the second component holds the bytes that are
stored at `l.label[255]` and behind, outside the struct, which there are for labels of
253 bytes and more (`ext_len` is then 256). The C code then stores and reads out of
bounds and its behaviour is undefined; the value given here is that of an execution
in which the memory behind the struct takes the blank. -/
def stage_label (big : Bool) (label : List Nat) : List Nat × List Nat :=
  let label_len : Int := min (label.length : Int) 255
  let ext_len := ROUND_UP label_len 4
  let stored := label.take label_len.toNat ++ List.replicate (ext_len - label_len).toNat 32
  (int32_bytes big label_len ++ stored.take label_capacity, stored.drop label_capacity)

/-- Transcription of `write_variable`. The label is staged in the local `struct label`
(see `stage_label`); `buf_write` takes `offsetof (struct label, label) + ext_len` bytes
from the address of the struct, which for a label of 253 bytes and more is one byte
more than the struct holds. -/
def write_variable (big : Bool) (env : host) (w : sfm_writer) (v : variable_) :
    Bool × sfm_writer :=
  let m := missing_cells big v
  let nm : Int := if v.miss.range.isSome then -(m.length : Int) else (m.length : Int)
  match buf_write w (sysfile_variable_bytes big v.width (if v.label.isSome then 1 else 0)
      nm (write_format_spec env v.print) (write_format_spec env v.write)
      (buf_copy_str_rpad 8 v.short_name)) with
  | (false, w1) => (false, w1)
  | (true, w1) =>
    let r2 : Bool × sfm_writer :=
      match v.label with
      | some label =>
        buf_write w1 ((stage_label big label).1 ++ (stage_label big label).2)
      | none => (true, w1)
    match r2 with
    | (false, w2) => (false, w2)
    | (true, w2) =>
      let r3 : Bool × sfm_writer :=
        if nm ≠ 0 then buf_write w2 m.flatten else (true, w2)
      match r3 with
      | (false, w3) => (false, w3)
      | (true, w3) =>
        if v.type = ALPHA ∧ v.width > 8 then
          write_continuations big (DIV_RND_UP v.width 8 - 1).toNat w3
        else (true, w3)

/-- The loop of `sfm_open_writer` over `write_variable`, whose result it does not
look at. -/
def write_variables (big : Bool) (env : host) : List variable_ → sfm_writer → sfm_writer
  | [], w => w
  | v :: vs, w => write_variables big env vs (write_variable big env w v).2

/-- The bytes that pass 2 of `write_value_labels` lays down for one label. -/
def value_label_bytes (vl : val_lab) : List Nat :=
  vl.value ++ [vl.label.length % 256] ++ vl.label
    ++ List.replicate (REM_RND_UP ((vl.label.length : Int) + 1) 8).toNat 32

/-- Transcription of `write_value_labels`. -/
def write_value_labels (big : Bool) (env : host) (w : sfm_writer) (v : variable_)
    (idx : Int) : Bool × sfm_writer :=
  if v.val_labs.length = 0 then (true, w)
  else
    match buf_write w (int32_bytes big 3 ++ int32_bytes big v.val_labs.length
        ++ ((env.val_labs_sorted v.val_labs).map value_label_bytes).flatten) with
    | (false, w1) => (false, w1)
    | (true, w1) =>
      buf_write w1 (int32_bytes big 4 ++ int32_bytes big 1 ++ int32_bytes big (idx + 1))

/-- The loop of `sfm_open_writer` over `write_value_labels`. -/
def write_all_value_labels (big : Bool) (env : host) :
    List variable_ → Int → sfm_writer → Bool × sfm_writer
  | [], _, w => (true, w)
  | v :: vs, idx, w =>
    match write_value_labels big env w v idx with
    | (false, w1) => (false, w1)
    | (true, w1) => write_all_value_labels big env vs (idx + var_flt64_cnt v) w1

/-- Transcription of `write_documents`. -/
def write_documents (big : Bool) (w : sfm_writer) (documents : List Nat) :
    Bool × sfm_writer :=
  let n_lines := documents.length / 80
  match buf_write w (int32_bytes big 6 ++ int32_bytes big n_lines) with
  | (false, w1) => (false, w1)
  | (true, w1) => buf_write w1 (documents.take (80 * n_lines))

/-- The number that `strtol (s, &p, 10)` reads at the start of `s`, and the rest `p`. -/
def strtol_digits : List Nat → Nat → Nat × List Nat
  | [], acc => (acc, [])
  | c :: cs, acc =>
    if 48 ≤ c ∧ c ≤ 57 then strtol_digits cs (10 * acc + (c - 48)) else (acc, c :: cs)

/-- Transcription of `write_rec_7_34`. -/
def write_rec_7_34 (big : Bool) (env : host) (w : sfm_writer) : Bool × sfm_writer :=
  let r0 := strtol_digits env.bare_version 0
  let r1 := strtol_digits env.bare_version 0
  let c := r1.2.headD 0
  let v2 : Int :=
    if (65 ≤ c ∧ c ≤ 90) then (c + 32 : Int) - 97
    else if (97 ≤ c ∧ c ≤ 122) then (c : Int) - 97 else 0
  buf_write w (int32_bytes big 7 ++ int32_bytes big 3 ++ int32_bytes big 4
    ++ int32_bytes big 8
    ++ int32_bytes big r0.1 ++ int32_bytes big r1.1 ++ int32_bytes big v2
    ++ int32_bytes big (-1) ++ int32_bytes big 1 ++ int32_bytes big 1
    ++ int32_bytes big (if big then 1 else 2) ++ int32_bytes big 2
    ++ int32_bytes big 7 ++ int32_bytes big 4 ++ int32_bytes big 8 ++ int32_bytes big 3
    ++ mem_bytes big 8 NEG_FLT64_MAX_BITS ++ mem_bytes big 8 FLT64_MAX_BITS
    ++ mem_bytes big 8 SECOND_LOWEST_BITS)

/-- The loop of `write_variable_display_parameters` over the variables. -/
def write_display_params (big : Bool) : List variable_ → sfm_writer → Bool × sfm_writer
  | [], w => (true, w)
  | v :: vs, w =>
    match buf_write w (int32_bytes big v.measure ++ int32_bytes big v.display_width
        ++ int32_bytes big v.alignment) with
    | (false, w1) => (false, w1)
    | (true, w1) => write_display_params big vs w1

/-- Transcription of `write_variable_display_parameters`. -/
def write_variable_display_parameters (big : Bool) (w : sfm_writer) (dict : dictionary)
    (var_cnt : Nat) : Bool × sfm_writer :=
  match buf_write w (int32_bytes big 7 ++ int32_bytes big 11 ++ int32_bytes big 4
      ++ int32_bytes big (var_cnt * 3)) with
  | (false, w1) => (false, w1)
  | (true, w1) => write_display_params big (dict.var.take var_cnt) w1

/-- The text `short=long`, tab separated, that `write_longvar_table` builds. -/
def long_name_map : List variable_ → Bool → List Nat
  | [], _ => []
  | v :: vs, first =>
    (if first then [] else [9]) ++ v.short_name ++ [61] ++ v.name ++ long_name_map vs false

/-- Transcription of `write_longvar_table`. -/
def write_longvar_table (big : Bool) (w : sfm_writer) (dict : dictionary) :
    Bool × sfm_writer :=
  let m := long_name_map dict.var true
  match buf_write w (int32_bytes big 7 ++ int32_bytes big 13 ++ int32_bytes big 1
      ++ int32_bytes big m.length) with
  | (false, w1) => (false, w1)
  | (true, w1) => buf_write w1 m

/-- Modelled from the spec: `dict_assign_short_names` (dictionary.c) gives every
variable a short name and changes nothing else. -/
def dict_assign_short_names (env : host) (d : dictionary) : dictionary :=
  let names := env.short_names d.var
  let all := names ++ (d.var.drop names.length).map (fun v => v.short_name)
  { d with var := List.zipWith (fun v n => { v with short_name := n }) d.var all }

/-- File offset and outcome of the `fseek` and the `fwrite` with which
`sfm_close_writer` updates the case count. -/
def file_write_at (file : List Nat) (off : Nat) (data : List Nat) : List Nat :=
  file.take off ++ List.replicate (off - file.length) 0 ++ data
    ++ file.drop (off + data.length)

/-- Transcription of `sfm_close_writer` for a writer that is not null and whose `file`
is not null; the result is the content of the closed file.  `seek_ok` and `write_ok`
are the outcomes of the `fseek` and of the `fwrite` of the case count. -/
def sfm_close_writer (big : Bool) (w : sfm_writer) (seek_ok write_ok : Bool) : List Nat :=
  let w1 :=
    if w.buf ≠ [] ∧ w.ptr > 0 then
      let w0 := { w with buf := memset w.buf w.x 0 (w.y - w.x) }
      (buf_write w0 (mem_read w0.buf 0 (8 * w0.ptr))).2
    else w
  if seek_ok && write_ok then file_write_at w1.file OFFSET_CASE_CNT (int32_bytes big w1.case_cnt)
  else w1.file

/-- The part of `sfm_open_writer` after the header: the dictionary records and the
terminating record 999. -/
def write_dictionary (big : Bool) (env : host) (w : sfm_writer) (d : dictionary)
    (opts : sfm_write_options) : Bool × sfm_writer :=
  let d1 := dict_assign_short_names env d
  let w1 := write_variables big env d1.var w
  match write_all_value_labels big env d1.var 0 w1 with
  | (false, w2) => (false, w2)
  | (true, w2) =>
    let r3 : Bool × sfm_writer :=
      match d1.documents with
      | some docs => write_documents big w2 docs
      | none => (true, w2)
    match r3 with
    | (false, w3) => (false, w3)
    | (true, w3) =>
      match write_rec_7_34 big env w3 with
      | (false, w4) => (false, w4)
      | (true, w4) =>
        match write_variable_display_parameters big w4 d1 w4.vars.length with
        | (false, w5) => (false, w5)
        | (true, w5) =>
          let r6 : Bool × sfm_writer :=
            if opts.version ≥ 3 then write_longvar_table big w5 d1 else (true, w5)
          match r6 with
          | (false, w6) => (false, w6)
          | (true, w6) => buf_write w6 (int32_bytes big 999 ++ int32_bytes big 0)

/-- Transcription of `sfm_open_writer`: the new writer, or `none` for the null pointer.
`io` lists the outcomes of the `fwrite` calls to come. -/
def sfm_open_writer (big : Bool) (env : host) (io : List Bool) (d : dictionary)
    (opts : sfm_write_options) : Option sfm_writer :=
  let opts1 := if opts.version ≠ 2 ∧ opts.version ≠ 3 then { opts with version := 3 } else opts
  if !env.open_ok then none
  else if !env.fh_open_ok then none
  else
    let w : sfm_writer :=
      { needs_translation := does_dict_need_translation d ≠ 0
        compress := opts1.compress
        case_cnt := 0
        flt64_cnt := 0
        buf := []
        end_ := 0
        ptr := 0
        x := 0
        y := 0
        vars := d.var.map (fun dv =>
          { width := dv.width, fv := dv.fv, flt64_cnt := (var_flt64_cnt dv).toNat })
        file := []
        io := io }
    if !env.fdopen_ok then none
    else
      match write_header big env w d with
      | (false, _) => none
      | (true, w1) =>
        match write_dictionary big env w1 d opts1 with
        | (false, _) => none
        | (true, w2) =>
          if w2.compress then
            let w3 := { w2 with buf := alloc env.buf_junk (8 * 128) }
            let w4 := { w3 with ptr := 0 }
            let w5 := { w4 with end_ := 128 }
            let w6 := { w5 with x := 8 * w5.ptr, ptr := w5.ptr + 1 }
            some { w6 with y := 8 * w6.ptr }
          else some w2

end Writer

/-! ## The case reader (sfm-read.c)

In `struct sfm_reader` the decompression buffer is used only through `ptr` and
`end`; `buf` below is the list of the elements from `ptr` up to `end` (empty
for the null pointers of a new reader and whenever `ptr >= end`).  `x` is the
instruction octet, `y` the offset of the reader's `y` pointer from `x`, and
`file` the bytes of the file not read yet.  The stream has no read error
(`ferror` is never set). -/

namespace Reader

/-- Transcription of the reader's `struct sfm_var`. -/
structure sfm_var where
  width : Int
  fv : Nat
  deriving DecidableEq

/-- Transcription of `struct sfm_reader`. -/
structure sfm_reader where
  reverse_endian : Bool
  fix_specials : Bool
  value_cnt : Int
  case_cnt : Int
  compressed : Int
  bias : List Nat
  weight_idx : Int
  vars : List sfm_var
  sysmis : List Nat
  highest : List Nat
  lowest : List Nat
  buf : List (List Nat)
  x : List Nat
  y : Nat
  file : List Nat
  deriving DecidableEq

/-- The error messages of the data reader, named by the place that reports them. -/
inductive message where
  | partial_case : message
  | eof_in_literal : message
  | eof_in_case : message
  | partial_record : message
  deriving DecidableEq

/-- The `n` consecutive 8-byte elements at the start of `bs`. -/
def elements : Nat → List Nat → List (List Nat)
  | 0, _ => []
  | n + 1, bs => bs.take 8 :: elements n (bs.drop 8)

/-- Transcription of `buffer_input`: `fread` delivers the complete elements only, at
most 128 of them, and a short count means the end of the file was reached. -/
def buffer_input (r : sfm_reader) : Nat × sfm_reader :=
  let amt := min 128 (r.file.length / 8)
  (amt, { r with buf := elements amt r.file,
                 file := if amt < 128 then [] else r.file.drop (8 * 128) })

/-- The step shared by the two places of `read_compressed_data` that take the next
buffer element: refill with `buffer_input` when `ptr >= end`, then `*r->ptr++`.
`none` when `buffer_input` returned 0. -/
def next_element (r : sfm_reader) : Option (List Nat) × sfm_reader :=
  match r.buf with
  | e :: rest => (some e, { r with buf := rest })
  | [] =>
    match buffer_input r with
    | (0, r1) => (none, r1)
    | (_, r1) => (some (r1.buf.headD []), { r1 with buf := r1.buf.tail })

/-- Where `read_compressed_data` left its loop. -/
inductive stop where
  | success : stop
  | code_252 : stop
  | end_at_literal : stop
  | end_at_octet : stop
  | no_fuel : stop
  deriving DecidableEq

/-- What a call of `read_compressed_data` leaves: the return value, the reader, the
elements stored in the caller's `buf` so far, the messages reported, and the place
where the loop was left. -/
structure read_result where
  ret : Int
  r : sfm_reader
  out : List (List Nat)
  msgs : List message
  left : stop
  deriving DecidableEq

/-- The element that instruction `k` in 1..251 stands for: `k - r->bias`. -/
def biased_value (big : Bool) (r : sfm_reader) (k : Nat) : List Nat :=
  let v := mem_bytes big 8 (flt64_sub_byte k (mem_val big r.bias))
  if r.reverse_endian then bswap_flt64 v else v

/-- The element that instruction 255 stands for: the file's system-missing value. -/
def sysmis_value (r : sfm_reader) : List Nat :=
  if r.reverse_endian then bswap_flt64 r.sysmis else r.sysmis

/-- The loops of `read_compressed_data`: `p` is the offset of the instruction pointer
in the octet and `out` the elements stored so far; each round handles one instruction
or, at the end of the octet, loads the next octet. -/
def read_compressed_loop (big : Bool) :
    Nat → sfm_reader → Nat → List (List Nat) → read_result
  | 0, r, _, out => ⟨0, r, out, [], stop.no_fuel⟩
  | fuel + 1, r, p, out =>
    if p < 8 then
      let k := r.x.getD p 0
      if k = 0 then read_compressed_loop big fuel r (p + 1) out
      else if k = 252 then
        ⟨0, r, out, if out ≠ [] then [message.partial_case] else [], stop.code_252⟩
      else if k = 253 then
        match next_element r with
        | (none, r1) => ⟨0, r1, out, [message.eof_in_literal], stop.end_at_literal⟩
        | (some e, r1) =>
          if r.value_cnt ≤ ((out ++ [e]).length : Int) then
            ⟨1, { r1 with y := p + 1 }, out ++ [e], [], stop.success⟩
          else read_compressed_loop big fuel r1 (p + 1) (out ++ [e])
      else
        let e :=
          if k = 254 then List.replicate 8 32
          else if k = 255 then sysmis_value r
          else biased_value big r k
        if r.value_cnt ≤ ((out ++ [e]).length : Int) then
          ⟨1, { r with y := p + 1 }, out ++ [e], [], stop.success⟩
        else read_compressed_loop big fuel r (p + 1) (out ++ [e])
    else
      match next_element r with
      | (none, r1) =>
        ⟨0, r1, out, if out ≠ [] then [message.eof_in_case] else [], stop.end_at_octet⟩
      | (some e, r1) => read_compressed_loop big fuel { r1 with x := e } 0 out

/-- Number of complete elements the reader can still obtain. -/
def avail (r : sfm_reader) : Nat := r.buf.length + r.file.length / 8

/-- Transcription of `read_compressed_data`.  The number of rounds is bounded by the
input that is left, so the loop always ends on one of its exits. -/
def read_compressed_data (big : Bool) (r : sfm_reader) : read_result :=
  read_compressed_loop big (9 * avail r + 10) r r.y []

end Reader


/-! ## The instruction stream described

The instruction that the format prescribes for a segment, written after the
description of the compressed format and not after the code, and the layout of
the stream in groups of an instruction octet followed by its literals. -/

/-- The instruction prescribed for a numeric segment: 255 for `-FLT64_MAX`, the byte
`v + 100` for an integer value `v` with `-99 <= v <= 151`, otherwise 253. -/
def spec_num_code (big : Bool) (e : List Nat) : Nat :=
  match flt64_val big e with
  | flt_class.fin a =>
    if flt_class.fin a = flt64_decode NEG_FLT64_MAX_BITS then 255
    else if (flt_one : Int) ∣ a ∧ -99 ≤ a / (flt_one : Int) ∧ a / (flt_one : Int) ≤ 151 then
      (a / (flt_one : Int) + 100).toNat
    else 253
  | _ => 253

/-- The instruction prescribed for a string segment: 254 for eight spaces, otherwise 253. -/
def spec_str_code (e : List Nat) : Nat :=
  if e = [32, 32, 32, 32, 32, 32, 32, 32] then 254 else 253

/-- An instruction together with the literal that follows its octet (`[]` when the
instruction has none). -/
abbrev item := Nat × List Nat

/-- The item written for a numeric segment. -/
def num_item (big : Bool) (e : List Nat) : item :=
  (spec_num_code big e, if spec_num_code big e = 253 then e else [])

/-- The item written for a string segment. -/
def str_item (e : List Nat) : item :=
  (spec_str_code e, if spec_str_code e = 253 then e else [])

/-- The calls with which `write_compressed_data` writes one item. -/
def put_item (w : Writer.sfm_writer) (it : item) : Writer.sfm_writer :=
  if it.1 = 253 then Writer.put_element (Writer.put_instruction w 253) it.2
  else Writer.put_instruction w it.1

/-- The items of the `j` segments of a string variable, and the rest of `elem`. -/
def str_items : Nat → List Nat → List item × List Nat
  | 0, elem => ([], elem)
  | j + 1, elem =>
    (str_item (elem.take 8) :: (str_items j (elem.drop 8)).1, (str_items j (elem.drop 8)).2)

/-- The items of one case: one per segment, in the order of the variables. -/
def case_items (big : Bool) : List Writer.sfm_var → List Nat → List item
  | [], _ => []
  | v :: vs, elem =>
    if v.width = 0 then num_item big (elem.take 8) :: case_items big vs (elem.drop 8)
    else (str_items v.flt64_cnt elem).1 ++ case_items big vs (str_items v.flt64_cnt elem).2

/-- The instruction bytes of a group of items. -/
def codes (g : List item) : List Nat := g.map Prod.fst

/-- The literals of a group of items, in order. -/
def lits (g : List item) : List Nat := (g.map Prod.snd).flatten

/-- The instruction octet of a group of at most 8 items, padded with zero bytes. -/
def octet (g : List item) : List Nat := codes g ++ List.replicate (8 - g.length) 0

/-- A group on the file: its octet, then its literals. -/
def render_group (g : List item) : List Nat := octet g ++ lits g

/-- A sequence of groups on the file. -/
def render (gs : List (List item)) : List Nat := (gs.map render_group).flatten

/-- An item as the writer produces it: instruction 253 with an 8-byte literal, or an
instruction other than 0, 252 and 253 without one. -/
def item_ok (it : item) : Prop :=
  (it.1 = 253 ∧ it.2.length = 8) ∨ (it.1 ≠ 253 ∧ it.1 ≠ 0 ∧ it.1 ≠ 252 ∧ it.2 = [])

/-- The state of a compressing writer whose file holds `base` followed by groups `g0`
and whose buffer holds the current group `cur`; when `full`, what is buffered is
complete and the next instruction starts a new octet. -/
def winv (base : List Nat) (w : Writer.sfm_writer) (g0 : List (List item)) (cur : List item)
    (full : Bool) : Prop :=
  w.buf.length = 1024 ∧ w.end_ = 128 ∧ 1 ≤ w.ptr ∧ w.ptr ≤ 128 ∧ w.io = [] ∧ cur.length ≤ 8 ∧
  if full then
    w.x = w.y ∧ ∃ F, w.file = base ++ F ∧ F ++ w.buf.take (8 * w.ptr) = render (g0 ++ [cur])
  else
    ∃ F A J R, w.file = base ++ F ∧ F ++ A = render g0
      ∧ w.buf = A ++ codes cur ++ J ++ lits cur ++ R
      ∧ w.x = A.length + cur.length ∧ w.y = A.length + 8 ∧ J.length = 8 - cur.length
      ∧ 8 * w.ptr = A.length + 8 + (lits cur).length

/-- The fields that writing case data leaves alone are the same in `w` and `w1`. -/
def same_meta (w w1 : Writer.sfm_writer) : Prop :=
  w1.vars = w.vars ∧ w1.flt64_cnt = w.flt64_cnt ∧ w1.compress = w.compress
    ∧ w1.case_cnt = w.case_cnt ∧ w1.needs_translation = w.needs_translation

/-- The bounce buffer that `sfm_write_case` fills for the case `c`. -/
def bounce_of (w : Writer.sfm_writer) (c junk : List Nat) : List Nat :=
  Writer.fill_bounce w.vars c (Writer.alloc junk (8 * w.flt64_cnt)) 0

/-- The writer after `sfm_write_case` has been called for each case of the list; a case
is given with the previous content of the memory used for its bounce buffer. -/
def write_cases (big : Bool) (w : Writer.sfm_writer) :
    List (List Nat × List Nat) → Writer.sfm_writer
  | [] => w
  | cj :: rest => write_cases big (Writer.sfm_write_case big w cj.1 cj.2).2 rest

/-- Number of segments that `write_compressed_data` takes from a case. -/
def seg_count : List Writer.sfm_var → Nat
  | [] => 0
  | v :: vs => (if v.width = 0 then 1 else v.flt64_cnt) + seg_count vs

/-- For each segment of a case, whether it belongs to a numeric variable. -/
def numeric_mask : List Writer.sfm_var → List Bool
  | [] => []
  | v :: vs => (if v.width = 0 then [true] else List.replicate v.flt64_cnt false)
      ++ numeric_mask vs

/-- A numeric segment as it comes back from the compressed stream: negative zero comes
back as positive zero, every other segment unchanged. -/
def canon_seg (big : Bool) (e : List Nat) : List Nat :=
  if mem_val big e = 2 ^ 63 then mem_bytes big 8 0 else e

/-- The segments of a case as they come back from the compressed stream. -/
def expected_segs (big : Bool) (vs : List Writer.sfm_var) (bounce : List Nat) :
    List (List Nat) :=
  List.zipWith (fun (isnum : Bool) e => if isnum then canon_seg big e else e)
    (numeric_mask vs) (Reader.elements (seg_count vs) bounce)

/-- The element that the reader stores for an item. -/
def item_value (big : Bool) (r : Reader.sfm_reader) (it : item) : List Nat :=
  if it.1 = 253 then it.2
  else if it.1 = 254 then List.replicate 8 32
  else if it.1 = 255 then Reader.sysmis_value r
  else Reader.biased_value big r it.1

/-- The bytes that the reader has still to take: its buffer, then the file. -/
def pending (r : Reader.sfm_reader) : List Nat := r.buf.flatten ++ r.file

/-- The parameters of decompression are the same in `r` and `r1`. -/
def same_static (r r1 : Reader.sfm_reader) : Prop :=
  r1.value_cnt = r.value_cnt ∧ r1.bias = r.bias ∧ r1.sysmis = r.sysmis
    ∧ r1.reverse_endian = r.reverse_endian

/-- The state of a reader at offset `p` of its octet: the octet holds the instructions
of the items `rest` from `p` on, then zeros, and what is still to be taken is the
literals of `rest` followed by the groups `gs`. -/
def rinv (r : Reader.sfm_reader) (p : Nat) (rest : List item) (gs : List (List item)) : Prop :=
  (∀ e ∈ r.buf, e.length = 8) ∧ r.file.length % 8 = 0
    ∧ pending r = lits rest ++ render gs
    ∧ (∀ i, p + i < 8 → r.x.getD (p + i) 0 = (codes rest).getD i 0)
    ∧ p + rest.length ≤ 8
    ∧ (∀ it ∈ rest, item_ok it)
    ∧ (∀ g ∈ gs, g.length ≤ 8 ∧ ∀ it ∈ g, item_ok it)

/-- The results of `k` successive calls of `read_compressed_data`. -/
def read_cases (big : Bool) : Nat → Reader.sfm_reader → List Reader.read_result
  | 0, _ => []
  | k + 1, r =>
    Reader.read_compressed_data big r
      :: read_cases big k (Reader.read_compressed_data big r).r

/-- From `w` to `w1` the file has only grown at its end, and the fields that writing
leaves alone are the same. -/
def wrote (w w1 : Writer.sfm_writer) : Prop :=
  same_meta w w1 ∧ ∃ t, w1.file = w.file ++ t

/-- The variables of the dictionary are numeric with width 0 or strings of width at
least 1. -/
def layout_ok (d : Writer.dictionary) : Prop :=
  ∀ v ∈ d.var, (v.type = Writer.NUMERIC ∧ v.width = 0) ∨ (v.type = Writer.ALPHA ∧ 1 ≤ v.width)

namespace Reader

/-! ### Reading a case (`sfm_read_case`)

A case is the memory of its array of `union value` cells, 8 bytes each. -/

/-- Messages of `fread_ok` are those of the data reader; what a call of `sfm_read_case`
leaves: the return value, the reader, the case and the messages. -/
structure case_result where
  ret : Int
  r : sfm_reader
  c : List Nat
  msgs : List message
  deriving DecidableEq

/-- Transcription of `fread_ok`: success, the bytes that `fread` stored, the reader and
the messages.  The stream has no read error. -/
def fread_ok (r : sfm_reader) (byte_cnt : Nat) : Bool × List Nat × sfm_reader × List message :=
  if byte_cnt ≤ r.file.length then
    (true, r.file.take byte_cnt, { r with file := r.file.drop byte_cnt }, [])
  else
    (false, r.file, { r with file := [] },
      if r.file.length ≠ 0 then [message.partial_record] else [])

/-- The cell `idx` of a case: `case_data (c, idx)`. -/
def case_cell (c : List Nat) (idx : Nat) : List Nat := mem_read c (8 * idx) 8

/-- The loop of `sfm_read_case` that fixes up endianness on the fast path. -/
def fix_endian : List sfm_var → List Nat → List Nat
  | [], c => c
  | v :: vs, c =>
    fix_endian vs
      (if v.width = 0 then memcpy c (8 * v.fv) (bswap_flt64 (case_cell c v.fv)) else c)

/-- The loop of `sfm_read_case` that fixes up SYSMIS values on the fast path; `i` is
the loop counter, which `case_num (c, i)` uses as the index into the case. -/
def fix_sysmis (big : Bool) (sysmis : List Nat) : List sfm_var → Nat → List Nat → List Nat
  | [], _, c => c
  | v :: vs, i, c =>
    fix_sysmis big sysmis vs (i + 1)
      (if v.width = 0 ∧ flt_eq (flt64_val big (case_cell c i)) (flt64_val big sysmis) = true
        then memcpy c (8 * v.fv) (SYSMIS big) else c)

/-- What the slow path of `sfm_read_case` stores for a numeric variable whose bounce
element is `e`: `f == r->sysmis ? SYSMIS : f` after the byte reversal. -/
def numeric_cell (big : Bool) (r : sfm_reader) (e : List Nat) : List Nat :=
  let f := if r.reverse_endian then bswap_flt64 e else e
  if flt_eq (flt64_val big f) (flt64_val big r.sysmis) then SYSMIS big else f

/-- The loop of `sfm_read_case` that copies the bounce buffer to the case;
`bounce_cur` is what the bounce buffer holds from the pointer `bounce_cur` on. -/
def copy_bounce (big : Bool) (r : sfm_reader) :
    List sfm_var → List (List Nat) → List Nat → List Nat
  | [], _, c => c
  | v :: vs, bounce_cur, c =>
    if v.width = 0 then
      copy_bounce big r vs bounce_cur.tail
        (memcpy c (8 * v.fv) (numeric_cell big r (bounce_cur.headD [])))
    else if v.width ≠ -1 then
      copy_bounce big r vs (bounce_cur.drop (Writer.DIV_RND_UP v.width 8).toNat)
        (memcpy c (8 * v.fv) (bounce_cur.flatten.take v.width.toNat))
    else copy_bounce big r vs bounce_cur c

/-- Transcription of `sfm_read_case`; `sizeof (flt64) == sizeof (double)` holds, and
`size_t` has 64 bits. -/
def sfm_read_case (big : Bool) (r : sfm_reader) (c : List Nat) : case_result :=
  if r.compressed = 0 then
    match fread_ok r ((8 * r.value_cnt) % (2 ^ 64 : Nat)).toNat with
    | (false, got, r1, msgs) => ⟨0, r1, memcpy c 0 got, msgs⟩
    | (true, got, r1, msgs) =>
      let c1 := memcpy c 0 got
      let c2 := if r.reverse_endian then fix_endian (r.vars.take r.value_cnt.toNat) c1 else c1
      let c3 :=
        if flt_eq (flt64_val big r.sysmis) (flt64_val big (SYSMIS big)) = false
          then fix_sysmis big r.sysmis (r.vars.take r.value_cnt.toNat) 0 c2 else c2
      ⟨1, r1, c3, msgs⟩
  else
    let res := read_compressed_data big r
    if res.ret = 0 then ⟨0, res.r, c, res.msgs⟩
    else ⟨1, res.r, copy_bounce big r (r.vars.take r.value_cnt.toNat) res.out c, res.msgs⟩

/-! ### Reading the header (`read_header`) -/

/-- The fields of `struct sfm_read_info` that `read_header` fills; strings are held
without the terminating null. -/
structure sfm_read_info where
  creation_date : List Nat
  creation_time : List Nat
  big_endian : Int
  compressed : Int
  case_cnt : Int
  product : List Nat
  deriving DecidableEq

/-- The messages of `read_header`, named by what they report; the last one is a
warning, the others are errors. -/
inductive header_message where
  | unexpected_eof : header_message
  | bad_magic : header_message
  | bad_layout_code : header_message
  | bad_case_cnt : header_message
  | unusual_bias : header_message
  deriving DecidableEq

/-- What a call of `read_header` leaves: the return value, the reader, the label handed
to `dict_set_label` if any, the `info` filled if any, and the messages. -/
structure header_result where
  ret : Int
  r : sfm_reader
  label : Option (List Nat)
  info : Option sfm_read_info
  msgs : List header_message
  deriving DecidableEq

/-- Modelled from the spec: the `struct sysfile_header` (declared in sfmP.h) that the
176 bytes `bs` are read into. -/
def header_of_bytes (bs : List Nat) : Writer.sysfile_header :=
  { rec_type := mem_read bs 0 4
    prod_name := mem_read bs 4 60
    layout_code := mem_read bs 64 4
    case_size := mem_read bs 68 4
    compress := mem_read bs 72 4
    weight_idx := mem_read bs 76 4
    case_cnt := mem_read bs 80 4
    bias := mem_read bs 84 8
    creation_date := mem_read bs 92 9
    creation_time := mem_read bs 101 8
    file_label := mem_read bs 109 64
    padding := mem_read bs 173 3 }

/-- The C library's `isprint` in the C locale. -/
def isprint (c : Nat) : Bool := decide (32 ≤ c ∧ c ≤ 126)

/-- The C library's `isgraph` in the C locale. -/
def isgraph (c : Nat) : Bool := decide (33 ≤ c ∧ c ≤ 126)

/-- The C library's `isspace` in the C locale. -/
def isspace (c : Nat) : Bool := decide (c = 32 ∨ (9 ≤ c ∧ c ≤ 13))

/-- The loop `for (i = 59; i >= 0; i--)` of `read_header`, on the first `n` bytes of
`prod_name`: the last byte that is not a graphic character becomes a null. -/
def cut_at_last_blank : Nat → List Nat → List Nat
  | 0, s => s
  | n + 1, s => if !isgraph (s.getD n 0) then s.set n 0 else cut_at_last_blank n s

/-- The array `prod_name` as `read_header` prepares it, 61 bytes. -/
def clean_prod_name (hdr_prod_name : List Nat) : List Nat :=
  cut_at_last_blank 60 (hdr_prod_name.map (fun c => if isprint c then c else 32)) ++ [0]

/-- The table `prefix` of `read_header`. -/
def prefixes : List (List Nat) :=
  [[64, 40, 35, 41, 32, 83, 80, 83, 83, 32, 68, 65, 84, 65, 32, 70, 73, 76, 69],
   [83, 80, 83, 83, 32, 83, 89, 83, 84, 69, 77, 32, 70, 73, 76, 69, 46]]

/-- The variable `skip_amt` of `read_header`: the length of the first of the prefixes
that `hdr.prod_name` begins with, or 0. -/
def skip_amt (hdr_prod_name : List Nat) : List (List Nat) → Nat
  | [] => 0
  | p :: ps => if hdr_prod_name.take p.length = p then p.length else skip_amt hdr_prod_name ps

/-- The string that `read_header` copies to `info->product`: from `skip`, past the
bytes that are not graphic characters, up to the first null. -/
def product_of (prod_name : List Nat) (skip : Nat) : List Nat :=
  (((prod_name.take 60).drop skip).dropWhile (fun c => !isgraph c)
    ++ prod_name.drop 60).takeWhile (fun c => c ≠ 0)

/-- The loop of `read_header` over `hdr.file_label`, on its first `n` bytes: the
string handed to `dict_set_label`, if any. -/
def file_label_of : Nat → List Nat → Option (List Nat)
  | 0, _ => none
  | n + 1, s =>
    if !isspace (s.getD n 0) ∧ s.getD n 0 ≠ 0 then
      some ((s.take (n + 1)).takeWhile (fun c => c ≠ 0))
    else file_label_of n s

/-- Pattern of `INT_MAX`. -/
def INT_MAX : Int := 2147483647

/-- The `int` result of `hdr.weight_idx - 1`, kept in 32 bits. -/
def int32_pred (i : Int) : Int := int32_of_bits (bits_of_int32 (i - 1))

/-- Transcription of `read_header`; `want_info` says that `info` is not null. -/
def read_header (big : Bool) (r : sfm_reader) (want_info : Bool) : header_result :=
  if r.file.length < 176 then
    ⟨0, { r with file := [] }, none, none, [header_message.unexpected_eof]⟩
  else
    let hdr := header_of_bytes (r.file.take 176)
    let r0 := { r with file := r.file.drop 176 }
    if hdr.rec_type ≠ [36, 70, 76, 50] then ⟨0, r0, none, none, [header_message.bad_magic]⟩
    else
      let prod_name := clean_prod_name hdr.prod_name
      let skip := skip_amt hdr.prod_name prefixes
      let host_order := decide (int32_val big hdr.layout_code = 2)
      if host_order = false ∧ int32_val big (bswap_int32 hdr.layout_code) ≠ 2 then
        ⟨0, r0, none, none, [header_message.bad_layout_code]⟩
      else
        let case_size := if host_order then hdr.case_size else bswap_int32 hdr.case_size
        let compress := if host_order then hdr.compress else bswap_int32 hdr.compress
        let weight_idx := if host_order then hdr.weight_idx else bswap_int32 hdr.weight_idx
        let case_cnt := if host_order then hdr.case_cnt else bswap_int32 hdr.case_cnt
        let bias := if host_order then hdr.bias else bswap_flt64 hdr.bias
        let value_cnt := int32_val big case_size
        let r1 : sfm_reader :=
          { r0 with reverse_endian := !host_order
                    value_cnt :=
                      if value_cnt < 0 ∨ value_cnt > Int.tdiv (Int.tdiv INT_MAX 8) 2 then -1
                      else value_cnt
                    compressed := int32_val big compress
                    weight_idx := int32_pred (int32_val big weight_idx)
                    case_cnt := int32_val big case_cnt }
        if r1.case_cnt < -1 ∨ r1.case_cnt > Int.tdiv INT_MAX 2 then
          ⟨0, r1, none, none, [header_message.bad_case_cnt]⟩
        else
          let r2 := { r1 with bias := bias }
          let msgs :=
            if flt_eq (flt64_val big bias) (flt_of_int 100) = false
              then [header_message.unusual_bias] else []
          let info : Option sfm_read_info :=
            if want_info then
              some { creation_date := hdr.creation_date
                     creation_time := hdr.creation_time
                     big_endian :=
                       if big then (if r2.reverse_endian then 0 else 1)
                       else (if r2.reverse_endian then 1 else 0)
                     compressed := int32_val big compress
                     case_cnt := int32_val big case_cnt
                     product := product_of prod_name skip }
            else none
          ⟨1, r2, file_label_of 64 hdr.file_label, info, msgs⟩

end Reader

/-! ### Example inputs -/

/-- A host for the examples: no clock, every format code 5, the short names as the
variables carry them, value labels in the order given, every open succeeding. -/
def example_host : Writer.host :=
  { version := [48, 46, 52, 46, 48]
    host_system := [108, 105, 110, 117, 120]
    bare_version := [48, 46, 52, 46, 48]
    time := none
    formats_spss := fun _ => 5
    short_names := fun vs => vs.map (fun v => v.short_name)
    val_labs_sorted := fun ls => ls
    open_ok := true
    fh_open_ok := true
    fdopen_ok := true
    buf_junk := [] }

/-- A numeric variable of the examples at case index `fv`, named by the byte `c`. -/
def example_numeric (c fv : Nat) : Writer.variable_ :=
  { name := [c]
    short_name := [c]
    type := Writer.NUMERIC
    width := 0
    fv := fv
    nv := 1
    miss := { range := none, values := [] }
    print := { type := 0, w := 8, d := 2 }
    write := { type := 0, w := 8, d := 2 }
    val_labs := []
    label := none
    measure := 1
    display_width := 8
    alignment := 0 }

/-- A string variable of width 8 of the examples at case index `fv`. -/
def example_string (c fv : Nat) : Writer.variable_ :=
  { name := [c]
    short_name := [c]
    type := Writer.ALPHA
    width := 8
    fv := fv
    nv := 1
    miss := { range := none, values := [] }
    print := { type := 1, w := 8, d := 0 }
    write := { type := 1, w := 8, d := 0 }
    val_labs := []
    label := none
    measure := 1
    display_width := 8
    alignment := 0 }

/-- A dictionary of the examples with the variables `vs`. -/
def example_dict (vs : List Writer.variable_) : Writer.dictionary :=
  { var := vs, weight := none, label := none, documents := none }

/-- The options of a compressing writer. -/
def compress_opts : Writer.sfm_write_options :=
  { create_writeable := true, compress := true, version := 3 }

/-- A reader of a file of the host's byte order placed at the start of the case data
`data`: bias 100, file SYSMIS `-FLT64_MAX`, `value_cnt` values a case, and the state
that `sfm_open_reader` gives the decompression buffer and the instruction octet. -/
def data_reader (big : Bool) (value_cnt : Int) (data : List Nat) : Reader.sfm_reader :=
  { reverse_endian := false
    fix_specials := false
    value_cnt := value_cnt
    case_cnt := -1
    compressed := 1
    bias := mem_bytes big 8 BIAS_100_BITS
    weight_idx := -1
    vars := []
    sysmis := SYSMIS big
    highest := mem_bytes big 8 Writer.FLT64_MAX_BITS
    lowest := mem_bytes big 8 Writer.SECOND_LOWEST_BITS
    buf := []
    x := [0, 0, 0, 0, 0, 0, 0, 0]
    y := 8
    file := data }

/-- The case data of the file that a writer opened for `d` leaves after the `cases`
have been written and the writer has been closed: what follows the dictionary. -/
def written_data (big : Bool) (env : Writer.host) (d : Writer.dictionary)
    (opts : Writer.sfm_write_options) (cases : List (List Nat × List Nat)) :
    Option (Nat × List Nat) :=
  match Writer.sfm_open_writer big env [] d opts with
  | none => none
  | some w =>
    some (w.flt64_cnt,
      (Writer.sfm_close_writer big (write_cases big w cases) true true).drop w.file.length)

/-- What `count` calls of `read_compressed_data` return and deliver on the data that
the writer leaves for the `cases`. -/
def round_trip (big : Bool) (env : Writer.host) (d : Writer.dictionary)
    (opts : Writer.sfm_write_options) (cases : List (List Nat × List Nat)) (count : Nat) :
    Option (List (Int × List (List Nat) × List Reader.message)) :=
  match written_data big env d opts cases with
  | none => none
  | some (n, data) =>
    some ((read_cases big count (data_reader big n data)).map
      (fun res => (res.ret, res.out, res.msgs)))

/-- The value described for a numeric variable whose instruction is `it.1` (with the
literal `it.2` for instruction 253), `b` being the reader's bias and `s` its file
SYSMIS: the host SYSMIS whenever the value read compares equal to `s`; otherwise the
literal, byte-reversed exactly when `reverse_endian` is set, for 253; `s` itself for 255
(reached only when `s` is a NaN); eight spaces for 254; and `k - b` for the other
instructions `k`. -/
def spec_numeric_value (big : Bool) (r : Reader.sfm_reader) (it : item) : List Nat :=
  let s := flt64_val big r.sysmis
  if it.1 = 253 then
    let l := if r.reverse_endian then bswap_flt64 it.2 else it.2
    if flt_eq (flt64_val big l) s then SYSMIS big else l
  else if it.1 = 255 then
    if flt_eq s s then SYSMIS big else r.sysmis
  else if it.1 = 254 then
    if flt_eq (flt64_val big (List.replicate 8 32)) s then SYSMIS big
    else List.replicate 8 32
  else
    let v := flt64_sub_byte it.1 (mem_val big r.bias)
    if flt_eq (flt64_decode v) s then SYSMIS big else mem_bytes big 8 v

/-- A compressed reader of the examples placed at the start of the case data `data`:
bias 100, file SYSMIS `sysmis`, `n` numeric variables at the case indexes `0 .. n - 1`,
and the state that `sfm_open_reader` gives the buffer and the instruction octet. -/
def case_reader (big reverse_endian : Bool) (sysmis : List Nat) (n : Nat) (data : List Nat) :
    Reader.sfm_reader :=
  { reverse_endian := reverse_endian
    fix_specials := false
    value_cnt := n
    case_cnt := -1
    compressed := 1
    bias := mem_bytes big 8 BIAS_100_BITS
    weight_idx := -1
    vars := (List.range n).map (fun i => ⟨0, i⟩)
    sysmis := sysmis
    highest := mem_bytes big 8 Writer.FLT64_MAX_BITS
    lowest := mem_bytes big 8 Writer.SECOND_LOWEST_BITS
    buf := []
    x := [0, 0, 0, 0, 0, 0, 0, 0]
    y := 8
    file := data }

/-- What the description of `read_compressed_data` says of a result, by the exit taken:
success returns 1 without a message; instruction 252 and the end of the input where an
octet was due return 0, with a message exactly when a segment of the case had been
produced; the end of the input where a literal was due returns 0 with a message. -/
def exit_as_described (res : Reader.read_result) : Prop :=
  (res.left = Reader.stop.success → res.ret = 1 ∧ res.msgs = [])
  ∧ (res.left = Reader.stop.code_252 → res.ret = 0
      ∧ res.msgs = if res.out ≠ [] then [Reader.message.partial_case] else [])
  ∧ (res.left = Reader.stop.end_at_octet → res.ret = 0
      ∧ res.msgs = if res.out ≠ [] then [Reader.message.eof_in_case] else [])
  ∧ (res.left = Reader.stop.end_at_literal → res.ret = 0
      ∧ res.msgs = [Reader.message.eof_in_literal])

namespace Reader

/-- The reader as `sfm_open_reader` initialises it before it calls `read_header`, on a
stream that holds `file`. -/
def new_reader (big : Bool) (file : List Nat) : sfm_reader :=
  { reverse_endian := false
    fix_specials := false
    value_cnt := 0
    case_cnt := 0
    compressed := 0
    bias := mem_bytes big 8 BIAS_100_BITS
    weight_idx := -1
    vars := []
    sysmis := mem_bytes big 8 NEG_FLT64_MAX_BITS
    highest := mem_bytes big 8 Writer.FLT64_MAX_BITS
    lowest := mem_bytes big 8 Writer.SECOND_LOWEST_BITS
    buf := []
    x := [0, 0, 0, 0, 0, 0, 0, 0]
    y := 8
    file := file }

end Reader

namespace Reader

/-! ### Reading the dictionary

The functions of sfm-read.c that read the records between the file header and the
data. The dictionary is the record that the writer works on; a `struct variable *`
is held as the variable's `fv`, which `dict_create_var` hands out once, and the null
pointer as `none`. -/

/-- The messages of the dictionary reader, named by what they report. -/
inductive dict_message where
  | unexpected_eof : dict_message
  | bad_continuation : dict_message
  | superfluous_continuation : dict_message
  | bad_type_code : dict_message
  | bad_label_indicator : dict_message
  | bad_missing_indicator : dict_message
  | bad_name_start : dict_message
  | lowercase_start : dict_message
  | octothorpe_start : dict_message
  | lowercase_char : dict_message
  | bad_name_char : dict_message
  | invalid_name : dict_message
  | duplicate_name : dict_message
  | bad_label_length : dict_message
  | long_string_missing : dict_message
  | string_range : dict_message
  | continuations_omitted : dict_message
  | value_cnt_mismatch : dict_message
  | bad_format_byte : dict_message
  | format_type_mismatch : dict_message
  | invalid_format : dict_message
  | invalid_label_count : dict_message
  | type_4_missing : dict_message
  | bad_n_vars : dict_message
  | bad_var_idx : dict_message
  | idx_continuation : dict_message
  | idx_long_string : dict_message
  | type_mix : dict_message
  | duplicate_label : dict_message
  | multiple_documents : dict_message
  | bad_line_cnt : dict_message
  | too_large : dict_message
  | bad_int32_size : dict_message
  | not_ieee : dict_message
  | endianness_mismatch : dict_message
  | not_ascii : dict_message
  | bad_flt64_size : dict_message
  | specials_differ : dict_message
  | bad_subrecord_length : dict_message
  | unknown_subtype : dict_message
  | orphaned_type_4 : dict_message
  | unknown_rec_type : dict_message
  | bad_weight_idx : dict_message
  | weight_continuation : dict_message
  | weight_string : dict_message
  | longvar_garbage : dict_message
  | longvar_invalid : dict_message
  | longvar_nonexistent : dict_message
  | longvar_duplicate : dict_message
  | open_failed : dict_message
  | header_unexpected_eof : dict_message
  | bad_magic : dict_message
  | bad_layout_code : dict_message
  | bad_case_cnt : dict_message
  | unusual_bias : dict_message
  deriving DecidableEq

/-- A message of `read_header` among the messages of the dictionary reader. -/
def header_msg : header_message → dict_message
  | header_message.unexpected_eof => dict_message.header_unexpected_eof
  | header_message.bad_magic => dict_message.bad_magic
  | header_message.bad_layout_code => dict_message.bad_layout_code
  | header_message.bad_case_cnt => dict_message.bad_case_cnt
  | header_message.unusual_bias => dict_message.unusual_bias

/-- What the dictionary reader takes from outside sfm-read.c: `var_is_valid_name`,
`translate_fmt`, whether `formats[type].cat` has `FCAT_STRING`,
`check_output_specifier`, `check_specifier_width`, `val_labs_replace` (which gives a
value a label and returns whether the value had one), the constants `FMT_A` and `f8_2`,
the display settings that `dict_create_var` gives a new variable of a given type, and
the outcomes of `fh_open` and `fn_open`. -/
structure host where
  var_is_valid_name : List Nat → Bool
  translate_fmt : Int → Int
  fmt_is_string : Int → Bool
  check_output_specifier : Writer.fmt_spec → Bool
  check_specifier_width : Writer.fmt_spec → Int → Bool
  val_labs_replace : List Writer.val_lab → List Nat → List Nat → Bool × List Writer.val_lab
  FMT_A : Nat
  f8_2 : Writer.fmt_spec
  default_measure : Int → Int
  default_display_width : Int → Int
  default_alignment : Int → Int
  fh_open_ok : Bool
  fn_open_ok : Bool

/-- The value that an `int` has after conversion to the 64-bit `size_t` or
`unsigned long`. -/
def size_t_of_int (i : Int) : Nat := (i % (2 ^ 64 : Nat)).toNat

/-- The `int` result of an arithmetic operation, kept in 32 bits. -/
def wrap32 (i : Int) : Int := int32_of_bits (bits_of_int32 i)

/-- Transcription of `buf_read`; `buf_null` says that the caller passes a null `buf`.
The result is `none` where the C function returns NULL. -/
def buf_read (r : sfm_reader) (byte_cnt : Nat) (buf_null : Bool) :
    Option (List Nat) × sfm_reader × List dict_message :=
  if byte_cnt = 0 then (if buf_null then none else some [], r, [])
  else if byte_cnt ≤ r.file.length then
    (some (r.file.take byte_cnt), { r with file := r.file.drop byte_cnt }, [])
  else (none, { r with file := [] }, [dict_message.unexpected_eof])

/-- An `int32` that was read into memory, after the `bswap_int32` that is applied when
`reverse_endian` is set. -/
def fix_int32 (big : Bool) (r : sfm_reader) (bs : List Nat) : Int :=
  int32_val big (if r.reverse_endian then bswap_int32 bs else bs)

/-- A `flt64` that was read into memory, after the `bswap_flt64` that is applied when
`reverse_endian` is set. -/
def fix_flt64 (r : sfm_reader) (bs : List Nat) : List Nat :=
  if r.reverse_endian then bswap_flt64 bs else bs

/-- The `n` consecutive 4-byte elements at the start of `bs`. -/
def elements4 : Nat → List Nat → List (List Nat)
  | 0, _ => []
  | n + 1, bs => bs.take 4 :: elements4 n (bs.drop 4)

/-- Transcription of `read_machine_int32_info` (record type 7, subtype 3): the return
value, the reader and the messages. -/
def read_machine_int32_info (big : Bool) (r : sfm_reader) (size count : Int) :
    Int × sfm_reader × List dict_message :=
  if size ≠ 4 ∨ count ≠ 8 then (0, r, [dict_message.bad_int32_size])
  else
    match buf_read r 32 false with
    | (none, r1, m) => (0, r1, m)
    | (some bs, r1, _) =>
      let data := (elements4 8 bs).map (fun e => fix_int32 big r e)
      if data.getD 4 0 ≠ 1 then (0, r1, [dict_message.not_ieee])
      else
        let file_bigendian := xor big r.reverse_endian
        if xor file_bigendian (decide (data.getD 6 0 = 1)) then
          (0, r1, [dict_message.endianness_mismatch])
        else if data.getD 7 0 ≠ 2 ∧ data.getD 7 0 ≠ 3 then
          (0, r1, [dict_message.not_ascii])
        else (1, r1, [])

/-- Transcription of `read_machine_flt64_info` (record type 7, subtype 4). -/
def read_machine_flt64_info (big : Bool) (r : sfm_reader) (size count : Int) :
    Int × sfm_reader × List dict_message :=
  if size ≠ 8 ∨ count ≠ 3 then (0, r, [dict_message.bad_flt64_size])
  else
    match buf_read r 24 false with
    | (none, r1, m) => (0, r1, m)
    | (some bs, r1, _) =>
      let data := (elements 3 bs).map (fun e => fix_flt64 r e)
      let d0 := data.getD 0 []
      let d1 := data.getD 1 []
      let d2 := data.getD 2 []
      if flt_eq (flt64_val big d0) (flt64_decode NEG_FLT64_MAX_BITS) = false
          ∨ flt_eq (flt64_val big d1) (flt64_decode Writer.FLT64_MAX_BITS) = false
          ∨ flt_eq (flt64_val big d2) (flt64_decode Writer.SECOND_LOWEST_BITS) = false then
        (1, { r1 with sysmis := d0, highest := d1, lowest := d2 },
          [dict_message.specials_differ])
      else (1, r1, [])

/-- The string that the C code sees in a buffer: the bytes before the first null. -/
def c_string (bs : List Nat) : List Nat := bs.takeWhile (fun b => b ≠ 0)

/-- Transcription of `read_documents` (record type 6): the return value, the reader,
the dictionary and the messages. -/
def read_documents (big : Bool) (r : sfm_reader) (dict : Writer.dictionary) :
    Int × sfm_reader × Writer.dictionary × List dict_message :=
  if dict.documents ≠ none then (0, r, dict, [dict_message.multiple_documents])
  else
    match buf_read r 4 false with
    | (none, r1, m) => (0, r1, dict, m)
    | (some bs, r1, _) =>
      let line_cnt := int32_val big bs
      if line_cnt ≤ 0 then (0, r1, dict, [dict_message.bad_line_cnt])
      else
        match buf_read r1 (size_t_of_int (wrap32 (80 * line_cnt))) true with
        | (none, r2, m) => (0, r2, dict, m)
        | (some documents, r2, _) =>
          (1, r2, { dict with documents := some (c_string documents) }, [])

/-- The variable that a pointer names. -/
def var_lookup (dict : Writer.dictionary) (p : Nat) : Option Writer.variable_ :=
  dict.var.find? (fun v => v.fv = p)

/-- An assignment through a pointer to a variable. -/
def var_update (dict : Writer.dictionary) (p : Nat)
    (f : Writer.variable_ → Writer.variable_) : Writer.dictionary :=
  { dict with var := dict.var.map (fun v => if v.fv = p then f v else v) }

/-- The tuples of a type 3 record as `read_value_labels` reads them: the raw value and
the label, cut at `label_len` and at its first null. -/
def read_label_tuples : Nat → sfm_reader →
    Option (List (List Nat × List Nat)) × sfm_reader × List dict_message
  | 0, r => (some [], r, [])
  | n + 1, r =>
    match buf_read r 8 false with
    | (none, r1, m) => (none, r1, m)
    | (some raw_value, r1, _) =>
      match buf_read r1 1 false with
      | (none, r2, m) => (none, r2, m)
      | (some len, r2, _) =>
        let label_len := len.headD 0
        let padded_len := (Writer.ROUND_UP ((label_len : Int) + 1) 8).toNat
        match buf_read r2 (padded_len - 1) false with
        | (none, r3, m) => (none, r3, m)
        | (some label, r3, _) =>
          match read_label_tuples n r3 with
          | (none, r4, m) => (none, r4, m)
          | (some rest, r4, m) =>
            (some ((raw_value, c_string (label.take label_len)) :: rest), r4, m)

/-- The variable list of a type 4 record as `read_value_labels` reads and checks it. A
pointer that names no variable of the dictionary is handled like the null pointer. -/
def read_label_vars (big : Bool) (dict : Writer.dictionary)
    (var_by_idx : List (Option Nat)) : Nat → sfm_reader →
    Option (List Writer.variable_) × sfm_reader × List dict_message
  | 0, r => (some [], r, [])
  | n + 1, r =>
    match buf_read r 4 false with
    | (none, r1, m) => (none, r1, m)
    | (some bs, r1, _) =>
      let var_idx := fix_int32 big r bs
      if var_idx < 1 ∨ var_idx > r.value_cnt then (none, r1, [dict_message.bad_var_idx])
      else
        match (var_by_idx.getD (var_idx - 1).toNat none).bind (var_lookup dict) with
        | none => (none, r1, [dict_message.idx_continuation])
        | some v =>
          if v.type = Writer.ALPHA ∧ v.width > 8 then
            (none, r1, [dict_message.idx_long_string])
          else
            match read_label_vars big dict var_by_idx n r1 with
            | (none, r2, m) => (none, r2, m)
            | (some rest, r2, m) => (some (v :: rest), r2, m)

/-- The inner loop of the last step of `read_value_labels`: every label is given to one
variable; a label that replaces one is reported. -/
def add_labels (env : host) (labels : List (List Nat × List Nat))
    (vls : List Writer.val_lab) : List Writer.val_lab × List dict_message :=
  labels.foldl
    (fun acc l =>
      let res := env.val_labs_replace acc.1 l.1 l.2
      (res.2, if res.1 then acc.2 ++ [dict_message.duplicate_label] else acc.2))
    (vls, [])

/-- The outer loop of the last step of `read_value_labels`. -/
def assign_labels (env : host) (labels : List (List Nat × List Nat)) :
    List Writer.variable_ → Writer.dictionary → Writer.dictionary × List dict_message
  | [], dict => (dict, [])
  | v :: vs, dict =>
    let cur := ((var_lookup dict v.fv).map (fun x => x.val_labs)).getD []
    let res := add_labels env labels cur
    let rest := assign_labels env labels vs (var_update dict v.fv (fun x => { x with val_labs := res.1 }))
    (rest.1, res.2 ++ rest.2)

/-- What a call of `read_value_labels` leaves. -/
structure labels_result where
  ret : Int
  r : sfm_reader
  dict : Writer.dictionary
  msgs : List dict_message

/-- Transcription of `read_value_labels` (record type 3 and the type 4 record behind
it). -/
def read_value_labels (big : Bool) (env : host) (r : sfm_reader)
    (dict : Writer.dictionary) (var_by_idx : List (Option Nat)) : labels_result :=
  match buf_read r 4 false with
  | (none, r1, m) => ⟨0, r1, dict, m⟩
  | (some bs, r1, _) =>
    let n_labels0 := fix_int32 big r bs
    let bad := decide (size_t_of_int n_labels0 ≥ size_t_of_int (-1) / 24)
    let n_labels := if bad then 0 else n_labels0
    let m0 := if bad then [dict_message.invalid_label_count] else []
    match read_label_tuples n_labels.toNat r1 with
    | (none, r2, m) => ⟨0, r2, dict, m0 ++ m⟩
    | (some labels, r2, _) =>
      match buf_read r2 4 false with
      | (none, r3, m) => ⟨0, r3, dict, m0 ++ m⟩
      | (some bs4, r3, _) =>
        if fix_int32 big r bs4 ≠ 4 then ⟨0, r3, dict, m0 ++ [dict_message.type_4_missing]⟩
        else
          match buf_read r3 4 false with
          | (none, r4, m) => ⟨0, r4, dict, m0 ++ m⟩
          | (some bsn, r4, _) =>
            let n_vars := fix_int32 big r bsn
            if n_vars < 1 ∨ n_vars > dict.var.length then
              ⟨0, r4, dict, m0 ++ [dict_message.bad_n_vars]⟩
            else
              match read_label_vars big dict var_by_idx n_vars.toNat r4 with
              | (none, r5, m) => ⟨0, r5, dict, m0 ++ m⟩
              | (some var, r5, _) =>
                let type0 := (var.head?.map (fun v => v.type)).getD Writer.NUMERIC
                if (var.drop 1).any (fun v => v.type ≠ type0) then
                  ⟨0, r5, dict, m0 ++ [dict_message.type_mix]⟩
                else
                  let values := labels.map (fun l =>
                    (if type0 = Writer.ALPHA then l.1 else fix_flt64 r l.1, l.2))
                  let res := assign_labels env values var dict
                  ⟨1, r5, res.1, m0 ++ res.2⟩

/-! #### Variable records -/

/-- The C library's `islower` in the C locale. -/
def islower (c : Nat) : Bool := decide (97 ≤ c ∧ c ≤ 122)

/-- The C library's `isupper` in the C locale. -/
def isupper (c : Nat) : Bool := decide (65 ≤ c ∧ c ≤ 90)

/-- The C library's `isalpha` in the C locale. -/
def isalpha (c : Nat) : Bool := islower c || isupper c

/-- The C library's `isalnum` in the C locale. -/
def isalnum (c : Nat) : Bool := isalpha c || decide (48 ≤ c ∧ c ≤ 57)

/-- The C library's `toupper` in the C locale. -/
def toupper (c : Nat) : Nat := if islower c then c - 32 else c

/-- The loop of `read_variables` that copies `sv.name[1..7]`: the name characters, or
`none` where the loop jumps to `error`, and the messages. -/
def name_tail : List Nat → Option (List Nat) × List dict_message
  | [] => (some [], [])
  | c :: cs =>
    if isspace c then (some [], [])
    else if islower c then
      let p := name_tail cs
      (p.1.map (fun n => toupper c :: n), dict_message.lowercase_char :: p.2)
    else if isalnum c ∨ c = 46 ∨ c = 64 ∨ c = 35 ∨ c = 36 ∨ c = 95 then
      let p := name_tail cs
      (p.1.map (fun n => c :: n), p.2)
    else (none, [dict_message.bad_name_char])

/-- Modelled from the spec: the index of the next value that `dict_create_var` gives
out, the sum of the `nv` of the variables so far (dictionary.c is not among the
sources). -/
def dict_next_value_idx (dict : Writer.dictionary) : Nat :=
  (dict.var.map (fun v => v.nv)).sum

/-- Modelled from the spec: `compare_var_names` compares names without regard to
case. -/
def same_var_name (a b : List Nat) : Bool := decide (a.map toupper = b.map toupper)

/-- Modelled from the spec: `dict_create_var` appends a variable of the given name and
width, numeric for width 0, with the next value index, and returns a pointer to it,
or fails where a variable of that name exists (dictionary.c is not among the
sources). -/
def dict_create_var (env : host) (dict : Writer.dictionary) (name : List Nat)
    (width : Int) : Option (Nat × Writer.dictionary) :=
  if dict.var.any (fun v => same_var_name v.name name) then none
  else
    let type := if width = 0 then Writer.NUMERIC else Writer.ALPHA
    let fv := dict_next_value_idx dict
    let fmt : Writer.fmt_spec :=
      if width = 0 then env.f8_2 else { type := env.FMT_A, w := width, d := 0 }
    let v : Writer.variable_ :=
      { name := name
        short_name := []
        type := type
        width := width
        fv := fv
        nv := if width = 0 then 1 else (Writer.DIV_RND_UP width 8).toNat
        miss := { range := none, values := [] }
        print := fmt
        write := fmt
        val_labs := []
        label := none
        measure := env.default_measure type
        display_width := env.default_display_width type
        alignment := env.default_alignment type }
    some (fv, { dict with var := dict.var ++ [v] })

/-- The host's value `LOWEST`, the second lowest `flt64`. -/
def LOWEST (big : Bool) : List Nat := mem_bytes big 8 Writer.SECOND_LOWEST_BITS

/-- The host's value `HIGHEST`, the highest `flt64`. -/
def HIGHEST (big : Bool) : List Nat := mem_bytes big 8 Writer.FLT64_MAX_BITS

/-- Transcription of the part of `read_variables` that sets the missing values of the
numeric or short string variable `vv` from the `mv_cnt` values `mv`. -/
def set_missing (big : Bool) (r : sfm_reader) (n_missing_values : Int)
    (type : Int) (mv : List (List Nat)) : Option Writer.missing_values × List dict_message :=
  if n_missing_values > 0 then
    (some { range := none, values := mv.take n_missing_values.toNat }, [])
  else if type = Writer.ALPHA then (none, [dict_message.string_range])
  else
    let mv0 := mv.getD 0 []
    let mv1 := mv.getD 1 []
    let range :=
      if flt_eq (flt64_val big mv0) (flt64_val big r.lowest) then (LOWEST big, mv1)
      else if flt_eq (flt64_val big mv1) (flt64_val big r.highest) then (mv0, HIGHEST big)
      else (mv0, mv1)
    (some { range := some range
            values := if n_missing_values = -3 then [mv.getD 2 []] else [] }, [])

/-- Transcription of `parse_format_spec`: the format stored, or `none` where the
function returns 0, and the messages. -/
def parse_format_spec (env : host) (s : Int) (type width : Int) :
    Option Writer.fmt_spec × List dict_message :=
  let t := env.translate_fmt (Int.land (Int.shiftRight s 16) 255)
  if t = -1 then (none, [dict_message.bad_format_byte])
  else
    let f : Writer.fmt_spec :=
      { type := t.toNat, w := Int.land (Int.shiftRight s 8) 255, d := Int.land s 255 }
    if xor (decide (type = Writer.ALPHA)) (env.fmt_is_string t) then
      (none, [dict_message.format_type_mismatch])
    else if env.check_output_specifier f = false ∨ env.check_specifier_width f width = false then
      (some (if type = Writer.NUMERIC then env.f8_2
             else { type := env.FMT_A, w := width, d := 0 }),
        [dict_message.invalid_format])
    else (some f, [])

/-- The state of the loop of `read_variables`. -/
structure vars_state where
  r : sfm_reader
  dict : Writer.dictionary
  var_by_idx : List (Option Nat)
  long_string_count : Int
  next_value : Int
  msgs : List dict_message

/-- How an iteration of a loop ends: with the next iteration, with the end of the loop,
or with the jump to `error`. -/
inductive loop_ctl where
  | next : loop_ctl
  | done : loop_ctl
  | error : loop_ctl
  deriving DecidableEq

/-- An iteration that jumps to `error` with the message `m`. -/
def vars_lose (st : vars_state) (r : sfm_reader) (m : List dict_message) :
    loop_ctl × vars_state :=
  (loop_ctl.error, { st with r := r, msgs := st.msgs ++ m })

/-- Transcription of the part of an iteration of `read_variables` that gets the
variable label: the label if the record has one (`none` if it has none or an empty
one), or `none` where the code jumps to `error`; the reader; the messages. -/
def read_var_label (big : Bool) (r1 : sfm_reader) (has_var_label : Int) :
    Option (Option (List Nat)) × sfm_reader × List dict_message :=
  if has_var_label = 1 then
    match buf_read r1 4 false with
    | (none, r2, m) => (none, r2, m)
    | (some bs, r2, _) =>
      if fix_int32 big r1 bs < 0 ∨ fix_int32 big r1 bs > 255 then
        (none, r2, [dict_message.bad_label_length])
      else if fix_int32 big r1 bs ≠ 0 then
        match buf_read r2 (Writer.ROUND_UP (fix_int32 big r1 bs) 4).toNat true with
        | (none, r3, m) => (none, r3, m)
        | (some l, r3, _) =>
          (some (some (c_string (l.take (fix_int32 big r1 bs).toNat))), r3, [])
      else (some none, r2, [])
  else (some none, r1, [])

/-- Transcription of the part of an iteration of `read_variables` that sets the missing
values of a variable of the given `type` (its width): the missing values, or `none`
where the code jumps to `error`; the reader; the messages. -/
def read_missing_values (big : Bool) (r2 : sfm_reader) (n_missing_values type : Int) :
    Option Writer.missing_values × sfm_reader × List dict_message :=
  if n_missing_values ≠ 0 then
    if type > 8 then (none, r2, [dict_message.long_string_missing])
    else
      match buf_read r2 (8 * n_missing_values.natAbs) false with
      | (none, r3, m) => (none, r3, m)
      | (some bs, r3, _) =>
        let vtype := if type = 0 then Writer.NUMERIC else Writer.ALPHA
        let mv := (elements n_missing_values.natAbs bs).map (fun e =>
          if r2.reverse_endian ∧ vtype = Writer.NUMERIC then bswap_flt64 e else e)
        ((set_missing big r2 n_missing_values vtype mv).1, r3,
          (set_missing big r2 n_missing_values vtype mv).2)
  else (some { range := none, values := [] }, r2, [])

/-- Transcription of the part of an iteration of `read_variables` that follows
`dict_create_var`: the label, the missing values and the formats of the variable `p`
that was created for a record with the given fields; `r1` is the reader behind the
record. -/
def read_variable_rest (big : Bool) (env : host) (st : vars_state) (r1 : sfm_reader)
    (p : Nat) (dict : Writer.dictionary) (type has_var_label n_missing_values print
    write : Int) (m0 : List dict_message) : loop_ctl × vars_state :=
  let vtype := if type = 0 then Writer.NUMERIC else Writer.ALPHA
  let nv : Int := if type = 0 then 1 else Writer.DIV_RND_UP type 8
  let st1 : vars_state :=
    { st with var_by_idx := st.var_by_idx ++ [some p]
              long_string_count := nv - 1
              next_value := wrap32 (st.next_value + nv)
              msgs := st.msgs ++ m0 }
  match read_var_label big r1 has_var_label with
  | (none, r2, m) => vars_lose { st1 with dict := dict } r2 m
  | (some label, r2, _) =>
    let dict1 := var_update dict p (fun v => { v with label := label })
    match read_missing_values big r2 n_missing_values type with
    | (none, r3, m) => vars_lose { st1 with dict := dict1 } r3 m
    | (some mvs, r3, _) =>
      let dict2 := var_update dict1 p (fun v => { v with miss := mvs })
      match parse_format_spec env print vtype type with
      | (none, m) => vars_lose { st1 with dict := dict2 } r3 m
      | (some fp, mp) =>
        let dict3 := var_update dict2 p (fun v => { v with print := fp })
        match parse_format_spec env write vtype type with
        | (none, m) => vars_lose { st1 with dict := dict3 } r3 (mp ++ m)
        | (some fw, mw) =>
          let dict4 := var_update dict3 p (fun v => { v with write := fw })
          (loop_ctl.next,
            { st1 with r := { r3 with vars := r3.vars ++ [{ width := type, fv := p }] }
                       dict := dict4
                       msgs := st1.msgs ++ mp ++ mw })

/-- Transcription of the part of the body of the loop of `read_variables` that follows
the read of the record: `r1` is the reader behind the record, the other arguments are
the fields of `sv` after the byte swap. -/
def read_variable_record (big : Bool) (env : host) (i : Nat) (st : vars_state)
    (r1 : sfm_reader) (rec_type type has_var_label n_missing_values print write : Int)
    (name : List Nat) : loop_ctl × vars_state :=
  if rec_type ≠ 2 then
    (loop_ctl.done, { st with r := { st.r with value_cnt := (i : Int) } })
  else if st.long_string_count ≠ 0 then
    if type ≠ -1 then vars_lose st r1 [dict_message.bad_continuation]
    else
      (loop_ctl.next,
        { st with r := { r1 with vars := r1.vars ++ [{ width := -1, fv := 0 }] }
                  var_by_idx := st.var_by_idx ++ [none]
                  long_string_count := st.long_string_count - 1 })
  else if type = -1 then vars_lose st r1 [dict_message.superfluous_continuation]
  else if type < 0 ∨ type > 255 then vars_lose st r1 [dict_message.bad_type_code]
  else if has_var_label ≠ 0 ∧ has_var_label ≠ 1 then
    vars_lose st r1 [dict_message.bad_label_indicator]
  else if n_missing_values < -3 ∨ n_missing_values > 3 ∨ n_missing_values = -1 then
    vars_lose st r1 [dict_message.bad_missing_indicator]
  else if isalpha (name.headD 0) = false ∧ name.headD 0 ≠ 64 ∧ name.headD 0 ≠ 35 then
    vars_lose st r1 [dict_message.bad_name_start]
  else
    let m0 := (if islower (name.headD 0) then [dict_message.lowercase_start] else [])
      ++ (if name.headD 0 = 35 then [dict_message.octothorpe_start] else [])
    match name_tail ((name.drop 1).take 7) with
    | (none, m) => vars_lose st r1 (m0 ++ m)
    | (some tail, m) =>
      if env.var_is_valid_name (toupper (name.headD 0) :: tail) = false then
        vars_lose st r1 (m0 ++ m ++ [dict_message.invalid_name])
      else
        match dict_create_var env st.dict (toupper (name.headD 0) :: tail) type with
        | none => vars_lose st r1 (m0 ++ m ++ [dict_message.duplicate_name])
        | some (p, dict) =>
          read_variable_rest big env st r1 p
            (var_update dict p (fun v => { v with short_name := v.name }))
            type has_var_label n_missing_values print write (m0 ++ m)

/-- Transcription of the body of the loop of `read_variables`, for the loop index
`i`. -/
def read_variables_step (big : Bool) (env : host) (i : Nat) (st : vars_state) :
    loop_ctl × vars_state :=
  if st.r.value_cnt ≠ -1 ∧ (i : Int) ≥ st.r.value_cnt then (loop_ctl.done, st)
  else
    match buf_read st.r 32 false with
    | (none, r1, m) => vars_lose st r1 m
    | (some sv, r1, _) =>
      read_variable_record big env i st r1
        (fix_int32 big st.r (mem_read sv 0 4)) (fix_int32 big st.r (mem_read sv 4 4))
        (fix_int32 big st.r (mem_read sv 8 4)) (fix_int32 big st.r (mem_read sv 12 4))
        (fix_int32 big st.r (mem_read sv 16 4)) (fix_int32 big st.r (mem_read sv 20 4))
        (mem_read sv 24 8)

/-- The loop of `read_variables`, from the index `i`, for at most `fuel` iterations:
whether the loop ended without the jump to `error`, and the state; `none` where the
iterations do not suffice. -/
def read_variables_loop (big : Bool) (env : host) :
    Nat → Nat → vars_state → Option (Bool × vars_state)
  | 0, _, _ => none
  | fuel + 1, i, st =>
    match read_variables_step big env i st with
    | (loop_ctl.next, st1) => read_variables_loop big env fuel (i + 1) st1
    | (loop_ctl.done, st1) => some (true, st1)
    | (loop_ctl.error, st1) => some (false, st1)

/-- What a call of `read_variables` leaves. -/
structure vars_result where
  ret : Int
  r : sfm_reader
  dict : Writer.dictionary
  var_by_idx : List (Option Nat)
  msgs : List dict_message

/-- Transcription of `read_variables`; every iteration but the last reads 32 bytes, so
that the iterations allowed suffice. -/
def read_variables (big : Bool) (env : host) (r : sfm_reader)
    (dict : Writer.dictionary) : Option vars_result :=
  match read_variables_loop big env (r.file.length / 32 + 2) 0
      { r := r, dict := dict, var_by_idx := [], long_string_count := 0,
        next_value := 0, msgs := [] } with
  | none => none
  | some (false, st) => some ⟨0, st.r, st.dict, st.var_by_idx, st.msgs⟩
  | some (true, st) =>
    if st.long_string_count ≠ 0 then
      some ⟨0, st.r, st.dict, st.var_by_idx, st.msgs ++ [dict_message.continuations_omitted]⟩
    else
      some ⟨1, st.r, st.dict, st.var_by_idx,
        st.msgs ++ (if st.next_value ≠ st.r.value_cnt
                      then [dict_message.value_cnt_mismatch] else [])⟩

/-! #### The records behind the variables -/

/-- The state of `sfm_open_reader` behind the variable records. -/
structure open_state where
  r : sfm_reader
  dict : Writer.dictionary
  var_by_idx : List (Option Nat)
  msgs : List dict_message

/-- An iteration of the record loop that jumps to `error` with the message `m`. -/
def open_lose (st : open_state) (r : sfm_reader) (m : List dict_message) :
    loop_ctl × open_state :=
  (loop_ctl.error, { st with r := r, msgs := st.msgs ++ m })

/-- Transcription of the part of `sfm_open_reader` that handles weighting: `none`
where it jumps to `error`. -/
def handle_weighting (r : sfm_reader) (dict : Writer.dictionary)
    (var_by_idx : List (Option Nat)) : Option Writer.dictionary × List dict_message :=
  if r.weight_idx ≠ -1 then
    if r.weight_idx < 0 ∨ r.weight_idx ≥ r.value_cnt then
      (none, [dict_message.bad_weight_idx])
    else
      match (var_by_idx.getD r.weight_idx.toNat none).bind (var_lookup dict) with
      | none => (none, [dict_message.weight_continuation])
      | some weight_var =>
        if weight_var.type = Writer.ALPHA then (none, [dict_message.weight_string])
        else
          (some { dict with weight := some (dict.var.indexOf weight_var) }, [])
  else (some { dict with weight := none }, [])

/-- The assignment of the display parameters to the variable at position `i`. -/
def set_display : Nat → Int → Int → Int → List Writer.variable_ → List Writer.variable_
  | _, _, _, _, [] => []
  | 0, m, w, a, v :: vs => { v with measure := m, display_width := w, alignment := a } :: vs
  | i + 1, m, w, a, v :: vs => v :: set_display i m w a vs

/-- The loop of record type 7, subtype 11, of `sfm_open_reader`, for the positions
from `i` on, `n` times: `none` where a read fails. -/
def read_display_params (big : Bool) :
    Nat → Nat → sfm_reader → Writer.dictionary →
    Option Writer.dictionary × sfm_reader × List dict_message
  | 0, _, r, dict => (some dict, r, [])
  | n + 1, i, r, dict =>
    match buf_read r 12 false with
    | (none, r1, m) => (none, r1, m)
    | (some params, r1, _) =>
      read_display_params big n (i + 1) r1
        { dict with var := set_display i (int32_val big (mem_read params 0 4))
                             (int32_val big (mem_read params 4 4))
                             (int32_val big (mem_read params 8 4)) dict.var }

/-- The C library's `strtok_r` for a single delimiter, on the rest `s` of the string:
the token and the rest behind it, or `none` where it returns NULL. -/
def strtok_r (s : List Nat) (delim : Nat) : Option (List Nat × List Nat) :=
  let s1 := s.dropWhile (fun c => c = delim)
  if s1 = [] then none
  else some (s1.takeWhile (fun c => c ≠ delim), (s1.dropWhile (fun c => c ≠ delim)).drop 1)

/-- Modelled from the spec: `dict_lookup_var` finds the variable of a name, without
regard to case (dictionary.c is not among the sources). -/
def dict_lookup_var (dict : Writer.dictionary) (name : List Nat) : Option Writer.variable_ :=
  dict.var.find? (fun v => same_var_name v.name name)

/-- Modelled from the spec: `dict_reorder_var` moves the variable to the position
`new_index` among the variables; the weighting variable stays the same variable
(dictionary.c is not among the sources). -/
def dict_reorder_var (dict : Writer.dictionary) (p : Nat) (new_index : Nat) :
    Writer.dictionary :=
  match var_lookup dict p with
  | none => dict
  | some v =>
    let others := dict.var.filter (fun x => x.fv ≠ p)
    let var := others.take new_index ++ [v] ++ others.drop new_index
    { dict with var := var
                weight := dict.weight.bind (fun w =>
                  (dict.var.get? w).map (fun wv => var.indexOf wv)) }

/-- The parsing loop of record type 7, subtype 13, of `sfm_open_reader`, on the rest
`s` of the buffer with the index `idx`, for at most `fuel` iterations: `none` where it
jumps to `error`. -/
def long_names_loop (env : host) :
    Nat → List Nat → Nat → Writer.dictionary →
    Option Writer.dictionary × List dict_message
  | 0, _, _, dict => (some dict, [])
  | fuel + 1, s, idx, dict =>
    match strtok_r s 61 with
    | none => (some dict, [])
    | some (short_name, s1) =>
      match strtok_r s1 9 with
      | none => (some dict, [dict_message.longvar_garbage])
      | some (long_name, s2) =>
        if env.var_is_valid_name long_name = false then
          (some dict, [dict_message.longvar_invalid])
        else
          match dict_lookup_var dict short_name with
          | none => (some dict, [dict_message.longvar_nonexistent])
          | some v =>
            if same_var_name short_name long_name = false
                ∧ dict_lookup_var dict long_name ≠ none then
              (none, [dict_message.longvar_duplicate])
            else
              let dict1 := var_update dict v.fv (fun x =>
                { x with name := long_name, short_name := short_name })
              long_names_loop env fuel s2 (idx + 1) (dict_reorder_var dict1 v.fv idx)

/-- Transcription of the handling of a record of type 7 in `sfm_open_reader`, behind
the record type. -/
def read_extension (big : Bool) (env : host) (st : open_state) : loop_ctl × open_state :=
  match buf_read st.r 12 false with
  | (none, r1, m) => open_lose st r1 m
  | (some data, r1, _) =>
    let subtype := fix_int32 big st.r (mem_read data 0 4)
    let size := fix_int32 big st.r (mem_read data 4 4)
    let count := fix_int32 big st.r (mem_read data 8 4)
    let bytes := size_t_of_int (wrap32 (size * count))
    if bytes < size_t_of_int size ∨ bytes < size_t_of_int count then
      open_lose st r1 [dict_message.too_large]
    else
      let fail (r : sfm_reader) (m : List dict_message) : Bool × Bool × open_state :=
        (false, false, { st with r := r, msgs := st.msgs ++ m })
      let res : Bool × Bool × open_state :=
        if subtype = 3 then
          match read_machine_int32_info big r1 size count with
          | (ret, r2, m) =>
            if ret = 0 then fail r2 m
            else (true, false, { st with r := r2, msgs := st.msgs ++ m })
        else if subtype = 4 then
          match read_machine_flt64_info big r1 size count with
          | (ret, r2, m) =>
            if ret = 0 then fail r2 m
            else (true, false, { st with r := r2, msgs := st.msgs ++ m })
        else if subtype = 5 ∨ subtype = 6 then (true, true, { st with r := r1 })
        else if subtype = 11 then
          let n_vars := Int.tdiv count 3
          let bad := decide (Int.tmod count 3 ≠ 0 ∨ n_vars > st.dict.var.length)
          let m0 := if bad then [dict_message.bad_subrecord_length] else []
          match read_display_params big (min n_vars st.dict.var.length).toNat 0 r1
              st.dict with
          | (none, r2, m) => fail r2 (m0 ++ m)
          | (some dict, r2, _) =>
            (true, bad, { st with r := r2, dict := dict, msgs := st.msgs ++ m0 })
        else if subtype = 13 then
          match buf_read r1 bytes false with
          | (none, r2, m) => fail r2 m
          | (some buf, r2, _) =>
            match long_names_loop env (buf.length + 1) (c_string buf) 0 st.dict with
            | (none, m) => fail r2 m
            | (some dict, m) =>
              (true, false, { st with r := r2, dict := dict, msgs := st.msgs ++ m })
        else
          (true, true, { st with r := r1, msgs := st.msgs ++ [dict_message.unknown_subtype] })
      match res with
      | (false, _, st1) => (loop_ctl.error, st1)
      | (true, skip, st1) =>
        if skip then
          match buf_read st1.r (size_t_of_int (wrap32 (size * count))) true with
          | (none, r3, m) => open_lose st1 r3 m
          | (some _, r3, _) => (loop_ctl.next, { st1 with r := r3 })
        else (loop_ctl.next, st1)

/-- Transcription of the body of the record loop of `sfm_open_reader`; `done` is the
jump to `success`. -/
def read_record (big : Bool) (env : host) (st : open_state) : loop_ctl × open_state :=
  match buf_read st.r 4 false with
  | (none, r1, m) => open_lose st r1 m
  | (some bs, r1, _) =>
    let rec_type := fix_int32 big st.r bs
    let st1 := { st with r := r1 }
    if rec_type = 3 then
      let res := read_value_labels big env r1 st.dict st.var_by_idx
      if res.ret = 0 then open_lose st1 res.r res.msgs
      else (loop_ctl.next, { st1 with r := res.r, dict := res.dict, msgs := st.msgs ++ res.msgs })
    else if rec_type = 4 then open_lose st1 r1 [dict_message.orphaned_type_4]
    else if rec_type = 6 then
      match read_documents big r1 st.dict with
      | (ret, r2, dict, m) =>
        if ret = 0 then open_lose st1 r2 m
        else (loop_ctl.next, { st1 with r := r2, dict := dict, msgs := st.msgs ++ m })
    else if rec_type = 7 then read_extension big env st1
    else if rec_type = 999 then
      match buf_read r1 4 false with
      | (none, r2, m) => open_lose st1 r2 m
      | (some _, r2, _) => (loop_ctl.done, { st1 with r := r2 })
    else (loop_ctl.next, { st1 with msgs := st.msgs ++ [dict_message.unknown_rec_type] })

/-- The record loop of `sfm_open_reader`, for at most `fuel` iterations: whether it
ended with the jump to `success`, and the state; `none` where the iterations do not
suffice. -/
def record_loop (big : Bool) (env : host) : Nat → open_state → Option (Bool × open_state)
  | 0, _ => none
  | fuel + 1, st =>
    match read_record big env st with
    | (loop_ctl.next, st1) => record_loop big env fuel st1
    | (loop_ctl.done, st1) => some (true, st1)
    | (loop_ctl.error, st1) => some (false, st1)

/-- What a call of `sfm_open_reader` leaves: the reader returned and `*dict`, both
`none` for NULL, the `info` filled, and the messages. -/
structure open_result where
  reader : Option sfm_reader
  dict : Option Writer.dictionary
  info : Option sfm_read_info
  msgs : List dict_message

/-- The dictionary that `dict_create` returns. -/
def dict_create : Writer.dictionary :=
  { var := [], weight := none, label := none, documents := none }

/-- Transcription of `sfm_open_reader` on a file with the content `file`; `want_info`
says that `info` is not null. Every iteration of the record loop reads 4 bytes, so
that the iterations allowed suffice. -/
def sfm_open_reader (big : Bool) (env : host) (file : List Nat) (want_info : Bool) :
    Option open_result :=
  if env.fh_open_ok = false then some ⟨none, none, none, []⟩
  else if env.fn_open_ok = false then some ⟨none, none, none, [dict_message.open_failed]⟩
  else
    let h := read_header big (new_reader big file) want_info
    let mh := h.msgs.map header_msg
    if h.ret = 0 then some ⟨none, none, h.info, mh⟩
    else
      let dict0 := { dict_create with label := h.label }
      match read_variables big env h.r dict0 with
      | none => none
      | some v =>
        if v.ret = 0 then some ⟨none, none, h.info, mh ++ v.msgs⟩
        else
          match handle_weighting v.r v.dict v.var_by_idx with
          | (none, m) => some ⟨none, none, h.info, mh ++ v.msgs ++ m⟩
          | (some dict1, _) =>
            match record_loop big env (v.r.file.length / 4 + 1)
                { r := v.r, dict := dict1, var_by_idx := v.var_by_idx,
                  msgs := mh ++ v.msgs } with
            | none => none
            | some (false, st) => some ⟨none, none, h.info, st.msgs⟩
            | some (true, st) => some ⟨some st.r, some st.dict, h.info, st.msgs⟩

end Reader

/-! ### Example inputs for the dictionary reader -/

/-- A `val_labs_replace` for the examples: the label takes the place of the label that
the value has, or is added behind the others. -/
def example_val_labs_replace (vls : List Writer.val_lab) (value label : List Nat) :
    Bool × List Writer.val_lab :=
  if vls.any (fun vl => vl.value = value) then
    (true, vls.map (fun vl => if vl.value = value then { vl with label := label } else vl))
  else (false, vls ++ [{ value := value, label := label }])

/-- A host of the reader for the examples: every name valid, format code 5 and 1 for
the types 0 and 1, type 1 the only string format, every format accepted, every open
succeeding. -/
def example_reader_host : Reader.host :=
  { var_is_valid_name := fun _ => true
    translate_fmt := fun t => if t = 5 then 0 else if t = 1 then 1 else -1
    fmt_is_string := fun t => decide (t = 1)
    check_output_specifier := fun _ => true
    check_specifier_width := fun _ _ => true
    val_labs_replace := example_val_labs_replace
    FMT_A := 1
    f8_2 := { type := 0, w := 8, d := 2 }
    default_measure := fun _ => 1
    default_display_width := fun _ => 8
    default_alignment := fun _ => 0
    fh_open_ok := true
    fn_open_ok := true }

/-- The state of `sfm_open_reader` in the record loop on a file of the other byte order
than the host's (`reverse` set) or of the host's, with the variables `vs`, one value
each, and the rest `file` of the file ahead. -/
def example_open_state (big reverse : Bool) (vs : List Writer.variable_)
    (file : List Nat) : Reader.open_state :=
  { r := { Reader.new_reader big file with
             reverse_endian := reverse, value_cnt := vs.length }
    dict := example_dict vs
    var_by_idx := vs.map (fun v => some v.fv)
    msgs := [] }

/-- A type 3 record behind its tag, in little-endian order: the two labels `A` for the
value bytes 1, 0, ..., 0 and `B` for 2, 0, ..., 0, and the type 4 record that names the
variable with index 1. -/
def example_labels_record : List Nat :=
  [2, 0, 0, 0]
    ++ [1, 0, 0, 0, 0, 0, 0, 0] ++ [1, 65, 32, 32, 32, 32, 32, 32]
    ++ [2, 0, 0, 0, 0, 0, 0, 0] ++ [1, 66, 32, 32, 32, 32, 32, 32]
    ++ [4, 0, 0, 0] ++ [1, 0, 0, 0] ++ [1, 0, 0, 0]

namespace Reader

/-! ### The layout of `var_by_idx` -/

/-- The entries of `var_by_idx` for the variables `vs` as the writer lays their records
out: for every variable the pointer to it and then a null pointer for every further
value that it takes. -/
def blocks : List Writer.variable_ → List (Option Nat)
  | [] => []
  | v :: vs => (some v.fv :: List.replicate (v.nv - 1) none) ++ blocks vs

/-- The variables `vs` take at least one value each, and the first value of each is the
sum of the values that the variables before it take, counted from `s`. -/
def var_starts : Nat → List Writer.variable_ → Prop
  | _, [] => True
  | s, v :: vs => v.fv = s ∧ 1 ≤ v.nv ∧ var_starts (s + v.nv) vs

/-- The number of values that `read_variables` takes a record of the given `type` (the
width) to stand for. -/
def nv_of_type (type : Int) : Int := if type = 0 then 1 else Writer.DIV_RND_UP type 8

/-- What `read_variables` never changes in a variable once it is created. -/
def var_key (v : Writer.variable_) : Nat × Nat × Int × Int := (v.fv, v.nv, v.width, v.type)

/-- The state of the loop of `read_variables` is in step with the dictionary:
`var_by_idx` with the null pointers of the continuation records still to come is the
layout of the variables created so far, whose first values follow one another, and
each variable has the type and the number of values of its width. -/
def vars_inv (st : vars_state) : Prop :=
  st.var_by_idx ++ List.replicate st.long_string_count.toNat none = blocks st.dict.var
  ∧ 0 ≤ st.long_string_count
  ∧ var_starts 0 st.dict.var
  ∧ ∀ v ∈ st.dict.var, (v.nv : Int) = nv_of_type v.width
      ∧ v.type = (if v.width = 0 then Writer.NUMERIC else Writer.ALPHA)
      ∧ 0 ≤ v.width ∧ v.width ≤ 255

end Reader

/-! ### Example inputs for the variable records -/

/-- A host of the writer for the examples that gives string formats the code 1 and the
other formats the code 5. -/
def example_host_formats : Writer.host :=
  { example_host with formats_spss := fun t => if t = 1 then 1 else 5 }

/-- A dictionary with a string variable of width 16 and a numeric variable that has a
value label and is the weighting variable. -/
def example_weighted_dict : Writer.dictionary :=
  { var := [{ example_string 65 0 with width := 16, nv := 2 },
            { example_numeric 66 2 with
                val_labs := [{ value := [1, 0, 0, 0, 0, 0, 0, 0], label := [88] }] }]
    weight := some 1
    label := none
    documents := none }

/-- The file that `sfm_open_writer` lays down for the example dictionary on a
little-endian host. -/
def example_written_file : List Nat :=
  ((Writer.sfm_open_writer false example_host_formats [] example_weighted_dict
    compress_opts).map (fun w => w.file)).getD []

/-! ### Words of the specification about the writer -/

/-- The order of a dictionary in the words of the specification: the case index `fv` of
every variable is the sum of the value counts `nv` of the variables before it, counted
from `s`. -/
def properly_ordered : Nat → List Writer.variable_ → Bool
  | _, [] => true
  | s, v :: vs => decide (v.fv = s) && properly_ordered (s + v.nv) vs

/-- The options of a writer that does not compress. -/
def plain_opts : Writer.sfm_write_options :=
  { create_writeable := true, compress := false, version := 3 }

namespace Reader

/-- The counters of the loop of `read_variables` are in step at the loop index `i`, for
a file of `L` bytes at the start and the `value_cnt` `V` of the header: one entry of
`var_by_idx` for every record read, 32 bytes at least read for each, `next_value`
ahead of the index by the continuation records still to come, `value_cnt` unchanged
and, where it is set, not yet passed. -/
def vars_count_inv (L : Nat) (V : Int) (i : Nat) (st : vars_state) : Prop :=
  st.var_by_idx.length = i
  ∧ 32 * i + st.r.file.length ≤ L
  ∧ st.next_value = (i : Int) + st.long_string_count
  ∧ 0 ≤ st.long_string_count
  ∧ st.r.value_cnt = V
  ∧ (V ≠ -1 → (i : Int) ≤ V)

end Reader

/-- The variable records of a little-endian file: a numeric variable `A` with the format
F8.2, a string variable `B` of 12 bytes with the format A12 and its continuation
record, and 32 bytes that start with the tag 999. -/
def example_variable_records : List Nat :=
  ([2, 0, 0, 0] ++ [0, 0, 0, 0] ++ [0, 0, 0, 0] ++ [0, 0, 0, 0] ++ [2, 8, 5, 0]
      ++ [2, 8, 5, 0] ++ [65, 32, 32, 32, 32, 32, 32, 32])
    ++ ([2, 0, 0, 0] ++ [12, 0, 0, 0] ++ [0, 0, 0, 0] ++ [0, 0, 0, 0] ++ [0, 12, 1, 0]
      ++ [0, 12, 1, 0] ++ [66, 32, 32, 32, 32, 32, 32, 32])
    ++ ([2, 0, 0, 0] ++ [255, 255, 255, 255] ++ List.replicate 24 0)
    ++ ([231, 3, 0, 0] ++ List.replicate 28 0)

/-! ### The compression buffer of the writer -/

/-- The compression buffer of a writer is in order: it holds 128 elements, `ptr` is
behind the first element and not behind `end`, and the rest `[x, y)` of the current
instruction octet lies in the buffer and has at most 8 bytes. -/
def cbuf_inv (w : Writer.sfm_writer) : Prop :=
  1 ≤ w.ptr ∧ w.ptr ≤ w.end_ ∧ w.end_ = 128 ∧ w.x ≤ w.y ∧ w.y ≤ w.x + 8 ∧ w.y ≤ 8 * 128
    ∧ w.buf.length = 8 * 128

instance (w : Writer.sfm_writer) : Decidable (cbuf_inv w) :=
  inferInstanceAs (Decidable (1 ≤ w.ptr ∧ w.ptr ≤ w.end_ ∧ w.end_ = 128 ∧ w.x ≤ w.y
    ∧ w.y ≤ w.x + 8 ∧ w.y ≤ 8 * 128 ∧ w.buf.length = 8 * 128))

namespace Reader

/-- The number of elements of the bounce buffer that the loop of `sfm_read_case` has
passed behind the variables `vs`: one for a numeric variable, the width over 8 rounded
up for a string, none for an entry of width -1. -/
def bounce_index : List sfm_var → Nat
  | [] => 0
  | v :: vs =>
    (if v.width = 0 then 1
      else if v.width ≠ -1 then (Writer.DIV_RND_UP v.width 8).toNat else 0)
      + bounce_index vs

/-- The bytes that the entry `x` of `r->vars` has `sfm_read_case` store lie outside the
cell `j` of the case: another cell for a numeric variable, a range of `width` bytes
before or behind the cell for a string. -/
def writes_outside (x : sfm_var) (j : Nat) : Prop :=
  x.width = -1
  ∨ (x.width = 0 ∧ x.fv ≠ j)
  ∨ (x.width ≠ 0 ∧ (8 * x.fv + x.width.toNat ≤ 8 * j ∨ 8 * j + 8 ≤ 8 * x.fv))

instance (x : sfm_var) (j : Nat) : Decidable (writes_outside x j) :=
  inferInstanceAs (Decidable (x.width = -1
    ∨ (x.width = 0 ∧ x.fv ≠ j)
    ∨ (x.width ≠ 0 ∧ (8 * x.fv + x.width.toNat ≤ 8 * j ∨ 8 * j + 8 ≤ 8 * x.fv))))

end Reader

/-- A reader of the examples placed at the start of the case data `data`, for a
numeric variable, a string variable of 12 bytes with its continuation entry, and a
second numeric variable: bias 100, file SYSMIS `sysmis`. -/
def mixed_case_reader (big reverse_endian : Bool) (compressed : Int) (sysmis : List Nat)
    (data : List Nat) : Reader.sfm_reader :=
  { reverse_endian := reverse_endian
    fix_specials := false
    value_cnt := 4
    case_cnt := -1
    compressed := compressed
    bias := mem_bytes big 8 BIAS_100_BITS
    weight_idx := -1
    vars := [⟨0, 0⟩, ⟨12, 1⟩, ⟨-1, 0⟩, ⟨0, 3⟩]
    sysmis := sysmis
    highest := mem_bytes big 8 Writer.FLT64_MAX_BITS
    lowest := mem_bytes big 8 Writer.SECOND_LOWEST_BITS
    buf := []
    x := [0, 0, 0, 0, 0, 0, 0, 0]
    y := 8
    file := data }

namespace Reader

/-! ### The long variable name map -/

/-- The pairs of a short and a long name that the parsing loop of record type 7, subtype
13, of `sfm_open_reader` takes from the rest `s` of the buffer with its calls of
`strtok_r`, for at most `fuel` pairs: the loop ends where a short name or a long name
is missing. -/
def longvar_tokens : Nat → List Nat → List (List Nat × List Nat)
  | 0, _ => []
  | fuel + 1, s =>
    match strtok_r s 61 with
    | none => []
    | some (short_name, s1) =>
      match strtok_r s1 9 with
      | none => []
      | some (long_name, s2) => (short_name, long_name) :: longvar_tokens fuel s2

/-- The text of the map as the specification gives it: the records `short=long`,
separated by TAB. -/
def longvar_text (ps : List (List Nat × List Nat)) : List Nat :=
  [9].intercalate (ps.map (fun p => p.1 ++ [61] ++ p.2))

/-- What the loop of record type 7, subtype 13, does with the pairs that it parses,
from the index `idx` on: `none` where it jumps to `error`. -/
def rename_long_names (env : host) :
    List (List Nat × List Nat) → Nat → Writer.dictionary →
    Option Writer.dictionary × List dict_message
  | [], _, dict => (some dict, [])
  | (short_name, long_name) :: ps, idx, dict =>
    if env.var_is_valid_name long_name = false then
      (some dict, [dict_message.longvar_invalid])
    else
      match dict_lookup_var dict short_name with
      | none => (some dict, [dict_message.longvar_nonexistent])
      | some v =>
        if same_var_name short_name long_name = false
            ∧ dict_lookup_var dict long_name ≠ none then
          (none, [dict_message.longvar_duplicate])
        else
          let dict1 := var_update dict v.fv (fun x =>
            { x with name := long_name, short_name := short_name })
          rename_long_names env ps (idx + 1) (dict_reorder_var dict1 v.fv idx)

end Reader

namespace Reader

/-- A name as `compare_var_names` sees it: without regard to case. -/
def name_key (a : List Nat) : List Nat := a.map toupper

/-- The variable `v` with the long name and the short name of the pair `p`. -/
def set_long_name (p : List Nat × List Nat) (v : Writer.variable_) : Writer.variable_ :=
  { v with name := p.2, short_name := p.1 }

/-- The variables among `rest` that the short names of the pairs `ps` find, in the
order of the pairs, each with the names of its pair. -/
def long_name_targets (ps : List (List Nat × List Nat)) (rest : List Writer.variable_) :
    List Writer.variable_ :=
  ps.filterMap (fun p =>
    (rest.find? (fun v => same_var_name v.name p.1)).map (set_long_name p))

/-- The variables among `rest` that no short name of the pairs `ps` finds. -/
def long_name_others (ps : List (List Nat × List Nat)) (rest : List Writer.variable_) :
    List Writer.variable_ :=
  rest.filter (fun v => ps.all (fun p => !same_var_name v.name p.1))

end Reader

namespace Writer

/-! ### The records of a variable -/

/-- The number of segments of a variable in the words of the format description: 1 for
a numeric variable, the width over 8, rounded up, for a string. -/
def segments (v : variable_) : Nat :=
  if v.type = NUMERIC then 1 else (v.width.toNat + 7) / 8

/-- A continuation record in the words of the format description: the tag 2, the type
-1 and every other field zero. -/
def continuation_record (big : Bool) : List Nat :=
  int32_bytes big 2 ++ int32_bytes big (-1) ++ List.replicate 24 0

/-- The count `nm` of missing values as `write_variable` stores it in the record,
negative where the missing values have a range. -/
def missing_count (big : Bool) (v : variable_) : Int :=
  if v.miss.range.isSome then -((missing_cells big v).length : Int)
  else ((missing_cells big v).length : Int)

/-- The bytes of the head record that `write_variable` writes first. -/
def head_record (big : Bool) (env : host) (v : variable_) : List Nat :=
  sysfile_variable_bytes big v.width (if v.label.isSome then 1 else 0)
    (missing_count big v) (write_format_spec env v.print) (write_format_spec env v.write)
    (buf_copy_str_rpad 8 v.short_name)

/-- Whether the label block of `write_variable` lies inside the local `struct label`:
nothing is stored behind the struct. It does for labels of 252 bytes at most; for a
longer label the code stores and reads one byte behind the struct, and what it writes
is not determined by the C code. -/
def label_in_struct (big : Bool) (label : List Nat) : Bool :=
  (stage_label big label).2.isEmpty

/-- The bytes that `write_variable` has `buf_write` take for the label of a variable
that has one: the local `struct label` as staged (`label_len`, the label cut at 255
bytes, and blanks up to `ext_len`) and then what was stored behind the struct (see
`stage_label`; nothing for labels of 252 bytes at most). -/
def label_bytes (big : Bool) (v : variable_) : List Nat :=
  match v.label with
  | some label => (stage_label big label).1 ++ (stage_label big label).2
  | none => []

/-- The bytes that `write_variable` writes for the missing values. -/
def missing_bytes (big : Bool) (v : variable_) : List Nat :=
  if missing_count big v ≠ 0 then (missing_cells big v).flatten else []

/-- The items that the format description has `write_variable` lay down for `v`: the
head record with the label and the missing values that belong to it, and then one
continuation record for each further segment. -/
def variable_records (big : Bool) (env : host) (v : variable_) : List (List Nat) :=
  (head_record big env v ++ label_bytes big v ++ missing_bytes big v)
    :: List.replicate (segments v - 1) (continuation_record big)

end Writer

namespace Reader

/-! ### Short names -/

/-- A name field with its trailing spaces removed, in the words of the format
description. -/
def strip_trailing_spaces (field : List Nat) : List Nat :=
  (field.reverse.dropWhile (fun c => decide (c = 32))).reverse

/-- The characters that the format description allows behind the first one of a name:
alphanumeric or one of `. @ # $ _`. -/
def name_char_ok (c : Nat) : Bool :=
  isalnum c || decide (c = 46 ∨ c = 64 ∨ c = 35 ∨ c = 36 ∨ c = 95)

end Reader

namespace Reader

/-! ### The layout of `r->vars` -/

/-- The widths in `r->vars` for the variables `vs` as the writer lays their records out:
for every variable its width and then -1 for every further value that it takes. -/
def width_blocks : List Writer.variable_ → List Int
  | [] => []
  | v :: vs => (v.width :: List.replicate (v.nv - 1) (-1)) ++ width_blocks vs

end Reader

/-! ### Example inputs for the value label records -/

/-- A numeric variable at the case index 2 with the label `X` for the value whose bytes
are 1 and seven zeros. -/
def example_labelled_var : Writer.variable_ :=
  { example_numeric 66 2 with
      val_labs := [{ value := [1, 0, 0, 0, 0, 0, 0, 0], label := [88] }] }

/-- The reader of a little-endian file with 3 values behind the tag of the type 3 record
that `write_value_labels` writes for the example variable and the index 2; the byte 7
follows the type 4 record. -/
def example_labels_reader : Reader.sfm_reader :=
  { Reader.new_reader false
      (int32_bytes false (example_labelled_var.val_labs.length : Int)
        ++ (((example_host.val_labs_sorted example_labelled_var.val_labs).map
              Writer.value_label_bytes).flatten
          ++ (int32_bytes false 4 ++ (int32_bytes false 1
            ++ (int32_bytes false (2 + 1) ++ [7]))))) with value_cnt := 3 }

/-- The reader of a little-endian file with 3 values behind the tag of a type 3 record
with one label, whose type 4 record lists the one index 2. -/
def example_bad_index_reader : Reader.sfm_reader :=
  { Reader.new_reader false
      ([1, 0, 0, 0] ++ [1, 0, 0, 0, 0, 0, 0, 0, 1, 88, 32, 32, 32, 32, 32, 32]
        ++ [4, 0, 0, 0] ++ [1, 0, 0, 0] ++ [2, 0, 0, 0]) with value_cnt := 3 }

/-! ## Theorems -/

theorem le_bytes_length (n v : Nat) : (le_bytes n v).length = n := by
  induction n generalizing v with
  | zero => rfl
  | succ n ih => simp [le_bytes, ih]

theorem le_bytes_is_bytes (n v : Nat) : is_bytes (le_bytes n v) := by
  induction n generalizing v with
  | zero => intro b hb; simp [le_bytes] at hb
  | succ n ih =>
    intro b hb
    simp only [le_bytes, List.mem_cons] at hb
    rcases hb with h | h
    · subst h; exact Nat.mod_lt _ (by norm_num)
    · exact ih _ b h

theorem le_val_lt (bs : List Nat) (h : is_bytes bs) : le_val bs < 256 ^ bs.length := by
  induction bs with
  | nil => simp [le_val]
  | cons b bs ih =>
    have hb : b < 256 := h b (List.mem_cons_self _ _)
    have := ih (fun c hc => h c (List.mem_cons_of_mem _ hc))
    simp only [le_val, List.length_cons, pow_succ]
    omega

theorem le_bytes_le_val (bs : List Nat) (h : is_bytes bs) :
    le_bytes bs.length (le_val bs) = bs := by
  induction bs with
  | nil => rfl
  | cons b bs ih =>
    have hb : b < 256 := h b (List.mem_cons_self _ _)
    have := ih (fun c hc => h c (List.mem_cons_of_mem _ hc))
    simp only [le_val, List.length_cons, le_bytes]
    have h1 : (b + 256 * le_val bs) % 256 = b := by omega
    have h2 : (b + 256 * le_val bs) / 256 = le_val bs := by omega
    rw [h1, h2, this]

theorem le_val_le_bytes (n v : Nat) (h : v < 256 ^ n) : le_val (le_bytes n v) = v := by
  induction n generalizing v with
  | zero => simp at h; simp [le_bytes, le_val, h]
  | succ n ih =>
    simp only [le_bytes, le_val]
    have : v / 256 < 256 ^ n := by
      rw [pow_succ] at h
      exact Nat.div_lt_of_lt_mul (by rw [Nat.mul_comm]; exact h)
    rw [ih _ this]
    omega

theorem is_bytes_reverse (bs : List Nat) (h : is_bytes bs) : is_bytes bs.reverse := by
  intro b hb; exact h b (List.mem_reverse.mp hb)

theorem mem_bytes_length (big : Bool) (n v : Nat) : (mem_bytes big n v).length = n := by
  unfold mem_bytes; split <;> simp [le_bytes_length]

theorem mem_bytes_is_bytes (big : Bool) (n v : Nat) : is_bytes (mem_bytes big n v) := by
  unfold mem_bytes; split
  · exact is_bytes_reverse _ (le_bytes_is_bytes n v)
  · exact le_bytes_is_bytes n v

theorem mem_val_lt (big : Bool) (bs : List Nat) (h : is_bytes bs) :
    mem_val big bs < 256 ^ bs.length := by
  unfold mem_val; split
  · have := le_val_lt _ (is_bytes_reverse _ h); simpa using this
  · exact le_val_lt _ h

theorem mem_bytes_mem_val (big : Bool) (bs : List Nat) (h : is_bytes bs) :
    mem_bytes big bs.length (mem_val big bs) = bs := by
  unfold mem_bytes mem_val
  cases big
  · simp [le_bytes_le_val _ h]
  · simp only [if_true]
    have := le_bytes_le_val _ (is_bytes_reverse _ h)
    rw [List.length_reverse] at this
    rw [this, List.reverse_reverse]

theorem mem_val_mem_bytes (big : Bool) (n v : Nat) (h : v < 256 ^ n) :
    mem_val big (mem_bytes big n v) = v := by
  unfold mem_bytes mem_val
  cases big <;> simp [le_val_le_bytes _ _ h]

/-- magnitude of a finite double from its exponent and fraction fields -/
theorem flt_mag_inj (e1 m1 e2 m2 : Nat) (h1 : m1 < 2 ^ 52) (h2 : m2 < 2 ^ 52)
    (h : (if e1 = 0 then m1 else (2 ^ 52 + m1) * 2 ^ (e1 - 1))
       = (if e2 = 0 then m2 else (2 ^ 52 + m2) * 2 ^ (e2 - 1))) :
    e1 = e2 ∧ m1 = m2 := by
  have key : ∀ (t1 t2 n1 n2 : Nat), n1 < 2 ^ 52 → n2 < 2 ^ 52 → t1 < t2 →
      (2 ^ 52 + n1) * 2 ^ t1 ≠ (2 ^ 52 + n2) * 2 ^ t2 := by
    intro t1 t2 n1 n2 hn1 hn2 ht heq
    obtain ⟨d, rfl⟩ : ∃ d, t2 = t1 + (d + 1) := ⟨t2 - t1 - 1, by omega⟩
    rw [pow_add, ← mul_assoc] at heq
    have hpos : 0 < 2 ^ t1 := Nat.two_pow_pos _
    have heq2 : 2 ^ 52 + n1 = (2 ^ 52 + n2) * 2 ^ (d + 1) := by
      have := Nat.eq_of_mul_eq_mul_right hpos (by linarith [heq] : (2 ^ 52 + n1) * 2 ^ t1 = ((2 ^ 52 + n2) * 2 ^ (d + 1)) * 2 ^ t1)
      exact this
    have h2d : 2 ≤ 2 ^ (d + 1) := by
      rw [pow_succ]; have : 0 < 2 ^ d := Nat.two_pow_pos _; omega
    have : (2 ^ 52 + n2) * 2 ≤ (2 ^ 52 + n2) * 2 ^ (d + 1) := Nat.mul_le_mul_left _ h2d
    omega
  have pw : ∀ t : Nat, 1 ≤ 2 ^ t := fun t => Nat.two_pow_pos _
  by_cases z1 : e1 = 0 <;> by_cases z2 : e2 = 0
  · simp [z1, z2] at h; exact ⟨by omega, h⟩
  · simp only [z1, z2, if_true, if_false] at h
    have : (2 ^ 52 + m2) * 1 ≤ (2 ^ 52 + m2) * 2 ^ (e2 - 1) := Nat.mul_le_mul_left _ (pw _)
    omega
  · simp only [z1, z2, if_true, if_false] at h
    have : (2 ^ 52 + m1) * 1 ≤ (2 ^ 52 + m1) * 2 ^ (e1 - 1) := Nat.mul_le_mul_left _ (pw _)
    omega
  · simp only [z1, z2, if_false] at h
    rcases Nat.lt_trichotomy (e1 - 1) (e2 - 1) with hlt | heq | hgt
    · exact absurd h (key _ _ _ _ h1 h2 hlt)
    · rw [heq] at h
      have := Nat.eq_of_mul_eq_mul_right (pw (e2 - 1)) h
      exact ⟨by omega, by omega⟩
    · exact absurd h.symm (key _ _ _ _ h2 h1 hgt)

theorem flt64_decode_fin_unique (b1 b2 : Nat) (a : Int) (hb1 : b1 < 2 ^ 64) (hb2 : b2 < 2 ^ 64)
    (d1 : flt64_decode b1 = flt_class.fin a) (d2 : flt64_decode b2 = flt_class.fin a)
    (ha : a ≠ 0) : b1 = b2 := by
  unfold flt64_decode at d1 d2
  simp only at d1 d2
  split at d1
  · split at d1 <;> cases d1
  split at d2
  · split at d2 <;> cases d2
  injection d1 with d1
  injection d2 with d2
  have hm1 : b1 % 2 ^ 52 < 2 ^ 52 := Nat.mod_lt _ (by norm_num)
  have hm2 : b2 % 2 ^ 52 < 2 ^ 52 := Nat.mod_lt _ (by norm_num)
  generalize hM1 : (if b1 / 2 ^ 52 % 2048 = 0 then b1 % 2 ^ 52
    else (2 ^ 52 + b1 % 2 ^ 52) * 2 ^ (b1 / 2 ^ 52 % 2048 - 1)) = M1 at d1
  generalize hM2 : (if b2 / 2 ^ 52 % 2048 = 0 then b2 % 2 ^ 52
    else (2 ^ 52 + b2 % 2 ^ 52) * 2 ^ (b2 / 2 ^ 52 % 2048 - 1)) = M2 at d2
  have hs : b1 / 2 ^ 63 % 2 = b2 / 2 ^ 63 % 2 ∧ M1 = M2 := by
    split at d1 <;> split at d2 <;> omega
  have := flt_mag_inj _ _ _ _ hm1 hm2 (hM1.trans (hs.2.trans hM2.symm))
  omega

theorem flt64_decode_zero (b : Nat) (hb : b < 2 ^ 64)
    (d : flt64_decode b = flt_class.fin 0) : b = 0 ∨ b = 2 ^ 63 := by
  unfold flt64_decode at d
  simp only at d
  split at d
  · split at d <;> cases d
  injection d with d
  have pw : 1 ≤ 2 ^ (b / 2 ^ 52 % 2048 - 1) := Nat.two_pow_pos _
  have hM : (if b / 2 ^ 52 % 2048 = 0 then b % 2 ^ 52
    else (2 ^ 52 + b % 2 ^ 52) * 2 ^ (b / 2 ^ 52 % 2048 - 1)) = 0 := by
    split at d <;> omega
  split at hM
  · omega
  · have : (2 ^ 52 + b % 2 ^ 52) * 1 ≤ (2 ^ 52 + b % 2 ^ 52) * 2 ^ (b / 2 ^ 52 % 2048 - 1) :=
      Nat.mul_le_mul_left _ pw
    omega

theorem sub_byte_bias_100_r0 : ∀ j < 16, 1 ≤ j + 16 * 0 → j + 16 * 0 < 252 →
    flt64_decode (flt64_sub_byte (j + 16 * 0) BIAS_100_BITS)
        = flt_class.fin ((((j + 16 * 0 : Nat) : Int) - 100) * (flt_one : Int))
      ∧ flt64_sub_byte (j + 16 * 0) BIAS_100_BITS < 2 ^ 64
      ∧ (j + 16 * 0 = 100 → flt64_sub_byte (j + 16 * 0) BIAS_100_BITS = 0) := by
  decide!

theorem sub_byte_bias_100_r1 : ∀ j < 16, 1 ≤ j + 16 * 1 → j + 16 * 1 < 252 →
    flt64_decode (flt64_sub_byte (j + 16 * 1) BIAS_100_BITS)
        = flt_class.fin ((((j + 16 * 1 : Nat) : Int) - 100) * (flt_one : Int))
      ∧ flt64_sub_byte (j + 16 * 1) BIAS_100_BITS < 2 ^ 64
      ∧ (j + 16 * 1 = 100 → flt64_sub_byte (j + 16 * 1) BIAS_100_BITS = 0) := by
  decide!

theorem sub_byte_bias_100_r2 : ∀ j < 16, 1 ≤ j + 16 * 2 → j + 16 * 2 < 252 →
    flt64_decode (flt64_sub_byte (j + 16 * 2) BIAS_100_BITS)
        = flt_class.fin ((((j + 16 * 2 : Nat) : Int) - 100) * (flt_one : Int))
      ∧ flt64_sub_byte (j + 16 * 2) BIAS_100_BITS < 2 ^ 64
      ∧ (j + 16 * 2 = 100 → flt64_sub_byte (j + 16 * 2) BIAS_100_BITS = 0) := by
  decide!

theorem sub_byte_bias_100_r3 : ∀ j < 16, 1 ≤ j + 16 * 3 → j + 16 * 3 < 252 →
    flt64_decode (flt64_sub_byte (j + 16 * 3) BIAS_100_BITS)
        = flt_class.fin ((((j + 16 * 3 : Nat) : Int) - 100) * (flt_one : Int))
      ∧ flt64_sub_byte (j + 16 * 3) BIAS_100_BITS < 2 ^ 64
      ∧ (j + 16 * 3 = 100 → flt64_sub_byte (j + 16 * 3) BIAS_100_BITS = 0) := by
  decide!

theorem sub_byte_bias_100_r4 : ∀ j < 16, 1 ≤ j + 16 * 4 → j + 16 * 4 < 252 →
    flt64_decode (flt64_sub_byte (j + 16 * 4) BIAS_100_BITS)
        = flt_class.fin ((((j + 16 * 4 : Nat) : Int) - 100) * (flt_one : Int))
      ∧ flt64_sub_byte (j + 16 * 4) BIAS_100_BITS < 2 ^ 64
      ∧ (j + 16 * 4 = 100 → flt64_sub_byte (j + 16 * 4) BIAS_100_BITS = 0) := by
  decide!

theorem sub_byte_bias_100_r5 : ∀ j < 16, 1 ≤ j + 16 * 5 → j + 16 * 5 < 252 →
    flt64_decode (flt64_sub_byte (j + 16 * 5) BIAS_100_BITS)
        = flt_class.fin ((((j + 16 * 5 : Nat) : Int) - 100) * (flt_one : Int))
      ∧ flt64_sub_byte (j + 16 * 5) BIAS_100_BITS < 2 ^ 64
      ∧ (j + 16 * 5 = 100 → flt64_sub_byte (j + 16 * 5) BIAS_100_BITS = 0) := by
  decide!

theorem sub_byte_bias_100_r6 : ∀ j < 16, 1 ≤ j + 16 * 6 → j + 16 * 6 < 252 →
    flt64_decode (flt64_sub_byte (j + 16 * 6) BIAS_100_BITS)
        = flt_class.fin ((((j + 16 * 6 : Nat) : Int) - 100) * (flt_one : Int))
      ∧ flt64_sub_byte (j + 16 * 6) BIAS_100_BITS < 2 ^ 64
      ∧ (j + 16 * 6 = 100 → flt64_sub_byte (j + 16 * 6) BIAS_100_BITS = 0) := by
  decide!

theorem sub_byte_bias_100_r7 : ∀ j < 16, 1 ≤ j + 16 * 7 → j + 16 * 7 < 252 →
    flt64_decode (flt64_sub_byte (j + 16 * 7) BIAS_100_BITS)
        = flt_class.fin ((((j + 16 * 7 : Nat) : Int) - 100) * (flt_one : Int))
      ∧ flt64_sub_byte (j + 16 * 7) BIAS_100_BITS < 2 ^ 64
      ∧ (j + 16 * 7 = 100 → flt64_sub_byte (j + 16 * 7) BIAS_100_BITS = 0) := by
  decide!

theorem sub_byte_bias_100_r8 : ∀ j < 16, 1 ≤ j + 16 * 8 → j + 16 * 8 < 252 →
    flt64_decode (flt64_sub_byte (j + 16 * 8) BIAS_100_BITS)
        = flt_class.fin ((((j + 16 * 8 : Nat) : Int) - 100) * (flt_one : Int))
      ∧ flt64_sub_byte (j + 16 * 8) BIAS_100_BITS < 2 ^ 64
      ∧ (j + 16 * 8 = 100 → flt64_sub_byte (j + 16 * 8) BIAS_100_BITS = 0) := by
  decide!

theorem sub_byte_bias_100_r9 : ∀ j < 16, 1 ≤ j + 16 * 9 → j + 16 * 9 < 252 →
    flt64_decode (flt64_sub_byte (j + 16 * 9) BIAS_100_BITS)
        = flt_class.fin ((((j + 16 * 9 : Nat) : Int) - 100) * (flt_one : Int))
      ∧ flt64_sub_byte (j + 16 * 9) BIAS_100_BITS < 2 ^ 64
      ∧ (j + 16 * 9 = 100 → flt64_sub_byte (j + 16 * 9) BIAS_100_BITS = 0) := by
  decide!

theorem sub_byte_bias_100_r10 : ∀ j < 16, 1 ≤ j + 16 * 10 → j + 16 * 10 < 252 →
    flt64_decode (flt64_sub_byte (j + 16 * 10) BIAS_100_BITS)
        = flt_class.fin ((((j + 16 * 10 : Nat) : Int) - 100) * (flt_one : Int))
      ∧ flt64_sub_byte (j + 16 * 10) BIAS_100_BITS < 2 ^ 64
      ∧ (j + 16 * 10 = 100 → flt64_sub_byte (j + 16 * 10) BIAS_100_BITS = 0) := by
  decide!

theorem sub_byte_bias_100_r11 : ∀ j < 16, 1 ≤ j + 16 * 11 → j + 16 * 11 < 252 →
    flt64_decode (flt64_sub_byte (j + 16 * 11) BIAS_100_BITS)
        = flt_class.fin ((((j + 16 * 11 : Nat) : Int) - 100) * (flt_one : Int))
      ∧ flt64_sub_byte (j + 16 * 11) BIAS_100_BITS < 2 ^ 64
      ∧ (j + 16 * 11 = 100 → flt64_sub_byte (j + 16 * 11) BIAS_100_BITS = 0) := by
  decide!

theorem sub_byte_bias_100_r12 : ∀ j < 16, 1 ≤ j + 16 * 12 → j + 16 * 12 < 252 →
    flt64_decode (flt64_sub_byte (j + 16 * 12) BIAS_100_BITS)
        = flt_class.fin ((((j + 16 * 12 : Nat) : Int) - 100) * (flt_one : Int))
      ∧ flt64_sub_byte (j + 16 * 12) BIAS_100_BITS < 2 ^ 64
      ∧ (j + 16 * 12 = 100 → flt64_sub_byte (j + 16 * 12) BIAS_100_BITS = 0) := by
  decide!

theorem sub_byte_bias_100_r13 : ∀ j < 16, 1 ≤ j + 16 * 13 → j + 16 * 13 < 252 →
    flt64_decode (flt64_sub_byte (j + 16 * 13) BIAS_100_BITS)
        = flt_class.fin ((((j + 16 * 13 : Nat) : Int) - 100) * (flt_one : Int))
      ∧ flt64_sub_byte (j + 16 * 13) BIAS_100_BITS < 2 ^ 64
      ∧ (j + 16 * 13 = 100 → flt64_sub_byte (j + 16 * 13) BIAS_100_BITS = 0) := by
  decide!

theorem sub_byte_bias_100_r14 : ∀ j < 16, 1 ≤ j + 16 * 14 → j + 16 * 14 < 252 →
    flt64_decode (flt64_sub_byte (j + 16 * 14) BIAS_100_BITS)
        = flt_class.fin ((((j + 16 * 14 : Nat) : Int) - 100) * (flt_one : Int))
      ∧ flt64_sub_byte (j + 16 * 14) BIAS_100_BITS < 2 ^ 64
      ∧ (j + 16 * 14 = 100 → flt64_sub_byte (j + 16 * 14) BIAS_100_BITS = 0) := by
  decide!

theorem sub_byte_bias_100_r15 : ∀ j < 16, 1 ≤ j + 16 * 15 → j + 16 * 15 < 252 →
    flt64_decode (flt64_sub_byte (j + 16 * 15) BIAS_100_BITS)
        = flt_class.fin ((((j + 16 * 15 : Nat) : Int) - 100) * (flt_one : Int))
      ∧ flt64_sub_byte (j + 16 * 15) BIAS_100_BITS < 2 ^ 64
      ∧ (j + 16 * 15 = 100 → flt64_sub_byte (j + 16 * 15) BIAS_100_BITS = 0) := by
  decide!

theorem sub_byte_bias_100 : ∀ k < 252, 1 ≤ k →
    flt64_decode (flt64_sub_byte k BIAS_100_BITS)
        = flt_class.fin (((k : Int) - 100) * (flt_one : Int))
      ∧ flt64_sub_byte k BIAS_100_BITS < 2 ^ 64
      ∧ (k = 100 → flt64_sub_byte k BIAS_100_BITS = 0) := by
  intro k hk h1
  obtain ⟨q, j, hj, rfl⟩ : ∃ q j, j < 16 ∧ k = j + 16 * q :=
    ⟨k / 16, k % 16, Nat.mod_lt _ (by decide), by omega⟩
  have hq : q < 16 := by omega
  interval_cases q
  · exact sub_byte_bias_100_r0 j hj h1 hk
  · exact sub_byte_bias_100_r1 j hj h1 hk
  · exact sub_byte_bias_100_r2 j hj h1 hk
  · exact sub_byte_bias_100_r3 j hj h1 hk
  · exact sub_byte_bias_100_r4 j hj h1 hk
  · exact sub_byte_bias_100_r5 j hj h1 hk
  · exact sub_byte_bias_100_r6 j hj h1 hk
  · exact sub_byte_bias_100_r7 j hj h1 hk
  · exact sub_byte_bias_100_r8 j hj h1 hk
  · exact sub_byte_bias_100_r9 j hj h1 hk
  · exact sub_byte_bias_100_r10 j hj h1 hk
  · exact sub_byte_bias_100_r11 j hj h1 hk
  · exact sub_byte_bias_100_r12 j hj h1 hk
  · exact sub_byte_bias_100_r13 j hj h1 hk
  · exact sub_byte_bias_100_r14 j hj h1 hk
  · exact sub_byte_bias_100_r15 j hj h1 hk

theorem decode_neg_max :
    flt64_decode NEG_FLT64_MAX_BITS = flt_class.fin (-(((2 ^ 53 - 1) * 2 ^ 2045 : Nat) : Int)) := by
  decide!

theorem flt_one_pos : (0 : Int) < (flt_one : Int) := by
  unfold flt_one; positivity

theorem spec_num_code_range (big : Bool) (e : List Nat) :
    (1 ≤ spec_num_code big e ∧ spec_num_code big e ≤ 251) ∨ spec_num_code big e = 253
      ∨ spec_num_code big e = 255 := by
  unfold spec_num_code
  split
  · split
    · right; right; rfl
    · split
      · left; omega
      · right; left; rfl
  · right; left; rfl

theorem int_range_of_scaled (a : Int)
    (h : ((1 - 100 : Int) * (flt_one : Int) ≤ a ∧ a ≤ (251 - 100 : Int) * (flt_one : Int))
      ∧ a = a.tdiv (flt_one : Int) * (flt_one : Int)) :
    (flt_one : Int) ∣ a ∧ -99 ≤ a / (flt_one : Int) ∧ a / (flt_one : Int) ≤ 151
      ∧ a.tdiv (flt_one : Int) = a / (flt_one : Int) := by
  have hone := flt_one_pos
  have hd : (flt_one : Int) ∣ a := ⟨a.tdiv flt_one, by rw [mul_comm]; exact h.2⟩
  have h3 : a / (flt_one : Int) * (flt_one : Int) = a := Int.ediv_mul_cancel hd
  refine ⟨hd, ?_, ?_, Int.tdiv_eq_ediv_of_dvd hd⟩
  · by_contra hc
    push_neg at hc
    have : a / (flt_one : Int) * (flt_one : Int) ≤ (-100 : Int) * (flt_one : Int) :=
      Int.mul_le_mul_of_nonneg_right (by omega) hone.le
    linarith [h.1.1]
  · by_contra hc
    push_neg at hc
    have : (152 : Int) * (flt_one : Int) ≤ a / (flt_one : Int) * (flt_one : Int) :=
      Int.mul_le_mul_of_nonneg_right (by omega) hone.le
    linarith [h.1.2]

theorem scaled_of_int_range (a : Int)
    (h : (flt_one : Int) ∣ a ∧ -99 ≤ a / (flt_one : Int) ∧ a / (flt_one : Int) ≤ 151) :
    ((1 - 100 : Int) * (flt_one : Int) ≤ a ∧ a ≤ (251 - 100 : Int) * (flt_one : Int))
      ∧ a = a.tdiv (flt_one : Int) * (flt_one : Int) := by
  have hone := flt_one_pos
  obtain ⟨hd, hlo, hhi⟩ := h
  have h3 : a / (flt_one : Int) * (flt_one : Int) = a := Int.ediv_mul_cancel hd
  refine ⟨⟨?_, ?_⟩, ?_⟩
  · have : (-99 : Int) * (flt_one : Int) ≤ a / (flt_one : Int) * (flt_one : Int) :=
      Int.mul_le_mul_of_nonneg_right hlo hone.le
    linarith
  · have : a / (flt_one : Int) * (flt_one : Int) ≤ (151 : Int) * (flt_one : Int) :=
      Int.mul_le_mul_of_nonneg_right hhi hone.le
    linarith
  · rw [Int.tdiv_eq_ediv_of_dvd hd, h3]

theorem write_compressed_num_eq (big : Bool) (w : Writer.sfm_writer) (e : List Nat) :
    Writer.write_compressed_num big w e = put_item w (num_item big e) := by
  obtain ⟨m, hm⟩ : ∃ m, flt64_decode NEG_FLT64_MAX_BITS = flt_class.fin m :=
    ⟨_, decode_neg_max⟩
  unfold Writer.write_compressed_num put_item num_item spec_num_code
  rw [hm]
  cases hv : flt64_val big e with
  | nan => simp [flt_eq, flt_le]
  | inf b => cases b <;> simp [flt_eq, flt_le, flt_of_int]
  | fin a =>
    simp only [flt_eq, flt_of_int, flt_le, flt_to_int, COMPRESSION_BIAS,
      flt_class.fin.injEq, decide_eq_true_eq, Bool.and_eq_true]
    by_cases h1 : a = m
    · simp only [h1, if_true]
      rfl
    · simp only [h1, if_false]
      by_cases h2 : ((1 - 100 : Int) * (flt_one : Int) ≤ a ∧ a ≤ (251 - 100 : Int) * (flt_one : Int))
          ∧ a = a.tdiv (flt_one : Int) * (flt_one : Int)
      · obtain ⟨hd, hlo, hhi, hq⟩ := int_range_of_scaled a h2
        have h3 : ((flt_one : Int) ∣ a ∧ -99 ≤ a / (flt_one : Int) ∧ a / (flt_one : Int) ≤ 151) :=
          ⟨hd, hlo, hhi⟩
        have hne : ¬ ((a / (flt_one : Int) + 100).toNat = 253) := by omega
        rw [if_pos h2, if_pos h3, if_neg hne, hq]
        congr 1
        omega
      · have h3 : ¬ ((flt_one : Int) ∣ a ∧ -99 ≤ a / (flt_one : Int) ∧ a / (flt_one : Int) ≤ 151) :=
          fun h => h2 (scaled_of_int_range a h)
        rw [if_neg h2, if_neg h3]
        rfl

theorem write_compressed_str_eq (j : Nat) (w : Writer.sfm_writer) (elem : List Nat) :
    Writer.write_compressed_str j w elem
      = ((str_items j elem).1.foldl put_item w, (str_items j elem).2) := by
  induction j generalizing w elem with
  | zero => rfl
  | succ j ih =>
    simp only [Writer.write_compressed_str, str_items, List.foldl_cons]
    rw [ih]
    congr 2
    unfold put_item str_item spec_str_code
    have : List.replicate 8 32 = [32, 32, 32, 32, 32, 32, 32, 32] := rfl
    rw [this]
    by_cases h : List.take 8 elem = [32, 32, 32, 32, 32, 32, 32, 32]
    · simp [h]
    · simp [h]

theorem write_compressed_vars_eq (big : Bool) (vs : List Writer.sfm_var)
    (w : Writer.sfm_writer) (elem : List Nat) :
    Writer.write_compressed_vars big vs w elem = (case_items big vs elem).foldl put_item w := by
  induction vs generalizing w elem with
  | nil => rfl
  | cons v vs ih =>
    simp only [Writer.write_compressed_vars, case_items]
    split
    · rw [ih, write_compressed_num_eq]; rfl
    · rw [write_compressed_str_eq, ih, List.foldl_append]

theorem list_set_mid (P Q : List Nat) (j c : Nat) :
    (P ++ j :: Q).set P.length c = P ++ c :: Q := by
  induction P with
  | nil => rfl
  | cons p P ih => simp [List.set, ih]

theorem memset_mid (P J Q : List Nat) (c n : Nat) (h : J.length = n) :
    memset (P ++ J ++ Q) P.length c n = P ++ List.replicate n c ++ Q := by
  unfold memset
  have h1 : List.take P.length (P ++ J ++ Q) = P := by
    rw [List.append_assoc]; exact List.take_left' rfl
  have h2 : List.drop (P.length + n) (P ++ J ++ Q) = Q :=
    List.drop_left' (by simp [h])
  rw [h1, h2]
  congr 2
  simp only [List.length_append]
  congr 1
  omega

theorem memcpy_mid (P J Q src : List Nat) (h : J.length = src.length) :
    memcpy (P ++ J ++ Q) P.length src = P ++ src ++ Q := by
  unfold memcpy
  have h1 : List.take P.length (P ++ J ++ Q) = P := by
    rw [List.append_assoc]; exact List.take_left' rfl
  have h2 : List.drop (P.length + src.length) (P ++ J ++ Q) = Q :=
    List.drop_left' (by simp [h])
  rw [h1, h2, List.take_of_length_le (by simp only [List.length_append]; omega)]

theorem codes_append (g : List item) (it : item) : codes (g ++ [it]) = codes g ++ [it.1] := by
  simp [codes]

theorem lits_append (g : List item) (it : item) : lits (g ++ [it]) = lits g ++ it.2 := by
  simp [lits]

theorem codes_length (g : List item) : (codes g).length = g.length := by
  simp [codes]

theorem render_append (gs : List (List item)) (g : List item) :
    render (gs ++ [g]) = render gs ++ render_group g := by
  simp [render]

theorem buf_write_ok (w : Writer.sfm_writer) (data : List Nat) (hio : w.io = [])
    (hd : data.length ≠ 0) :
    Writer.buf_write w data = (true, { w with file := w.file ++ data }) := by
  unfold Writer.buf_write
  rw [hio]
  simp [hd]

theorem put_instruction_open (base : List Nat) (w : Writer.sfm_writer) (g0 : List (List item))
    (cur : List item) (c : Nat) (h : winv base w g0 cur false) (hlen : cur.length < 8) :
    winv base (Writer.put_instruction w c) g0 (cur ++ [(c, [])]) false := by
  obtain ⟨hbuf, hend, hp1, hp2, hio, hcur, hrest⟩ := h
  simp only [Bool.false_eq_true, if_false] at hrest
  obtain ⟨F, A, J, R, hfile, hFA, hb, hx, hy, hJ, hptr⟩ := hrest
  have hlt : ¬ (w.x ≥ w.y) := by omega
  unfold Writer.put_instruction
  rw [if_neg hlt]
  obtain ⟨j, J', rfl⟩ : ∃ j J', J = j :: J' := by
    cases J with
    | nil => simp at hJ; omega
    | cons j J' => exact ⟨j, J', rfl⟩
  refine ⟨?_, hend, hp1, hp2, hio, ?_, ?_⟩
  · simp [hbuf]
  · simp; omega
  · simp only [Bool.false_eq_true, if_false]
    refine ⟨F, A, J', R, hfile, hFA, ?_, ?_, ?_, ?_, ?_⟩
    · show w.buf.set w.x c = _
      rw [hb, hx]
      have e1 : A ++ codes cur ++ (j :: J') ++ lits cur ++ R
          = (A ++ codes cur) ++ j :: (J' ++ lits cur ++ R) := by simp
      have e2 : A.length + cur.length = (A ++ codes cur).length := by simp [codes]
      rw [e1, e2, list_set_mid, codes_append, lits_append]
      simp
    · show w.x + 1 = _
      simp; omega
    · exact hy
    · simp at hJ ⊢; omega
    · rw [lits_append]; simpa using hptr

theorem winv_full_of_open (base : List Nat) (w : Writer.sfm_writer) (g0 : List (List item))
    (cur : List item) (h : winv base w g0 cur false) (hlen : cur.length = 8) :
    winv base w g0 cur true := by
  obtain ⟨hbuf, hend, hp1, hp2, hio, hcur, hrest⟩ := h
  simp only [Bool.false_eq_true, if_false] at hrest
  obtain ⟨F, A, J, R, hfile, hFA, hb, hx, hy, hJ, hptr⟩ := hrest
  refine ⟨hbuf, hend, hp1, hp2, hio, hcur, ?_⟩
  simp only [if_true]
  refine ⟨by omega, F, hfile, ?_⟩
  have hJ0 : J = [] := by
    apply List.eq_nil_of_length_eq_zero; omega
  subst hJ0
  have e1 : w.buf = (A ++ codes cur ++ lits cur) ++ R := by rw [hb]; simp
  have e2 : 8 * w.ptr = (A ++ codes cur ++ lits cur).length := by
    simp [codes_length]; omega
  rw [e1, e2, List.take_left' rfl, render_append, ← hFA]
  simp [render_group, octet, hlen]

theorem memset_length (p : List Nat) (off c n : Nat) : (memset p off c n).length = p.length := by
  unfold memset
  simp only [List.length_append, List.length_take, List.length_replicate, List.length_drop]
  omega

theorem mem_read_all (p : List Nat) (n : Nat) (h : p.length ≤ n) : mem_read p 0 n = p := by
  unfold mem_read
  rw [List.drop_zero]
  exact List.take_of_length_le h

theorem ensure_buf_space_flush (w : Writer.sfm_writer) (hfl : w.ptr ≥ w.end_) (hio : w.io = [])
    (hbuf : w.buf.length = 1024) :
    Writer.ensure_buf_space w = (true,
      { w with
        buf := memset w.buf w.x 0 (w.y - w.x)
        x := w.y
        ptr := 0
        file := w.file ++ memset w.buf w.x 0 (w.y - w.x) }) := by
  unfold Writer.ensure_buf_space
  rw [if_pos hfl]
  simp only []
  rw [mem_read_all _ _ (by rw [memset_length]; omega)]
  unfold Writer.buf_write
  simp [hio, memset_length, hbuf]

theorem ensure_buf_space_room (w : Writer.sfm_writer) (hfl : ¬ w.ptr ≥ w.end_) :
    Writer.ensure_buf_space w = (true, w) := by
  unfold Writer.ensure_buf_space
  rw [if_neg hfl]

theorem memset_none (p : List Nat) (off c : Nat) : memset p off c 0 = p := by
  unfold memset
  simp

theorem put_instruction_full (base : List Nat) (w : Writer.sfm_writer)
    (g0 : List (List item)) (cur : List item) (c : Nat) (h : winv base w g0 cur true) :
    winv base (Writer.put_instruction w c) (g0 ++ [cur]) [(c, [])] false := by
  obtain ⟨hbuf, hend, hp1, hp2, hio, hcur, hrest⟩ := h
  simp only [if_true] at hrest
  obtain ⟨hxy, F, hfile, hF⟩ := hrest
  have hge : w.x ≥ w.y := by omega
  unfold Writer.put_instruction
  rw [if_pos hge]
  by_cases hfl : w.ptr ≥ w.end_
  · -- the buffer is full and is written out
    have hp : w.ptr = 128 := by omega
    rw [ensure_buf_space_flush w hfl hio hbuf]
    have hz : w.y - w.x = 0 := by omega
    rw [hz, memset_none]
    obtain ⟨b0, B, hB⟩ : ∃ b0 B, w.buf = b0 :: B := by
      cases hw : w.buf with
      | nil => rw [hw] at hbuf; simp at hbuf
      | cons b0 B => exact ⟨b0, B, rfl⟩
    refine ⟨by simp [hbuf], hend, by simp, by simp, hio, by simp, ?_⟩
    simp only [Bool.false_eq_true, if_false]
    refine ⟨F ++ w.buf, [], B.take 7, B.drop 7, ?_, ?_, ?_, ?_, ?_, ?_, ?_⟩
    · simp [hfile]
    · rw [← hF, hp, List.take_of_length_le (by omega)]
      simp
    · show w.buf.set (8 * 0) c = _
      rw [hB]
      simp [codes, lits]
    · simp
    · simp
    · rw [hB] at hbuf; simp at hbuf; simp; omega
    · simp [lits]
  · -- there is room for a new octet
    rw [ensure_buf_space_room w hfl]
    have hp : w.ptr < 128 := by omega
    simp only []
    obtain ⟨j, J, hJ⟩ : ∃ j J, w.buf.drop (8 * w.ptr) = j :: J := by
      cases hd : w.buf.drop (8 * w.ptr) with
      | nil =>
        have := congrArg List.length hd
        simp at this; omega
      | cons j J => exact ⟨j, J, rfl⟩
    have hJl : J.length = 1023 - 8 * w.ptr := by
      have := congrArg List.length hJ
      simp at this; omega
    have htl : (w.buf.take (8 * w.ptr)).length = 8 * w.ptr := by
      simp; omega
    have hs : w.buf.set (8 * w.ptr) c = w.buf.take (8 * w.ptr) ++ c :: J := by
      have := list_set_mid (w.buf.take (8 * w.ptr)) J j c
      rw [← hJ, List.take_append_drop, htl] at this
      exact this
    refine ⟨by simp [hbuf], hend, by simp, by simp; omega, hio, by simp, ?_⟩
    simp only [Bool.false_eq_true, if_false]
    refine ⟨F, w.buf.take (8 * w.ptr), J.take 7, J.drop 7, hfile, hF, ?_, ?_, ?_, ?_, ?_⟩
    · show w.buf.set (8 * w.ptr) c = _
      rw [hs]
      simp [codes, lits]
    · show 8 * w.ptr + 1 = _
      simp; omega
    · show 8 * (w.ptr + 1) = _
      simp; omega
    · simp; omega
    · show 8 * (w.ptr + 1) = _
      simp [lits]; omega


theorem memset_mid_at (P J Q : List Nat) (c n off : Nat) (ho : off = P.length)
    (h : J.length = n) :
    memset (P ++ J ++ Q) off c n = P ++ List.replicate n c ++ Q := by
  rw [ho]; exact memset_mid P J Q c n h

theorem put_element_open (base : List Nat) (w : Writer.sfm_writer) (g0 : List (List item))
    (cur1 cur2 : List item) (e : List Nat) (hc : codes cur2 = codes cur1)
    (hl : lits cur2 = lits cur1 ++ e) (hn : cur2.length = cur1.length)
    (h : winv base w g0 cur1 false) (he : e.length = 8) :
    ∃ full, winv base (Writer.put_element w e) g0 cur2 full := by
  obtain ⟨hbuf, hend, hp1, hp2, hio, hcur, hrest⟩ := h
  simp only [Bool.false_eq_true, if_false] at hrest
  obtain ⟨F, A, J, R, hfile, hFA, hb, hx, hy, hJ, hptr⟩ := hrest
  have hoct : octet cur2 = octet cur1 := by simp [octet, hc, hn]
  have het : e.take 8 = e := List.take_of_length_le (by omega)
  have htot : A.length + 8 + (lits cur1).length + R.length = 1024 := by
    have := congrArg List.length hb
    simp only [List.length_append, codes_length] at this
    omega
  unfold Writer.put_element
  by_cases hfl : w.ptr ≥ w.end_
  · have hp : w.ptr = 128 := by omega
    rw [ensure_buf_space_flush w hfl hio hbuf]
    have hR : R = [] := by
      apply List.eq_nil_of_length_eq_zero; omega
    subst hR
    have hms : memset w.buf w.x 0 (w.y - w.x) = A ++ octet cur1 ++ lits cur1 := by
      have e1 : w.buf = (A ++ codes cur1) ++ J ++ lits cur1 := by rw [hb]; simp
      have e2 : w.x = (A ++ codes cur1).length := by
        rw [hx]; simp [codes_length]
      have e3 : J.length = w.y - w.x := by omega
      rw [e1, memset_mid_at _ _ _ _ _ _ e2 e3]
      have e4 : w.y - w.x = 8 - cur1.length := by omega
      rw [e4]
      simp [octet]
    rw [hms]
    have hml : (A ++ octet cur1 ++ lits cur1).length = 1024 := by
      rw [← hms, memset_length, hbuf]
    have htk : List.take 8 (memcpy (A ++ octet cur1 ++ lits cur1) 0 e) = e := by
      unfold memcpy
      simp only [List.take_zero, List.nil_append, Nat.sub_zero]
      rw [List.take_of_length_le (by omega : e.length ≤ _)]
      rw [List.take_append_of_le_length (by omega)]
      exact List.take_of_length_le (by omega)
    refine ⟨true, ?_, hend, by simp, by simp, hio, by rw [hn]; exact hcur, ?_⟩
    · show (memcpy _ (8 * 0) (e.take 8)).length = 1024
      rw [het]
      simp only [memcpy, List.length_append, List.length_take, List.length_drop, hml]
      omega
    · simp only [if_true]
      refine ⟨trivial, F ++ (A ++ octet cur1 ++ lits cur1), ?_, ?_⟩
      · simp [hfile]
      · show _ ++ List.take (8 * (0 + 1)) (memcpy _ (8 * 0) (e.take 8)) = _
        rw [het]
        simp only [Nat.mul_zero, Nat.zero_add, Nat.mul_one]
        rw [htk, render_append, ← hFA, render_group, hoct, hl]
        simp
  · rw [ensure_buf_space_room w hfl]
    have hp : w.ptr < 128 := by omega
    simp only []
    have hRl : 8 ≤ R.length := by omega
    have e1 : w.buf = (A ++ codes cur1 ++ J ++ lits cur1) ++ R.take 8 ++ R.drop 8 := by
      rw [hb]; simp
    have e2 : 8 * w.ptr = (A ++ codes cur1 ++ J ++ lits cur1).length := by
      simp only [List.length_append, codes_length]
      omega
    have hmc : memcpy w.buf (8 * w.ptr) (e.take 8)
        = (A ++ codes cur1 ++ J ++ lits cur1) ++ e ++ R.drop 8 := by
      rw [het, e1, e2, memcpy_mid _ _ _ _ (by simp [he]; omega)]
    refine ⟨false, ?_, hend, by simp, by simp; omega, hio, by rw [hn]; exact hcur, ?_⟩
    · show (memcpy w.buf (8 * w.ptr) (e.take 8)).length = 1024
      rw [hmc]
      simp only [List.length_append, codes_length, List.length_drop, he]
      omega
    · simp only [Bool.false_eq_true, if_false]
      refine ⟨F, A, J, R.drop 8, hfile, hFA, ?_, ?_, ?_, ?_, ?_⟩
      · show memcpy w.buf (8 * w.ptr) (e.take 8) = _
        rw [hmc, hc, hl]
        simp
      · rw [hn]; exact hx
      · exact hy
      · rw [hn]; exact hJ
      · show 8 * (w.ptr + 1) = _
        rw [hl]
        simp only [List.length_append, he]
        omega

theorem put_instruction_any (base : List Nat) (w : Writer.sfm_writer) (g0 : List (List item))
    (cur : List item) (full : Bool) (c : Nat) (h : winv base w g0 cur full)
    (hg : ∀ g ∈ g0, g.length ≤ 8) :
    ∃ g1 c1, winv base (Writer.put_instruction w c) g1 (c1 ++ [(c, [])]) false
      ∧ (g1 ++ [c1]).flatten = (g0 ++ [cur]).flatten ∧ (∀ g ∈ g1, g.length ≤ 8) := by
  have hcur : cur.length ≤ 8 := h.2.2.2.2.2.1
  have hfullcase : winv base w g0 cur true →
      ∃ g1 c1, winv base (Writer.put_instruction w c) g1 (c1 ++ [(c, [])]) false
        ∧ (g1 ++ [c1]).flatten = (g0 ++ [cur]).flatten ∧ (∀ g ∈ g1, g.length ≤ 8) := by
    intro hf
    refine ⟨g0 ++ [cur], [], put_instruction_full base w g0 cur c hf, by simp, ?_⟩
    intro g hgm
    rcases List.mem_append.mp hgm with h1 | h1
    · exact hg g h1
    · simp at h1; rw [h1]; exact hcur
  cases full with
  | true => exact hfullcase h
  | false =>
    by_cases hl : cur.length < 8
    · exact ⟨g0, cur, put_instruction_open base w g0 cur c h hl, rfl, hg⟩
    · exact hfullcase (winv_full_of_open base w g0 cur h (by omega))

theorem put_item_inv (base : List Nat) (w : Writer.sfm_writer) (g0 : List (List item))
    (cur : List item) (full : Bool) (it : item) (h : winv base w g0 cur full)
    (hg : ∀ g ∈ g0, g.length ≤ 8) (hit : item_ok it) :
    ∃ g1 c1 f1, winv base (put_item w it) g1 c1 f1
      ∧ (g1 ++ [c1]).flatten = (g0 ++ [cur]).flatten ++ [it] ∧ (∀ g ∈ g1, g.length ≤ 8) := by
  unfold put_item
  by_cases h253 : it.1 = 253
  · rw [if_pos h253]
    have hlen : it.2.length = 8 := by
      rcases hit with h1 | h1
      · exact h1.2
      · exact absurd h253 h1.1
    obtain ⟨g1, c1, hw, hfl, hg1⟩ := put_instruction_any base w g0 cur full 253 h hg
    obtain ⟨f1, hw2⟩ := put_element_open base _ g1 (c1 ++ [(253, [])]) (c1 ++ [it]) it.2
      (by simp [codes, h253]) (by simp [lits]) (by simp) hw hlen
    refine ⟨g1, c1 ++ [it], f1, hw2, ?_, hg1⟩
    simp only [List.flatten_append, List.flatten_cons, List.flatten_nil, List.append_nil] at hfl ⊢
    rw [← List.append_assoc, hfl]
  · rw [if_neg h253]
    have hnil : it.2 = [] := by
      rcases hit with h1 | h1
      · exact absurd h1.1 h253
      · exact h1.2.2.2
    obtain ⟨g1, c1, hw, hfl, hg1⟩ := put_instruction_any base w g0 cur full it.1 h hg
    have hit2 : ((it.1, ([] : List Nat)) : item) = it := by
      rw [← hnil]
    rw [hit2] at hw
    refine ⟨g1, c1 ++ [it], false, hw, ?_, hg1⟩
    simp only [List.flatten_append, List.flatten_cons, List.flatten_nil, List.append_nil] at hfl ⊢
    rw [← List.append_assoc, hfl]

theorem put_items_inv (base : List Nat) (its : List item) (w : Writer.sfm_writer)
    (g0 : List (List item)) (cur : List item) (full : Bool) (h : winv base w g0 cur full)
    (hg : ∀ g ∈ g0, g.length ≤ 8) (hit : ∀ it ∈ its, item_ok it) :
    ∃ g1 c1 f1, winv base (its.foldl put_item w) g1 c1 f1
      ∧ (g1 ++ [c1]).flatten = (g0 ++ [cur]).flatten ++ its ∧ (∀ g ∈ g1, g.length ≤ 8) := by
  induction its generalizing w g0 cur full with
  | nil => exact ⟨g0, cur, full, h, by simp, hg⟩
  | cons it its ih =>
    obtain ⟨g1, c1, f1, hw, hfl, hg1⟩ :=
      put_item_inv base w g0 cur full it h hg (hit it (List.mem_cons_self _ _))
    obtain ⟨g2, c2, f2, hw2, hfl2, hg2⟩ :=
      ih (put_item w it) g1 c1 f1 hw hg1 (fun i hi => hit i (List.mem_cons_of_mem _ hi))
    refine ⟨g2, c2, f2, hw2, ?_, hg2⟩
    rw [hfl2, hfl]
    simp

theorem buf_write_meta (w : Writer.sfm_writer) (d : List Nat) :
    same_meta w (Writer.buf_write w d).2 := by
  unfold Writer.buf_write same_meta
  cases w.io with
  | nil => simp only []; split <;> simp
  | cons ok rest => simp only []; split <;> simp

theorem same_meta_trans (a b c : Writer.sfm_writer) (h1 : same_meta a b) (h2 : same_meta b c) :
    same_meta a c := by
  unfold same_meta at *
  obtain ⟨a1, a2, a3, a4, a5⟩ := h1
  obtain ⟨b1, b2, b3, b4, b5⟩ := h2
  exact ⟨b1.trans a1, b2.trans a2, b3.trans a3, b4.trans a4, b5.trans a5⟩

theorem ensure_buf_space_meta (w : Writer.sfm_writer) :
    same_meta w (Writer.ensure_buf_space w).2 := by
  unfold Writer.ensure_buf_space
  split
  · exact same_meta_trans _ _ _ (by simp [same_meta]) (buf_write_meta _ _)
  · simp [same_meta]

theorem put_instruction_meta (w : Writer.sfm_writer) (c : Nat) :
    same_meta w (Writer.put_instruction w c) := by
  unfold Writer.put_instruction
  have h := ensure_buf_space_meta w
  split
  · split
    · rename_i heq; rw [heq] at h; exact h
    · rename_i heq; rw [heq] at h
      exact same_meta_trans _ _ _ h (by simp [same_meta])
  · simp [same_meta]

theorem put_element_meta (w : Writer.sfm_writer) (e : List Nat) :
    same_meta w (Writer.put_element w e) := by
  unfold Writer.put_element
  have h := ensure_buf_space_meta w
  split
  · rename_i heq; rw [heq] at h; exact h
  · rename_i heq; rw [heq] at h
    exact same_meta_trans _ _ _ h (by simp [same_meta])

theorem put_item_meta (w : Writer.sfm_writer) (it : item) : same_meta w (put_item w it) := by
  unfold put_item
  split
  · exact same_meta_trans _ _ _ (put_instruction_meta _ _) (put_element_meta _ _)
  · exact put_instruction_meta _ _

theorem put_items_meta (its : List item) (w : Writer.sfm_writer) :
    same_meta w (its.foldl put_item w) := by
  induction its generalizing w with
  | nil => simp [same_meta]
  | cons it its ih => exact same_meta_trans _ _ _ (put_item_meta w it) (ih _)

section

open Reader

theorem elements_length (n : Nat) (bs : List Nat) : (elements n bs).length = n := by
  induction n generalizing bs with
  | zero => rfl
  | succ n ih => simp [elements, ih]

theorem elements_flatten (n : Nat) (bs : List Nat) (h : 8 * n ≤ bs.length) :
    (elements n bs).flatten = bs.take (8 * n) := by
  induction n generalizing bs with
  | zero => simp [elements]
  | succ n ih =>
    simp only [elements, List.flatten_cons]
    rw [ih _ (by simp; omega)]
    rw [show 8 * (n + 1) = 8 + 8 * n by ring, List.take_add]

theorem elements_len8 (n : Nat) (bs : List Nat) (h : 8 * n ≤ bs.length) :
    ∀ e ∈ elements n bs, e.length = 8 := by
  induction n generalizing bs with
  | zero => intro e he; simp [elements] at he
  | succ n ih =>
    intro e he
    simp only [elements, List.mem_cons] at he
    rcases he with h1 | h1
    · rw [h1]; simp; omega
    · exact ih _ (by simp; omega) e h1

theorem next_element_some (r : sfm_reader) (s P : List Nat)
    (hb : ∀ e ∈ r.buf, e.length = 8) (hf : r.file.length % 8 = 0)
    (hp : pending r = s ++ P) (hs : s.length = 8) :
    ∃ b f, next_element r = (some s, { r with buf := b, file := f })
      ∧ (∀ e ∈ b, e.length = 8) ∧ f.length % 8 = 0 ∧ b.flatten ++ f = P := by
  unfold next_element
  cases hbuf : r.buf with
  | cons e rest =>
    rw [hbuf] at hb
    have he : e.length = 8 := hb e (List.mem_cons_self _ _)
    unfold pending at hp
    rw [hbuf] at hp
    simp only [List.flatten_cons, List.append_assoc] at hp
    obtain ⟨h1, h2⟩ := List.append_inj hp (by omega)
    subst h1
    exact ⟨rest, r.file, rfl, fun x hx => hb x (List.mem_cons_of_mem _ hx), hf, h2⟩
  | nil =>
    unfold pending at hp
    rw [hbuf] at hp
    simp only [List.flatten_nil, List.nil_append] at hp
    have hlen : 8 ≤ r.file.length := by rw [hp]; simp; omega
    unfold buffer_input
    have hamt : min 128 (r.file.length / 8) ≠ 0 := by omega
    obtain ⟨a, ha⟩ : ∃ a, min 128 (r.file.length / 8) = a + 1 := ⟨_, (Nat.succ_pred hamt).symm⟩
    simp only [ha]
    have hle : 8 * (a + 1) ≤ r.file.length := by omega
    have hstake : r.file.take 8 = s := by
      rw [hp]; exact List.take_left' hs
    refine ⟨elements a (r.file.drop 8), (if a + 1 < 128 then [] else r.file.drop (8 * 128)),
      ?_, ?_, ?_, ?_⟩
    · simp [elements, hstake]
    · exact elements_len8 a _ (by simp; omega)
    · split
      · rfl
      · simp; omega
    · rw [elements_flatten _ _ (by simp; omega)]
      have hP : P = r.file.drop 8 := by
        rw [hp]; exact (List.drop_left' hs).symm
      rw [hP]
      split
      · have : 8 * a = (r.file.drop 8).length := by simp; omega
        rw [this, List.take_length]; simp
      · have : a = 127 := by omega
        subst this
        rw [show 8 * 128 = 8 + 8 * 127 by norm_num, ← List.drop_drop]
        exact List.take_append_drop _ _

theorem next_element_none (r : sfm_reader) (hb : ∀ e ∈ r.buf, e.length = 8)
    (hp : pending r = []) :
    ∃ b f, next_element r = (none, { r with buf := b, file := f }) ∧ b.flatten ++ f = [] := by
  unfold pending at hp
  have h1 : r.buf.flatten = [] := (List.append_eq_nil.mp hp).1
  have h2 : r.file = [] := (List.append_eq_nil.mp hp).2
  unfold next_element
  cases hbuf : r.buf with
  | cons e rest =>
    exfalso
    rw [hbuf] at h1 hb
    have he : e.length = 8 := hb e (List.mem_cons_self _ _)
    simp only [List.flatten_cons, List.append_eq_nil] at h1
    rw [h1.1] at he
    simp at he
  | nil =>
    unfold buffer_input
    simp only [h2, List.length_nil, Nat.zero_div, Nat.min_zero]
    exact ⟨[], [], by simp [elements], rfl⟩

end

section

open Reader

theorem loop_step_zero (big : Bool) (f : Nat) (r : sfm_reader) (p : Nat)
    (out : List (List Nat)) (hp : p < 8) (hk : r.x.getD p 0 = 0) :
    read_compressed_loop big (f + 1) r p out = read_compressed_loop big f r (p + 1) out := by
  rw [read_compressed_loop]
  simp only [hp, if_true, hk]

theorem loop_step_load (big : Bool) (f : Nat) (r r1 : sfm_reader) (p : Nat)
    (out : List (List Nat)) (e : List Nat) (hp : ¬ p < 8)
    (hn : next_element r = (some e, r1)) :
    read_compressed_loop big (f + 1) r p out
      = read_compressed_loop big f { r1 with x := e } 0 out := by
  rw [read_compressed_loop]
  simp only [hp, if_false, hn]

theorem loop_step_end (big : Bool) (f : Nat) (r r1 : sfm_reader) (p : Nat)
    (out : List (List Nat)) (hp : ¬ p < 8) (hn : next_element r = (none, r1)) :
    read_compressed_loop big (f + 1) r p out
      = ⟨0, r1, out, if out ≠ [] then [message.eof_in_case] else [], stop.end_at_octet⟩ := by
  rw [read_compressed_loop]
  simp only [hp, if_false, hn]

/-- One round of the loop on an item of the stream. -/
theorem loop_step_item (big : Bool) (n : Nat) (r : sfm_reader) (p : Nat) (it : item)
    (rest : List item) (gs : List (List item)) (out : List (List Nat))
    (hp : p < 8) (hinv : rinv r p (it :: rest) gs) (hv : r.value_cnt = (n : Int)) :
    ∃ b f, rinv { r with buf := b, file := f } (p + 1) rest gs
      ∧ ∀ fuel, read_compressed_loop big (fuel + 1) r p out
          = if n ≤ (out ++ [item_value big r it]).length then
              ⟨1, { r with buf := b, file := f, y := p + 1 }, out ++ [item_value big r it], [],
                stop.success⟩
            else read_compressed_loop big fuel { r with buf := b, file := f } (p + 1)
                (out ++ [item_value big r it]) := by
  obtain ⟨hb, hf, hpend, hx, hlen, hrest, hgs⟩ := hinv
  have hcode : r.x.getD p 0 = it.1 := by
    have := hx 0 (by omega)
    simpa [codes] using this
  have hok : item_ok it := hrest it (List.mem_cons_self _ _)
  have hx1 : ∀ i, p + 1 + i < 8 → r.x.getD (p + 1 + i) 0 = (codes rest).getD i 0 := by
    intro i hi
    have := hx (i + 1) (by omega)
    rw [show p + (i + 1) = p + 1 + i by omega] at this
    rw [this]
    simp [codes]
  have hrest1 : ∀ i ∈ rest, item_ok i := fun i hi => hrest i (List.mem_cons_of_mem _ hi)
  have hlen1 : p + 1 + rest.length ≤ 8 := by simp at hlen; omega
  by_cases h253 : it.1 = 253
  · have hl8 : it.2.length = 8 := by
      rcases hok with h1 | h1
      · exact h1.2
      · exact absurd h253 h1.1
    have hpend1 : pending r = it.2 ++ (lits rest ++ render gs) := by
      rw [hpend]; simp [lits]
    obtain ⟨b, f, hne, hb1, hf1, hbf⟩ := next_element_some r it.2 _ hb hf hpend1 hl8
    refine ⟨b, f, ⟨hb1, hf1, hbf, hx1, hlen1, hrest1, hgs⟩, ?_⟩
    intro fuel
    rw [read_compressed_loop]
    have hval : item_value big r it = it.2 := by simp [item_value, h253]
    simp only [hp, if_true, hcode, h253, hne, hval, (by decide : ¬ (253 : Nat) = 0),
      (by decide : ¬ (253 : Nat) = 252), if_false]
    by_cases hc : n ≤ (out ++ [it.2]).length
    · rw [if_pos hc, if_pos (by rw [hv]; exact_mod_cast hc)]
    · rw [if_neg hc, if_neg (by rw [hv]; exact_mod_cast hc)]
  · have hcases : it.1 ≠ 0 ∧ it.1 ≠ 252 := by
      rcases hok with h1 | h1
      · exact absurd h1.1 h253
      · exact ⟨h1.2.1, h1.2.2.1⟩
    have hnil : it.2 = [] := by
      rcases hok with h1 | h1
      · exact absurd h1.1 h253
      · exact h1.2.2.2
    have hpend1 : pending { r with buf := r.buf, file := r.file } = lits rest ++ render gs := by
      show pending r = _
      rw [hpend]; simp [lits, hnil]
    refine ⟨r.buf, r.file, ⟨hb, hf, hpend1, hx1, hlen1, hrest1, hgs⟩, ?_⟩
    intro fuel
    rw [read_compressed_loop]
    simp only [hp, if_true, hcode, h253, hcases.1, hcases.2, if_false]
    have hval : (if it.1 = 254 then List.replicate 8 32
           else if it.1 = 255 then sysmis_value r else biased_value big r it.1)
        = item_value big r it := by
      simp [item_value, h253]
    rw [hval]
    by_cases hc : n ≤ (out ++ [item_value big r it]).length
    · rw [if_pos hc, if_pos (by rw [hv]; exact_mod_cast hc)]
    · rw [if_neg hc, if_neg (by rw [hv]; exact_mod_cast hc)]

end

section

open Reader

theorem loop_inner (big : Bool) (n : Nat) (gs : List (List item)) :
    ∀ (k : Nat) (r : sfm_reader) (p : Nat) (rest : List item) (out : List (List Nat)),
      p + k = 8 → rinv r p rest gs → r.value_cnt = (n : Int) → out.length < n →
      (n - out.length ≤ rest.length →
        ∃ b f, (∀ fuel, read_compressed_loop big (fuel + (n - out.length)) r p out
            = ⟨1, { r with buf := b, file := f, y := p + (n - out.length) },
                out ++ (rest.take (n - out.length)).map (item_value big r), [], stop.success⟩)
          ∧ rinv { r with buf := b, file := f, y := p + (n - out.length) }
              (p + (n - out.length)) (rest.drop (n - out.length)) gs)
      ∧ (rest.length < n - out.length →
        ∃ b f, (∀ fuel, read_compressed_loop big (fuel + k) r p out
            = read_compressed_loop big fuel { r with buf := b, file := f } 8
                (out ++ rest.map (item_value big r)))
          ∧ rinv { r with buf := b, file := f } 8 [] gs) := by
  intro k
  induction k with
  | zero =>
    intro r p rest out hpk hinv hv hout
    have hp8 : p = 8 := by omega
    have hrl : rest.length = 0 := by
      have := hinv.2.2.2.2.1; omega
    have hrest : rest = [] := List.eq_nil_of_length_eq_zero hrl
    subst hrest
    subst hp8
    constructor
    · intro h; simp at h; omega
    · intro _
      exact ⟨r.buf, r.file, fun fuel => by simp, hinv⟩
  | succ k ih =>
    intro r p rest out hpk hinv hv hout
    have hp : p < 8 := by omega
    cases rest with
    | nil =>
      have hzero : r.x.getD p 0 = 0 := by
        have := hinv.2.2.2.1 0 (by omega)
        simpa [codes] using this
      have hinv1 : rinv r (p + 1) [] gs := by
        obtain ⟨hb, hf, hpend, hx, hlen, hrest, hgs⟩ := hinv
        refine ⟨hb, hf, hpend, ?_, by simp; omega, hrest, hgs⟩
        intro i hi
        have := hx (i + 1) (by omega)
        rw [show p + (i + 1) = p + 1 + i by omega] at this
        rw [this]; simp [codes]
      constructor
      · intro h; simp at h; omega
      · intro hlt
        obtain ⟨b, f, heq, hinv2⟩ := (ih r (p + 1) [] out (by omega) hinv1 hv hout).2 hlt
        refine ⟨b, f, fun fuel => ?_, hinv2⟩
        rw [show fuel + (k + 1) = (fuel + k) + 1 by omega, loop_step_zero big _ r p out hp hzero]
        exact heq fuel
    | cons it rest =>
      obtain ⟨b1, f1, hinv1, hstep⟩ := loop_step_item big n r p it rest gs out hp hinv hv
      by_cases hc : n ≤ (out ++ [item_value big r it]).length
      · -- this item completes the case
        have hm : n - out.length = 1 := by simp at hc; omega
        constructor
        · intro _
          refine ⟨b1, f1, fun fuel => ?_, ?_⟩
          · rw [hm, hstep fuel, if_pos hc]
            simp
          · rw [hm]
            simpa using hinv1
        · intro hlt; simp at hlt; omega
      · have hout1 : (out ++ [item_value big r it]).length < n := by omega
        have hsub : n - (out ++ [item_value big r it]).length = n - out.length - 1 := by
          simp; omega
        have ih1 := ih { r with buf := b1, file := f1 } (p + 1) rest
          (out ++ [item_value big r it]) (by omega) hinv1 hv hout1
        constructor
        · intro hle
          have hle1 : n - (out ++ [item_value big r it]).length ≤ rest.length := by
            simp at hle ⊢; omega
          obtain ⟨b, f, heq, hinv2⟩ := ih1.1 hle1
          refine ⟨b, f, fun fuel => ?_, ?_⟩
          · have hfu : fuel + (n - out.length)
                = (fuel + (n - (out ++ [item_value big r it]).length)) + 1 := by
              simp at hc ⊢; omega
            rw [hfu, hstep, if_neg hc, heq fuel]
            have htk : List.take (n - out.length) (it :: rest)
                = it :: List.take (n - (out ++ [item_value big r it]).length) rest := by
              rw [hsub]
              obtain ⟨m, hm⟩ : ∃ m, n - out.length = m + 1 := ⟨n - out.length - 1, by omega⟩
              rw [hm]; simp
            rw [htk]
            have hy : p + 1 + (n - (out ++ [item_value big r it]).length) = p + (n - out.length) := by
              omega
            simp only [List.map_cons, List.append_assoc, List.singleton_append, hy]
            rfl
          · have hy : p + 1 + (n - (out ++ [item_value big r it]).length) = p + (n - out.length) := by
              omega
            have hdr : List.drop (n - out.length) (it :: rest)
                = List.drop (n - (out ++ [item_value big r it]).length) rest := by
              rw [hsub]
              obtain ⟨m, hm⟩ : ∃ m, n - out.length = m + 1 := ⟨n - out.length - 1, by omega⟩
              rw [hm]; simp
            rw [hdr, ← hy]
            exact hinv2
        · intro hlt
          have hlt1 : rest.length < n - (out ++ [item_value big r it]).length := by
            simp at hlt ⊢; omega
          obtain ⟨b, f, heq, hinv2⟩ := ih1.2 hlt1
          refine ⟨b, f, fun fuel => ?_, hinv2⟩
          rw [show fuel + (k + 1) = (fuel + k) + 1 by omega, hstep, if_neg hc, heq fuel]
          simp only [List.map_cons, List.append_assoc, List.singleton_append]
          rfl

end

section

open Reader

theorem octet_length (g : List item) (h : g.length ≤ 8) : (octet g).length = 8 := by
  simp [octet, codes]; omega

theorem octet_getD (g : List item) (i : Nat) : (octet g).getD i 0 = (codes g).getD i 0 := by
  unfold octet
  by_cases h : i < (codes g).length
  · rw [List.getD_append _ _ _ _ h]
  · rw [List.getD_append_right _ _ _ _ (by omega)]
    rw [List.getD_eq_default (codes g) 0 (by omega)]
    simp

theorem loop_outer (big : Bool) (n : Nat) :
    ∀ (gs : List (List item)) (r : sfm_reader) (p : Nat) (rest : List item)
      (out : List (List Nat)),
      p ≤ 8 → rinv r p rest gs → r.value_cnt = (n : Int) → out.length < n →
      (n - out.length ≤ (rest ++ gs.flatten).length →
        ∃ b f x y rest1 gs1 c, c ≤ 9 * gs.length + 8 ∧
          (∀ fuel, read_compressed_loop big (fuel + c) r p out
            = ⟨1, { r with buf := b, file := f, x := x, y := y },
                out ++ ((rest ++ gs.flatten).take (n - out.length)).map (item_value big r),
                [], stop.success⟩)
          ∧ rinv { r with buf := b, file := f, x := x, y := y } y rest1 gs1
          ∧ rest1 ++ gs1.flatten = (rest ++ gs.flatten).drop (n - out.length) ∧ y ≤ 8)
      ∧ (rest ++ gs.flatten = [] →
        ∃ b f x c, c ≤ 9 * gs.length + 9 ∧
          ∀ fuel, read_compressed_loop big (fuel + c) r p out
            = ⟨0, { r with buf := b, file := f, x := x }, out,
                if out ≠ [] then [message.eof_in_case] else [], stop.end_at_octet⟩) := by
  intro gs
  induction gs with
  | nil =>
    intro r p rest out hp hinv hv hout
    have hin := loop_inner big n [] (8 - p) r p rest out (by omega) hinv hv hout
    have hrl : p + rest.length ≤ 8 := hinv.2.2.2.2.1
    constructor
    · intro hle
      have hle1 : n - out.length ≤ rest.length := by simpa using hle
      obtain ⟨b, f, heq, hinv2⟩ := hin.1 hle1
      refine ⟨b, f, r.x, p + (n - out.length), rest.drop (n - out.length), [],
        n - out.length, by omega, ?_, hinv2, by simp, by omega⟩
      intro fuel
      rw [heq fuel]
      simp
    · intro hnil
      simp only [List.flatten_nil, List.append_nil] at hnil
      subst hnil
      obtain ⟨b, f, heq, hinv2⟩ := hin.2 (by simp; omega)
      have hpend : pending { r with buf := b, file := f } = [] := by
        rw [hinv2.2.2.1]; simp [lits, render]
      obtain ⟨b2, f2, hne, _⟩ := next_element_none _ hinv2.1 hpend
      refine ⟨b2, f2, r.x, (8 - p) + 1, by rw [List.length_nil]; omega, fun fuel => ?_⟩
      rw [show fuel + (8 - p + 1) = (fuel + 1) + (8 - p) by omega, heq (fuel + 1),
        loop_step_end big _ _ _ 8 _ (by omega) hne]
      simp
  | cons g gs ih =>
    intro r p rest out hp hinv hv hout
    have hin := loop_inner big n (g :: gs) (8 - p) r p rest out (by omega) hinv hv hout
    have hrl : p + rest.length ≤ 8 := hinv.2.2.2.2.1
    -- what happens once the octet is used up and the next group is loaded
    have hnext : rest.length < n - out.length →
        ∃ b1 f1, (∀ fuel, read_compressed_loop big (fuel + ((8 - p) + 1)) r p out
            = read_compressed_loop big fuel { r with buf := b1, file := f1, x := octet g } 0
                (out ++ rest.map (item_value big r)))
          ∧ rinv { r with buf := b1, file := f1, x := octet g } 0 g gs := by
      intro hlt
      obtain ⟨b, f, heq, hinv2⟩ := hin.2 hlt
      obtain ⟨hb, hf, hpend, hx, hlen, hrest, hgs⟩ := hinv2
      have hg := hgs g (List.mem_cons_self _ _)
      have hpend1 : pending { r with buf := b, file := f }
          = octet g ++ (lits g ++ render gs) := by
        rw [hpend]; simp [lits, render, render_group]
      obtain ⟨b2, f2, hne, hb2, hf2, hbf2⟩ :=
        next_element_some _ (octet g) _ hb hf hpend1 (octet_length g hg.1)
      refine ⟨b2, f2, fun fuel => ?_, ?_⟩
      · rw [show fuel + (8 - p + 1) = (fuel + 1) + (8 - p) by omega, heq (fuel + 1),
          loop_step_load big _ _ _ 8 _ (octet g) (by omega) hne]
      · refine ⟨hb2, hf2, hbf2, ?_, by simp; exact hg.1, hg.2,
          fun g1 hg1 => hgs g1 (List.mem_cons_of_mem _ hg1)⟩
        intro i _
        simp only [Nat.zero_add]
        exact octet_getD g i
    constructor
    · intro hle
      by_cases hc : n - out.length ≤ rest.length
      · obtain ⟨b, f, heq, hinv2⟩ := hin.1 hc
        refine ⟨b, f, r.x, p + (n - out.length), rest.drop (n - out.length), g :: gs,
          n - out.length, by omega, ?_, hinv2, ?_, by omega⟩
        · intro fuel
          rw [heq fuel, List.take_append_of_le_length hc]
        · rw [List.drop_append_of_le_length hc]
      · have hlt : rest.length < n - out.length := by omega
        obtain ⟨b1, f1, heq1, hinv1⟩ := hnext hlt
        have hout1 : (out ++ rest.map (item_value big r)).length < n := by
          simp; omega
        have hsub : n - (out ++ rest.map (item_value big r)).length
            = n - out.length - rest.length := by simp; omega
        have ih1 := ih { r with buf := b1, file := f1, x := octet g } 0 g
          (out ++ rest.map (item_value big r)) (by omega) hinv1 hv hout1
        have hle1 : n - (out ++ rest.map (item_value big r)).length
            ≤ (g ++ gs.flatten).length := by
          rw [hsub]
          have h1 : (rest ++ (g :: gs).flatten).length
              = rest.length + (g ++ gs.flatten).length := by simp
          omega
        obtain ⟨b, f, x, y, rest1, gs1, c, hcb, heq, hinv2, hfl, hy⟩ := ih1.1 hle1
        refine ⟨b, f, x, y, rest1, gs1, c + ((8 - p) + 1), by rw [List.length_cons]; omega, ?_,
          hinv2, ?_, hy⟩
        · intro fuel
          rw [show fuel + (c + (8 - p + 1)) = (fuel + c) + (8 - p + 1) by omega, heq1, heq fuel,
            hsub]
          have htk : List.take (n - out.length) (rest ++ (g :: gs).flatten)
              = rest ++ List.take (n - out.length - rest.length) (g ++ gs.flatten) := by
            rw [List.take_append_eq_append_take,
              List.take_of_length_le (show rest.length ≤ n - out.length by omega)]
            simp
          rw [htk]
          simp only [List.map_append, List.append_assoc]
          rfl
        · have hdr : List.drop (n - out.length) (rest ++ (g :: gs).flatten)
              = List.drop (n - out.length - rest.length) (g ++ gs.flatten) := by
            rw [List.drop_append_eq_append_drop,
              List.drop_eq_nil_of_le (show rest.length ≤ n - out.length by omega)]
            simp
          rw [hfl, hsub, hdr]
    · intro hnil
      have hr : rest = [] := (List.append_eq_nil.mp hnil).1
      have hgf : g ++ gs.flatten = [] := by
        have := (List.append_eq_nil.mp hnil).2
        simpa using this
      subst hr
      obtain ⟨b1, f1, heq1, hinv1⟩ := hnext (by simp; omega)
      simp only [List.map_nil, List.append_nil] at heq1
      have ih1 := ih { r with buf := b1, file := f1, x := octet g } 0 g out (by omega) hinv1 hv hout
      obtain ⟨b, f, x, c, hcb, heq⟩ := ih1.2 hgf
      refine ⟨b, f, x, c + ((8 - p) + 1), by rw [List.length_cons]; omega, fun fuel => ?_⟩
      rw [show fuel + (c + (8 - p + 1)) = (fuel + c) + (8 - p + 1) by omega, heq1, heq fuel]

end

section

open Reader

theorem flatten_length_len8 (b : List (List Nat)) (h : ∀ e ∈ b, e.length = 8) :
    b.flatten.length = 8 * b.length := by
  induction b with
  | nil => rfl
  | cons e b ih =>
    simp only [List.flatten_cons, List.length_append, List.length_cons]
    rw [ih (fun x hx => h x (List.mem_cons_of_mem _ hx)), h e (List.mem_cons_self _ _)]
    omega

theorem render_length_ge (gs : List (List item)) : 8 * gs.length ≤ (render gs).length := by
  induction gs with
  | nil => simp [render]
  | cons g gs ih =>
    have : render (g :: gs) = render_group g ++ render gs := by simp [render]
    rw [this]
    simp only [List.length_append, List.length_cons, render_group, octet, codes,
      List.length_map, List.length_replicate]
    omega

theorem rinv_groups_le_avail (r : sfm_reader) (p : Nat) (rest : List item)
    (gs : List (List item)) (h : rinv r p rest gs) : gs.length ≤ avail r := by
  obtain ⟨hb, hf, hpend, _⟩ := h
  have h1 := congrArg List.length hpend
  unfold pending at h1
  simp only [List.length_append] at h1
  rw [flatten_length_len8 _ hb] at h1
  have h2 := render_length_ge gs
  unfold avail
  omega

theorem read_call_success (big : Bool) (n : Nat) (r : sfm_reader) (rest : List item)
    (gs : List (List item)) (hinv : rinv r r.y rest gs) (hy : r.y ≤ 8)
    (hv : r.value_cnt = (n : Int)) (hn : 0 < n) (hle : n ≤ (rest ++ gs.flatten).length) :
    ∃ r1 rest1 gs1, read_compressed_data big r
        = ⟨1, r1, ((rest ++ gs.flatten).take n).map (item_value big r), [], stop.success⟩
      ∧ rinv r1 r1.y rest1 gs1 ∧ r1.y ≤ 8 ∧ same_static r r1
      ∧ rest1 ++ gs1.flatten = (rest ++ gs.flatten).drop n := by
  obtain ⟨b, f, x, y, rest1, gs1, c, hc, heq, hinv1, hfl, hy1⟩ :=
    (loop_outer big n gs r r.y rest [] hy hinv hv (by simpa using hn)).1 (by simpa using hle)
  have hav := rinv_groups_le_avail r r.y rest gs hinv
  refine ⟨{ r with buf := b, file := f, x := x, y := y }, rest1, gs1, ?_, hinv1, hy1,
    ⟨rfl, rfl, rfl, rfl⟩, by simpa using hfl⟩
  unfold read_compressed_data
  have := heq (9 * avail r + 10 - c)
  rw [show 9 * avail r + 10 - c + c = 9 * avail r + 10 by omega] at this
  rw [this]
  simp

theorem read_call_end (big : Bool) (n : Nat) (r : sfm_reader) (rest : List item)
    (gs : List (List item)) (hinv : rinv r r.y rest gs) (hy : r.y ≤ 8)
    (hv : r.value_cnt = (n : Int)) (hn : 0 < n) (hnil : rest ++ gs.flatten = []) :
    ∃ r1, read_compressed_data big r = ⟨0, r1, [], [], stop.end_at_octet⟩ := by
  obtain ⟨b, f, x, c, hc, heq⟩ :=
    (loop_outer big n gs r r.y rest [] hy hinv hv (by simpa using hn)).2 hnil
  have hav := rinv_groups_le_avail r r.y rest gs hinv
  refine ⟨{ r with buf := b, file := f, x := x }, ?_⟩
  unfold read_compressed_data
  have := heq (9 * avail r + 10 - c)
  rw [show 9 * avail r + 10 - c + c = 9 * avail r + 10 by omega] at this
  rw [this]
  simp

theorem item_value_static (big : Bool) (r r1 : sfm_reader) (h : same_static r r1) (it : item) :
    item_value big r1 it = item_value big r it := by
  obtain ⟨_, h2, h3, h4⟩ := h
  simp [item_value, sysmis_value, biased_value, h2, h3, h4]

/-- Reading a stream of groups whose items are the cases `L`, each of `n` items, gives
the cases one per call and then the end of the data without an error. -/
theorem read_cases_groups (big : Bool) (n : Nat) (hn : 0 < n) :
    ∀ (L : List (List item)) (r : sfm_reader) (rest : List item) (gs : List (List item)),
      rinv r r.y rest gs → r.y ≤ 8 → r.value_cnt = (n : Int) →
      (∀ l ∈ L, l.length = n) → rest ++ gs.flatten = L.flatten →
      (read_cases big (L.length + 1) r).map (fun res => (res.ret, res.out, res.msgs))
        = L.map (fun l => ((1 : Int), l.map (item_value big r), ([] : List message)))
          ++ [(0, [], [])] := by
  intro L
  induction L with
  | nil =>
    intro r rest gs hinv hy hv _ hfl
    obtain ⟨r1, h1⟩ := read_call_end big n r rest gs hinv hy hv hn (by simpa using hfl)
    simp [read_cases, h1]
  | cons l L ih =>
    intro r rest gs hinv hy hv hL hfl
    have hl : l.length = n := hL l (List.mem_cons_self _ _)
    have hle : n ≤ (rest ++ gs.flatten).length := by
      rw [hfl]; simp [hl]
    obtain ⟨r1, rest1, gs1, h1, hinv1, hy1, hst, hfl1⟩ :=
      read_call_success big n r rest gs hinv hy hv hn hle
    have htake : (rest ++ gs.flatten).take n = l := by
      rw [hfl, List.flatten_cons, ← hl]; exact List.take_left' rfl
    have hdrop : (rest ++ gs.flatten).drop n = L.flatten := by
      rw [hfl, List.flatten_cons, ← hl]; exact List.drop_left' rfl
    have ih1 := ih r1 rest1 gs1 hinv1 hy1 (by rw [hst.1]; exact hv)
      (fun x hx => hL x (List.mem_cons_of_mem _ hx)) (by rw [hfl1, hdrop])
    have hfun : (fun (l : List item) => ((1 : Int), l.map (item_value big r1), ([] : List message)))
        = (fun (l : List item) => ((1 : Int), l.map (item_value big r), ([] : List message))) := by
      funext l
      simp only [Prod.mk.injEq, true_and, and_true]
      exact List.map_congr_left (fun it _ => item_value_static big r r1 hst it)
    rw [hfun] at ih1
    have hunf : read_cases big ((l :: L).length + 1) r
        = read_compressed_data big r
          :: read_cases big (L.length + 1) (read_compressed_data big r).r := rfl
    rw [hunf, h1]
    simp only [List.map_cons, htake]
    rw [ih1]
    simp

end

section

open Reader

theorem decode_neg_zero : flt64_decode (2 ^ 63) = flt_class.fin 0 := by decide!

theorem decode_pos_zero : flt64_decode 0 = flt_class.fin 0 := by decide!

theorem neg_max_lt : NEG_FLT64_MAX_BITS < 2 ^ 64 := by decide

theorem bias_lt : BIAS_100_BITS < 256 ^ 8 := by decide

theorem seg_val_lt (big : Bool) (e : List Nat) (he : is_seg e) : mem_val big e < 2 ^ 64 := by
  have := mem_val_lt big e he.2
  rw [he.1] at this
  exact this

theorem seg_bytes_val (big : Bool) (e : List Nat) (he : is_seg e) :
    mem_bytes big 8 (mem_val big e) = e := by
  have := mem_bytes_mem_val big e he.2
  rw [he.1] at this
  exact this

theorem canon_seg_id (big : Bool) (e : List Nat) (h : flt64_val big e ≠ flt_class.fin 0) :
    canon_seg big e = e := by
  unfold canon_seg
  split
  · rename_i h1
    exfalso; apply h
    unfold flt64_val
    rw [h1]; exact decode_neg_zero
  · rfl

theorem num_item_value (big : Bool) (r : sfm_reader) (e : List Nat)
    (hr1 : r.reverse_endian = false) (hr2 : r.bias = mem_bytes big 8 BIAS_100_BITS)
    (hr3 : r.sysmis = SYSMIS big) (he : is_seg e) :
    item_value big r (num_item big e) = canon_seg big e := by
  obtain ⟨m, hm, hm0⟩ : ∃ m, flt64_decode NEG_FLT64_MAX_BITS = flt_class.fin m ∧ m ≠ 0 :=
    ⟨_, decode_neg_max, by decide!⟩
  have hone := flt_one_pos
  unfold num_item item_value spec_num_code
  rw [hm]
  cases hv : flt64_val big e with
  | nan =>
    simp only [if_true]
    exact (canon_seg_id big e (by rw [hv]; simp)).symm
  | inf b =>
    simp only [if_true]
    exact (canon_seg_id big e (by rw [hv]; simp)).symm
  | fin a =>
    simp only [flt_class.fin.injEq]
    by_cases h1 : a = m
    · -- the system-missing value
      simp only [h1, if_true, (by decide : ¬ (255 : Nat) = 253), (by decide : ¬ (255 : Nat) = 254),
        if_false]
      have hbits : mem_val big e = NEG_FLT64_MAX_BITS :=
        flt64_decode_fin_unique _ _ m (seg_val_lt big e he) neg_max_lt
          (by rw [← h1]; exact hv) hm hm0
      rw [canon_seg_id big e (by rw [hv, h1]; simpa using hm0)]
      unfold sysmis_value
      rw [hr1, hr3]
      simp only [Bool.false_eq_true, if_false]
      unfold SYSMIS
      rw [← hbits, seg_bytes_val big e he]
    · simp only [h1, if_false]
      by_cases h2 : (flt_one : Int) ∣ a ∧ -99 ≤ a / (flt_one : Int) ∧ a / (flt_one : Int) ≤ 151
      · rw [if_pos h2]
        obtain ⟨hd, hlo, hhi⟩ := h2
        obtain ⟨k, hk⟩ : ∃ k : Nat, (k : Int) = a / (flt_one : Int) + 100 :=
          ⟨(a / (flt_one : Int) + 100).toNat, by omega⟩
        have hk1 : (a / (flt_one : Int) + 100).toNat = k := by omega
        have hkr : 1 ≤ k ∧ k < 252 := by omega
        rw [hk1]
        have hne3 : ¬ k = 253 := by omega
        have hne4 : ¬ k = 254 := by omega
        have hne5 : ¬ k = 255 := by omega
        simp only [hne3, hne4, hne5, if_false]
        obtain ⟨hdec, hlt, hz⟩ := sub_byte_bias_100 k hkr.2 hkr.1
        have ha : a = ((k : Int) - 100) * (flt_one : Int) := by
          rw [hk]
          have := Int.ediv_mul_cancel hd
          linarith
        unfold biased_value
        rw [hr1, hr2, mem_val_mem_bytes big 8 _ bias_lt]
        simp only [Bool.false_eq_true, if_false]
        by_cases h0 : a = 0
        · have hk100 : k = 100 := by
            have : a / (flt_one : Int) = 0 := by rw [h0]; simp
            omega
          rw [hz hk100]
          have hvz : flt64_decode (mem_val big e) = flt_class.fin 0 := by
            rw [← h0]; exact hv
          rcases flt64_decode_zero _ (seg_val_lt big e he) hvz with hb | hb
          · unfold canon_seg
            rw [hb]
            simp only [(by decide : ¬ (0 : Nat) = 2 ^ 63), if_false]
            rw [← hb, seg_bytes_val big e he]
          · unfold canon_seg
            rw [hb]
            simp
        · have hbits : mem_val big e = flt64_sub_byte k BIAS_100_BITS :=
            flt64_decode_fin_unique _ _ a (seg_val_lt big e he) hlt hv (by rw [hdec, ha]) h0
          rw [canon_seg_id big e (by rw [hv]; simpa using h0), ← hbits, seg_bytes_val big e he]
      · rw [if_neg h2]
        simp only [if_true]
        refine (canon_seg_id big e ?_).symm
        rw [hv]
        intro hc
        injection hc with hc
        apply h2
        rw [hc]
        simp

theorem str_item_value (big : Bool) (r : sfm_reader) (e : List Nat) :
    item_value big r (str_item e) = e := by
  unfold str_item item_value spec_str_code
  by_cases h : e = [32, 32, 32, 32, 32, 32, 32, 32]
  · simp [h]
  · simp [h]

end

section

open Reader

theorem elements_add (a b : Nat) (bs : List Nat) :
    elements (a + b) bs = elements a bs ++ elements b (bs.drop (8 * a)) := by
  induction a generalizing bs with
  | zero => simp [elements]
  | succ a ih =>
    rw [show a + 1 + b = (a + b) + 1 by omega]
    simp only [elements, List.cons_append]
    rw [ih, List.drop_drop]
    rw [show 8 + 8 * a = 8 * (a + 1) by omega]

theorem is_bytes_take (bs : List Nat) (n : Nat) (h : is_bytes bs) : is_bytes (bs.take n) :=
  fun b hb => h b (List.mem_of_mem_take hb)

theorem is_bytes_drop (bs : List Nat) (n : Nat) (h : is_bytes bs) : is_bytes (bs.drop n) :=
  fun b hb => h b (List.mem_of_mem_drop hb)

theorem num_item_ok (big : Bool) (e : List Nat) (he : e.length = 8) :
    item_ok (num_item big e) := by
  unfold item_ok num_item
  rcases spec_num_code_range big e with h | h | h
  · right; simp only []; refine ⟨by omega, by omega, by omega, ?_⟩
    rw [if_neg (by omega)]
  · left; simp only []; exact ⟨h, by rw [if_pos h]; exact he⟩
  · right; simp only []; refine ⟨by omega, by omega, by omega, ?_⟩
    rw [if_neg (by omega)]

theorem str_item_ok (e : List Nat) (he : e.length = 8) : item_ok (str_item e) := by
  unfold item_ok str_item spec_str_code
  by_cases h : e = [32, 32, 32, 32, 32, 32, 32, 32]
  · right; simp [h]
  · left; simp [h, he]

theorem str_items_spec (big : Bool) (r : sfm_reader) :
    ∀ (j : Nat) (elem : List Nat), 8 * j ≤ elem.length →
      (str_items j elem).2 = elem.drop (8 * j)
      ∧ (str_items j elem).1.map (item_value big r) = elements j elem
      ∧ (∀ it ∈ (str_items j elem).1, item_ok it)
      ∧ (str_items j elem).1.length = j := by
  intro j
  induction j with
  | zero => intro elem _; simp [str_items, elements]
  | succ j ih =>
    intro elem h
    obtain ⟨h1, h2, h3, h4⟩ := ih (elem.drop 8) (by simp; omega)
    refine ⟨?_, ?_, ?_, ?_⟩
    · simp only [str_items, h1, List.drop_drop]
      congr 1; omega
    · simp only [str_items, List.map_cons, h2, elements, str_item_value]
    · intro it hit
      simp only [str_items, List.mem_cons] at hit
      rcases hit with hit | hit
      · rw [hit]; exact str_item_ok _ (by simp; omega)
      · exact h3 it hit
    · simp [str_items, h4]

theorem zipWith_replicate_false (big : Bool) (l : List (List Nat)) :
    List.zipWith (fun (isnum : Bool) e => if isnum then canon_seg big e else e)
      (List.replicate l.length false) l = l := by
  induction l with
  | nil => rfl
  | cons e l ih => simp [List.replicate_succ, ih]

theorem case_items_spec (big : Bool) (r : sfm_reader)
    (hr1 : r.reverse_endian = false) (hr2 : r.bias = mem_bytes big 8 BIAS_100_BITS)
    (hr3 : r.sysmis = SYSMIS big) :
    ∀ (vs : List Writer.sfm_var) (elem : List Nat), is_bytes elem →
      8 * seg_count vs ≤ elem.length →
      (case_items big vs elem).map (item_value big r) = expected_segs big vs elem
      ∧ (∀ it ∈ case_items big vs elem, item_ok it)
      ∧ (case_items big vs elem).length = seg_count vs := by
  intro vs
  induction vs with
  | nil => intro elem _ _; simp [case_items, expected_segs, numeric_mask, seg_count, elements]
  | cons v vs ih =>
    intro elem hb hl
    by_cases hw : v.width = 0
    · have hl1 : 8 * seg_count vs ≤ (elem.drop 8).length := by
        simp only [seg_count, hw, if_true] at hl
        simp; omega
      have hl8 : 8 ≤ elem.length := by
        simp only [seg_count, hw, if_true] at hl; omega
      obtain ⟨h1, h2, h3⟩ := ih (elem.drop 8) (is_bytes_drop _ _ hb) hl1
      have hseg : is_seg (elem.take 8) := ⟨by simp; omega, is_bytes_take _ _ hb⟩
      refine ⟨?_, ?_, ?_⟩
      · simp only [case_items, hw, if_true, List.map_cons, h1,
          num_item_value big r _ hr1 hr2 hr3 hseg]
        simp only [expected_segs, numeric_mask, seg_count, hw, if_true, List.singleton_append]
        rw [show 1 + seg_count vs = seg_count vs + 1 by omega]
        simp [elements]
      · intro it hit
        simp only [case_items, hw, if_true, List.mem_cons] at hit
        rcases hit with hit | hit
        · rw [hit]; exact num_item_ok big _ hseg.1
        · exact h2 it hit
      · simp [case_items, hw, seg_count, h3]; omega
    · have hl0 : 8 * v.flt64_cnt ≤ elem.length := by
        simp only [seg_count, hw, if_false] at hl; omega
      obtain ⟨s1, s2, s3, s4⟩ := str_items_spec big r v.flt64_cnt elem hl0
      have hl1 : 8 * seg_count vs ≤ (elem.drop (8 * v.flt64_cnt)).length := by
        simp only [seg_count, hw, if_false] at hl
        simp; omega
      obtain ⟨h1, h2, h3⟩ := ih (elem.drop (8 * v.flt64_cnt)) (is_bytes_drop _ _ hb) hl1
      refine ⟨?_, ?_, ?_⟩
      · simp only [case_items, hw, if_false, List.map_append, s1, s2, h1]
        simp only [expected_segs, numeric_mask, seg_count, hw, if_false]
        rw [elements_add, List.zipWith_append _ _ _ _ _ (by simp [elements_length])]
        congr 1
        have := zipWith_replicate_false big (elements v.flt64_cnt elem)
        rw [elements_length] at this
        exact this.symm
      · intro it hit
        simp only [case_items, hw, if_false, List.mem_append] at hit
        rcases hit with hit | hit
        · exact s3 it hit
        · rw [s1] at hit; exact h2 it hit
      · simp only [case_items, hw, if_false, List.length_append, s4, s1, h3, seg_count]

end

section

open Writer

theorem wrote_refl (w : sfm_writer) : wrote w w :=
  ⟨⟨rfl, rfl, rfl, rfl, rfl⟩, [], by simp⟩

theorem wrote_trans {a b c : sfm_writer} (h1 : wrote a b) (h2 : wrote b c) : wrote a c := by
  obtain ⟨m1, t1, e1⟩ := h1
  obtain ⟨m2, t2, e2⟩ := h2
  exact ⟨same_meta_trans _ _ _ m1 m2, t1 ++ t2, by rw [e2, e1, List.append_assoc]⟩

theorem buf_write_wrote (w : sfm_writer) (d : List Nat) : wrote w (buf_write w d).2 := by
  refine ⟨buf_write_meta w d, ?_⟩
  unfold buf_write
  cases w.io with
  | nil => simp only []; split
           · exact ⟨[], by simp⟩
           · exact ⟨d, rfl⟩
  | cons ok rest => simp only []; split
                    · exact ⟨d, rfl⟩
                    · exact ⟨[], by simp⟩

/-- A step `buf_write` followed by what the code does when it succeeded. -/
theorem wrote_of_eq {w w1 : sfm_writer} {b : Bool} {d : List Nat}
    (h : buf_write w d = (b, w1)) : wrote w w1 := by
  have := buf_write_wrote w d
  rw [h] at this
  exact this

theorem ensure_buf_space_wrote (w : sfm_writer) : wrote w (ensure_buf_space w).2 := by
  unfold ensure_buf_space
  split
  · exact wrote_trans ⟨⟨rfl, rfl, rfl, rfl, rfl⟩, [], by simp⟩ (buf_write_wrote _ _)
  · exact wrote_refl w

theorem put_instruction_wrote (w : sfm_writer) (c : Nat) : wrote w (put_instruction w c) := by
  unfold put_instruction
  have h := ensure_buf_space_wrote w
  split
  · split
    · rename_i heq; rw [heq] at h; exact h
    · rename_i heq; rw [heq] at h
      exact wrote_trans h ⟨⟨rfl, rfl, rfl, rfl, rfl⟩, [], by simp⟩
  · exact ⟨⟨rfl, rfl, rfl, rfl, rfl⟩, [], by simp⟩

theorem put_element_wrote (w : sfm_writer) (e : List Nat) : wrote w (put_element w e) := by
  unfold put_element
  have h := ensure_buf_space_wrote w
  split
  · rename_i heq; rw [heq] at h; exact h
  · rename_i heq; rw [heq] at h
    exact wrote_trans h ⟨⟨rfl, rfl, rfl, rfl, rfl⟩, [], by simp⟩

theorem put_items_wrote (its : List item) (w : sfm_writer) : wrote w (its.foldl put_item w) := by
  induction its generalizing w with
  | nil => exact wrote_refl w
  | cons it its ih =>
    refine wrote_trans ?_ (ih _)
    unfold put_item
    split
    · exact wrote_trans (put_instruction_wrote _ _) (put_element_wrote _ _)
    · exact put_instruction_wrote _ _

theorem write_compressed_data_wrote (big : Bool) (w : sfm_writer) (elem : List Nat) :
    wrote w (write_compressed_data big w elem) := by
  unfold write_compressed_data
  rw [write_compressed_vars_eq]
  exact put_items_wrote _ w

/-- `sfm_write_case` adds to the end of the file, counts the case and returns 1. -/
theorem sfm_write_case_wrote (big : Bool) (w : sfm_writer) (c junk : List Nat) :
    (sfm_write_case big w c junk).1 = 1
      ∧ (sfm_write_case big w c junk).2.case_cnt = w.case_cnt + 1
      ∧ ∃ t, (sfm_write_case big w c junk).2.file = w.file ++ t := by
  unfold sfm_write_case
  simp only []
  split
  · have h := buf_write_wrote { w with case_cnt := w.case_cnt + 1 }
      (mem_read c 0 (8 * w.flt64_cnt))
    exact ⟨rfl, h.1.2.2.2.1, h.2⟩
  · split
    · have h := buf_write_wrote { w with case_cnt := w.case_cnt + 1 }
        (fill_bounce w.vars c (alloc junk (8 * w.flt64_cnt)) 0)
      exact ⟨rfl, h.1.2.2.2.1, h.2⟩
    · have h := write_compressed_data_wrote big { w with case_cnt := w.case_cnt + 1 }
        (fill_bounce w.vars c (alloc junk (8 * w.flt64_cnt)) 0)
      exact ⟨rfl, h.1.2.2.2.1, h.2⟩

theorem sfm_write_case_compress (big : Bool) (w : sfm_writer) (c junk : List Nat)
    (hc : w.compress = true) :
    (sfm_write_case big w c junk).2
      = (case_items big w.vars (bounce_of w c junk)).foldl put_item
          { w with case_cnt := w.case_cnt + 1 } := by
  unfold sfm_write_case
  simp only [hc, Bool.not_true, Bool.and_false, Bool.false_eq_true, if_false]
  unfold write_compressed_data
  rw [write_compressed_vars_eq]
  rfl

end

section

open Writer

theorem memcpy_length (p : List Nat) (off : Nat) (src : List Nat) :
    (memcpy p off src).length = p.length := by
  unfold memcpy
  simp only [List.length_append, List.length_take, List.length_drop]
  omega

theorem memcpy_is_bytes (p : List Nat) (off : Nat) (src : List Nat) (hp : is_bytes p)
    (hs : is_bytes src) : is_bytes (memcpy p off src) := by
  unfold memcpy
  intro b hb
  simp only [List.mem_append] at hb
  rcases hb with (hb | hb) | hb
  · exact hp b (List.mem_of_mem_take hb)
  · exact hs b (List.mem_of_mem_take hb)
  · exact hp b (List.mem_of_mem_drop hb)

theorem alloc_length (junk : List Nat) (n : Nat) : (alloc junk n).length = n := by
  unfold alloc
  simp only [List.length_append, List.length_take, List.length_replicate]
  omega

theorem alloc_is_bytes (junk : List Nat) (n : Nat) (h : is_bytes junk) :
    is_bytes (alloc junk n) := by
  unfold alloc
  intro b hb
  simp only [List.mem_append] at hb
  rcases hb with hb | hb
  · exact h b (List.mem_of_mem_take hb)
  · rw [List.mem_replicate] at hb; omega

theorem fill_bounce_length (vs : List sfm_var) (c bounce : List Nat) (cur : Nat) :
    (fill_bounce vs c bounce cur).length = bounce.length := by
  induction vs generalizing bounce cur with
  | nil => rfl
  | cons v vs ih =>
    simp only [fill_bounce]
    rw [ih]
    split <;> exact memcpy_length _ _ _

theorem mem_read_is_bytes (p : List Nat) (off n : Nat) (h : is_bytes p) :
    is_bytes (mem_read p off n) := by
  unfold mem_read
  exact is_bytes_take _ _ (is_bytes_drop _ _ h)

theorem fill_bounce_is_bytes (vs : List sfm_var) (c bounce : List Nat) (cur : Nat)
    (hc : is_bytes c) (hb : is_bytes bounce) : is_bytes (fill_bounce vs c bounce cur) := by
  induction vs generalizing bounce cur with
  | nil => exact hb
  | cons v vs ih =>
    simp only [fill_bounce]
    apply ih
    split <;> exact memcpy_is_bytes _ _ _ hb (mem_read_is_bytes _ _ _ hc)

theorem bounce_of_length (w : sfm_writer) (c junk : List Nat) :
    (bounce_of w c junk).length = 8 * w.flt64_cnt := by
  unfold bounce_of
  rw [fill_bounce_length, alloc_length]

theorem bounce_of_is_bytes (w : sfm_writer) (c junk : List Nat) (hc : is_bytes c)
    (hj : is_bytes junk) : is_bytes (bounce_of w c junk) :=
  fill_bounce_is_bytes _ _ _ _ hc (alloc_is_bytes _ _ hj)

theorem case_items_ok (big : Bool) :
    ∀ (vs : List sfm_var) (elem : List Nat), 8 * seg_count vs ≤ elem.length →
      (∀ it ∈ case_items big vs elem, item_ok it)
      ∧ (case_items big vs elem).length = seg_count vs := by
  intro vs
  induction vs with
  | nil => intro elem _; simp [case_items, seg_count]
  | cons v vs ih =>
    intro elem hl
    by_cases hw : v.width = 0
    · have hl1 : 8 * seg_count vs ≤ (elem.drop 8).length := by
        simp only [seg_count, hw, if_true] at hl
        simp; omega
      have hl8 : 8 ≤ elem.length := by
        simp only [seg_count, hw, if_true] at hl; omega
      obtain ⟨h2, h3⟩ := ih (elem.drop 8) hl1
      refine ⟨?_, ?_⟩
      · intro it hit
        simp only [case_items, hw, if_true, List.mem_cons] at hit
        rcases hit with hit | hit
        · rw [hit]; exact num_item_ok big _ (by simp; omega)
        · exact h2 it hit
      · simp [case_items, hw, seg_count, h3]; omega
    · have hl0 : 8 * v.flt64_cnt ≤ elem.length := by
        simp only [seg_count, hw, if_false] at hl; omega
      have hl1 : 8 * seg_count vs ≤ (elem.drop (8 * v.flt64_cnt)).length := by
        simp only [seg_count, hw, if_false] at hl
        simp; omega
      obtain ⟨h2, h3⟩ := ih (elem.drop (8 * v.flt64_cnt)) hl1
      -- the string segments
      have hs : ∀ (j : Nat) (el : List Nat), 8 * j ≤ el.length →
          (str_items j el).2 = el.drop (8 * j) ∧ (∀ it ∈ (str_items j el).1, item_ok it)
            ∧ (str_items j el).1.length = j := by
        intro j
        induction j with
        | zero => intro el _; simp [str_items]
        | succ j ihj =>
          intro el h
          obtain ⟨a1, a2, a3⟩ := ihj (el.drop 8) (by simp; omega)
          refine ⟨?_, ?_, ?_⟩
          · simp only [str_items, a1, List.drop_drop]
            congr 1; omega
          · intro it hit
            simp only [str_items, List.mem_cons] at hit
            rcases hit with hit | hit
            · rw [hit]; exact str_item_ok _ (by simp; omega)
            · exact a2 it hit
          · simp [str_items, a3]
      obtain ⟨s1, s3, s4⟩ := hs v.flt64_cnt elem hl0
      refine ⟨?_, ?_⟩
      · intro it hit
        simp only [case_items, hw, if_false, List.mem_append] at hit
        rcases hit with hit | hit
        · exact s3 it hit
        · rw [s1] at hit; exact h2 it hit
      · simp only [case_items, hw, if_false, List.length_append, s4, s1, h3, seg_count]

/-- Writing cases keeps the writer in a state described by groups whose items are the
items of the cases, in order. -/
theorem write_cases_inv (big : Bool) (base : List Nat) :
    ∀ (cases : List (List Nat × List Nat)) (w : sfm_writer) (g0 : List (List item))
      (cur : List item) (full : Bool),
      winv base w g0 cur full → (∀ g ∈ g0, g.length ≤ 8) → w.compress = true →
      seg_count w.vars = w.flt64_cnt →
      ∃ g1 c1 f1, winv base (write_cases big w cases) g1 c1 f1 ∧ (∀ g ∈ g1, g.length ≤ 8)
        ∧ (g1 ++ [c1]).flatten = (g0 ++ [cur]).flatten
            ++ (cases.map (fun cj => case_items big w.vars (bounce_of w cj.1 cj.2))).flatten
        ∧ (write_cases big w cases).case_cnt = w.case_cnt + cases.length := by
  intro cases
  induction cases with
  | nil => intro w g0 cur full h hg _ _; exact ⟨g0, cur, full, h, hg, by simp, by simp [write_cases]⟩
  | cons cj cases ih =>
    intro w g0 cur full h hg hc hl
    have hw1 : winv base { w with case_cnt := w.case_cnt + 1 } g0 cur full := h
    have hok := (case_items_ok big w.vars (bounce_of w cj.1 cj.2)
      (by rw [bounce_of_length, hl])).1
    obtain ⟨g1, c1, f1, hinv1, hfl1, hg1⟩ :=
      put_items_inv base _ _ g0 cur full hw1 hg hok
    have hm := put_items_meta (case_items big w.vars (bounce_of w cj.1 cj.2))
      { w with case_cnt := w.case_cnt + 1 }
    rw [← sfm_write_case_compress big w cj.1 cj.2 hc] at hinv1 hm
    obtain ⟨m1, m2, m3, m4, m5⟩ := hm
    have hv : (sfm_write_case big w cj.1 cj.2).2.vars = w.vars := m1
    have hf : (sfm_write_case big w cj.1 cj.2).2.flt64_cnt = w.flt64_cnt := m2
    obtain ⟨g2, c2, f2, hinv2, hg2, hfl2, hcnt2⟩ :=
      ih (sfm_write_case big w cj.1 cj.2).2 g1 c1 f1 hinv1 hg1 (by rw [m3]; exact hc)
        (by rw [hv, hf]; exact hl)
    refine ⟨g2, c2, f2, hinv2, hg2, ?_, ?_⟩
    · show (g2 ++ [c2]).flatten = _
      rw [hfl2, hfl1, hv]
      have hb : ∀ (c j : List Nat), bounce_of (sfm_write_case big w cj.1 cj.2).2 c j
          = bounce_of w c j := by
        intro c j; unfold bounce_of; rw [hv, hf]
      simp only [hb, List.map_cons, List.flatten_cons, List.append_assoc]
    · show (write_cases big (sfm_write_case big w cj.1 cj.2).2 cases).case_cnt = _
      rw [hcnt2, m4]
      simp only [List.length_cons]
      push_cast
      ring

theorem close_file (big : Bool) (base : List Nat) (w : sfm_writer) (g0 : List (List item))
    (cur : List item) (full : Bool) (seek_ok write_ok : Bool) (h : winv base w g0 cur full) :
    sfm_close_writer big w seek_ok write_ok
      = if seek_ok && write_ok then
          file_write_at (base ++ render (g0 ++ [cur])) OFFSET_CASE_CNT
            (int32_bytes big w.case_cnt)
        else base ++ render (g0 ++ [cur]) := by
  obtain ⟨hbuf, hend, hp1, hp2, hio, hcur, hrest⟩ := h
  have hne : w.buf ≠ [] ∧ w.ptr > 0 := by
    refine ⟨?_, by omega⟩
    intro h0; rw [h0] at hbuf; simp at hbuf
  have key : (buf_write { w with buf := memset w.buf w.x 0 (w.y - w.x) }
      (mem_read (memset w.buf w.x 0 (w.y - w.x)) 0 (8 * w.ptr))).2.file
        = base ++ render (g0 ++ [cur])
      ∧ (buf_write { w with buf := memset w.buf w.x 0 (w.y - w.x) }
      (mem_read (memset w.buf w.x 0 (w.y - w.x)) 0 (8 * w.ptr))).2.case_cnt = w.case_cnt := by
    have hlen : (mem_read (memset w.buf w.x 0 (w.y - w.x)) 0 (8 * w.ptr)).length ≠ 0 := by
      unfold mem_read
      simp only [List.drop_zero, List.length_take, memset_length, hbuf]
      omega
    rw [buf_write_ok { w with buf := memset w.buf w.x 0 (w.y - w.x) } _ hio hlen]
    refine ⟨?_, rfl⟩
    show w.file ++ mem_read (memset w.buf w.x 0 (w.y - w.x)) 0 (8 * w.ptr) = _
    unfold mem_read
    rw [List.drop_zero]
    cases full with
    | true =>
      simp only [if_true] at hrest
      obtain ⟨hxy, F, hfile, hF⟩ := hrest
      rw [show w.y - w.x = 0 by omega, memset_none, hfile, List.append_assoc, hF]
    | false =>
      simp only [Bool.false_eq_true, if_false] at hrest
      obtain ⟨F, A, J, R, hfile, hFA, hb, hx, hy, hJ, hptr⟩ := hrest
      have e1 : w.buf = (A ++ codes cur) ++ J ++ (lits cur ++ R) := by rw [hb]; simp
      have e2 : w.x = (A ++ codes cur).length := by rw [hx]; simp [codes_length]
      rw [e1, memset_mid_at _ _ _ _ _ _ e2 (by omega : J.length = w.y - w.x)]
      have e3 : (A ++ codes cur) ++ List.replicate (w.y - w.x) 0 ++ (lits cur ++ R)
          = (A ++ octet cur ++ lits cur) ++ R := by
        rw [show w.y - w.x = 8 - cur.length by omega]
        simp [octet]
      have e4 : 8 * w.ptr = (A ++ octet cur ++ lits cur).length := by
        simp only [List.length_append, octet_length cur hcur]
        omega
      rw [e3, e4, List.take_left' rfl, hfile, render_append, ← hFA, render_group]
      simp
  unfold sfm_close_writer
  simp only []
  rw [if_pos hne, key.1, key.2]

end

section

open Writer

theorem write_continuations_wrote (big : Bool) (n : Nat) (w : sfm_writer) :
    wrote w (write_continuations big n w).2 := by
  induction n generalizing w with
  | zero => exact wrote_refl w
  | succ n ih =>
    simp only [write_continuations]
    split
    · rename_i h; exact wrote_of_eq h
    · rename_i h; exact wrote_trans (wrote_of_eq h) (ih _)

theorem ite_wrote (c : Prop) [Decidable c] (w : sfm_writer) (a : Bool × sfm_writer)
    (ha : wrote w a.2) : wrote w (if c then a else (true, w)).2 := by
  split
  · exact ha
  · exact wrote_refl w

theorem write_variable_wrote (big : Bool) (env : host) (w : sfm_writer) (v : variable_) :
    wrote w (write_variable big env w v).2 := by
  unfold write_variable
  simp only []
  split
  · rename_i h; exact wrote_of_eq h
  · rename_i w1 h
    have h1 := wrote_of_eq h
    split
    · rename_i w2 h2
      refine wrote_trans h1 ?_
      split at h2
      · exact wrote_of_eq h2
      · cases h2
    · rename_i w2 h2
      have h12 : wrote w1 w2 := by
        split at h2
        · exact wrote_of_eq h2
        · cases h2; exact wrote_refl _
      split
      · rename_i w3 h3
        refine wrote_trans h1 (wrote_trans h12 ?_)
        rw [show w3 = ((false, w3) : Bool × sfm_writer).2 from rfl, ← h3]
        exact ite_wrote _ _ _ (buf_write_wrote _ _)
      · rename_i w3 h3
        have h23 : wrote w2 w3 := by
          rw [show w3 = ((true, w3) : Bool × sfm_writer).2 from rfl, ← h3]
          exact ite_wrote _ _ _ (buf_write_wrote _ _)
        refine wrote_trans h1 (wrote_trans h12 (wrote_trans h23 ?_))
        split
        · exact write_continuations_wrote _ _ _
        · exact wrote_refl _

theorem write_variables_wrote (big : Bool) (env : host) (vs : List variable_) (w : sfm_writer) :
    wrote w (write_variables big env vs w) := by
  induction vs generalizing w with
  | nil => exact wrote_refl w
  | cons v vs ih =>
    simp only [write_variables]
    exact wrote_trans (write_variable_wrote big env w v) (ih _)

theorem write_value_labels_wrote (big : Bool) (env : host) (w : sfm_writer) (v : variable_)
    (idx : Int) : wrote w (write_value_labels big env w v idx).2 := by
  unfold write_value_labels
  split
  · exact wrote_refl w
  · split
    · rename_i h; exact wrote_of_eq h
    · rename_i h; exact wrote_trans (wrote_of_eq h) (buf_write_wrote _ _)

theorem write_all_value_labels_wrote (big : Bool) (env : host) (vs : List variable_)
    (idx : Int) (w : sfm_writer) : wrote w (write_all_value_labels big env vs idx w).2 := by
  induction vs generalizing w idx with
  | nil => exact wrote_refl w
  | cons v vs ih =>
    simp only [write_all_value_labels]
    have h := write_value_labels_wrote big env w v idx
    split
    · rename_i heq; rw [heq] at h; exact h
    · rename_i heq; rw [heq] at h; exact wrote_trans h (ih _ _)

theorem write_documents_wrote (big : Bool) (w : sfm_writer) (docs : List Nat) :
    wrote w (write_documents big w docs).2 := by
  unfold write_documents
  simp only []
  split
  · rename_i h; exact wrote_of_eq h
  · rename_i h; exact wrote_trans (wrote_of_eq h) (buf_write_wrote _ _)

theorem write_rec_7_34_wrote (big : Bool) (env : host) (w : sfm_writer) :
    wrote w (write_rec_7_34 big env w).2 := by
  unfold write_rec_7_34
  exact buf_write_wrote _ _

theorem write_display_params_wrote (big : Bool) (vs : List variable_) (w : sfm_writer) :
    wrote w (write_display_params big vs w).2 := by
  induction vs generalizing w with
  | nil => exact wrote_refl w
  | cons v vs ih =>
    simp only [write_display_params]
    split
    · rename_i h; exact wrote_of_eq h
    · rename_i h; exact wrote_trans (wrote_of_eq h) (ih _)

theorem write_variable_display_parameters_wrote (big : Bool) (w : sfm_writer)
    (d : dictionary) (n : Nat) :
    wrote w (write_variable_display_parameters big w d n).2 := by
  unfold write_variable_display_parameters
  split
  · rename_i h; exact wrote_of_eq h
  · rename_i h; exact wrote_trans (wrote_of_eq h) (write_display_params_wrote _ _ _)

theorem write_longvar_table_wrote (big : Bool) (w : sfm_writer) (d : dictionary) :
    wrote w (write_longvar_table big w d).2 := by
  unfold write_longvar_table
  simp only []
  split
  · rename_i h; exact wrote_of_eq h
  · rename_i h; exact wrote_trans (wrote_of_eq h) (buf_write_wrote _ _)

theorem write_dictionary_wrote (big : Bool) (env : host) (w : sfm_writer) (d : dictionary)
    (opts : sfm_write_options) : wrote w (write_dictionary big env w d opts).2 := by
  unfold write_dictionary
  simp only []
  have h1 := write_variables_wrote big env (dict_assign_short_names env d).var w
  have h2 := write_all_value_labels_wrote big env (dict_assign_short_names env d).var 0
    (write_variables big env (dict_assign_short_names env d).var w)
  split
  · rename_i heq; rw [heq] at h2; exact wrote_trans h1 h2
  · rename_i w2 heq
    rw [heq] at h2
    have h12 := wrote_trans h1 h2
    split
    · rename_i w3 h3
      refine wrote_trans h12 ?_
      split at h3
      · have := write_documents_wrote big w2 (by assumption)
        rw [h3] at this; exact this
      · cases h3
    · rename_i w3 h3
      have h23 : wrote w2 w3 := by
        split at h3
        · have := write_documents_wrote big w2 (by assumption)
          rw [h3] at this; exact this
        · cases h3; exact wrote_refl _
      have h13 := wrote_trans h12 h23
      have h4 := write_rec_7_34_wrote big env w3
      split
      · rename_i heq4; rw [heq4] at h4; exact wrote_trans h13 h4
      · rename_i w4 heq4
        rw [heq4] at h4
        have h14 := wrote_trans h13 h4
        have h5 := write_variable_display_parameters_wrote big w4
          (dict_assign_short_names env d) w4.vars.length
        split
        · rename_i heq5; rw [heq5] at h5; exact wrote_trans h14 h5
        · rename_i w5 heq5
          rw [heq5] at h5
          have h15 := wrote_trans h14 h5
          split
          · rename_i w6 h6
            refine wrote_trans h15 ?_
            split at h6
            · have := write_longvar_table_wrote big w5 (dict_assign_short_names env d)
              rw [h6] at this; exact this
            · cases h6
          · rename_i w6 h6
            have h56 : wrote w5 w6 := by
              split at h6
              · have := write_longvar_table_wrote big w5 (dict_assign_short_names env d)
                rw [h6] at this; exact this
              · cases h6; exact wrote_refl _
            exact wrote_trans h15 (wrote_trans h56 (buf_write_wrote _ _))

end

section

open Writer

theorem write_header_spec (big : Bool) (env : host) (w w1 : sfm_writer) (d : dictionary)
    (h : write_header big env w d = (true, w1)) :
    w1.vars = w.vars ∧ w1.flt64_cnt = (sum_flt64_cnt d.var).toNat ∧ w1.compress = w.compress
      ∧ w1.case_cnt = w.case_cnt ∧ w1.needs_translation = w.needs_translation
      ∧ w1.file = w.file ++ (make_header big env w.compress d).bytes := by
  unfold write_header at h
  simp only [] at h
  have hm := buf_write_meta { w with flt64_cnt := (sum_flt64_cnt d.var).toNat }
    (make_header big env w.compress d).bytes
  rw [h] at hm
  obtain ⟨m1, m2, m3, m4, m5⟩ := hm
  refine ⟨m1, m2, m3, m4, m5, ?_⟩
  unfold buf_write at h
  simp only [] at h
  split at h
  · split at h
    · cases h
    · cases h; rfl
  · split at h
    · cases h; rfl
    · cases h

theorem sfm_open_writer_spec (big : Bool) (env : host) (io : List Bool) (d : dictionary)
    (opts : sfm_write_options) (w : sfm_writer)
    (h : sfm_open_writer big env io d opts = some w) :
    w.vars = d.var.map (fun dv =>
        ({ width := dv.width, fv := dv.fv, flt64_cnt := (var_flt64_cnt dv).toNat } : sfm_var))
      ∧ w.flt64_cnt = (sum_flt64_cnt d.var).toNat ∧ w.case_cnt = 0
      ∧ w.compress = opts.compress
      ∧ w.needs_translation = decide (does_dict_need_translation d ≠ 0)
      ∧ (∃ t, w.file = (make_header big env opts.compress d).bytes ++ t)
      ∧ (w.compress = true → w.buf = alloc env.buf_junk (8 * 128) ∧ w.end_ = 128 ∧ w.ptr = 1
          ∧ w.x = 0 ∧ w.y = 8) := by
  unfold sfm_open_writer at h
  simp only [] at h
  split at h
  · cases h
  split at h
  · cases h
  split at h
  · cases h
  split at h
  · cases h
  rename_i w1 hh
  split at h
  · cases h
  rename_i w2 hd
  obtain ⟨a1, a2, a3, a4, a5, a6⟩ := write_header_spec big env _ w1 d hh
  have hw := write_dictionary_wrote big env w1 d
    (if opts.version ≠ 2 ∧ opts.version ≠ 3 then { opts with version := 3 } else opts)
  rw [hd] at hw
  obtain ⟨⟨b1, b2, b3, b4, b5⟩, t, b6⟩ := hw
  have hcomp : (if opts.version ≠ 2 ∧ opts.version ≠ 3 then { opts with version := 3 }
      else opts).compress = opts.compress := by
    split <;> rfl
  have a3b : w1.compress = opts.compress := a3.trans hcomp
  have a6b : w1.file = (make_header big env opts.compress d).bytes := by
    rw [a6]
    show [] ++ (make_header big env _ d).bytes = _
    rw [hcomp]; rfl
  split at h
  · rename_i hc
    injection h with h
    subst h
    exact ⟨b1.trans a1, b2.trans a2, b4.trans a4, b3.trans a3b, b5.trans a5,
      ⟨t, by rw [← a6b]; exact b6⟩, fun _ => ⟨rfl, rfl, rfl, rfl, rfl⟩⟩
  · rename_i hc
    injection h with h
    subst h
    exact ⟨b1.trans a1, b2.trans a2, b4.trans a4, b3.trans a3b, b5.trans a5,
      ⟨t, by rw [← a6b]; exact b6⟩, fun hc2 => absurd hc2 hc⟩

end

section

open Writer

theorem int32_bytes_length (big : Bool) (i : Int) : (int32_bytes big i).length = 4 :=
  mem_bytes_length big 4 _

theorem creation_stamp_length (t : Option tm) :
    (creation_stamp t).1.length = 9 ∧ (creation_stamp t).2.length = 8 := by
  unfold creation_stamp
  cases t with
  | none => exact ⟨rfl, rfl⟩
  | some tmp =>
    simp only [str_bytes, List.length_append, List.length_take, List.length_replicate]
    omega

theorem make_header_length (big : Bool) (env : host) (c : Bool) (d : dictionary) :
    (make_header big env c d).bytes.length = 176 := by
  unfold sysfile_header.bytes make_header
  simp only [List.length_append, int32_bytes_length, mem_bytes_length,
    (creation_stamp_length env.time).1, (creation_stamp_length env.time).2,
    buf_copy_str_rpad, append_string_max, List.length_take, List.length_replicate,
    List.length_cons, List.length_nil]
  split <;> simp only [int32_bytes_length] <;> omega

theorem file_write_at_drop (file : List Nat) (off n : Nat) (data : List Nat)
    (h1 : off + data.length ≤ n) (h2 : n ≤ file.length) :
    (file_write_at file off data).drop n = file.drop n := by
  unfold file_write_at
  have e1 : (file.take off ++ List.replicate (off - file.length) 0 ++ data).length
      = off + data.length := by
    simp only [List.length_append, List.length_take, List.length_replicate]
    omega
  rw [List.drop_append_eq_append_drop, e1]
  rw [List.drop_eq_nil_of_le (by rw [e1]; exact h1), List.nil_append, List.drop_drop]
  congr 1
  omega

theorem layout_seg_count (d : dictionary) (h : layout_ok d) :
    seg_count (d.var.map (fun dv =>
        ({ width := dv.width, fv := dv.fv, flt64_cnt := (var_flt64_cnt dv).toNat } : sfm_var)))
      = (sum_flt64_cnt d.var).toNat
    ∧ 0 ≤ sum_flt64_cnt d.var := by
  unfold layout_ok at h
  generalize d.var = vs at h
  induction vs with
  | nil => simp [seg_count, sum_flt64_cnt]
  | cons v vs ih =>
    obtain ⟨h1, h2⟩ := ih (fun x hx => h x (List.mem_cons_of_mem _ hx))
    simp only [List.map_cons, seg_count, sum_flt64_cnt, h1]
    have hv : 0 ≤ var_flt64_cnt v
        ∧ (if v.width = 0 then 1 else (var_flt64_cnt v).toNat) = (var_flt64_cnt v).toNat := by
      unfold var_flt64_cnt DIV_RND_UP
      rcases h v (List.mem_cons_self _ _) with ⟨ht, hw⟩ | ⟨ht, hw⟩
      · simp [ht, hw]
      · have hne : v.type ≠ NUMERIC := by rw [ht]; decide
        have hw0 : ¬ v.width = 0 := by omega
        simp only [hne, hw0, if_false]
        have : 0 ≤ (v.width + (8 - 1)).tdiv 8 := Int.tdiv_nonneg (by omega) (by omega)
        exact ⟨this, trivial⟩
    rw [hv.2]
    omega

theorem render_length_mod (gs : List (List item))
    (h : ∀ g ∈ gs, g.length ≤ 8 ∧ ∀ it ∈ g, item_ok it) : (render gs).length % 8 = 0 := by
  have hl : ∀ g : List item, (∀ it ∈ g, item_ok it) → (lits g).length % 8 = 0 := by
    intro g
    induction g with
    | nil => intro _; rfl
    | cons it g ih =>
      intro hg
      have h1 := ih (fun x hx => hg x (List.mem_cons_of_mem _ hx))
      have h2 : it.2.length % 8 = 0 := by
        rcases hg it (List.mem_cons_self _ _) with h3 | h3
        · rw [h3.2]
        · rw [h3.2.2.2]; rfl
      simp only [lits, List.map_cons, List.flatten_cons, List.length_append] at h1 ⊢
      omega
  induction gs with
  | nil => rfl
  | cons g gs ih =>
    have h1 := ih (fun x hx => h x (List.mem_cons_of_mem _ hx))
    have hg := h g (List.mem_cons_self _ _)
    have h2 := hl g hg.2
    simp only [render, List.map_cons, List.flatten_cons, List.length_append, render_group,
      octet_length g hg.1] at h1 ⊢
    omega

end

/-- What a compressing writer has put on the file when it is closed: the file as it
was when the writer was opened, then groups whose items are the items of the cases. -/
theorem written_stream (big : Bool) (env : Writer.host) (io : List Bool)
    (d : Writer.dictionary) (opts : Writer.sfm_write_options) (w : Writer.sfm_writer)
    (cases : List (List Nat × List Nat)) (seek_ok write_ok : Bool)
    (hopen : Writer.sfm_open_writer big env io d opts = some w)
    (hcomp : opts.compress = true) (hio : w.io = []) (hlay : layout_ok d) :
    ∃ G : List (List item),
      (Writer.sfm_close_writer big (write_cases big w cases) seek_ok write_ok).drop
          w.file.length = render G
      ∧ (∀ g ∈ G, g.length ≤ 8)
      ∧ G.flatten
          = (cases.map (fun cj => case_items big w.vars (bounce_of w cj.1 cj.2))).flatten
      ∧ seg_count w.vars = w.flt64_cnt := by
  obtain ⟨hvars, hcnt, hcc, hc, hnt, ⟨t, hfile⟩, hbuf⟩ :=
    sfm_open_writer_spec big env io d opts w hopen
  have hcw : w.compress = true := hc.trans hcomp
  obtain ⟨hb1, hb2, hb3, hb4, hb5⟩ := hbuf hcw
  have hseg : seg_count w.vars = w.flt64_cnt := by
    rw [hvars, hcnt]; exact (layout_seg_count d hlay).1
  have hlen : 176 ≤ w.file.length := by
    rw [hfile, List.length_append, make_header_length]; omega
  have hinv0 : winv w.file w [] [] false := by
    refine ⟨by rw [hb1]; exact alloc_length _ _ |>.trans (by norm_num), hb2,
      by omega, by omega, hio, by simp, ?_⟩
    simp only [Bool.false_eq_true, if_false]
    refine ⟨[], [], w.buf.take 8, w.buf.drop 8, by simp, by simp [render], ?_, ?_, ?_, ?_, ?_⟩
    · simp [codes, lits]
    · simp [hb4]
    · simp [hb5]
    · have : w.buf.length = 1024 := by
        rw [hb1]; exact (alloc_length _ _).trans (by norm_num)
      simp; omega
    · simp [lits, hb3]
  obtain ⟨g1, c1, f1, hinv1, hg1, hfl1, hcnt1⟩ :=
    write_cases_inv big w.file cases w [] [] false hinv0 (by simp) hcw hseg
  refine ⟨g1 ++ [c1], ?_, ?_, by simpa using hfl1, hseg⟩
  · rw [close_file big w.file _ g1 c1 f1 seek_ok write_ok hinv1]
    split
    · rw [file_write_at_drop _ _ _ _ (by rw [int32_bytes_length]; unfold Writer.OFFSET_CASE_CNT; omega)
        (by simp)]
      simp
    · simp
  · intro g hg
    rcases List.mem_append.mp hg with h | h
    · exact hg1 g h
    · simp at h; rw [h]; exact hinv1.2.2.2.2.2.1

/-- C1 (amended): for every dictionary whose variables are numeric or strings of width
at least 1, with at least one segment per case, and every finite sequence of cases, the
case data that the compressing writer leaves on the file (every flush made by
`sfm_write_case` and the final flush of `sfm_close_writer`), decoded by
`read_compressed_data` with `value_cnt` equal to the writer's `flt64_cnt`, bias 100,
file SYSMIS `-FLT64_MAX` and `reverse_endian = 0`, yields one case per call in the
original order, each call returning 1 without a message, and the call after the last
case returns 0 without a message.  The segments delivered are the segments written,
except that a numeric segment holding negative zero comes back as positive zero
(`expected_segs`). -/
theorem compressed_round_trip_up_to_zero_sign (big : Bool) (env : Writer.host)
    (io : List Bool) (d : Writer.dictionary) (opts : Writer.sfm_write_options)
    (w : Writer.sfm_writer) (cases : List (List Nat × List Nat)) (seek_ok write_ok : Bool)
    (r : Reader.sfm_reader)
    (hopen : Writer.sfm_open_writer big env io d opts = some w)
    (hcomp : opts.compress = true) (hio : w.io = []) (hlay : layout_ok d)
    (hseg : 0 < w.flt64_cnt)
    (hbytes : ∀ cj ∈ cases, is_bytes cj.1 ∧ is_bytes cj.2)
    (hv : r.value_cnt = (w.flt64_cnt : Int))
    (hbias : r.bias = mem_bytes big 8 BIAS_100_BITS) (hsys : r.sysmis = SYSMIS big)
    (hrev : r.reverse_endian = false) (hbuf : r.buf = []) (hy : r.y = 8)
    (hfile : r.file
      = (Writer.sfm_close_writer big (write_cases big w cases) seek_ok write_ok).drop
          w.file.length) :
    (read_cases big (cases.length + 1) r).map (fun res => (res.ret, res.out, res.msgs))
      = cases.map (fun cj => ((1 : Int), expected_segs big w.vars (bounce_of w cj.1 cj.2),
          ([] : List Reader.message))) ++ [(0, [], [])] := by
  obtain ⟨G, hG, hGlen, hGfl, hsc⟩ :=
    written_stream big env io d opts w cases seek_ok write_ok hopen hcomp hio hlay
  have hitems : ∀ cj ∈ cases,
      (∀ it ∈ case_items big w.vars (bounce_of w cj.1 cj.2), item_ok it)
      ∧ (case_items big w.vars (bounce_of w cj.1 cj.2)).length = w.flt64_cnt
      ∧ (case_items big w.vars (bounce_of w cj.1 cj.2)).map (item_value big r)
          = expected_segs big w.vars (bounce_of w cj.1 cj.2) := by
    intro cj hcj
    have hb := bounce_of_is_bytes w cj.1 cj.2 (hbytes cj hcj).1 (hbytes cj hcj).2
    obtain ⟨h1, h2, h3⟩ := case_items_spec big r hrev hbias hsys w.vars
      (bounce_of w cj.1 cj.2) hb (by rw [bounce_of_length, hsc])
    exact ⟨h2, by rw [h3, hsc], h1⟩
  have hGok : ∀ g ∈ G, g.length ≤ 8 ∧ ∀ it ∈ g, item_ok it := by
    intro g hg
    refine ⟨hGlen g hg, fun it hit => ?_⟩
    have hmem : it ∈ G.flatten := List.mem_flatten.mpr ⟨g, hg, hit⟩
    rw [hGfl] at hmem
    obtain ⟨l, hl, hitl⟩ := List.mem_flatten.mp hmem
    obtain ⟨cj, hcj, rfl⟩ := List.mem_map.mp hl
    exact (hitems cj hcj).1 it hitl
  have hinv : rinv r r.y [] G := by
    refine ⟨by rw [hbuf]; simp, ?_, ?_, ?_, by rw [hy]; simp, by simp, hGok⟩
    · rw [hfile, hG]; exact render_length_mod G hGok
    · unfold pending; rw [hbuf, hfile, hG]; simp [lits]
    · intro i hi; rw [hy] at hi; omega
  have hmain := read_cases_groups big w.flt64_cnt hseg
    (cases.map (fun cj => case_items big w.vars (bounce_of w cj.1 cj.2))) r [] G hinv
    (by rw [hy]) hv
    (by
      intro l hl
      obtain ⟨cj, hcj, rfl⟩ := List.mem_map.mp hl
      exact (hitems cj hcj).2.1)
    (by simpa using hGfl)
  rw [List.length_map] at hmain
  rw [hmain, List.map_map]
  congr 1
  apply List.map_congr_left
  intro cj hcj
  simp only [Function.comp, (hitems cj hcj).2.2]

/-- C1, witness: a compressing writer opened for a numeric and a string variable, two
cases written (the first holds negative zero and a blank string), the file closed and
read back with three calls. -/
theorem compressed_round_trip_witness :
    ∃ w, Writer.sfm_open_writer false example_host []
          (example_dict [example_numeric 65 0, example_string 66 1]) compress_opts = some w
      ∧ (read_cases false 3 (data_reader false w.flt64_cnt
            ((Writer.sfm_close_writer false (write_cases false w
              [([0, 0, 0, 0, 0, 0, 0, 128, 32, 32, 32, 32, 32, 32, 32, 32], []),
               ([0, 0, 0, 0, 0, 0, 240, 63, 97, 98, 99, 32, 32, 32, 32, 32], [7, 7])])
              true true).drop w.file.length))).map
          (fun res => (res.ret, res.out, res.msgs))
        = [([0, 0, 0, 0, 0, 0, 0, 128, 32, 32, 32, 32, 32, 32, 32, 32], []),
           ([0, 0, 0, 0, 0, 0, 240, 63, 97, 98, 99, 32, 32, 32, 32, 32], [7, 7])].map
            (fun cj => ((1 : Int), expected_segs false w.vars (bounce_of w cj.1 cj.2),
              ([] : List Reader.message))) ++ [(0, [], [])] := by
  have hm : (Writer.sfm_open_writer false example_host []
      (example_dict [example_numeric 65 0, example_string 66 1]) compress_opts).map
        (fun w => (w.io, w.flt64_cnt)) = some ([], 2) := by decide!
  obtain ⟨w, hw, hf⟩ := Option.map_eq_some'.mp hm
  have hio : w.io = [] := congrArg Prod.fst hf
  have hseg : w.flt64_cnt = 2 := congrArg Prod.snd hf
  exact ⟨w, hw,
    compressed_round_trip_up_to_zero_sign false example_host []
      (example_dict [example_numeric 65 0, example_string 66 1]) compress_opts w
      [([0, 0, 0, 0, 0, 0, 0, 128, 32, 32, 32, 32, 32, 32, 32, 32], []),
       ([0, 0, 0, 0, 0, 0, 240, 63, 97, 98, 99, 32, 32, 32, 32, 32], [7, 7])] true true
      (data_reader false w.flt64_cnt
        ((Writer.sfm_close_writer false (write_cases false w
          [([0, 0, 0, 0, 0, 0, 0, 128, 32, 32, 32, 32, 32, 32, 32, 32], []),
           ([0, 0, 0, 0, 0, 0, 240, 63, 97, 98, 99, 32, 32, 32, 32, 32], [7, 7])])
          true true).drop w.file.length))
      hw rfl hio (by unfold layout_ok; decide) (by omega) (by decide) rfl rfl rfl rfl rfl rfl
      rfl⟩

/-- C1, counterexample: a case whose one numeric segment is negative zero (bytes
`00 00 00 00 00 00 00 80` on a little-endian host) is written as instruction 100 and
comes back as positive zero, so the segments read are not the segments written. -/
theorem negative_zero_not_preserved :
    written_data false example_host (example_dict [example_numeric 65 0]) compress_opts
        [([0, 0, 0, 0, 0, 0, 0, 128], [])]
      = some (1, [100, 0, 0, 0, 0, 0, 0, 0])
    ∧ round_trip false example_host (example_dict [example_numeric 65 0]) compress_opts
        [([0, 0, 0, 0, 0, 0, 0, 128], [])] 2
      = some [(1, [[0, 0, 0, 0, 0, 0, 0, 0]], []), (0, [], [])]
    ∧ Reader.elements 1 [0, 0, 0, 0, 0, 0, 0, 128] ≠ [[0, 0, 0, 0, 0, 0, 0, 0]] := by
  decide!

/-- C2: `write_compressed_data` writes every segment of a case with the instruction
prescribed for it.  A numeric segment of value `v` gets 255 if `v = -FLT64_MAX`,
otherwise the byte `v + 100` if `v` is an integer with `-99 <= v <= 151`, otherwise 253
followed by the segment as a literal (`spec_num_code`); a string segment gets 254 if it
is eight spaces, otherwise 253 followed by its 8 bytes (`spec_str_code`).  In particular
`-99` is written as 1, `151` as 251, and `-100` and `152` as 253 literals. -/
theorem write_compressed_data_instructions (big : Bool) (w : Writer.sfm_writer)
    (elem : List Nat) :
    Writer.write_compressed_data big w elem = (case_items big w.vars elem).foldl put_item w
    ∧ (∀ (w1 : Writer.sfm_writer) (e : List Nat),
        Writer.write_compressed_num big w1 e
          = if spec_num_code big e = 253
              then Writer.put_element (Writer.put_instruction w1 253) e
              else Writer.put_instruction w1 (spec_num_code big e))
    ∧ (∀ (w1 : Writer.sfm_writer) (e : List Nat),
        (Writer.write_compressed_str 1 w1 e).1
          = if spec_str_code (e.take 8) = 253
              then Writer.put_element (Writer.put_instruction w1 253) (e.take 8)
              else Writer.put_instruction w1 254)
    ∧ (∀ e, spec_num_code big e ≠ 0 ∧ spec_num_code big e ≠ 252 ∧ spec_num_code big e ≠ 254
        ∧ spec_num_code big e ≤ 255)
    ∧ spec_num_code big (mem_bytes big 8 NEG_FLT64_MAX_BITS) = 255
    ∧ spec_num_code big (mem_bytes big 8 0xC058C00000000000) = 1
    ∧ spec_num_code big (mem_bytes big 8 0x4062E00000000000) = 251
    ∧ spec_num_code big (mem_bytes big 8 0xC059000000000000) = 253
    ∧ spec_num_code big (mem_bytes big 8 0x4063000000000000) = 253
    ∧ spec_num_code big (mem_bytes big 8 0x3FE0000000000000) = 253 := by
  refine ⟨?_, ?_, ?_, ?_, ?_, ?_, ?_, ?_, ?_, ?_⟩
  · unfold Writer.write_compressed_data
    exact write_compressed_vars_eq big w.vars w elem
  · intro w1 e
    rw [write_compressed_num_eq]
    unfold put_item num_item
    by_cases h : spec_num_code big e = 253
    · simp [h]
    · simp [h]
  · intro w1 e
    rw [write_compressed_str_eq]
    simp only [str_items, List.foldl_cons, List.foldl_nil]
    unfold put_item str_item
    by_cases h : spec_str_code (e.take 8) = 253
    · simp [h]
    · have h254 : spec_str_code (e.take 8) = 254 := by
        unfold spec_str_code at h ⊢
        split
        · rfl
        · rename_i hne; simp [hne] at h
      simp [h254]
  · intro e
    have h := spec_num_code_range big e
    omega
  · cases big <;> decide!
  · cases big <;> decide!
  · cases big <;> decide!
  · cases big <;> decide!
  · cases big <;> decide!
  · cases big <;> decide!

theorem put_element_room (base : List Nat) (w : Writer.sfm_writer) (g0 : List (List item))
    (cur1 cur2 : List item) (e : List Nat) (hc : codes cur2 = codes cur1)
    (hl : lits cur2 = lits cur1 ++ e) (hn : cur2.length = cur1.length)
    (h : winv base w g0 cur1 false) (he : e.length = 8) (hp : w.ptr < 128) :
    winv base (Writer.put_element w e) g0 cur2 false
      ∧ (Writer.put_element w e).ptr = w.ptr + 1 := by
  obtain ⟨hbuf, hend, hp1, hp2, hio, hcur, hrest⟩ := h
  simp only [Bool.false_eq_true, if_false] at hrest
  obtain ⟨F, A, J, R, hfile, hFA, hb, hx, hy, hJ, hptr⟩ := hrest
  have het : e.take 8 = e := List.take_of_length_le (by omega)
  have htot : A.length + 8 + (lits cur1).length + R.length = 1024 := by
    have := congrArg List.length hb
    simp only [List.length_append, codes_length] at this
    omega
  have hfl : ¬ w.ptr ≥ w.end_ := by omega
  unfold Writer.put_element
  rw [ensure_buf_space_room w hfl]
  simp only []
  have hRl : 8 ≤ R.length := by omega
  have e1 : w.buf = (A ++ codes cur1 ++ J ++ lits cur1) ++ R.take 8 ++ R.drop 8 := by
    rw [hb]; simp
  have e2 : 8 * w.ptr = (A ++ codes cur1 ++ J ++ lits cur1).length := by
    simp only [List.length_append, codes_length]
    omega
  have hmc : memcpy w.buf (8 * w.ptr) (e.take 8)
      = (A ++ codes cur1 ++ J ++ lits cur1) ++ e ++ R.drop 8 := by
    rw [het, e1, e2, memcpy_mid _ _ _ _ (by simp [he]; omega)]
  refine ⟨⟨?_, hend, by simp, by simp; omega, hio, by rw [hn]; exact hcur, ?_⟩, trivial⟩
  · show (memcpy w.buf (8 * w.ptr) (e.take 8)).length = 1024
    rw [hmc]
    simp only [List.length_append, codes_length, List.length_drop, he]
    omega
  · simp only [Bool.false_eq_true, if_false]
    refine ⟨F, A, J, R.drop 8, hfile, hFA, ?_, ?_, ?_, ?_, ?_⟩
    · show memcpy w.buf (8 * w.ptr) (e.take 8) = _
      rw [hmc, hc, hl]
      simp
    · rw [hn]; exact hx
    · exact hy
    · rw [hn]; exact hJ
    · show 8 * (w.ptr + 1) = _
      rw [hl]
      simp only [List.length_append, he]
      omega

theorem put_instruction_ptr (base : List Nat) (w : Writer.sfm_writer) (g0 : List (List item))
    (cur : List item) (c : Nat) (h : winv base w g0 cur false) (hlen : cur.length < 8) :
    (Writer.put_instruction w c).ptr = w.ptr := by
  obtain ⟨hbuf, hend, hp1, hp2, hio, hcur, hrest⟩ := h
  simp only [Bool.false_eq_true, if_false] at hrest
  obtain ⟨F, A, J, R, hfile, hFA, hb, hx, hy, hJ, hptr⟩ := hrest
  have hlt : ¬ (w.x ≥ w.y) := by omega
  unfold Writer.put_instruction
  rw [if_neg hlt]

theorem put_item_room (base : List Nat) (w : Writer.sfm_writer) (g0 : List (List item))
    (cur : List item) (it : item) (h : winv base w g0 cur false) (hlen : cur.length < 8)
    (hp : w.ptr < 128) (hit : item_ok it) :
    winv base (put_item w it) g0 (cur ++ [it]) false ∧ (put_item w it).ptr ≤ w.ptr + 1 := by
  have hi := put_instruction_open base w g0 cur it.1 h hlen
  have hpi := put_instruction_ptr base w g0 cur it.1 h hlen
  unfold put_item
  by_cases h253 : it.1 = 253
  · rw [if_pos h253]
    have hl8 : it.2.length = 8 := by
      rcases hit with h1 | h1
      · exact h1.2
      · exact absurd h253 h1.1
    rw [h253] at hi hpi
    obtain ⟨hw, hptr⟩ := put_element_room base _ g0 (cur ++ [(253, [])]) (cur ++ [it]) it.2
      (by simp [codes, h253]) (by simp [lits]) (by simp) hi hl8 (by omega)
    exact ⟨hw, by omega⟩
  · rw [if_neg h253]
    have hnil : it.2 = [] := by
      rcases hit with h1 | h1
      · exact absurd h1.1 h253
      · exact h1.2.2.2
    have hit2 : ((it.1, ([] : List Nat)) : item) = it := by
      rw [← hnil]
    rw [hit2] at hi
    exact ⟨hi, by omega⟩

theorem put_items_room (base : List Nat) (g0 : List (List item)) :
    ∀ (its : List item) (w : Writer.sfm_writer) (cur : List item),
      winv base w g0 cur false → cur.length + its.length ≤ 8 → w.ptr + its.length ≤ 128 →
      (∀ it ∈ its, item_ok it) → winv base (its.foldl put_item w) g0 (cur ++ its) false := by
  intro its
  induction its with
  | nil => intro w cur h _ _ _; simpa using h
  | cons it its ih =>
    intro w cur h hlen hp hok
    simp only [List.length_cons] at hlen hp
    obtain ⟨h1, hp1⟩ := put_item_room base w g0 cur it h (by omega) (by omega)
      (hok it (List.mem_cons_self _ _))
    have := ih (put_item w it) (cur ++ [it]) h1 (by simp; omega) (by omega)
      (fun x hx => hok x (List.mem_cons_of_mem _ hx))
    simpa using this

theorem open_winv (big : Bool) (env : Writer.host) (io : List Bool)
    (d : Writer.dictionary) (opts : Writer.sfm_write_options) (w : Writer.sfm_writer)
    (hopen : Writer.sfm_open_writer big env io d opts = some w)
    (hcomp : opts.compress = true) (hio : w.io = []) :
    winv w.file w [] [] false := by
  obtain ⟨hvars, hcnt, hcc, hc, hnt, ⟨t, hfile⟩, hbuf⟩ :=
    sfm_open_writer_spec big env io d opts w hopen
  have hcw : w.compress = true := hc.trans hcomp
  obtain ⟨hb1, hb2, hb3, hb4, hb5⟩ := hbuf hcw
  refine ⟨by rw [hb1]; exact alloc_length _ _ |>.trans (by norm_num), hb2,
    by omega, by omega, hio, by simp, ?_⟩
  simp only [Bool.false_eq_true, if_false]
  refine ⟨[], [], w.buf.take 8, w.buf.drop 8, by simp, by simp [render], ?_, ?_, ?_, ?_, ?_⟩
  · simp [codes, lits]
  · simp [hb4]
  · simp [hb5]
  · have : w.buf.length = 1024 := by
      rw [hb1]; exact (alloc_length _ _).trans (by norm_num)
    simp; omega
  · simp [lits, hb3]

theorem winv_case_cnt (base : List Nat) (w : Writer.sfm_writer) (g0 : List (List item))
    (cur : List item) (full : Bool) (n : Int) (h : winv base w g0 cur full) :
    winv base { w with case_cnt := n } g0 cur full := h

theorem fill_bounce_single (c : List Nat) :
    ∀ (vs : List Writer.sfm_var) (done tail : List Nat) (cur : Nat),
      (∀ v ∈ vs, v.flt64_cnt = 1 ∧ (v.width = 0 ∨ v.width = 8)
        ∧ (mem_read c (8 * v.fv) 8).length = 8) →
      8 * vs.length ≤ tail.length → done.length = 8 * cur →
      Writer.fill_bounce vs c (done ++ tail) cur
        = done ++ (vs.map (fun v => mem_read c (8 * v.fv) 8)).flatten
            ++ tail.drop (8 * vs.length) := by
  intro vs
  induction vs with
  | nil => intro done tail cur _ _ _; simp [Writer.fill_bounce]
  | cons v vs ih =>
    intro done tail cur hv hlen hdone
    obtain ⟨hf, hw, hl⟩ := hv v (List.mem_cons_self _ _)
    simp only [List.length_cons] at hlen
    have hsrc : (if v.width = 0 then memcpy (done ++ tail) (8 * cur) (mem_read c (8 * v.fv) 8)
        else memcpy (done ++ tail) (8 * cur) (mem_read c (8 * v.fv) v.width.toNat))
        = (done ++ mem_read c (8 * v.fv) 8) ++ tail.drop 8 := by
      have hm : memcpy (done ++ tail) (8 * cur) (mem_read c (8 * v.fv) 8)
          = (done ++ mem_read c (8 * v.fv) 8) ++ tail.drop 8 := by
        have e1 : done ++ tail = done ++ tail.take 8 ++ tail.drop 8 := by simp
        rw [e1, ← hdone, memcpy_mid _ _ _ _ (by simp [hl]; omega)]
      rcases hw with hw | hw
      · rw [if_pos hw, hm]
      · rw [if_neg (by omega), hw]
        exact hm
    simp only [Writer.fill_bounce]
    rw [hsrc, hf, ih (done ++ mem_read c (8 * v.fv) 8) (tail.drop 8) (cur + 1)
      (fun x hx => hv x (List.mem_cons_of_mem _ hx)) (by simp; omega) (by simp [hl, hdone]; omega)]
    have e8 : 8 + 8 * vs.length = 8 * (v :: vs).length := by
      simp only [List.length_cons]; omega
    simp only [List.map_cons, List.flatten_cons, List.append_assoc, List.drop_drop, e8]

/-- C3: a compressing writer opened for five variables of one segment each, four
numeric ones followed by a string of width 8, is given the single case 42.0, 99.0,
SYSMIS, -1e300, eight spaces and is closed.  The case data on the file is then exactly
16 bytes: the instruction octet 142, 199, 255, 253, 254, 0, 0, 0 followed by the 8 bytes
of -1e300. -/
theorem scenario_case_data (big : Bool) (env : Writer.host) (io : List Bool)
    (d : Writer.dictionary) (opts : Writer.sfm_write_options) (w : Writer.sfm_writer)
    (v0 v1 v2 v3 v4 : Writer.variable_) (c junk : List Nat) (seek_ok write_ok : Bool)
    (hopen : Writer.sfm_open_writer big env io d opts = some w)
    (hcomp : opts.compress = true) (hio : w.io = [])
    (hd : d.var = [v0, v1, v2, v3, v4])
    (h0 : v0.type = Writer.NUMERIC ∧ v0.width = 0)
    (h1 : v1.type = Writer.NUMERIC ∧ v1.width = 0)
    (h2 : v2.type = Writer.NUMERIC ∧ v2.width = 0)
    (h3 : v3.type = Writer.NUMERIC ∧ v3.width = 0)
    (h4 : v4.type = Writer.ALPHA ∧ v4.width = 8)
    (c0 : mem_read c (8 * v0.fv) 8 = mem_bytes big 8 0x4045000000000000)
    (c1 : mem_read c (8 * v1.fv) 8 = mem_bytes big 8 0x4058C00000000000)
    (c2 : mem_read c (8 * v2.fv) 8 = SYSMIS big)
    (c3 : mem_read c (8 * v3.fv) 8 = mem_bytes big 8 0xFE37E43C8800759C)
    (c4 : mem_read c (8 * v4.fv) 8 = [32, 32, 32, 32, 32, 32, 32, 32]) :
    (Writer.sfm_close_writer big (Writer.sfm_write_case big w c junk).2 seek_ok
        write_ok).drop w.file.length
      = [142, 199, 255, 253, 254, 0, 0, 0] ++ mem_bytes big 8 0xFE37E43C8800759C := by
  obtain ⟨hvars, hcnt, hcc, hc, hnt, ⟨t, hfile⟩, hbuf⟩ :=
    sfm_open_writer_spec big env io d opts w hopen
  have hcw : w.compress = true := hc.trans hcomp
  have hinv0 := open_winv big env io d opts w hopen hcomp hio
  have hlen : 176 ≤ w.file.length := by
    rw [hfile, List.length_append, make_header_length]; omega
  have hv : w.vars = [⟨0, v0.fv, 1⟩, ⟨0, v1.fv, 1⟩, ⟨0, v2.fv, 1⟩, ⟨0, v3.fv, 1⟩,
      ⟨8, v4.fv, 1⟩] := by
    rw [hvars, hd]
    simp [Writer.var_flt64_cnt, h0.1, h0.2, h1.1, h1.2, h2.1, h2.2, h3.1, h3.2, h4.1, h4.2,
      Writer.NUMERIC, Writer.ALPHA, Writer.DIV_RND_UP, (by decide : Int.tdiv 15 8 = 1)]
  have hfc : w.flt64_cnt = 5 := by
    rw [hcnt, hd]
    simp [Writer.sum_flt64_cnt, Writer.var_flt64_cnt, h0.1, h1.1, h2.1, h3.1, h4.1, h4.2,
      Writer.NUMERIC, Writer.ALPHA, Writer.DIV_RND_UP, (by decide : Int.tdiv 15 8 = 1)]
  have l0 : (mem_bytes big 8 0x4045000000000000).length = 8 := mem_bytes_length _ _ _
  have l1 : (mem_bytes big 8 0x4058C00000000000).length = 8 := mem_bytes_length _ _ _
  have l2 : (SYSMIS big).length = 8 := mem_bytes_length _ _ _
  have l3 : (mem_bytes big 8 0xFE37E43C8800759C).length = 8 := mem_bytes_length _ _ _
  have hb : Writer.fill_bounce w.vars c (Writer.alloc junk (8 * w.flt64_cnt)) 0
      = mem_bytes big 8 0x4045000000000000 ++ (mem_bytes big 8 0x4058C00000000000
        ++ (SYSMIS big ++ (mem_bytes big 8 0xFE37E43C8800759C
        ++ [32, 32, 32, 32, 32, 32, 32, 32]))) := by
    have := fill_bounce_single c w.vars [] (Writer.alloc junk (8 * w.flt64_cnt)) 0
      (by
        rw [hv]
        intro v hmem
        simp only [List.mem_cons, List.mem_singleton, List.not_mem_nil, or_false] at hmem
        rcases hmem with rfl | rfl | rfl | rfl | rfl
        · exact ⟨rfl, Or.inl rfl, by rw [c0]; exact l0⟩
        · exact ⟨rfl, Or.inl rfl, by rw [c1]; exact l1⟩
        · exact ⟨rfl, Or.inl rfl, by rw [c2]; exact l2⟩
        · exact ⟨rfl, Or.inl rfl, by rw [c3]; exact l3⟩
        · exact ⟨rfl, Or.inr rfl, by rw [c4]; rfl⟩)
      (by rw [alloc_length, hv, hfc]; simp) rfl
    rw [List.nil_append] at this
    rw [this, hv]
    simp only [List.map_cons, List.map_nil, List.flatten_cons, List.flatten_nil, c0, c1, c2,
      c3, c4, List.nil_append, List.length_cons, List.length_nil]
    rw [List.drop_of_length_le (by rw [alloc_length, hfc])]
    simp
  have hitems : case_items big w.vars
      (mem_bytes big 8 0x4045000000000000 ++ (mem_bytes big 8 0x4058C00000000000
        ++ (SYSMIS big ++ (mem_bytes big 8 0xFE37E43C8800759C
        ++ [32, 32, 32, 32, 32, 32, 32, 32]))))
      = [(142, []), (199, []), (255, []), (253, mem_bytes big 8 0xFE37E43C8800759C),
          (254, [])] := by
    have n0 : num_item big (mem_bytes big 8 0x4045000000000000) = (142, []) := by
      cases big <;> decide!
    have n1 : num_item big (mem_bytes big 8 0x4058C00000000000) = (199, []) := by
      cases big <;> decide!
    have n2 : num_item big (SYSMIS big) = (255, []) := by
      cases big <;> decide!
    have n3 : num_item big (mem_bytes big 8 0xFE37E43C8800759C)
        = (253, mem_bytes big 8 0xFE37E43C8800759C) := by
      cases big <;> decide!
    rw [hv]
    simp only [case_items, str_items, if_true, List.take_left' l0, List.drop_left' l0,
      List.take_left' l1, List.drop_left' l1, List.take_left' l2, List.drop_left' l2,
      List.take_left' l3, List.drop_left' l3, n0, n1, n2, n3]
    simp [str_item, spec_str_code]
  have hwc : (Writer.sfm_write_case big w c junk).2
      = [(142, []), (199, []), (255, []), (253, mem_bytes big 8 0xFE37E43C8800759C),
          (254, [])].foldl put_item { w with case_cnt := w.case_cnt + 1 } := by
    unfold Writer.sfm_write_case
    simp only [hcw, Bool.not_true, Bool.and_false, Bool.false_eq_true, if_false]
    unfold Writer.write_compressed_data
    rw [write_compressed_vars_eq]
    show (case_items big w.vars (Writer.fill_bounce w.vars c
      (Writer.alloc junk (8 * w.flt64_cnt)) 0)).foldl put_item _ = _
    rw [hb, hitems]
  have hinv1 := put_items_room w.file []
    [(142, []), (199, []), (255, []), (253, mem_bytes big 8 0xFE37E43C8800759C), (254, [])]
    { w with case_cnt := w.case_cnt + 1 } []
    (winv_case_cnt _ _ _ _ _ _ hinv0) (by simp)
    (by have := hinv0.2.2.2.1; show w.ptr + _ ≤ 128; simp; obtain ⟨_, _, _, hp, _⟩ := hbuf hcw; omega)
    (by
      intro it hmem
      simp only [List.mem_cons, List.mem_singleton, List.not_mem_nil, or_false] at hmem
      rcases hmem with rfl | rfl | rfl | rfl | rfl
      · right; simp
      · right; simp
      · right; simp
      · left; exact ⟨rfl, l3⟩
      · right; simp)
  rw [hwc, close_file big w.file _ _ _ _ seek_ok write_ok hinv1]
  have hr : render ([] ++ [[] ++ [((142 : Nat), ([] : List Nat)), (199, []), (255, []),
      (253, mem_bytes big 8 0xFE37E43C8800759C), (254, [])]])
      = [142, 199, 255, 253, 254, 0, 0, 0] ++ mem_bytes big 8 0xFE37E43C8800759C := by
    simp [render, render_group, octet, codes, lits]
  rw [hr]
  split
  · rw [file_write_at_drop _ _ _ _
      (by rw [int32_bytes_length]; unfold Writer.OFFSET_CASE_CNT; omega) (by simp)]
    simp
  · simp

/-- C3, witness: the scenario on a little-endian host with the example dictionary. -/
theorem scenario_case_data_witness :
    ∃ w, Writer.sfm_open_writer false example_host []
          (example_dict [example_numeric 65 0, example_numeric 66 1, example_numeric 67 2,
            example_numeric 68 3, example_string 69 4]) compress_opts = some w
      ∧ (Writer.sfm_close_writer false (Writer.sfm_write_case false w
            [0, 0, 0, 0, 0, 0, 69, 64, 0, 0, 0, 0, 0, 192, 88, 64,
             255, 255, 255, 255, 255, 255, 239, 255, 156, 117, 0, 136, 60, 228, 55, 254,
             32, 32, 32, 32, 32, 32, 32, 32] [1, 2, 3]).2 true true).drop w.file.length
        = [142, 199, 255, 253, 254, 0, 0, 0] ++ mem_bytes false 8 0xFE37E43C8800759C := by
  have hm : (Writer.sfm_open_writer false example_host []
      (example_dict [example_numeric 65 0, example_numeric 66 1, example_numeric 67 2,
        example_numeric 68 3, example_string 69 4]) compress_opts).map
        (fun w => w.io) = some [] := by decide!
  obtain ⟨w, hw, hio⟩ := Option.map_eq_some'.mp hm
  exact ⟨w, hw,
    scenario_case_data false example_host []
      (example_dict [example_numeric 65 0, example_numeric 66 1, example_numeric 67 2,
        example_numeric 68 3, example_string 69 4]) compress_opts w
      (example_numeric 65 0) (example_numeric 66 1) (example_numeric 67 2)
      (example_numeric 68 3) (example_string 69 4)
      [0, 0, 0, 0, 0, 0, 69, 64, 0, 0, 0, 0, 0, 192, 88, 64,
       255, 255, 255, 255, 255, 255, 239, 255, 156, 117, 0, 136, 60, 228, 55, 254,
       32, 32, 32, 32, 32, 32, 32, 32] [1, 2, 3] true true
      hw rfl hio rfl ⟨rfl, rfl⟩ ⟨rfl, rfl⟩ ⟨rfl, rfl⟩ ⟨rfl, rfl⟩ ⟨rfl, rfl⟩
      (by decide!) (by decide!) (by decide!) (by decide!) (by decide!)⟩

theorem flt64_round_mag_le (mag : Nat) : flt64_round_mag mag ≤ 2047 * 2 ^ 52 := by
  have hcap : ∀ R : Nat, (if 2047 * 2 ^ 52 ≤ R then 2047 * 2 ^ 52 else R) ≤ 2047 * 2 ^ 52 := by
    intro R
    split <;> omega
  unfold flt64_round_mag
  by_cases h : mag < 2 ^ 53
  · rw [if_pos h]; omega
  · rw [if_neg h]
    exact hcap _

theorem flt64_sub_byte_lt (k b : Nat) : flt64_sub_byte k b < 2 ^ 64 := by
  unfold flt64_sub_byte
  split
  · have h1 : b % 2 ^ 64 / 2 ^ 52 < 2 ^ 12 := by
      apply Nat.div_lt_of_lt_mul
      have := Nat.mod_lt b (by norm_num : 0 < 2 ^ 64)
      omega
    have h2 : b % 2 ^ 51 < 2 ^ 51 := Nat.mod_lt _ (by norm_num)
    omega
  · split <;> omega
  · rename_i bb _
    have := flt64_round_mag_le ((k : Int) * (flt_one : Int) - bb).natAbs
    simp only []
    split <;> omega

theorem numeric_cell_item (big : Bool) (r : Reader.sfm_reader) (it : item) :
    Reader.numeric_cell big r (item_value big r it) = spec_numeric_value big r it := by
  unfold Reader.numeric_cell item_value spec_numeric_value
  by_cases h253 : it.1 = 253
  · simp only [h253, if_true]
  · by_cases h254 : it.1 = 254
    · have h255 : ¬ it.1 = 255 := by rw [h254]; decide
      simp only [if_neg h253, if_pos h254, if_neg h255, bswap_flt64, List.reverse_replicate,
        ite_self]
    · by_cases h255 : it.1 = 255
      · simp only [if_neg h253, if_neg h254, if_pos h255]
        unfold Reader.sysmis_value
        cases r.reverse_endian <;> simp [bswap_flt64]
      · simp only [if_neg h253, if_neg h254, if_neg h255]
        unfold Reader.biased_value
        have hv : (if r.reverse_endian = true then
            bswap_flt64 (if r.reverse_endian = true then
              bswap_flt64 (mem_bytes big 8 (flt64_sub_byte it.1 (mem_val big r.bias)))
              else mem_bytes big 8 (flt64_sub_byte it.1 (mem_val big r.bias)))
            else (if r.reverse_endian = true then
              bswap_flt64 (mem_bytes big 8 (flt64_sub_byte it.1 (mem_val big r.bias)))
              else mem_bytes big 8 (flt64_sub_byte it.1 (mem_val big r.bias))))
            = mem_bytes big 8 (flt64_sub_byte it.1 (mem_val big r.bias)) := by
          cases r.reverse_endian <;> simp [bswap_flt64]
        simp only []
        rw [hv]
        unfold flt64_val
        rw [mem_val_mem_bytes big 8 _ (by
          have := flt64_sub_byte_lt it.1 (mem_val big r.bias); norm_num at this ⊢; exact this)]

theorem ite_length8 (p : Prop) [Decidable p] (a b : List Nat) (ha : a.length = 8)
    (hb : b.length = 8) : (if p then a else b).length = 8 := by
  split
  · exact ha
  · exact hb

theorem spec_numeric_value_length (big : Bool) (r : Reader.sfm_reader) (it : item)
    (hs : r.sysmis.length = 8) (hit : item_ok it) :
    (spec_numeric_value big r it).length = 8 := by
  have hS : (SYSMIS big).length = 8 := mem_bytes_length _ _ _
  unfold spec_numeric_value
  simp only []
  by_cases h253 : it.1 = 253
  · have hl : it.2.length = 8 := by
      rcases hit with h | h
      · exact h.2
      · exact absurd h253 h.1
    rw [if_pos h253]
    exact ite_length8 _ _ _ hS (ite_length8 _ _ _ (by simp [bswap_flt64, hl]) hl)
  · rw [if_neg h253]
    exact ite_length8 _ _ _ (ite_length8 _ _ _ hS hs)
      (ite_length8 _ _ _ (ite_length8 _ _ _ hS (by simp))
        (ite_length8 _ _ _ hS (mem_bytes_length _ _ _)))

theorem memcpy_eq (c : List Nat) (off : Nat) (src : List Nat)
    (h : off + src.length ≤ c.length) :
    memcpy c off src = c.take off ++ src ++ c.drop (off + src.length) := by
  unfold memcpy
  rw [List.take_of_length_le (by omega : src.length ≤ c.length - off)]

theorem copy_bounce_numeric (big : Bool) (r : Reader.sfm_reader) :
    ∀ (m k : Nat) (out : List (List Nat)) (c : List Nat),
      m ≤ out.length → 8 * (k + m) ≤ c.length →
      (∀ e ∈ out, (Reader.numeric_cell big r e).length = 8) →
      Reader.copy_bounce big r ((List.range' k m).map (fun i => ⟨0, i⟩)) out c
        = c.take (8 * k) ++ ((out.take m).map (Reader.numeric_cell big r)).flatten
            ++ c.drop (8 * (k + m)) := by
  intro m
  induction m with
  | zero => intro k out c _ _ _; simp [Reader.copy_bounce]
  | succ m ih =>
    intro k out c hm hc hlen
    cases out with
    | nil => simp at hm
    | cons e out =>
      simp only [List.length_cons] at hm
      have he : (Reader.numeric_cell big r e).length = 8 := hlen e (List.mem_cons_self _ _)
      have hA : (c.take (8 * k)).length = 8 * k := by
        rw [List.length_take]; omega
      have hmc : memcpy c (8 * k) (Reader.numeric_cell big r e)
          = (c.take (8 * k) ++ Reader.numeric_cell big r e) ++ c.drop (8 * k + 8) := by
        rw [memcpy_eq c (8 * k) _ (by omega), he]
      have hl1 : (memcpy c (8 * k) (Reader.numeric_cell big r e)).length = c.length := by
        rw [memcpy_length]
      have ht : (memcpy c (8 * k) (Reader.numeric_cell big r e)).take (8 * (k + 1))
          = c.take (8 * k) ++ Reader.numeric_cell big r e := by
        rw [hmc]
        exact List.take_left' (by rw [List.length_append, hA, he]; omega)
      have hd : (memcpy c (8 * k) (Reader.numeric_cell big r e)).drop (8 * (k + 1 + m))
          = c.drop (8 * (k + (m + 1))) := by
        rw [hmc, List.drop_append_eq_append_drop,
          List.drop_of_length_le (by rw [List.length_append, hA, he]; omega),
          List.length_append, hA, he, List.drop_drop, List.nil_append]
        congr 1
        omega
      simp only [List.range'_succ, List.map_cons, Reader.copy_bounce, if_true, List.headD_cons,
        List.tail_cons, List.take_succ_cons, List.flatten_cons]
      rw [ih (k + 1) out _ (by omega) (by rw [hl1]; omega)
        (fun x hx => hlen x (List.mem_cons_of_mem _ hx)), ht, hd]
      simp only [List.append_assoc]

/-- C4 (amended): for every compressed reader state (either value of `reverse_endian`,
any bias `b`, any file SYSMIS `s`) whose input holds at least the `n = value_cnt`
instructions of a case of numeric variables, `read_compressed_data` produces for
instruction `k` the segment `item_value`: the literal for 253, eight spaces for 254, `s`
for 255 and `k - b` otherwise, the last two byte-reversed when `reverse_endian` is set;
and `sfm_read_case` returns 1 and delivers for each variable the value
`spec_numeric_value`: the host SYSMIS when the value read compares equal to `s`,
otherwise `k - b` in host order for `1 <= k <= 251`, the literal (byte-reversed exactly
when `reverse_endian` is set) for 253, and `s` for 255 (only a NaN `s` does not compare
equal to itself).  The reversal made in `read_compressed_data` is cancelled by the one
in `sfm_read_case`.  Instruction 0 produces no segment: the loop goes on to the next
instruction with the same output. -/
theorem sfm_read_case_numeric (big : Bool) (n : Nat) (r : Reader.sfm_reader)
    (rest : List item) (gs : List (List item)) (c : List Nat)
    (hcomp : r.compressed ≠ 0) (hinv : rinv r r.y rest gs) (hy : r.y ≤ 8)
    (hv : r.value_cnt = (n : Int)) (hn : 0 < n) (hle : n ≤ (rest ++ gs.flatten).length)
    (hvars : r.vars.take n = (List.range n).map (fun i => ⟨0, i⟩))
    (hc : 8 * n ≤ c.length) (hs : r.sysmis.length = 8) :
    (Reader.read_compressed_data big r).out
        = ((rest ++ gs.flatten).take n).map (item_value big r)
    ∧ (Reader.sfm_read_case big r c).ret = 1
    ∧ (Reader.sfm_read_case big r c).c
        = (((rest ++ gs.flatten).take n).map (spec_numeric_value big r)).flatten
            ++ c.drop (8 * n)
    ∧ (∀ (f : Nat) (r1 : Reader.sfm_reader) (p : Nat) (out : List (List Nat)),
        p < 8 → r1.x.getD p 0 = 0 →
        Reader.read_compressed_loop big (f + 1) r1 p out
          = Reader.read_compressed_loop big f r1 (p + 1) out) := by
  obtain ⟨r1, rest1, gs1, hres, -, -, -, -⟩ :=
    read_call_success big n r rest gs hinv hy hv hn hle
  have hok : ∀ it ∈ rest ++ gs.flatten, item_ok it := by
    intro it hit
    obtain ⟨-, -, -, -, -, hrest, hgs⟩ := hinv
    rcases List.mem_append.mp hit with h | h
    · exact hrest it h
    · obtain ⟨g, hg, hig⟩ := List.mem_flatten.mp h
      exact (hgs g hg).2 it hig
  have hlen : ∀ e ∈ ((rest ++ gs.flatten).take n).map (item_value big r),
      (Reader.numeric_cell big r e).length = 8 := by
    intro e he
    obtain ⟨it, hit, rfl⟩ := List.mem_map.mp he
    rw [numeric_cell_item]
    exact spec_numeric_value_length big r it hs (hok it (List.mem_of_mem_take hit))
  have hol : (((rest ++ gs.flatten).take n).map (item_value big r)).length = n := by
    rw [List.length_map, List.length_take]; omega
  have hcase : Reader.sfm_read_case big r c
      = ⟨1, r1, (((rest ++ gs.flatten).take n).map (spec_numeric_value big r)).flatten
          ++ c.drop (8 * n), []⟩ := by
    unfold Reader.sfm_read_case
    rw [if_neg hcomp, hres]
    simp only [one_ne_zero, if_false]
    have hvn : r.value_cnt.toNat = n := by rw [hv]; simp
    rw [hvn, hvars, List.range_eq_range',
      copy_bounce_numeric big r n 0 _ c (by rw [hol]) (by omega) hlen]
    simp only [Nat.mul_zero, List.take_zero, List.nil_append, Nat.zero_add]
    rw [List.take_of_length_le (by rw [hol]), List.map_map]
    congr 3
    apply List.map_congr_left
    intro it _
    exact numeric_cell_item big r it
  refine ⟨by rw [hres], by rw [hcase], by rw [hcase], ?_⟩
  intro f r2 p out hp hk
  exact loop_step_zero big f r2 p out hp hk

/-- C4, witness: a reader of a file of the opposite byte order (file SYSMIS
`-FLT64_MAX`) reads a case of three numeric variables from the instructions 101, 253,
255 and the literal 1.0 in the file's byte order. -/
theorem sfm_read_case_numeric_witness :
    (Reader.sfm_read_case false
        (case_reader false true (SYSMIS false) 3
          [101, 253, 255, 0, 0, 0, 0, 0, 63, 240, 0, 0, 0, 0, 0, 0])
        (List.replicate 24 7)).c
      = [0, 0, 0, 0, 0, 0, 240, 63, 0, 0, 0, 0, 0, 0, 240, 63,
         255, 255, 255, 255, 255, 255, 239, 255] :=
  ((sfm_read_case_numeric false 3
      (case_reader false true (SYSMIS false) 3
        [101, 253, 255, 0, 0, 0, 0, 0, 63, 240, 0, 0, 0, 0, 0, 0])
      [] [[(101, []), (253, [63, 240, 0, 0, 0, 0, 0, 0]), (255, [])]]
      (List.replicate 24 7) (by decide)
      ⟨by decide, by decide, by decide, fun i hi => absurd hi (by
          show ¬ (8 + i < 8); omega), by decide,
        fun _ h => absurd h (List.not_mem_nil _), by
          intro g hg
          simp only [List.mem_singleton] at hg
          subst hg
          refine ⟨by decide, ?_⟩
          intro it hit
          simp only [List.mem_cons, List.mem_singleton, List.not_mem_nil, or_false] at hit
          rcases hit with rfl | rfl | rfl
          · right; decide
          · left; decide
          · right; decide⟩
      (by decide) rfl (by decide) (by decide) (by decide) (by decide) (by decide)).2.2.1).trans
    (by decide!)

/-- C4, counterexample: with a file SYSMIS that is a NaN, instruction 255 delivers that
NaN and not the host SYSMIS; with the file SYSMIS 1.0, instruction 253 followed by the
literal 1.0 delivers the host SYSMIS and not the literal. -/
theorem sysmis_remap_not_as_described :
    (Reader.sfm_read_case false
        (case_reader false false [0, 0, 0, 0, 0, 0, 248, 127] 1 [255, 0, 0, 0, 0, 0, 0, 0])
        [7, 7, 7, 7, 7, 7, 7, 7]).ret = 1
    ∧ (Reader.sfm_read_case false
        (case_reader false false [0, 0, 0, 0, 0, 0, 248, 127] 1 [255, 0, 0, 0, 0, 0, 0, 0])
        [7, 7, 7, 7, 7, 7, 7, 7]).c = [0, 0, 0, 0, 0, 0, 248, 127]
    ∧ (Reader.sfm_read_case false
        (case_reader false false [0, 0, 0, 0, 0, 0, 240, 63] 1
          [253, 0, 0, 0, 0, 0, 0, 0, 0, 0, 0, 0, 0, 0, 240, 63])
        [7, 7, 7, 7, 7, 7, 7, 7]).ret = 1
    ∧ (Reader.sfm_read_case false
        (case_reader false false [0, 0, 0, 0, 0, 0, 240, 63] 1
          [253, 0, 0, 0, 0, 0, 0, 0, 0, 0, 0, 0, 0, 0, 240, 63])
        [7, 7, 7, 7, 7, 7, 7, 7]).c = [255, 255, 255, 255, 255, 255, 239, 255]
    ∧ SYSMIS false = [255, 255, 255, 255, 255, 255, 239, 255] := by
  decide!

section

open Reader

theorem next_element_frame (r r1 : sfm_reader) (o : Option (List Nat))
    (h : next_element r = (o, r1)) :
    r1 = { r with buf := r1.buf, file := r1.file } := by
  unfold next_element at h
  cases hbuf : r.buf with
  | cons e rest =>
    rw [hbuf] at h
    simp only [Prod.mk.injEq] at h
    rw [← h.2]
  | nil =>
    rw [hbuf] at h
    unfold buffer_input at h
    cases hm : min 128 (r.file.length / 8) with
    | zero =>
      simp only [hm] at h
      simp only [Prod.mk.injEq] at h
      rw [← h.2]
    | succ a =>
      simp only [hm] at h
      simp only [Prod.mk.injEq] at h
      rw [← h.2]

theorem next_element_avail (r r1 : sfm_reader) (e : List Nat)
    (h : next_element r = (some e, r1)) : avail r1 + 1 = avail r := by
  unfold next_element at h
  cases hbuf : r.buf with
  | cons e0 rest =>
    rw [hbuf] at h
    simp only [Prod.mk.injEq] at h
    rw [← h.2]
    simp [avail, hbuf]
    omega
  | nil =>
    rw [hbuf] at h
    unfold buffer_input at h
    cases hm : min 128 (r.file.length / 8) with
    | zero =>
      simp only [hm] at h
      simp at h
    | succ a =>
      simp only [hm] at h
      simp only [Prod.mk.injEq] at h
      rw [← h.2]
      simp only [avail, hbuf, List.length_nil, Nat.zero_add, elements, List.tail_cons,
        elements_length]
      split
      · simp; omega
      · simp; omega

theorem loop_total (big : Bool) :
    ∀ (fuel : Nat) (r : sfm_reader) (p : Nat) (out : List (List Nat)),
      9 * avail r + (8 - p) + 1 ≤ fuel →
      (read_compressed_loop big fuel r p out).left ≠ stop.no_fuel := by
  intro fuel
  induction fuel with
  | zero => intro r p out h; omega
  | succ fuel ih =>
    intro r p out h
    rw [read_compressed_loop]
    by_cases hp : p < 8
    · simp only [hp, if_true]
      by_cases h0 : r.x.getD p 0 = 0
      · simp only [h0, if_true]
        exact ih r (p + 1) out (by omega)
      · simp only [h0, if_false]
        by_cases h252 : r.x.getD p 0 = 252
        · simp only [h252, if_true]
          exact fun hc => by cases hc
        · simp only [h252, if_false]
          by_cases h253 : r.x.getD p 0 = 253
          · simp only [h253, if_true]
            cases hne : next_element r with
            | mk o r1 =>
              cases o with
              | none => simp
              | some e =>
                have ha := next_element_avail r r1 e hne
                simp only []
                split
                · simp
                · exact ih r1 (p + 1) _ (by omega)
          · simp only [h253, if_false]
            split_ifs <;> first | exact ih r (p + 1) _ (by omega) | simp
    · simp only [hp, if_false]
      cases hne : next_element r with
      | mk o r1 =>
        cases o with
        | none => simp
        | some e =>
          have ha := next_element_avail r r1 e hne
          simp only []
          exact ih { r1 with x := e } 0 out (by
            have : avail { r1 with x := e } = avail r1 := rfl
            omega)

theorem loop_exits (big : Bool) :
    ∀ (fuel : Nat) (r : sfm_reader) (p : Nat) (out : List (List Nat)),
      exit_as_described (read_compressed_loop big fuel r p out) := by
  intro fuel
  induction fuel with
  | zero =>
    intro r p out
    rw [read_compressed_loop]
    unfold exit_as_described
    simp
  | succ fuel ih =>
    intro r p out
    rw [read_compressed_loop]
    by_cases hp : p < 8
    · simp only [hp, if_true]
      by_cases h0 : r.x.getD p 0 = 0
      · simp only [h0, if_true]
        exact ih r (p + 1) out
      · simp only [h0, if_false]
        by_cases h252 : r.x.getD p 0 = 252
        · simp only [h252, if_true]
          unfold exit_as_described
          simp
        · simp only [h252, if_false]
          by_cases h253 : r.x.getD p 0 = 253
          · simp only [h253, if_true]
            cases hne : next_element r with
            | mk o r1 =>
              cases o with
              | none =>
                unfold exit_as_described
                simp
              | some e =>
                simp only []
                split
                · unfold exit_as_described
                  simp
                · exact ih r1 (p + 1) _
          · simp only [h253, if_false]
            split_ifs <;> first | exact ih r (p + 1) _ | (unfold exit_as_described; simp)
    · simp only [hp, if_false]
      cases hne : next_element r with
      | mk o r1 =>
        cases o with
        | none =>
          unfold exit_as_described
          simp
        | some e => exact ih { r1 with x := e } 0 out

/-- C5: `read_compressed_data` always leaves its loop by one of the exits of the code,
and it returns 0 in both of these cases but distinguishes them.  When instruction 252
or the end of the input at an octet boundary is met before any segment of the current
case has been produced it returns 0 without a message; when one of them is met after at
least one segment has been produced it returns 0 with the message of a partial case or
of an unexpected end of file.  (An input that ends where the literal of an instruction
253 was due is reported as an unexpected end of file in either case.)  In particular a
reader at instruction 252, and a reader at the end of its octet with no complete
element left to read, return 0 with no segment and no message. -/
theorem read_compressed_data_end (big : Bool) (r : sfm_reader) :
    (read_compressed_data big r).left ≠ stop.no_fuel
    ∧ (((read_compressed_data big r).left = stop.code_252
          ∨ (read_compressed_data big r).left = stop.end_at_octet) →
        (read_compressed_data big r).ret = 0
        ∧ ((read_compressed_data big r).out = [] → (read_compressed_data big r).msgs = [])
        ∧ ((read_compressed_data big r).out ≠ [] →
            (read_compressed_data big r).msgs
              = if (read_compressed_data big r).left = stop.code_252
                  then [message.partial_case] else [message.eof_in_case]))
    ∧ ((read_compressed_data big r).left = stop.end_at_literal →
        (read_compressed_data big r).ret = 0
        ∧ (read_compressed_data big r).msgs = [message.eof_in_literal])
    ∧ ((read_compressed_data big r).left = stop.success →
        (read_compressed_data big r).ret = 1 ∧ (read_compressed_data big r).msgs = [])
    ∧ (r.y < 8 → r.x.getD r.y 0 = 252 →
        read_compressed_data big r = ⟨0, r, [], [], stop.code_252⟩)
    ∧ (8 ≤ r.y → r.buf = [] → r.file.length < 8 →
        read_compressed_data big r = ⟨0, { r with file := [] }, [], [], stop.end_at_octet⟩) := by
  have hrd : read_compressed_data big r
      = read_compressed_loop big (9 * avail r + 10) r r.y [] := rfl
  have htot := loop_total big (9 * avail r + 10) r r.y [] (by omega)
  obtain ⟨hs, h252, hoct, hlit⟩ := loop_exits big (9 * avail r + 10) r r.y []
  rw [← hrd] at htot hs h252 hoct hlit
  refine ⟨htot, ?_, hlit, hs, ?_, ?_⟩
  · intro h
    rcases h with h | h
    · obtain ⟨h1, h2⟩ := h252 h
      refine ⟨h1, fun ho => by rw [h2]; simp [ho], fun ho => ?_⟩
      rw [h2]
      simp [ho, h]
    · obtain ⟨h1, h2⟩ := hoct h
      refine ⟨h1, fun ho => by rw [h2]; simp [ho], fun ho => ?_⟩
      rw [h2]
      simp [ho, h]
  · intro hy hk
    unfold read_compressed_data
    rw [show 9 * avail r + 10 = (9 * avail r + 9) + 1 by omega, read_compressed_loop]
    simp only [hy, if_true, hk, (by decide : ¬ (252 : Nat) = 0), if_false]
    simp
  · intro hy hb hf
    unfold read_compressed_data
    rw [show 9 * avail r + 10 = (9 * avail r + 9) + 1 by omega, read_compressed_loop]
    have hne : next_element r = (none, { r with file := [] }) := by
      unfold next_element
      rw [hb]
      unfold buffer_input
      have hm : min 128 (r.file.length / 8) = 0 := by omega
      simp only [hm]
      simp [hb, elements]
    simp only [show ¬ r.y < 8 by omega, if_false, hne]
    simp

end

section

open Reader

theorem loop_step_value (big : Bool) (f : Nat) (r : sfm_reader) (p : Nat)
    (out : List (List Nat)) (hp : p < 8) (h0 : r.x.getD p 0 ≠ 0) (h252 : r.x.getD p 0 ≠ 252)
    (h253 : r.x.getD p 0 ≠ 253) :
    read_compressed_loop big (f + 1) r p out
      = if r.value_cnt ≤ ((out ++ [item_value big r (r.x.getD p 0, [])]).length : Int) then
          ⟨1, { r with y := p + 1 }, out ++ [item_value big r (r.x.getD p 0, [])], [],
            stop.success⟩
        else read_compressed_loop big f r (p + 1)
          (out ++ [item_value big r (r.x.getD p 0, [])]) := by
  rw [read_compressed_loop]
  simp only [hp, if_true, h0, h252, h253, if_false, item_value]

theorem loop_step_literal (big : Bool) (f : Nat) (r r1 : sfm_reader) (p : Nat)
    (out : List (List Nat)) (e : List Nat) (hp : p < 8) (h253 : r.x.getD p 0 = 253)
    (hn : next_element r = (some e, r1)) :
    read_compressed_loop big (f + 1) r p out
      = if r.value_cnt ≤ ((out ++ [e]).length : Int) then
          ⟨1, { r1 with y := p + 1 }, out ++ [e], [], stop.success⟩
        else read_compressed_loop big f r1 (p + 1) (out ++ [e]) := by
  rw [read_compressed_loop]
  simp only [hp, if_true, h253, (by decide : ¬ (253 : Nat) = 0),
    (by decide : ¬ (253 : Nat) = 252), if_false, hn]

theorem loop_step_literal_end (big : Bool) (f : Nat) (r r1 : sfm_reader) (p : Nat)
    (out : List (List Nat)) (hp : p < 8) (h253 : r.x.getD p 0 = 253)
    (hn : next_element r = (none, r1)) :
    read_compressed_loop big (f + 1) r p out
      = ⟨0, r1, out, [message.eof_in_literal], stop.end_at_literal⟩ := by
  rw [read_compressed_loop]
  simp only [hp, if_true, h253, (by decide : ¬ (253 : Nat) = 0),
    (by decide : ¬ (253 : Nat) = 252), if_false, hn]

theorem loop_step_252 (big : Bool) (f : Nat) (r : sfm_reader) (p : Nat)
    (out : List (List Nat)) (hp : p < 8) (h252 : r.x.getD p 0 = 252) :
    read_compressed_loop big (f + 1) r p out
      = ⟨0, r, out, if out ≠ [] then [message.partial_case] else [], stop.code_252⟩ := by
  rw [read_compressed_loop]
  simp only [hp, if_true, h252, (by decide : ¬ (252 : Nat) = 0), if_false]

theorem next_element_none_avail (r r1 : sfm_reader) (h : next_element r = (none, r1)) :
    avail r = 0 ∧ avail r1 = 0 := by
  unfold next_element at h
  cases hbuf : r.buf with
  | cons e rest =>
    rw [hbuf] at h
    simp at h
  | nil =>
    rw [hbuf] at h
    unfold buffer_input at h
    cases hm : min 128 (r.file.length / 8) with
    | zero =>
      simp only [hm] at h
      simp only [Prod.mk.injEq, true_and] at h
      rw [← h]
      simp only [avail, hbuf, elements, List.length_nil, Nat.zero_lt_succ, if_true]
      refine ⟨by omega, ?_⟩
      simp
    | succ a =>
      simp only [hm] at h
      simp at h

theorem loop_fail_frame (big : Bool) (q : Nat) (hq : q < 8) :
    ∀ (fuel : Nat) (r : sfm_reader) (p : Nat) (out : List (List Nat)),
      p ≤ q → r.x.getD q 0 = 252 → (read_compressed_loop big fuel r p out).ret = 0 →
      (read_compressed_loop big fuel r p out).r.x = r.x
      ∧ (read_compressed_loop big fuel r p out).r.y = r.y
      ∧ (read_compressed_loop big fuel r p out).r.value_cnt = r.value_cnt
      ∧ avail (read_compressed_loop big fuel r p out).r ≤ avail r := by
  intro fuel
  induction fuel with
  | zero =>
    intro r p out _ _ _
    rw [read_compressed_loop]
    simp
  | succ fuel ih =>
    intro r p out hpq hx hret
    have hp : p < 8 := by omega
    by_cases h0 : r.x.getD p 0 = 0
    · have hne : p ≠ q := by
        intro he; rw [he] at h0; omega
      rw [loop_step_zero big fuel r p out hp h0] at hret ⊢
      exact ih r (p + 1) out (by omega) hx hret
    · by_cases h252 : r.x.getD p 0 = 252
      · rw [loop_step_252 big fuel r p out hp h252]
        simp
      · have hne : p ≠ q := by
          intro he; rw [he] at h252; exact h252 hx
        by_cases h253 : r.x.getD p 0 = 253
        · cases hnx : next_element r with
          | mk o r1 =>
            have hfr := next_element_frame r r1 o hnx
            have hx1 : r1.x = r.x := by rw [hfr]
            have hy1 : r1.y = r.y := by rw [hfr]
            have hv1 : r1.value_cnt = r.value_cnt := by rw [hfr]
            cases o with
            | none =>
              have := next_element_none_avail r r1 hnx
              rw [loop_step_literal_end big fuel r r1 p out hp h253 hnx]
              exact ⟨hx1, hy1, hv1, by show avail r1 ≤ avail r; omega⟩
            | some e =>
              have ha := next_element_avail r r1 e hnx
              rw [loop_step_literal big fuel r r1 p out e hp h253 hnx] at hret ⊢
              by_cases hc : r.value_cnt ≤ ((out ++ [e]).length : Int)
              · rw [if_pos hc] at hret
                simp at hret
              · rw [if_neg hc] at hret ⊢
                obtain ⟨a1, a2, a3, a4⟩ :=
                  ih r1 (p + 1) _ (by omega) (by rw [hx1]; exact hx) hret
                exact ⟨a1.trans hx1, a2.trans hy1, a3.trans hv1, by omega⟩
        · rw [loop_step_value big fuel r p out hp h0 h252 h253] at hret ⊢
          generalize item_value big r (r.x.getD p 0, []) = e at hret ⊢
          by_cases hc : r.value_cnt ≤ ((out ++ [e]).length : Int)
          · rw [if_pos hc] at hret
            simp at hret
          · rw [if_neg hc] at hret ⊢
            exact ih r (p + 1) _ (by omega) hx hret

theorem loop_fail_again (big : Bool) (q : Nat) (hq : q < 8) :
    ∀ (fuel1 fuel : Nat) (r r1 : sfm_reader) (p : Nat) (out out1 : List (List Nat)),
      p ≤ q → r.x.getD q 0 = 252 → r1.x = r.x → r1.value_cnt = r.value_cnt →
      avail r1 ≤ avail r → out1.length = out.length → q - p + 1 ≤ fuel →
      (read_compressed_loop big fuel r p out).ret = 0 →
      (read_compressed_loop big fuel1 r1 p out1).ret = 0 := by
  intro fuel1
  induction fuel1 with
  | zero =>
    intro fuel r r1 p out out1 _ _ _ _ _ _ _ _
    rw [read_compressed_loop]
  | succ fuel1 ih =>
    intro fuel r r1 p out out1 hpq hx hx1 hv1 hav hlen hfuel hret
    have hp : p < 8 := by omega
    obtain ⟨f, rfl⟩ : ∃ f, fuel = f + 1 := ⟨fuel - 1, by omega⟩
    have hcond : ∀ e e1 : List Nat,
        (r1.value_cnt ≤ ((out1 ++ [e1]).length : Int))
          ↔ (r.value_cnt ≤ ((out ++ [e]).length : Int)) := by
      intro e e1
      rw [hv1]
      simp [hlen]
    by_cases h0 : r.x.getD p 0 = 0
    · have hne : p ≠ q := by
        intro he; rw [he] at h0; omega
      rw [loop_step_zero big f r p out hp h0] at hret
      rw [loop_step_zero big fuel1 r1 p out1 hp (by rw [hx1]; exact h0)]
      exact ih f r r1 (p + 1) out out1 (by omega) hx hx1 hv1 hav hlen (by omega) hret
    · by_cases h252 : r.x.getD p 0 = 252
      · rw [loop_step_252 big fuel1 r1 p out1 hp (by rw [hx1]; exact h252)]
      · have hne : p ≠ q := by
          intro he; rw [he] at h252; exact h252 hx
        by_cases h253 : r.x.getD p 0 = 253
        · cases hnx1 : next_element r1 with
          | mk o1 r3 =>
            cases o1 with
            | none =>
              rw [loop_step_literal_end big fuel1 r1 r3 p out1 hp (by rw [hx1]; exact h253) hnx1]
            | some e1 =>
              have ha1 := next_element_avail r1 r3 e1 hnx1
              have hfr1 := next_element_frame r1 r3 _ hnx1
              have hx3 : r3.x = r.x := by rw [hfr1]; exact hx1
              have hv3 : r3.value_cnt = r.value_cnt := by rw [hfr1]; exact hv1
              rw [loop_step_literal big fuel1 r1 r3 p out1 e1 hp (by rw [hx1]; exact h253) hnx1]
              cases hnx : next_element r with
              | mk o r2 =>
                cases o with
                | none =>
                  have := next_element_none_avail r r2 hnx
                  omega
                | some e =>
                  have ha := next_element_avail r r2 e hnx
                  have hfr := next_element_frame r r2 _ hnx
                  have hx2 : r2.x = r.x := by rw [hfr]
                  have hv2 : r2.value_cnt = r.value_cnt := by rw [hfr]
                  rw [loop_step_literal big f r r2 p out e hp h253 hnx] at hret
                  by_cases hc : r.value_cnt ≤ ((out ++ [e]).length : Int)
                  · rw [if_pos hc] at hret
                    simp at hret
                  · rw [if_neg hc] at hret
                    rw [if_neg (fun h => hc ((hcond e e1).mp h))]
                    exact ih f r2 r3 (p + 1) _ _ (by omega) (by rw [hx2]; exact hx)
                      (hx3.trans hx2.symm) (hv3.trans hv2.symm) (by omega)
                      (by simp [hlen]) (by omega) hret
        · rw [loop_step_value big f r p out hp h0 h252 h253] at hret
          rw [loop_step_value big fuel1 r1 p out1 hp (by rw [hx1]; exact h0)
            (by rw [hx1]; exact h252) (by rw [hx1]; exact h253)]
          generalize item_value big r (r.x.getD p 0, []) = e at hret
          generalize item_value big r1 (r1.x.getD p 0, []) = e1
          by_cases hc : r.value_cnt ≤ ((out ++ [e]).length : Int)
          · rw [if_pos hc] at hret
            simp at hret
          · rw [if_neg hc] at hret
            rw [if_neg (fun h => hc ((hcond e e1).mp h))]
            exact ih f r r1 (p + 1) _ _ (by omega) hx hx1 hv1 hav (by simp [hlen]) (by omega) hret

end

section

open Reader

theorem exhausted_next (r : sfm_reader) (h : avail r = 0) :
    ∃ r1, next_element r = (none, r1) ∧ avail r1 = 0 ∧ r1.x = r.x ∧ r1.y = r.y
      ∧ r1.value_cnt = r.value_cnt := by
  cases hnx : next_element r with
  | mk o r1 =>
    have hfr := next_element_frame r r1 o hnx
    cases o with
    | some e =>
      have := next_element_avail r r1 e hnx
      omega
    | none =>
      exact ⟨r1, rfl, (next_element_none_avail r r1 hnx).2, by rw [hfr], by rw [hfr],
        by rw [hfr]⟩

theorem exhausted_past_octet (big : Bool) (fuel : Nat) (r : sfm_reader) (t : Nat)
    (out : List (List Nat)) (h : avail r = 0) (ht : 8 ≤ t) :
    (read_compressed_loop big fuel r t out).ret = 0 := by
  cases fuel with
  | zero => rw [read_compressed_loop]
  | succ f =>
    obtain ⟨r1, hnx, -⟩ := exhausted_next r h
    rw [loop_step_end big f r r1 t out (by omega) hnx]

theorem loop_end_at_octet (big : Bool) :
    ∀ (fuel : Nat) (r : sfm_reader) (p : Nat) (out : List (List Nat)),
      (read_compressed_loop big fuel r p out).left = stop.end_at_octet →
      avail (read_compressed_loop big fuel r p out).r = 0
      ∧ (read_compressed_loop big fuel r p out).r.value_cnt = r.value_cnt
      ∧ (read_compressed_loop big fuel r p out).r.y = r.y
      ∧ ∃ t0, (t0 = 0 ∨ (t0 = p ∧ (read_compressed_loop big fuel r p out).r.x = r.x))
          ∧ ∀ (r1 : sfm_reader) (t : Nat) (out1 : List (List Nat)) (fuel1 : Nat),
              avail r1 = 0 → r1.x = (read_compressed_loop big fuel r p out).r.x →
              r1.value_cnt = r.value_cnt → t0 ≤ t → out1.length ≤ out.length →
              (read_compressed_loop big fuel1 r1 t out1).ret = 0 := by
  intro fuel
  induction fuel with
  | zero =>
    intro r p out h
    rw [read_compressed_loop] at h
    simp at h
  | succ fuel ih =>
    intro r p out h
    by_cases hp : p < 8
    · by_cases h0 : r.x.getD p 0 = 0
      · rw [loop_step_zero big fuel r p out hp h0] at h ⊢
        obtain ⟨a1, a2, a3, t0, ht0, hall⟩ := ih r (p + 1) out h
        refine ⟨a1, a2, a3, ?_⟩
        rcases ht0 with rfl | ⟨rfl, hx⟩
        · exact ⟨0, Or.inl rfl, hall⟩
        · refine ⟨p, Or.inr ⟨rfl, hx⟩, ?_⟩
          intro r1 t out1 fuel1 hav hx1 hv1 ht hlen
          by_cases htp : t = p
          · subst htp
            cases fuel1 with
            | zero => rw [read_compressed_loop]
            | succ f1 =>
              rw [loop_step_zero big f1 r1 t out1 hp (by rw [hx1, hx]; exact h0)]
              exact hall r1 (t + 1) out1 f1 hav hx1 hv1 (le_refl _) hlen
          · exact hall r1 t out1 fuel1 hav hx1 hv1 (by omega) hlen
      · by_cases h252 : r.x.getD p 0 = 252
        · rw [loop_step_252 big fuel r p out hp h252] at h
          simp at h
        · by_cases h253 : r.x.getD p 0 = 253
          · cases hnx : next_element r with
            | mk o r2 =>
              have hfr := next_element_frame r r2 o hnx
              have hx2 : r2.x = r.x := by rw [hfr]
              have hy2 : r2.y = r.y := by rw [hfr]
              have hv2 : r2.value_cnt = r.value_cnt := by rw [hfr]
              cases o with
              | none =>
                rw [loop_step_literal_end big fuel r r2 p out hp h253 hnx] at h
                simp at h
              | some e =>
                rw [loop_step_literal big fuel r r2 p out e hp h253 hnx] at h ⊢
                by_cases hc : r.value_cnt ≤ ((out ++ [e]).length : Int)
                · rw [if_pos hc] at h
                  simp at h
                · rw [if_neg hc] at h ⊢
                  obtain ⟨a1, a2, a3, t0, ht0, hall⟩ := ih r2 (p + 1) _ h
                  refine ⟨a1, a2.trans hv2, a3.trans hy2, ?_⟩
                  rcases ht0 with rfl | ⟨rfl, hx⟩
                  · exact ⟨0, Or.inl rfl, fun r1 t out1 fuel1 hav hx1 hv1 ht hlen =>
                      hall r1 t out1 fuel1 hav hx1 (hv1.trans hv2.symm) ht
                        (by simp; omega)⟩
                  · refine ⟨p, Or.inr ⟨rfl, hx.trans hx2⟩, ?_⟩
                    intro r1 t out1 fuel1 hav hx1 hv1 ht hlen
                    by_cases htp : t = p
                    · subst htp
                      cases fuel1 with
                      | zero => rw [read_compressed_loop]
                      | succ f1 =>
                        obtain ⟨r3, hnx3, -⟩ := exhausted_next r1 hav
                        rw [loop_step_literal_end big f1 r1 r3 t out1 hp
                          (by rw [hx1, hx, hx2]; exact h253) hnx3]
                    · exact hall r1 t out1 fuel1 hav hx1 (hv1.trans hv2.symm) (by omega)
                        (by simp; omega)
          · rw [loop_step_value big fuel r p out hp h0 h252 h253] at h ⊢
            generalize item_value big r (r.x.getD p 0, []) = e at h ⊢
            by_cases hc : r.value_cnt ≤ ((out ++ [e]).length : Int)
            · rw [if_pos hc] at h
              simp at h
            · rw [if_neg hc] at h ⊢
              obtain ⟨a1, a2, a3, t0, ht0, hall⟩ := ih r (p + 1) _ h
              refine ⟨a1, a2, a3, ?_⟩
              rcases ht0 with rfl | ⟨rfl, hx⟩
              · exact ⟨0, Or.inl rfl, fun r1 t out1 fuel1 hav hx1 hv1 ht hlen =>
                  hall r1 t out1 fuel1 hav hx1 hv1 ht (by simp; omega)⟩
              · refine ⟨p, Or.inr ⟨rfl, hx⟩, ?_⟩
                intro r1 t out1 fuel1 hav hx1 hv1 ht hlen
                by_cases htp : t = p
                · subst htp
                  cases fuel1 with
                  | zero => rw [read_compressed_loop]
                  | succ f1 =>
                    have hk : r1.x.getD t 0 = r.x.getD t 0 := by rw [hx1, hx]
                    rw [loop_step_value big f1 r1 t out1 hp (by rw [hk]; exact h0)
                      (by rw [hk]; exact h252) (by rw [hk]; exact h253)]
                    generalize item_value big r1 (r1.x.getD t 0, []) = e1
                    have hc1 : ¬ r1.value_cnt ≤ ((out1 ++ [e1]).length : Int) := by
                      rw [hv1]
                      simp only [List.length_append, List.length_singleton, Nat.cast_add,
                        Nat.cast_one] at hc ⊢
                      omega
                    rw [if_neg hc1]
                    exact hall r1 (t + 1) _ f1 hav hx1 hv1 (le_refl _) (by simp; omega)
                · exact hall r1 t out1 fuel1 hav hx1 hv1 (by omega) (by simp; omega)
    · cases hnx : next_element r with
      | mk o r2 =>
        have hfr := next_element_frame r r2 o hnx
        have hx2 : r2.x = r.x := by rw [hfr]
        have hy2 : r2.y = r.y := by rw [hfr]
        have hv2 : r2.value_cnt = r.value_cnt := by rw [hfr]
        cases o with
        | none =>
          rw [loop_step_end big fuel r r2 p out hp hnx]
          refine ⟨(next_element_none_avail r r2 hnx).2, hv2, hy2, p, Or.inr ⟨rfl, hx2⟩, ?_⟩
          intro r1 t out1 fuel1 hav _ _ ht _
          exact exhausted_past_octet big fuel1 r1 t out1 hav (by omega)
        | some e =>
          rw [loop_step_load big fuel r r2 p out e hp hnx] at h ⊢
          obtain ⟨a1, a2, a3, t0, ht0, hall⟩ := ih { r2 with x := e } 0 out h
          refine ⟨a1, a2.trans hv2, a3.trans hy2, 0, Or.inl rfl, ?_⟩
          intro r1 t out1 fuel1 hav hx1 hv1 _ hlen
          have ht00 : t0 = 0 := by
            rcases ht0 with h1 | ⟨h1, _⟩
            · exact h1
            · exact h1
          exact hall r1 t out1 fuel1 hav hx1 (hv1.trans hv2.symm) (by omega) hlen

theorem exhausted_frame (big : Bool) :
    ∀ (fuel : Nat) (r : sfm_reader) (p : Nat) (out : List (List Nat)),
      avail r = 0 → (read_compressed_loop big fuel r p out).ret = 0 →
      avail (read_compressed_loop big fuel r p out).r = 0
      ∧ (read_compressed_loop big fuel r p out).r.x = r.x
      ∧ (read_compressed_loop big fuel r p out).r.y = r.y
      ∧ (read_compressed_loop big fuel r p out).r.value_cnt = r.value_cnt := by
  intro fuel
  induction fuel with
  | zero =>
    intro r p out hav _
    rw [read_compressed_loop]
    exact ⟨hav, rfl, rfl, rfl⟩
  | succ fuel ih =>
    intro r p out hav hret
    obtain ⟨r2, hnx, hav2, hx2, hy2, hv2⟩ := exhausted_next r hav
    by_cases hp : p < 8
    · by_cases h0 : r.x.getD p 0 = 0
      · rw [loop_step_zero big fuel r p out hp h0] at hret ⊢
        exact ih r (p + 1) out hav hret
      · by_cases h252 : r.x.getD p 0 = 252
        · rw [loop_step_252 big fuel r p out hp h252]
          exact ⟨hav, rfl, rfl, rfl⟩
        · by_cases h253 : r.x.getD p 0 = 253
          · rw [loop_step_literal_end big fuel r r2 p out hp h253 hnx]
            exact ⟨hav2, hx2, hy2, hv2⟩
          · rw [loop_step_value big fuel r p out hp h0 h252 h253] at hret ⊢
            generalize item_value big r (r.x.getD p 0, []) = e at hret ⊢
            by_cases hc : r.value_cnt ≤ ((out ++ [e]).length : Int)
            · rw [if_pos hc] at hret
              simp at hret
            · rw [if_neg hc] at hret ⊢
              exact ih r (p + 1) _ hav hret
    · rw [loop_step_end big fuel r r2 p out hp hnx]
      exact ⟨hav2, hx2, hy2, hv2⟩

end

section

open Reader

theorem fail_again_252 (big : Bool) :
    ∀ (k : Nat) (r : sfm_reader), (read_compressed_data big r).ret = 0 →
      (∃ q, r.y ≤ q ∧ q < 8 ∧ r.x.getD q 0 = 252) →
      ∀ res ∈ read_cases big k (read_compressed_data big r).r, res.ret = 0 := by
  intro k
  induction k with
  | zero => intro r _ _ res hres; simp [read_cases] at hres
  | succ k ih =>
    intro r hret hq res hres
    obtain ⟨q, hq1, hq2, hq3⟩ := hq
    obtain ⟨fx, fy, fv, fa⟩ :=
      loop_fail_frame big q hq2 (9 * avail r + 10) r r.y [] hq1 hq3 hret
    have hret1 : (read_compressed_data big (read_compressed_data big r).r).ret = 0 := by
      have := loop_fail_again big q hq2
        (9 * avail (read_compressed_data big r).r + 10) (9 * avail r + 10) r
        (read_compressed_data big r).r r.y [] [] hq1 hq3 fx fv fa rfl (by omega) hret
      unfold read_compressed_data at this ⊢
      rw [fy]
      exact this
    have hunf : read_cases big (k + 1) (read_compressed_data big r).r
        = read_compressed_data big (read_compressed_data big r).r
          :: read_cases big k (read_compressed_data big (read_compressed_data big r).r).r := rfl
    rw [hunf] at hres
    rcases List.mem_cons.mp hres with h | h
    · rw [h]; exact hret1
    · exact ih (read_compressed_data big r).r hret1
        ⟨q, by rw [show (read_compressed_data big r).r.y = r.y from fy]; exact hq1, hq2,
          by rw [show (read_compressed_data big r).r.x = r.x from fx]; exact hq3⟩ res h

theorem fail_again_exhausted (big : Bool) :
    ∀ (k : Nat) (r1 : sfm_reader), avail r1 = 0 →
      (∀ (r2 : sfm_reader) (fuel1 : Nat), avail r2 = 0 → r2.x = r1.x →
        r2.value_cnt = r1.value_cnt → (read_compressed_loop big fuel1 r2 r1.y []).ret = 0) →
      ∀ res ∈ read_cases big k r1, res.ret = 0 := by
  intro k
  induction k with
  | zero => intro r1 _ _ res hres; simp [read_cases] at hres
  | succ k ih =>
    intro r1 hav hall res hres
    have hret1 : (read_compressed_data big r1).ret = 0 := hall r1 _ hav rfl rfl
    obtain ⟨ga, gx, gy, gv⟩ := exhausted_frame big (9 * avail r1 + 10) r1 r1.y [] hav hret1
    have hunf : read_cases big (k + 1) r1
        = read_compressed_data big r1 :: read_cases big k (read_compressed_data big r1).r := rfl
    rw [hunf] at hres
    rcases List.mem_cons.mp hres with h | h
    · rw [h]; exact hret1
    · refine ih (read_compressed_data big r1).r ga ?_ res h
      intro r2 fuel1 hav2 hx2 hv2
      have e1 : (read_compressed_data big r1).r.y = r1.y := gy
      rw [e1]
      exact hall r2 fuel1 hav2 (hx2.trans gx) (hv2.trans gv)

/-- C6 (amended): `read_compressed_data` keeps no failure state; a call after a failed
one resumes at the unchanged `r->y`.  Once a call has returned 0 because the input
ended where an instruction octet was due, or while instruction 252 stands in the
current octet at or after `r->y` when the call begins, every later call on the same
reader also returns 0. -/
theorem failed_call_stays_failed (big : Bool) (r : sfm_reader) (k : Nat)
    (hret : (read_compressed_data big r).ret = 0)
    (hwhy : (read_compressed_data big r).left = stop.end_at_octet
      ∨ ∃ q, r.y ≤ q ∧ q < 8 ∧ r.x.getD q 0 = 252) :
    ∀ res ∈ read_cases big k (read_compressed_data big r).r, res.ret = 0 := by
  rcases hwhy with h | h
  · obtain ⟨a1, a2, a3, t0, ht0, hall⟩ := loop_end_at_octet big (9 * avail r + 10) r r.y [] h
    refine fail_again_exhausted big k _ a1 ?_
    intro r2 fuel1 hav2 hx2 hv2
    have e1 : (read_compressed_data big r).r.y = r.y := a3
    have e2 : (read_compressed_data big r).r.value_cnt = r.value_cnt := a2
    rw [e1]
    refine hall r2 r.y [] fuel1 hav2 hx2 (hv2.trans e2) ?_ (le_refl _)
    rcases ht0 with h0 | ⟨h0, _⟩
    · omega
    · omega
  · exact fail_again_252 big k r hret h

/-- C6, witness: the input ends in the middle of a case of two values; the call fails
and so do the three calls after it. -/
theorem failed_call_stays_failed_witness :
    (read_compressed_data false
        (case_reader false false (SYSMIS false) 2 [101, 0, 0, 0, 0, 0, 0, 0])).ret = 0
    ∧ (read_compressed_data false
        (case_reader false false (SYSMIS false) 2 [101, 0, 0, 0, 0, 0, 0, 0])).left
      = stop.end_at_octet
    ∧ ∀ res ∈ read_cases false 3
        (read_compressed_data false
          (case_reader false false (SYSMIS false) 2 [101, 0, 0, 0, 0, 0, 0, 0])).r,
      res.ret = 0 :=
  ⟨by decide!, by decide!,
    failed_call_stays_failed false
      (case_reader false false (SYSMIS false) 2 [101, 0, 0, 0, 0, 0, 0, 0]) 3
      (by decide!) (Or.inl (by decide!))⟩

/-- C6, counterexample: with two values a case, the first call loads the octet
101, 252, 0, ..., produces one segment, meets instruction 252 and returns 0 with the
message of a partial case; the next call loads the following octet 101, 102, 0, ... and
returns 1. -/
theorem call_after_error_succeeds :
    (read_compressed_data false
        (case_reader false false (SYSMIS false) 2
          [101, 252, 0, 0, 0, 0, 0, 0, 101, 102, 0, 0, 0, 0, 0, 0])).ret = 0
    ∧ (read_compressed_data false
        (case_reader false false (SYSMIS false) 2
          [101, 252, 0, 0, 0, 0, 0, 0, 101, 102, 0, 0, 0, 0, 0, 0])).out.length = 1
    ∧ (read_compressed_data false
        (case_reader false false (SYSMIS false) 2
          [101, 252, 0, 0, 0, 0, 0, 0, 101, 102, 0, 0, 0, 0, 0, 0])).msgs
        = [message.partial_case]
    ∧ (read_compressed_data false
        (read_compressed_data false
          (case_reader false false (SYSMIS false) 2
            [101, 252, 0, 0, 0, 0, 0, 0, 101, 102, 0, 0, 0, 0, 0, 0])).r).ret = 1 := by
  decide!

end

section

open Reader

theorem bswap_int32_val (big : Bool) (bs : List Nat) :
    int32_val big (bswap_int32 bs) = int32_val (!big) bs := by
  unfold int32_val mem_val bswap_int32
  cases big <;> simp

theorem bswap_flt64_val (big : Bool) (bs : List Nat) :
    mem_val big (bswap_flt64 bs) = mem_val (!big) bs := by
  unfold mem_val bswap_flt64
  cases big <;> simp

/-- C7: given a complete header with the magic `$FL2`, `read_header` sets
`reverse_endian = 0` when the layout code reads as 2 in host byte order, and the fields
are used as they stand; it sets `reverse_endian = 1` when the layout code reads as 2
only after its four bytes are reversed, and then `case_size`, `compress`, `weight_idx`,
`case_cnt` and `bias` are each byte-reversed before they are used (which is to read
them in the opposite byte order); and it fails, with the message about the layout code,
when neither reading gives 2. -/
theorem read_header_endianness (big : Bool) (r : sfm_reader) (want_info : Bool)
    (hlen : 176 ≤ r.file.length)
    (hmagic : (header_of_bytes (r.file.take 176)).rec_type = [36, 70, 76, 50]) :
    (int32_val big (header_of_bytes (r.file.take 176)).layout_code = 2 →
      (read_header big r want_info).r.reverse_endian = false
      ∧ (read_header big r want_info).r.value_cnt
          = (if int32_val big (header_of_bytes (r.file.take 176)).case_size < 0
                ∨ int32_val big (header_of_bytes (r.file.take 176)).case_size > 134217727
              then -1 else int32_val big (header_of_bytes (r.file.take 176)).case_size)
      ∧ (read_header big r want_info).r.compressed
          = int32_val big (header_of_bytes (r.file.take 176)).compress
      ∧ (read_header big r want_info).r.weight_idx
          = int32_pred (int32_val big (header_of_bytes (r.file.take 176)).weight_idx)
      ∧ (read_header big r want_info).r.case_cnt
          = int32_val big (header_of_bytes (r.file.take 176)).case_cnt
      ∧ ((read_header big r want_info).ret = 1 →
          (read_header big r want_info).r.bias = (header_of_bytes (r.file.take 176)).bias))
    ∧ (int32_val big (header_of_bytes (r.file.take 176)).layout_code ≠ 2 →
        int32_val big (bswap_int32 (header_of_bytes (r.file.take 176)).layout_code) = 2 →
      (read_header big r want_info).r.reverse_endian = true
      ∧ (read_header big r want_info).r.value_cnt
          = (if int32_val big (bswap_int32 (header_of_bytes (r.file.take 176)).case_size) < 0
                ∨ int32_val big (bswap_int32 (header_of_bytes (r.file.take 176)).case_size)
                    > 134217727
              then -1
              else int32_val big (bswap_int32 (header_of_bytes (r.file.take 176)).case_size))
      ∧ (read_header big r want_info).r.compressed
          = int32_val big (bswap_int32 (header_of_bytes (r.file.take 176)).compress)
      ∧ (read_header big r want_info).r.weight_idx
          = int32_pred
              (int32_val big (bswap_int32 (header_of_bytes (r.file.take 176)).weight_idx))
      ∧ (read_header big r want_info).r.case_cnt
          = int32_val big (bswap_int32 (header_of_bytes (r.file.take 176)).case_cnt)
      ∧ ((read_header big r want_info).ret = 1 →
          (read_header big r want_info).r.bias
            = bswap_flt64 (header_of_bytes (r.file.take 176)).bias))
    ∧ (int32_val big (header_of_bytes (r.file.take 176)).layout_code ≠ 2 →
        int32_val big (bswap_int32 (header_of_bytes (r.file.take 176)).layout_code) ≠ 2 →
      (read_header big r want_info).ret = 0
      ∧ (read_header big r want_info).msgs = [header_message.bad_layout_code])
    ∧ (∀ bs, int32_val big (bswap_int32 bs) = int32_val (!big) bs)
    ∧ (∀ bs, mem_val big (bswap_flt64 bs) = mem_val (!big) bs) := by
  have hnl : ¬ r.file.length < 176 := by omega
  have hmax : Int.tdiv (Int.tdiv INT_MAX 8) 2 = 134217727 := by decide
  refine ⟨?_, ?_, ?_, bswap_int32_val big, bswap_flt64_val big⟩
  · intro h2
    unfold read_header
    simp only [hnl, if_false, hmagic, ne_eq, not_true_eq_false, h2, decide_True, if_true,
      Bool.true_eq_false, false_and, Bool.not_true, hmax]
    split_ifs <;> simp
  · intro h2 h3
    unfold read_header
    simp only [hnl, if_false, hmagic, ne_eq, not_true_eq_false, h2, decide_False, h3,
      and_false, Bool.false_eq_true, Bool.not_false, hmax]
    split_ifs <;> simp
  · intro h2 h3
    unfold read_header
    simp only [hnl, if_false, hmagic, ne_eq, not_true_eq_false, h2, decide_False, h3,
      not_false_eq_true, and_self, if_true]

end

section

open Reader

/-- C7, witness: a big-endian host reads the header that a little-endian writer made
for a dictionary of two numeric variables. -/
theorem read_header_endianness_witness :
    (read_header true (new_reader true (Writer.make_header false example_host true
        (example_dict [example_numeric 65 0, example_numeric 66 1])).bytes) true).r.reverse_endian
      = true
    ∧ (read_header true (new_reader true (Writer.make_header false example_host true
        (example_dict [example_numeric 65 0, example_numeric 66 1])).bytes) true).r.value_cnt
      = 2 :=
  ⟨((read_header_endianness true (new_reader true (Writer.make_header false example_host true
        (example_dict [example_numeric 65 0, example_numeric 66 1])).bytes) true
      (by decide!) (by decide!)).2.1 (by decide!) (by decide!)).1,
   (((read_header_endianness true (new_reader true (Writer.make_header false example_host true
        (example_dict [example_numeric 65 0, example_numeric 66 1])).bytes) true
      (by decide!) (by decide!)).2.1 (by decide!) (by decide!)).2.1).trans (by decide!)⟩

/-- C8: given a complete 176-byte header, `read_header` succeeds if and only if the
first four bytes are `$FL2`, the layout code is 2 in host or in reversed byte order, and
the case count, in the byte order found, lies in `[-1, INT_MAX / 2]`; otherwise it
returns 0.  Neither the bias nor `case_size` takes part in the decision: a `case_size`
outside `[0, INT_MAX / 8 / 2]` is replaced by -1. -/
theorem read_header_succeeds_iff (big : Bool) (r : sfm_reader) (want_info : Bool)
    (hlen : 176 ≤ r.file.length) :
    ((read_header big r want_info).ret = 1 ↔
      ((header_of_bytes (r.file.take 176)).rec_type = [36, 70, 76, 50]
        ∧ (int32_val big (header_of_bytes (r.file.take 176)).layout_code = 2
            ∨ int32_val big (bswap_int32 (header_of_bytes (r.file.take 176)).layout_code) = 2)
        ∧ -1 ≤ int32_val big
              (if int32_val big (header_of_bytes (r.file.take 176)).layout_code = 2
                then (header_of_bytes (r.file.take 176)).case_cnt
                else bswap_int32 (header_of_bytes (r.file.take 176)).case_cnt)
        ∧ int32_val big
              (if int32_val big (header_of_bytes (r.file.take 176)).layout_code = 2
                then (header_of_bytes (r.file.take 176)).case_cnt
                else bswap_int32 (header_of_bytes (r.file.take 176)).case_cnt)
            ≤ 1073741823))
    ∧ ((read_header big r want_info).ret ≠ 1 → (read_header big r want_info).ret = 0)
    ∧ ((read_header big r want_info).ret = 1 →
        (read_header big r want_info).r.value_cnt
          = (if 0 ≤ int32_val big
                  (if int32_val big (header_of_bytes (r.file.take 176)).layout_code = 2
                    then (header_of_bytes (r.file.take 176)).case_size
                    else bswap_int32 (header_of_bytes (r.file.take 176)).case_size)
                ∧ int32_val big
                  (if int32_val big (header_of_bytes (r.file.take 176)).layout_code = 2
                    then (header_of_bytes (r.file.take 176)).case_size
                    else bswap_int32 (header_of_bytes (r.file.take 176)).case_size)
                  ≤ 134217727
              then int32_val big
                  (if int32_val big (header_of_bytes (r.file.take 176)).layout_code = 2
                    then (header_of_bytes (r.file.take 176)).case_size
                    else bswap_int32 (header_of_bytes (r.file.take 176)).case_size)
              else -1)) := by
  have hnl : ¬ r.file.length < 176 := by omega
  have hmax : Int.tdiv (Int.tdiv INT_MAX 8) 2 = 134217727 := by decide
  have hmax2 : Int.tdiv INT_MAX 2 = 1073741823 := by decide
  unfold read_header
  simp only [hnl, if_false, hmax, hmax2]
  by_cases hm : (header_of_bytes (r.file.take 176)).rec_type = [36, 70, 76, 50]
  · by_cases h2 : int32_val big (header_of_bytes (r.file.take 176)).layout_code = 2
    · simp only [hm, ne_eq, not_true_eq_false, if_false, h2, decide_True, if_true,
        Bool.true_eq_false, false_and, Bool.not_true, true_or, true_and]
      split_ifs <;> simp <;> omega
    · by_cases h3 : int32_val big
          (bswap_int32 (header_of_bytes (r.file.take 176)).layout_code) = 2
      · simp only [hm, ne_eq, not_true_eq_false, if_false, h2, decide_False, h3,
          and_false, Bool.false_eq_true, Bool.not_false, or_true, true_and]
        split_ifs <;> simp <;> omega
      · simp [hm, h2, h3]
  · simp [hm]

end

section

open Reader

/-- C8, witness: the header that the writer makes is accepted. -/
theorem read_header_succeeds_iff_witness :
    (read_header false (new_reader false (Writer.make_header false example_host true
        (example_dict [example_numeric 65 0, example_numeric 66 1])).bytes) false).ret = 1 :=
  (read_header_succeeds_iff false (new_reader false (Writer.make_header false example_host
      true (example_dict [example_numeric 65 0, example_numeric 66 1])).bytes) false
    (by decide!)).1.mpr ⟨by decide!, Or.inl (by decide!), by decide!, by decide!⟩

end

section

open Writer

theorem write_cases_wrote (big : Bool) :
    ∀ (cases : List (List Nat × List Nat)) (w : sfm_writer),
      (write_cases big w cases).case_cnt = w.case_cnt + cases.length
      ∧ ∃ t, (write_cases big w cases).file = w.file ++ t := by
  intro cases
  induction cases with
  | nil => intro w; exact ⟨by simp [write_cases], [], by simp [write_cases]⟩
  | cons cj rest ih =>
    intro w
    obtain ⟨-, h2, t1, h3⟩ := sfm_write_case_wrote big w cj.1 cj.2
    obtain ⟨h4, t2, h5⟩ := ih (sfm_write_case big w cj.1 cj.2).2
    refine ⟨?_, t1 ++ t2, ?_⟩
    · show (write_cases big (sfm_write_case big w cj.1 cj.2).2 rest).case_cnt = _
      rw [h4, h2]
      simp only [List.length_cons, Nat.cast_add, Nat.cast_one]
      omega
    · show (write_cases big (sfm_write_case big w cj.1 cj.2).2 rest).file = _
      rw [h5, h3, List.append_assoc]

theorem close_writes_count (big : Bool) (w : sfm_writer) :
    ∃ t, sfm_close_writer big w true true
      = file_write_at (w.file ++ t) OFFSET_CASE_CNT (int32_bytes big w.case_cnt) := by
  unfold sfm_close_writer
  simp only [Bool.and_self, if_true]
  split
  · obtain ⟨hm, t, ht⟩ := buf_write_wrote { w with buf := memset w.buf w.x 0 (w.y - w.x) }
      (mem_read (memset w.buf w.x 0 (w.y - w.x)) 0 (8 * w.ptr))
    refine ⟨t, ?_⟩
    rw [ht, hm.2.2.2.1]
  · exact ⟨[], by simp⟩

theorem mem_read_mid (A s B : List Nat) (n : Nat) (h : s.length = n) :
    mem_read (A ++ s ++ B) A.length n = s := by
  unfold mem_read
  rw [List.append_assoc, List.drop_left, ← h, List.take_left]

theorem header_case_cnt (big : Bool) (env : host) (c : Bool) (d : dictionary) (t : List Nat) :
    mem_read ((make_header big env c d).bytes ++ t) 80 4 = int32_bytes big (-1) := by
  have hA : ((make_header big env c d).rec_type ++ (make_header big env c d).prod_name
      ++ (make_header big env c d).layout_code ++ (make_header big env c d).case_size
      ++ (make_header big env c d).compress ++ (make_header big env c d).weight_idx).length
      = 80 := by
    unfold make_header
    simp only [List.length_append, int32_bytes_length, append_string_max, List.length_take,
      List.length_replicate, List.length_cons, List.length_nil]
    split <;> simp only [int32_bytes_length] <;> omega
  have hcc : (make_header big env c d).case_cnt = int32_bytes big (-1) := rfl
  have e : (make_header big env c d).bytes ++ t
      = ((make_header big env c d).rec_type ++ (make_header big env c d).prod_name
          ++ (make_header big env c d).layout_code ++ (make_header big env c d).case_size
          ++ (make_header big env c d).compress ++ (make_header big env c d).weight_idx)
        ++ int32_bytes big (-1)
        ++ ((make_header big env c d).bias ++ (make_header big env c d).creation_date
          ++ (make_header big env c d).creation_time ++ (make_header big env c d).file_label
          ++ (make_header big env c d).padding ++ t) := by
    unfold sysfile_header.bytes
    rw [hcc]
    simp only [List.append_assoc]
  rw [e, ← hA]
  exact mem_read_mid _ _ _ 4 (int32_bytes_length _ _)

theorem int32_val_bytes (big : Bool) (i : Int) (h1 : -(2 ^ 31 : Int) ≤ i)
    (h2 : i < (2 ^ 31 : Int)) : int32_val big (int32_bytes big i) = i := by
  unfold int32_val int32_bytes
  have hb : bits_of_int32 i < 256 ^ 4 := by
    unfold bits_of_int32
    have := Int.emod_lt_of_pos i (by norm_num : (0 : Int) < ((2 ^ 32 : Nat) : Int))
    have h0 := Int.emod_nonneg i (by norm_num : ((2 ^ 32 : Nat) : Int) ≠ 0)
    omega
  rw [mem_val_mem_bytes big 4 _ hb]
  unfold int32_of_bits bits_of_int32
  have h0 := Int.emod_nonneg i (by norm_num : ((2 ^ 32 : Nat) : Int) ≠ 0)
  have hlt := Int.emod_lt_of_pos i (by norm_num : (0 : Int) < ((2 ^ 32 : Nat) : Int))
  have hm : (i % ((2 ^ 32 : Nat) : Int)).toNat % 2 ^ 32 = (i % ((2 ^ 32 : Nat) : Int)).toNat := by
    apply Nat.mod_eq_of_lt
    omega
  rw [hm]
  have hcast : (((i % ((2 ^ 32 : Nat) : Int)).toNat : Nat) : Int) = i % ((2 ^ 32 : Nat) : Int) :=
    Int.toNat_of_nonneg h0
  split
  · rename_i hlt31
    rw [hcast]
    omega
  · rename_i hge31
    rw [hcast]
    omega

/-- C9: for every writer that `sfm_open_writer` returned, the header it wrote holds -1
in `case_cnt`; after `n` calls of `sfm_write_case` and `sfm_close_writer` with the seek
and the write succeeding, the four bytes of `case_cnt` hold `n` (an `int32`, so they
read as `n` when `n < 2 ^ 31`), and every other byte of the 176-byte header is as
`write_header` wrote it. -/
theorem close_patches_case_count (big : Bool) (env : host) (io : List Bool) (d : dictionary)
    (opts : sfm_write_options) (w : sfm_writer) (cases : List (List Nat × List Nat))
    (hopen : sfm_open_writer big env io d opts = some w) :
    w.file.take 176 = (make_header big env opts.compress d).bytes
    ∧ mem_read w.file OFFSET_CASE_CNT 4 = int32_bytes big (-1)
    ∧ (sfm_close_writer big (write_cases big w cases) true true).take 176
        = w.file.take 80 ++ int32_bytes big cases.length ++ (w.file.take 176).drop 84
    ∧ mem_read (sfm_close_writer big (write_cases big w cases) true true) OFFSET_CASE_CNT 4
        = int32_bytes big cases.length
    ∧ ((cases.length : Int) < 2 ^ 31 →
        int32_val big
            (mem_read (sfm_close_writer big (write_cases big w cases) true true)
              OFFSET_CASE_CNT 4)
          = cases.length) := by
  obtain ⟨-, -, hcc, -, -, ⟨t, hfile⟩, -⟩ := sfm_open_writer_spec big env io d opts w hopen
  have hH : (make_header big env opts.compress d).bytes.length = 176 :=
    make_header_length big env opts.compress d
  obtain ⟨hn, t1, hf1⟩ := write_cases_wrote big cases w
  obtain ⟨t2, hcl⟩ := close_writes_count big (write_cases big w cases)
  have hlen : 176 ≤ w.file.length := by rw [hfile, List.length_append, hH]; omega
  have hfin : sfm_close_writer big (write_cases big w cases) true true
      = w.file.take 80 ++ int32_bytes big cases.length ++ (w.file ++ (t1 ++ t2)).drop 84 := by
    rw [hcl, hf1, hn, hcc, List.append_assoc]
    unfold file_write_at OFFSET_CASE_CNT
    have e0 : 80 - (w.file ++ (t1 ++ t2)).length = 0 := by
      rw [List.length_append]; omega
    rw [e0, List.take_append_of_le_length (by omega), int32_bytes_length]
    simp
  have hrd : mem_read (sfm_close_writer big (write_cases big w cases) true true)
      OFFSET_CASE_CNT 4 = int32_bytes big cases.length := by
    rw [hfin]
    have e80 : (w.file.take 80).length = 80 := by rw [List.length_take]; omega
    have := mem_read_mid (w.file.take 80) (int32_bytes big cases.length)
      ((w.file ++ (t1 ++ t2)).drop 84) 4 (int32_bytes_length _ _)
    rw [e80] at this
    exact this
  refine ⟨?_, ?_, ?_, hrd, ?_⟩
  · rw [hfile, ← hH, List.take_left]
  · rw [hfile]
    exact header_case_cnt big env opts.compress d t
  · rw [hfin]
    have e84 : (w.file.take 80 ++ int32_bytes big cases.length).length = 84 := by
      rw [List.length_append, List.length_take, int32_bytes_length]; omega
    rw [List.take_append_eq_append_take, e84,
      List.take_of_length_le (by rw [e84]; omega)]
    congr 1
    rw [List.drop_append_of_le_length (by omega), List.take_append_of_le_length
      (by rw [List.length_drop]; omega)]
    rw [List.drop_take]
  · intro hlt
    rw [hrd]
    exact int32_val_bytes big _ (by omega) hlt

end

section

open Writer

/-- C9, witness: a compressing writer for two variables, two cases written, closed. -/
theorem close_patches_case_count_witness :
    ∃ w, sfm_open_writer false example_host []
          (example_dict [example_numeric 65 0, example_string 66 1]) compress_opts = some w
      ∧ mem_read (sfm_close_writer false (write_cases false w
            [([0, 0, 0, 0, 0, 0, 0, 128, 32, 32, 32, 32, 32, 32, 32, 32], []),
             ([0, 0, 0, 0, 0, 0, 240, 63, 97, 98, 99, 32, 32, 32, 32, 32], [7, 7])])
            true true) OFFSET_CASE_CNT 4
        = [2, 0, 0, 0] := by
  obtain ⟨w, hw⟩ := Option.isSome_iff_exists.mp
    (by decide! : (sfm_open_writer false example_host []
      (example_dict [example_numeric 65 0, example_string 66 1]) compress_opts).isSome = true)
  exact ⟨w, hw, (close_patches_case_count false example_host []
    (example_dict [example_numeric 65 0, example_string 66 1]) compress_opts w
    [([0, 0, 0, 0, 0, 0, 0, 128, 32, 32, 32, 32, 32, 32, 32, 32], []),
     ([0, 0, 0, 0, 0, 0, 240, 63, 97, 98, 99, 32, 32, 32, 32, 32], [7, 7])] hw).2.2.2.1.trans
    (by decide)⟩

/-- C10: `sfm_write_case` returns 1 whatever becomes of its writes; the results of
`buf_write`, `ensure_buf_space`, `put_instruction` and `put_element` are not looked at.
In particular, when an uncompressed writer makes its one `fwrite` for the case and that
`fwrite` fails, nothing is added to the file and the return value is still 1. -/
theorem sfm_write_case_ignores_failure (big : Bool) (w : sfm_writer) (c junk : List Nat) :
    (sfm_write_case big w c junk).1 = 1
    ∧ (∀ rest : List Bool, w.compress = false → w.io = false :: rest →
        (∀ data, (buf_write { w with case_cnt := w.case_cnt + 1 } data).1 = false)
        ∧ (sfm_write_case big w c junk).2.file = w.file
        ∧ (sfm_write_case big w c junk).1 = 1) := by
  refine ⟨(sfm_write_case_wrote big w c junk).1, ?_⟩
  intro rest hc hio
  refine ⟨?_, ?_, (sfm_write_case_wrote big w c junk).1⟩
  · intro data
    unfold buf_write
    simp [hio]
  · unfold sfm_write_case
    simp only [hc, Bool.not_false, Bool.and_true]
    split
    · unfold buf_write
      simp [hio]
    · simp only [Bool.false_eq_true, if_false, Bool.not_false, if_true]
      unfold buf_write
      simp [hio]

/-- C10, the failing input run: an uncompressed writer whose next `fwrite` fails is
given a case; the file stays empty and the return value is 1. -/
theorem sfm_write_case_failure_example :
    sfm_write_case false
      { needs_translation := false, compress := false, case_cnt := 0, flt64_cnt := 1,
        buf := [], end_ := 0, ptr := 0, x := 0, y := 0, vars := [⟨0, 0, 1⟩], file := [],
        io := [false] } [0, 0, 0, 0, 0, 0, 240, 63] []
      = (1, { needs_translation := false, compress := false, case_cnt := 1, flt64_cnt := 1,
              buf := [], end_ := 0, ptr := 0, x := 0, y := 0, vars := [⟨0, 0, 1⟩],
              file := [], io := [] }) := by
  decide

end

section

open Reader

theorem fix_int32_file_order (big : Bool) (r : sfm_reader) (bs : List Nat) :
    fix_int32 big r bs = int32_val (xor big r.reverse_endian) bs := by
  unfold fix_int32
  cases h : r.reverse_endian
  · simp
  · simp [bswap_int32_val]

theorem buf_read_some (r : sfm_reader) (n : Nat) (b : Bool) (h0 : 0 < n)
    (h : n ≤ r.file.length) :
    buf_read r n b = (some (r.file.take n), { r with file := r.file.drop n }, []) := by
  unfold buf_read
  rw [if_neg (by omega), if_pos h]

theorem buf_read_none (r : sfm_reader) (n : Nat) (b : Bool)
    (h : r.file.length < n) :
    buf_read r n b = (none, { r with file := [] }, [dict_message.unexpected_eof]) := by
  unfold buf_read
  rw [if_neg (by omega), if_neg (by omega)]

theorem elements4_map_getD (f : List Nat → Int) (d : Int) :
    ∀ (n k : Nat) (bs : List Nat), k < n →
      ((elements4 n bs).map f).getD k d = f ((bs.drop (4 * k)).take 4)
  | 0, _, _, h => absurd h (Nat.not_lt_zero _)
  | n + 1, 0, bs, _ => by simp [elements4]
  | n + 1, k + 1, bs, h => by
    simp only [elements4, List.map_cons, List.getD_cons_succ]
    rw [elements4_map_getD f d n k (bs.drop 4) (by omega), List.drop_drop]
    congr 3
    omega

theorem elements4_getD (f : List Nat → Int) (file : List Nat) (k : Nat) (hk : k < 8) :
    ((elements4 8 (file.take 32)).map f).getD k 0 = f (mem_read file (4 * k) 4) := by
  rw [elements4_map_getD f 0 8 k _ hk]
  unfold mem_read
  rw [List.drop_take, List.take_take]
  congr 2
  omega

/-- The outcome of `read_machine_int32_info` in terms of the file: it returns 1 exactly
when size is 4, count is 8, 32 bytes are left, and the integers 4, 6 and 7 of the
payload, read in the file's byte order, pass the three tests. -/
theorem read_machine_int32_info_ret (big : Bool) (r : sfm_reader) (size count : Int) :
    ((read_machine_int32_info big r size count).1 = 1 ↔
      (size = 4 ∧ count = 8 ∧ 32 ≤ r.file.length
        ∧ int32_val (xor big r.reverse_endian) (mem_read r.file 16 4) = 1
        ∧ xor (xor big r.reverse_endian)
            (decide (int32_val (xor big r.reverse_endian) (mem_read r.file 24 4) = 1)) = false
        ∧ (int32_val (xor big r.reverse_endian) (mem_read r.file 28 4) = 2
            ∨ int32_val (xor big r.reverse_endian) (mem_read r.file 28 4) = 3)))
    ∧ ((read_machine_int32_info big r size count).1 = 0
        ∨ (read_machine_int32_info big r size count).1 = 1) := by
  unfold read_machine_int32_info
  by_cases hs : size ≠ 4 ∨ count ≠ 8
  · rw [if_pos hs]
    refine ⟨⟨fun h => by simp at h, fun h => ?_⟩, Or.inl rfl⟩
    rcases hs with hs | hs
    · exact absurd h.1 hs
    · exact absurd h.2.1 hs
  · rw [if_neg hs]
    have hs4 : size = 4 := by
      by_contra h; exact hs (Or.inl h)
    have hc8 : count = 8 := by
      by_contra h; exact hs (Or.inr h)
    by_cases hl : 32 ≤ r.file.length
    · rw [buf_read_some r 32 false (by decide) hl]
      simp only []
      rw [elements4_getD _ _ 4 (by decide), elements4_getD _ _ 6 (by decide),
        elements4_getD _ _ 7 (by decide)]
      simp only [fix_int32_file_order]
      simp only [show 4 * 4 = 16 from rfl, show 4 * 6 = 24 from rfl, show 4 * 7 = 28 from rfl]
      generalize int32_val (xor big r.reverse_endian) (mem_read r.file 16 4) = e4
      generalize int32_val (xor big r.reverse_endian) (mem_read r.file 24 4) = e6
      generalize int32_val (xor big r.reverse_endian) (mem_read r.file 28 4) = e7
      generalize xor big r.reverse_endian = fb
      by_cases h4 : e4 = 1
      · rw [if_neg (by simpa using h4)]
        by_cases h6 : xor fb (decide (e6 = 1)) = true
        · rw [if_pos h6]
          simp [h6]
        · rw [if_neg h6]
          by_cases h7 : e7 ≠ 2 ∧ e7 ≠ 3
          · rw [if_pos h7]
            simp only [Bool.not_eq_true] at h6
            refine ⟨⟨fun h => by simp at h, fun h => ?_⟩, Or.inl rfl⟩
            rcases h.2.2.2.2.2 with h | h
            · exact absurd h h7.1
            · exact absurd h h7.2
          · rw [if_neg h7]
            simp only [Bool.not_eq_true] at h6
            refine ⟨⟨fun _ => ⟨hs4, hc8, hl, h4, h6, ?_⟩, fun _ => rfl⟩, Or.inr rfl⟩
            by_contra h
            exact h7 ⟨fun a => h (Or.inl a), fun a => h (Or.inr a)⟩
      · rw [if_pos (by simpa using h4)]
        exact ⟨⟨fun h => by simp at h, fun h => absurd h.2.2.2.1 h4⟩, Or.inl rfl⟩
    · rw [buf_read_none r 32 false (by omega)]
      exact ⟨⟨fun h => by simp at h, fun h => absurd h.2.2.1 hl⟩, Or.inl rfl⟩

/-- C30: `read_machine_int32_info` returns 0 when size is not 4 or count is not 8, when
integer 4 of the payload (the floating-point representation) is not 1, and when
integer 7 (the character code) is neither 2 nor 3; the integers are taken in the
file's byte order, which is the host's order reversed exactly when `reverse_endian` is
set. -/
theorem read_machine_int32_info_rejects (big : Bool) (r : sfm_reader) (size count : Int) :
    ((size ≠ 4 ∨ count ≠ 8) → (read_machine_int32_info big r size count).1 = 0)
    ∧ (int32_val big (if r.reverse_endian then bswap_int32 (mem_read r.file 16 4)
          else mem_read r.file 16 4) ≠ 1 →
        (read_machine_int32_info big r size count).1 = 0)
    ∧ ((int32_val big (if r.reverse_endian then bswap_int32 (mem_read r.file 28 4)
          else mem_read r.file 28 4) ≠ 2
        ∧ int32_val big (if r.reverse_endian then bswap_int32 (mem_read r.file 28 4)
          else mem_read r.file 28 4) ≠ 3) →
        (read_machine_int32_info big r size count).1 = 0)
    ∧ (r.file.length < 32 → (read_machine_int32_info big r size count).1 = 0) := by
  have key := read_machine_int32_info_ret big r size count
  have e : ∀ bs, int32_val big (if r.reverse_endian then bswap_int32 bs else bs)
      = int32_val (xor big r.reverse_endian) bs := fun bs => fix_int32_file_order big r bs
  simp only [e]
  have h0 : ∀ {P : Prop}, ¬ P →
      ((read_machine_int32_info big r size count).1 = 1 ↔ P) →
      (read_machine_int32_info big r size count).1 = 0 := by
    intro P hP hiff
    rcases key.2 with h | h
    · exact h
    · exact absurd (hiff.mp h) hP
  refine ⟨fun h => h0 ?_ key.1, fun h => h0 ?_ key.1, fun h => h0 ?_ key.1,
    fun h => h0 ?_ key.1⟩
  · intro c
    rcases h with h | h
    · exact h c.1
    · exact h c.2.1
  · intro c
    exact h c.2.2.2.1
  · intro c
    rcases c.2.2.2.2.2 with c | c
    · exact h.1 c
    · exact h.2 c
  · intro c
    omega

/-- C29 as the code has it: for a subtype-3 record that passes the other tests,
`read_machine_int32_info` returns 1 if the file was detected as big-endian and integer
6 of the payload is 1, or the file was detected as little-endian and integer 6 is
anything but 1; otherwise it returns 0 with the endianness message. -/
theorem read_machine_int32_info_byte_order (big : Bool) (r : sfm_reader)
    (hl : 32 ≤ r.file.length)
    (h4 : int32_val (xor big r.reverse_endian) (mem_read r.file 16 4) = 1)
    (h7 : int32_val (xor big r.reverse_endian) (mem_read r.file 28 4) = 2
        ∨ int32_val (xor big r.reverse_endian) (mem_read r.file 28 4) = 3) :
    ((read_machine_int32_info big r 4 8).1 = 1 ↔
      (xor big r.reverse_endian = true ↔
        int32_val (xor big r.reverse_endian) (mem_read r.file 24 4) = 1))
    ∧ ((read_machine_int32_info big r 4 8).1 ≠ 1 →
        read_machine_int32_info big r 4 8
          = (0, { r with file := r.file.drop 32 }, [dict_message.endianness_mismatch])) := by
  have key := (read_machine_int32_info_ret big r 4 8).1
  constructor
  · rw [key]
    constructor
    · intro h
      have h6 := h.2.2.2.2.1
      cases hb : xor big r.reverse_endian <;> rw [hb] at h6 <;> simp at h6 ⊢ <;> exact h6
    · intro h
      refine ⟨rfl, rfl, hl, h4, ?_, h7⟩
      cases hb : xor big r.reverse_endian <;> rw [hb] at h <;> simp at h ⊢ <;> exact h
  · intro hne
    have hx : xor (xor big r.reverse_endian)
        (decide (int32_val (xor big r.reverse_endian) (mem_read r.file 24 4) = 1)) = true := by
      by_contra hc
      simp only [Bool.not_eq_true] at hc
      exact hne (key.mpr ⟨rfl, rfl, hl, h4, hc, h7⟩)
    unfold read_machine_int32_info
    rw [if_neg (by simp), buf_read_some r 32 false (by decide) hl]
    simp only []
    rw [elements4_getD _ _ 4 (by decide), elements4_getD _ _ 6 (by decide)]
    simp only [fix_int32_file_order]
    simp only [show 4 * 4 = 16 from rfl, show 4 * 6 = 24 from rfl]
    rw [if_neg (by simpa using h4), if_pos hx]

/-- The payload of a subtype-3 record in little-endian order with the byte-order code
5. -/
theorem read_machine_int32_info_byte_order_witness :
    (read_machine_int32_info false
        (new_reader false
          [0,0,0,0, 0,0,0,0, 0,0,0,0, 0,0,0,0, 1,0,0,0, 0,0,0,0, 2,0,0,0, 2,0,0,0]) 4 8).1 = 1 :=
  (read_machine_int32_info_byte_order false
    (new_reader false
      [0,0,0,0, 0,0,0,0, 0,0,0,0, 0,0,0,0, 1,0,0,0, 0,0,0,0, 2,0,0,0, 2,0,0,0])
    (by decide!) (by decide!) (Or.inl (by decide!))).1.mpr (by decide!)

/-- C29, counterexample: a record whose byte-order code is 5, neither 1 nor 2, in a file
detected as little-endian is accepted. -/
theorem unknown_byte_order_code_accepted :
    int32_val false (mem_read
        [0,0,0,0, 0,0,0,0, 0,0,0,0, 0,0,0,0, 1,0,0,0, 0,0,0,0, 5,0,0,0, 2,0,0,0] 24 4) = 5
    ∧ read_machine_int32_info false
        (new_reader false
          [0,0,0,0, 0,0,0,0, 0,0,0,0, 0,0,0,0, 1,0,0,0, 0,0,0,0, 5,0,0,0, 2,0,0,0]) 4 8
      = (1, new_reader false [], []) := by
  decide!

end

section

open Reader

theorem buf_read_reverse (r : sfm_reader) (b : Bool) (n : Nat) (x : Bool) :
    buf_read { r with reverse_endian := b } n x
      = ((buf_read r n x).1, { (buf_read r n x).2.1 with reverse_endian := b },
          (buf_read r n x).2.2) := by
  unfold buf_read
  split_ifs <;> rfl

/-- C27: `read_documents` never looks at `reverse_endian`: its return value, the bytes it
leaves in the file and the documents it sets are the same whether the flag is set or
not, so that the line count is always taken in the host's byte order, also for a file
of the other byte order. -/
theorem read_documents_ignores_reverse_endian (big : Bool) (r : sfm_reader)
    (dict : Writer.dictionary) (b : Bool) :
    (read_documents big { r with reverse_endian := b } dict).1
        = (read_documents big r dict).1
    ∧ (read_documents big { r with reverse_endian := b } dict).2.1.file
        = (read_documents big r dict).2.1.file
    ∧ (read_documents big { r with reverse_endian := b } dict).2.2.1
        = (read_documents big r dict).2.2.1 := by
  unfold read_documents
  by_cases hd : dict.documents ≠ none
  · simp only [if_pos hd, and_self]
  · simp only [if_neg hd, buf_read_reverse r b]
    rcases h1 : buf_read r 4 false with ⟨o1, r1, m1⟩
    cases o1 with
    | none => simp
    | some bs =>
      simp only []
      by_cases hl : int32_val big bs ≤ 0
      · simp only [if_pos hl, and_self]
      · simp only [if_neg hl, buf_read_reverse r1 b]
        rcases h2 : buf_read r1 (size_t_of_int (wrap32 (80 * int32_val big bs))) true
          with ⟨o2, r2, m2⟩
        cases o2 <;> simp

/-- C27, failing input: a type 6 record with one line of 80 blanks. With the line count
in the host's byte order the documents are read; with the line count in the other
byte order and `reverse_endian` set, the count is taken for 16777216 lines and the
call fails at the end of the file. -/
theorem read_documents_reverse_endian_example :
    read_documents false (new_reader false ([1, 0, 0, 0] ++ List.replicate 80 32))
        (example_dict [])
      = (1, new_reader false [],
          { example_dict [] with documents := some (List.replicate 80 32) }, [])
    ∧ int32_val true [0, 0, 0, 1] = 1
    ∧ read_documents false
        { new_reader false ([0, 0, 0, 1] ++ List.replicate 80 32) with reverse_endian := true }
        (example_dict [])
      = (0, { new_reader false [] with reverse_endian := true }, example_dict [],
          [dict_message.unexpected_eof]) := by
  decide!

theorem read_display_params_reverse (big : Bool) (b : Bool) :
    ∀ (n i : Nat) (r : sfm_reader) (dict : Writer.dictionary),
      (read_display_params big n i { r with reverse_endian := b } dict).1
        = (read_display_params big n i r dict).1
      ∧ (read_display_params big n i { r with reverse_endian := b } dict).2.1.file
        = (read_display_params big n i r dict).2.1.file
  | 0, _, _, _ => by simp [read_display_params]
  | n + 1, i, r, dict => by
    unfold read_display_params
    simp only [buf_read_reverse r b]
    rcases h1 : buf_read r 12 false with ⟨o1, r1, m1⟩
    cases o1 with
    | none => simp
    | some bs =>
      simp only []
      exact read_display_params_reverse big b n (i + 1) r1 _

/-- C28: the loop that assigns the display parameters never looks at `reverse_endian`:
the dictionary it leaves is the same whether the flag is set or not, so that the three
integers are always taken in the host's byte order, also for a file of the other byte
order. -/
theorem display_params_ignore_reverse_endian (big : Bool) (b : Bool) (n i : Nat)
    (r : sfm_reader) (dict : Writer.dictionary) :
    (read_display_params big n i { r with reverse_endian := b } dict).1
      = (read_display_params big n i r dict).1 :=
  (read_display_params_reverse big b n i r dict).1

/-- C28, failing input: a subtype 11 record for one variable with measure 1, width 8 and
alignment 2. Read from a file of the host's byte order the variable gets 1, 8 and 2;
read from the file of the other byte order it gets 16777216, 134217728 and
33554432. -/
theorem display_params_reverse_endian_example :
    ((read_extension false example_reader_host
        (example_open_state false false [example_numeric 65 0]
          ([11, 0, 0, 0, 4, 0, 0, 0, 3, 0, 0, 0] ++ [1, 0, 0, 0, 8, 0, 0, 0, 2, 0, 0, 0]))).2.dict.var.map
        (fun v => (v.measure, v.display_width, v.alignment))) = [(1, 8, 2)]
    ∧ ((read_extension false example_reader_host
        (example_open_state false true [example_numeric 65 0]
          ([0, 0, 0, 11, 0, 0, 0, 4, 0, 0, 0, 3] ++ [0, 0, 0, 1, 0, 0, 0, 8, 0, 0, 0, 2]))).2.dict.var.map
        (fun v => (v.measure, v.display_width, v.alignment)))
      = [(16777216, 134217728, 33554432)]
    ∧ (read_extension false example_reader_host
        (example_open_state false true [example_numeric 65 0]
          ([0, 0, 0, 11, 0, 0, 0, 4, 0, 0, 0, 3] ++ [0, 0, 0, 1, 0, 0, 0, 8, 0, 0, 0, 2]))).1
      = loop_ctl.next := by
  decide!

/-- C26: a subtype 11 record with size 4 and count 4, which is not a multiple of 3, in a
file with one variable, followed by 20 more bytes. The record is reported, but the
loop still reads 12 bytes and assigns them to the variable, and then 16 more bytes are
skipped: 28 bytes are taken behind the header instead of 16, and the variable has the
measure 3, the width 9 and the alignment 2 of the record. -/
theorem bad_display_record_not_skipped :
    (read_extension false example_reader_host
        (example_open_state false false [example_numeric 65 0]
          ([11, 0, 0, 0, 4, 0, 0, 0, 4, 0, 0, 0]
            ++ [3, 0, 0, 0, 9, 0, 0, 0, 2, 0, 0, 0, 7, 0, 0, 0]
            ++ List.replicate 20 0))).1 = loop_ctl.next
    ∧ (read_extension false example_reader_host
        (example_open_state false false [example_numeric 65 0]
          ([11, 0, 0, 0, 4, 0, 0, 0, 4, 0, 0, 0]
            ++ [3, 0, 0, 0, 9, 0, 0, 0, 2, 0, 0, 0, 7, 0, 0, 0]
            ++ List.replicate 20 0))).2.r.file = List.replicate 8 0
    ∧ ((read_extension false example_reader_host
        (example_open_state false false [example_numeric 65 0]
          ([11, 0, 0, 0, 4, 0, 0, 0, 4, 0, 0, 0]
            ++ [3, 0, 0, 0, 9, 0, 0, 0, 2, 0, 0, 0, 7, 0, 0, 0]
            ++ List.replicate 20 0))).2.dict.var.map
        (fun v => (v.measure, v.display_width, v.alignment))) = [(3, 9, 2)]
    ∧ (read_extension false example_reader_host
        (example_open_state false false [example_numeric 65 0]
          ([11, 0, 0, 0, 4, 0, 0, 0, 4, 0, 0, 0]
            ++ [3, 0, 0, 0, 9, 0, 0, 0, 2, 0, 0, 0, 7, 0, 0, 0]
            ++ List.replicate 20 0))).2.msgs = [dict_message.bad_subrecord_length]
    ∧ ([example_numeric 65 0].map (fun v => (v.measure, v.display_width, v.alignment)))
        = [(1, 8, 0)] := by
  decide!

/-- C26, second input: the same record followed by the 8 bytes of a type 999 record
only. The 16 bytes of the record would suffice for a skip, but after the 12 bytes that
the loop has read, the skip of 16 bytes meets the end of the file and the open
fails. -/
theorem bad_display_record_fails :
    (read_extension false example_reader_host
        (example_open_state false false [example_numeric 65 0]
          ([11, 0, 0, 0, 4, 0, 0, 0, 4, 0, 0, 0]
            ++ [3, 0, 0, 0, 9, 0, 0, 0, 2, 0, 0, 0, 7, 0, 0, 0]
            ++ [231, 3, 0, 0, 0, 0, 0, 0]))).1 = loop_ctl.error
    ∧ (read_extension false example_reader_host
        (example_open_state false false [example_numeric 65 0]
          ([11, 0, 0, 0, 4, 0, 0, 0, 4, 0, 0, 0]
            ++ [3, 0, 0, 0, 9, 0, 0, 0, 2, 0, 0, 0, 7, 0, 0, 0]
            ++ [231, 3, 0, 0, 0, 0, 0, 0]))).2.msgs
      = [dict_message.bad_subrecord_length, dict_message.unexpected_eof] := by
  decide!

/-- C25: for size = count = 65537 the product kept in 32 bits is 131073, which is below
neither factor, so that the test for a record that is too large passes: a record of
subtype 5 with these fields and 16 bytes behind it is not refused as too large; the
131073 bytes are read for, and the open fails at the end of the file. -/
theorem overflowing_extension_not_refused :
    wrap32 (65537 * 65537) = 131073
    ∧ (read_extension false example_reader_host
        (example_open_state false false []
          ([5, 0, 0, 0, 1, 0, 1, 0, 1, 0, 1, 0] ++ List.replicate 16 0))).1 = loop_ctl.error
    ∧ (read_extension false example_reader_host
        (example_open_state false false []
          ([5, 0, 0, 0, 1, 0, 1, 0, 1, 0, 1, 0] ++ List.replicate 16 0))).2.msgs
      = [dict_message.unexpected_eof]
    ∧ (read_extension false example_reader_host
        (example_open_state false false []
          ([5, 0, 0, 0, 1, 0, 1, 0, 1, 0, 1, 0] ++ List.replicate 16 0))).2.r.file = [] := by
  decide!

end

section

open Reader

theorem buf_read_4 (r : sfm_reader) (o : Option (List Nat)) (r1 : sfm_reader)
    (m : List dict_message) (bs : List Nat) (h : buf_read r 4 false = (o, r1, m))
    (ho : o = some bs) :
    4 ≤ r.file.length ∧ bs = r.file.take 4 ∧ r1 = { r with file := r.file.drop 4 } := by
  by_cases hl : 4 ≤ r.file.length
  · rw [buf_read_some r 4 false (by decide) hl] at h
    simp only [Prod.mk.injEq] at h
    obtain ⟨h1, h2, _⟩ := h
    subst ho
    exact ⟨hl, (Option.some.inj h1).symm, h2.symm⟩
  · rw [buf_read_none r 4 false (by omega)] at h
    simp only [Prod.mk.injEq] at h
    rw [ho] at h
    exact absurd h.1 (by simp)

theorem read_record_type_4 (big : Bool) (env : host) (st : open_state)
    (h4 : 4 ≤ st.r.file.length) (ht : fix_int32 big st.r (st.r.file.take 4) = 4) :
    read_record big env st
      = (loop_ctl.error,
          { st with r := { st.r with file := st.r.file.drop 4 }
                    msgs := st.msgs ++ [dict_message.orphaned_type_4] }) := by
  unfold read_record
  rw [buf_read_some st.r 4 false (by decide) h4]
  simp only [ht]
  rw [if_neg (by decide), if_pos (by trivial)]
  rfl

theorem read_value_labels_tag (big : Bool) (env : host) (r : sfm_reader)
    (dict : Writer.dictionary) (var_by_idx : List (Option Nat))
    (h : (read_value_labels big env r dict var_by_idx).ret = 1) :
    4 ≤ r.file.length
    ∧ ∃ (n : Nat) (labels : List (List Nat × List Nat)) (r2 : sfm_reader)
        (m : List dict_message),
        (n = 0 ∨ (n : Int) = fix_int32 big r (r.file.take 4))
        ∧ read_label_tuples n { r with file := r.file.drop 4 } = (some labels, r2, m)
        ∧ 4 ≤ r2.file.length
        ∧ fix_int32 big r (r2.file.take 4) = 4 := by
  unfold read_value_labels at h
  rcases h1 : buf_read r 4 false with ⟨o1, r1, m1⟩
  rw [h1] at h
  cases o1 with
  | none => simp at h
  | some bs =>
    obtain ⟨hl, hbs, hr1⟩ := buf_read_4 r _ r1 m1 bs h1 rfl
    simp only [] at h
    generalize hn : (if decide (size_t_of_int (fix_int32 big r bs) ≥ size_t_of_int (-1) / 24)
      = true then 0 else fix_int32 big r bs) = n_labels at h
    rcases h2 : read_label_tuples n_labels.toNat r1 with ⟨o2, r2, m2⟩
    rw [h2] at h
    cases o2 with
    | none => simp at h
    | some labels =>
      simp only [] at h
      rcases h3 : buf_read r2 4 false with ⟨o3, r3, m3⟩
      rw [h3] at h
      cases o3 with
      | none => simp at h
      | some bs4 =>
        obtain ⟨hl4, hbs4, _⟩ := buf_read_4 r2 _ r3 m3 bs4 h3 rfl
        simp only [] at h
        by_cases ht : fix_int32 big r bs4 ≠ 4
        · rw [if_pos ht] at h
          simp at h
        · refine ⟨hl, n_labels.toNat, labels, r2, m2, ?_, ?_, hl4, ?_⟩
          · rw [← hbs]
            by_cases hb : decide (size_t_of_int (fix_int32 big r bs) ≥ size_t_of_int (-1) / 24)
                = true
            · rw [if_pos hb] at hn
              left
              rw [← hn]
              rfl
            · rw [if_neg hb] at hn
              rw [← hn]
              by_cases h0 : 0 ≤ fix_int32 big r bs
              · right
                exact Int.toNat_of_nonneg h0
              · left
                exact Int.toNat_eq_zero.mpr (by omega)
          · rw [← hr1]
            exact h2
          · rw [← hbs4]
            by_contra hc
            exact ht hc

/-- C24: a record of type 4 that the record loop of `sfm_open_reader` meets ends the loop
with the jump to `error` (and the message about an orphaned record), whatever came
before, and a loop that ends so makes `sfm_open_reader` return NULL; and
`read_value_labels` returns 1 only if the four bytes behind the last label, read in the
file's byte order, are the tag 4. -/
theorem type_4_only_behind_type_3 (big : Bool) (env : host) :
    (∀ (fuel : Nat) (st : open_state), 4 ≤ st.r.file.length →
        int32_val big (if st.r.reverse_endian then bswap_int32 (st.r.file.take 4)
          else st.r.file.take 4) = 4 →
        record_loop big env (fuel + 1) st
          = some (false,
              { st with r := { st.r with file := st.r.file.drop 4 }
                        msgs := st.msgs ++ [dict_message.orphaned_type_4] }))
    ∧ (∀ (file : List Nat) (want_info : Bool) (v : vars_result) (dict1 : Writer.dictionary)
        (m : List dict_message) (st : open_state) (res : open_result),
        read_variables big env (read_header big (new_reader big file) want_info).r
            { dict_create with label := (read_header big (new_reader big file) want_info).label }
          = some v →
        handle_weighting v.r v.dict v.var_by_idx = (some dict1, m) →
        record_loop big env (v.r.file.length / 4 + 1)
            { r := v.r, dict := dict1, var_by_idx := v.var_by_idx,
              msgs := (read_header big (new_reader big file) want_info).msgs.map
                header_msg ++ v.msgs }
          = some (false, st) →
        sfm_open_reader big env file want_info = some res →
        res.reader = none ∧ res.dict = none)
    ∧ (∀ (r : sfm_reader) (dict : Writer.dictionary) (var_by_idx : List (Option Nat)),
        (read_value_labels big env r dict var_by_idx).ret = 1 →
        ∃ (n : Nat) (labels : List (List Nat × List Nat)) (r2 : sfm_reader)
          (m : List dict_message),
          read_label_tuples n { r with file := r.file.drop 4 } = (some labels, r2, m)
          ∧ 4 ≤ r2.file.length
          ∧ int32_val big (if r.reverse_endian then bswap_int32 (r2.file.take 4)
              else r2.file.take 4) = 4) := by
  refine ⟨?_, ?_, ?_⟩
  · intro fuel st h4 ht
    unfold record_loop
    rw [read_record_type_4 big env st h4 ht]
  · intro file want_info v dict1 m st res hv hw hloop hopen
    unfold sfm_open_reader at hopen
    by_cases h1 : env.fh_open_ok = false
    · rw [if_pos h1] at hopen
      cases Option.some.inj hopen; exact ⟨rfl, rfl⟩
    · rw [if_neg h1] at hopen
      by_cases h2 : env.fn_open_ok = false
      · rw [if_pos h2] at hopen
        cases Option.some.inj hopen; exact ⟨rfl, rfl⟩
      · rw [if_neg h2] at hopen
        dsimp only at hopen
        by_cases h3 : (read_header big (new_reader big file) want_info).ret = 0
        · rw [if_pos h3] at hopen
          cases Option.some.inj hopen; exact ⟨rfl, rfl⟩
        · rw [if_neg h3] at hopen
          rw [hv] at hopen
          dsimp only at hopen
          by_cases h4 : v.ret = 0
          · rw [if_pos h4] at hopen
            cases Option.some.inj hopen; exact ⟨rfl, rfl⟩
          · rw [if_neg h4, hw] at hopen
            dsimp only at hopen
            rw [hloop] at hopen
            cases Option.some.inj hopen; exact ⟨rfl, rfl⟩
  · intro r dict var_by_idx h
    obtain ⟨_, n, labels, r2, m, _, h2, h3, h4⟩ :=
      read_value_labels_tag big env r dict var_by_idx h
    exact ⟨n, labels, r2, m, h2, h3, h4⟩

end

section

open Reader

theorem int32_pred_eq_neg_one (w : Int) (h1 : -(2 ^ 31 : Int) ≤ w) (h2 : w < (2 ^ 31 : Int)) :
    int32_pred w = -1 ↔ w = 0 := by
  unfold int32_pred int32_of_bits bits_of_int32
  have hp : (0 : Int) < ((2 ^ 32 : Nat) : Int) := by norm_num
  have hlt := Int.emod_lt_of_pos (w - 1) hp
  have hge := Int.emod_nonneg (w - 1) (ne_of_gt hp)
  have hdiv := Int.emod_add_ediv (w - 1) ((2 ^ 32 : Nat) : Int)
  have hcast : (((w - 1) % ((2 ^ 32 : Nat) : Int)).toNat : Int) = (w - 1) % ((2 ^ 32 : Nat) : Int) :=
    Int.toNat_of_nonneg hge
  norm_num at hlt hge hdiv hcast h1 h2 ⊢
  split_ifs with hc <;> constructor <;> intro h <;> omega

/-- C23: the weighting step of `sfm_open_reader`. With `weight_idx = -1` in the reader
(a header field of 0, since `read_header` stores the field minus 1) the dictionary gets
no weighting variable. Otherwise the step succeeds exactly if `weight_idx` is at least
0 and below `value_cnt`, `var_by_idx[weight_idx]` is a variable and not the null
pointer of a continuation position, and the variable is not a string; and then the
dictionary's weight is the position of exactly that variable. -/
theorem weighting_variable (r : sfm_reader) (dict : Writer.dictionary)
    (var_by_idx : List (Option Nat)) :
    (∀ w : Int, -(2 ^ 31 : Int) ≤ w → w < (2 ^ 31 : Int) → (int32_pred w = -1 ↔ w = 0))
    ∧ (r.weight_idx = -1 →
        handle_weighting r dict var_by_idx = (some { dict with weight := none }, []))
    ∧ (r.weight_idx ≠ -1 →
        (((handle_weighting r dict var_by_idx).1 ≠ none) ↔
          (0 ≤ r.weight_idx ∧ r.weight_idx < r.value_cnt
            ∧ ∃ p v, var_by_idx.getD r.weight_idx.toNat none = some p
                ∧ var_lookup dict p = some v ∧ v.type ≠ Writer.ALPHA)))
    ∧ (r.weight_idx ≠ -1 →
        ∀ d, (handle_weighting r dict var_by_idx).1 = some d →
          ∃ p v, var_by_idx.getD r.weight_idx.toNat none = some p
            ∧ var_lookup dict p = some v ∧ v.fv = p ∧ v.type ≠ Writer.ALPHA
            ∧ d = { dict with weight := some (dict.var.indexOf v) }
            ∧ dict.var.get? (dict.var.indexOf v) = some v) := by
  refine ⟨int32_pred_eq_neg_one, ?_, ?_, ?_⟩
  · intro h
    unfold handle_weighting
    rw [if_neg (by simpa using h)]
  · intro h
    unfold handle_weighting
    rw [if_pos h]
    by_cases hr : r.weight_idx < 0 ∨ r.weight_idx ≥ r.value_cnt
    · rw [if_pos hr]
      simp only [ne_eq, not_true_eq_false, false_iff, not_and, not_exists]
      intro h0 hlt
      omega
    · rw [if_neg hr]
      have h0 : 0 ≤ r.weight_idx := by
        by_contra hc; exact hr (Or.inl (by omega))
      have h1 : r.weight_idx < r.value_cnt := by
        by_contra hc; exact hr (Or.inr (by omega))
      rcases hp : var_by_idx.getD r.weight_idx.toNat none with _ | p
      · simp only [Option.none_bind, Option.bind]
        constructor
        · intro hc; exact absurd rfl hc
        · rintro ⟨_, _, p, v, hc, _⟩
          exact absurd hc (by simp)
      · simp only [Option.some_bind, Option.bind]
        rcases hv : var_lookup dict p with _ | v
        · constructor
          · intro hc; exact absurd rfl hc
          · rintro ⟨_, _, p2, v, hc, hc2, _⟩
            cases Option.some.inj hc
            rw [hv] at hc2
            exact absurd hc2 (by simp)
        · dsimp only
          by_cases ht : v.type = Writer.ALPHA
          · rw [if_pos ht]
            constructor
            · intro hc; exact absurd rfl hc
            · rintro ⟨_, _, p2, v2, hc, hc2, hc3⟩
              cases Option.some.inj hc
              rw [hv] at hc2
              cases Option.some.inj hc2
              exact absurd ht hc3
          · rw [if_neg ht]
            constructor
            · intro _
              exact ⟨h0, h1, p, v, rfl, hv, ht⟩
            · intro _
              simp
  · intro h d hd
    unfold handle_weighting at hd
    rw [if_pos h] at hd
    by_cases hr : r.weight_idx < 0 ∨ r.weight_idx ≥ r.value_cnt
    · rw [if_pos hr] at hd
      simp at hd
    · rw [if_neg hr] at hd
      rcases hp : var_by_idx.getD r.weight_idx.toNat none with _ | p
      · rw [hp] at hd
        simp at hd
      · rw [hp] at hd
        simp only [Option.some_bind, Option.bind] at hd
        rcases hv : var_lookup dict p with _ | v
        · rw [hv] at hd
          simp at hd
        · rw [hv] at hd
          dsimp only at hd
          by_cases ht : v.type = Writer.ALPHA
          · rw [if_pos ht] at hd
            simp at hd
          · rw [if_neg ht] at hd
            have hmem : v ∈ dict.var := List.mem_of_find?_eq_some hv
            have hfv : v.fv = p := by
              have := List.find?_some hv
              simpa using this
            exact ⟨p, v, rfl, hv, hfv, ht, (Option.some.inj hd).symm,
              List.indexOf_get? hmem⟩

/-- C23, examples: two numeric variables and a string of width 16 between them, with the
value positions 0, 1 and 3 (position 2 is the continuation of the string). The header
fields 1 and 4 make the first and the last variable the weight; the field 0 gives no
weight; the fields 2 (a string), 3 (a continuation), 5 and -1 (out of range) make the
step fail. -/
theorem weighting_variable_examples :
    ((fun (w : Int) =>
        (handle_weighting
          { new_reader false [] with value_cnt := 4, weight_idx := int32_pred w }
          (example_dict [example_numeric 65 0,
            { example_string 66 1 with width := 16, nv := 2 }, example_numeric 67 3])
          [some 0, some 1, none, some 3]).1.map (fun d => d.weight)) <$>
        [1, 4, 0, 2, 3, 5, -1])
      = [some (some 0), some (some 2), some none, none, none, none, none] := by
  decide!

end

section

open Reader

theorem var_lookup_update (d : Writer.dictionary) (p q : Nat)
    (f : Writer.variable_ → Writer.variable_) (hf : ∀ x, (f x).fv = x.fv) :
    var_lookup (var_update d p f) q
      = (var_lookup d q).map (fun x => if x.fv = p then f x else x) := by
  unfold var_lookup var_update
  simp only [List.find?_map]
  congr 1
  apply congrArg (fun g => List.find? g d.var)
  funext x
  simp only [Function.comp]
  by_cases hx : x.fv = p
  · simp [hx, hf]
  · simp [hx]

theorem var_lookup_update_labs (d : Writer.dictionary) (p q : Nat)
    (ls : List Writer.val_lab) :
    var_lookup (var_update d p (fun x => { x with val_labs := ls })) q
      = (var_lookup d q).map (fun x => if x.fv = p then { x with val_labs := ls } else x) :=
  var_lookup_update d p q _ (fun _ => rfl)

theorem var_lookup_fv (d : Writer.dictionary) (p : Nat) (v : Writer.variable_)
    (h : var_lookup d p = some v) : v.fv = p := by
  have := List.find?_some h
  simpa using this

theorem add_labels_keeps (env : host)
    (hrep : ∀ vls value label, (⟨value, label⟩ : Writer.val_lab) ∈ (env.val_labs_replace vls value label).2
      ∧ ∀ x ∈ vls, x.value ≠ value → x ∈ (env.val_labs_replace vls value label).2)
    (x : Writer.val_lab) :
    ∀ (post : List (List Nat × List Nat)) (acc : List Writer.val_lab × List dict_message),
      x ∈ acc.1 → (∀ y ∈ post, y.1 ≠ x.value) →
      x ∈ (post.foldl
        (fun acc l =>
          let res := env.val_labs_replace acc.1 l.1 l.2
          (res.2, if res.1 then acc.2 ++ [dict_message.duplicate_label] else acc.2)) acc).1
  | [], _, h, _ => h
  | y :: post, acc, h, hne => by
    simp only [List.foldl_cons]
    apply add_labels_keeps env hrep x post
    · exact (hrep acc.1 y.1 y.2).2 x h (fun e => hne y (List.mem_cons_self _ _) e.symm)
    · intro z hz
      exact hne z (List.mem_cons_of_mem _ hz)

theorem add_labels_has (env : host)
    (hrep : ∀ vls value label, (⟨value, label⟩ : Writer.val_lab) ∈ (env.val_labs_replace vls value label).2
      ∧ ∀ x ∈ vls, x.value ≠ value → x ∈ (env.val_labs_replace vls value label).2)
    (labels : List (List Nat × List Nat)) (vls : List Writer.val_lab)
    (pre post : List (List Nat × List Nat)) (l : List Nat × List Nat)
    (hl : labels = pre ++ l :: post) (hne : ∀ y ∈ post, y.1 ≠ l.1) :
    (⟨l.1, l.2⟩ : Writer.val_lab) ∈ (add_labels env labels vls).1 := by
  unfold add_labels
  rw [hl, List.foldl_append, List.foldl_cons]
  apply add_labels_keeps env hrep
  · exact (hrep _ l.1 l.2).1
  · exact hne

theorem assign_labels_other (env : host) (labels : List (List Nat × List Nat)) (q : Nat) :
    ∀ (vs : List Writer.variable_) (d : Writer.dictionary),
      (∀ v ∈ vs, v.fv ≠ q) → var_lookup (assign_labels env labels vs d).1 q = var_lookup d q
  | [], _, _ => rfl
  | v :: vs, d, h => by
    unfold assign_labels
    simp only []
    rw [assign_labels_other env labels q vs _ (fun u hu => h u (List.mem_cons_of_mem _ hu)),
      var_lookup_update_labs]
    have hv : v.fv ≠ q := h v (List.mem_cons_self _ _)
    rcases hq : var_lookup d q with _ | x
    · rfl
    · have : x.fv = q := var_lookup_fv d q x hq
      simp only [Option.map_some']
      rw [if_neg (by rw [this]; exact fun e => hv e.symm)]

theorem assign_labels_has (env : host)
    (hrep : ∀ vls value label, (⟨value, label⟩ : Writer.val_lab) ∈ (env.val_labs_replace vls value label).2
      ∧ ∀ x ∈ vls, x.value ≠ value → x ∈ (env.val_labs_replace vls value label).2)
    (labels : List (List Nat × List Nat)) :
    ∀ (vs : List Writer.variable_) (d : Writer.dictionary),
      (∀ v ∈ vs, (var_lookup d v.fv).isSome = true) →
      ∀ v ∈ vs, ∃ x, var_lookup (assign_labels env labels vs d).1 v.fv = some x
        ∧ ∀ (pre post : List (List Nat × List Nat)) (l : List Nat × List Nat),
            labels = pre ++ l :: post → (∀ y ∈ post, y.1 ≠ l.1) →
            (⟨l.1, l.2⟩ : Writer.val_lab) ∈ x.val_labs
  | [], _, _, v, hv => absurd hv (List.not_mem_nil _)
  | u :: vs, d, hsome, v, hv => by
    unfold assign_labels
    simp only []
    have hsome2 : ∀ (ls : List Writer.val_lab), ∀ w ∈ vs,
        (var_lookup (var_update d u.fv (fun x => { x with val_labs := ls })) w.fv).isSome
          = true := by
      intro ls w hw
      rw [var_lookup_update_labs]
      have := hsome w (List.mem_cons_of_mem _ hw)
      rcases hq : var_lookup d w.fv with _ | x
      · rw [hq] at this; simp at this
      · simp
    by_cases hin : ∃ w ∈ vs, w.fv = v.fv
    · obtain ⟨w, hw, hwv⟩ := hin
      rw [← hwv]
      exact assign_labels_has env hrep labels vs _ (hsome2 _) w hw
    · have hv2 : v = u := by
        rcases List.mem_cons.mp hv with h | h
        · exact h
        · exact absurd ⟨v, h, rfl⟩ hin
      subst hv2
      rw [assign_labels_other env labels v.fv vs _
        (fun w hw e => hin ⟨w, hw, e⟩), var_lookup_update_labs]
      have := hsome v (List.mem_cons_self _ _)
      rcases hq : var_lookup d v.fv with _ | x
      · rw [hq] at this; simp at this
      · have hx : x.fv = v.fv := var_lookup_fv d v.fv x hq
        simp only [Option.map_some', if_pos hx, Option.getD_some]
        refine ⟨_, rfl, ?_⟩
        intro pre post l hl hne
        exact add_labels_has env hrep labels _ pre post l hl hne

theorem read_label_vars_spec (big : Bool) (dict : Writer.dictionary)
    (var_by_idx : List (Option Nat)) :
    ∀ (n : Nat) (r r1 : sfm_reader) (vars : List Writer.variable_) (m : List dict_message),
      read_label_vars big dict var_by_idx n r = (some vars, r1, m) →
      vars.length = n ∧ ∀ v ∈ vars, var_lookup dict v.fv = some v
        ∧ ¬ (v.type = Writer.ALPHA ∧ v.width > 8)
  | 0, r, r1, vars, m, h => by
    unfold read_label_vars at h
    simp only [Prod.mk.injEq, Option.some.injEq] at h
    rw [← h.1]
    exact ⟨rfl, fun v hv => absurd hv (List.not_mem_nil _)⟩
  | n + 1, r, r1, vars, m, h => by
    unfold read_label_vars at h
    rcases h1 : buf_read r 4 false with ⟨o1, r2, m1⟩
    rw [h1] at h
    cases o1 with
    | none => simp at h
    | some bs =>
      dsimp only at h
      split_ifs at h with hi
      · simp at h
      · rcases hb : (var_by_idx.getD (fix_int32 big r bs - 1).toNat none).bind (var_lookup dict)
          with _ | v
        · rw [hb] at h; simp at h
        · rw [hb] at h
          dsimp only at h
          split_ifs at h with hlong
          · simp at h
          · rcases h2 : read_label_vars big dict var_by_idx n r2 with ⟨o2, r3, m2⟩
            rw [h2] at h
            cases o2 with
            | none => simp at h
            | some rest =>
              simp only [Prod.mk.injEq, Option.some.injEq] at h
              obtain ⟨hlen, hall⟩ := read_label_vars_spec big dict var_by_idx n r2 r3 rest m2 h2
              rw [← h.1]
              refine ⟨by simp [hlen], ?_⟩
              intro w hw
              rcases List.mem_cons.mp hw with e | e
              · subst e
                obtain ⟨p, _, hp⟩ := Option.bind_eq_some.mp hb
                have := var_lookup_fv dict p w hp
                rw [this]
                exact ⟨hp, hlong⟩
              · exact hall w e

/-- C21: if `read_value_labels` returns 1, then for the labels and the variables that the
record lists, every variable is of the type of the first one and is found in the
resulting dictionary with every pair of a value and its label among its value labels,
apart from a pair whose value occurs again further on in the record (whose label then
takes its place); the value is the 8 raw bytes, reversed exactly when the variables
are numeric and `reverse_endian` is set. This holds for every `val_labs_replace` that
stores the label it is given and keeps the labels of the other values, whatever it
returns for a value that has a label. -/
theorem read_value_labels_installs (big : Bool) (env : host) (r : sfm_reader)
    (dict : Writer.dictionary) (var_by_idx : List (Option Nat))
    (hrep : ∀ vls value label,
      (⟨value, label⟩ : Writer.val_lab) ∈ (env.val_labs_replace vls value label).2
      ∧ ∀ x ∈ vls, x.value ≠ value → x ∈ (env.val_labs_replace vls value label).2)
    (h : (read_value_labels big env r dict var_by_idx).ret = 1) :
    ∃ (n : Nat) (labels : List (List Nat × List Nat)) (r2 : sfm_reader)
      (m2 : List dict_message) (vars : List Writer.variable_) (r5 : sfm_reader)
      (m5 : List dict_message) (v0 : Writer.variable_),
      read_label_tuples n { r with file := r.file.drop 4 } = (some labels, r2, m2)
      ∧ read_label_vars big dict var_by_idx vars.length { r2 with file := r2.file.drop 8 }
          = (some vars, r5, m5)
      ∧ vars.head? = some v0
      ∧ ∀ v ∈ vars, v.type = v0.type
        ∧ ∃ x, var_lookup (read_value_labels big env r dict var_by_idx).dict v.fv = some x
          ∧ ∀ (pre post : List (List Nat × List Nat)) (l : List Nat × List Nat),
              labels = pre ++ l :: post →
              (∀ y ∈ post, y.1 ≠ l.1) →
              (⟨if v0.type = Writer.ALPHA then l.1
                  else if r.reverse_endian then bswap_flt64 l.1 else l.1, l.2⟩ :
                Writer.val_lab) ∈ x.val_labs := by
  obtain ⟨hl, _⟩ := read_value_labels_tag big env r dict var_by_idx h
  unfold read_value_labels at h ⊢
  rw [buf_read_some r 4 false (by decide) hl] at h ⊢
  dsimp only at h ⊢
  rcases hx : read_label_tuples (if decide (size_t_of_int (fix_int32 big r (List.take 4 r.file))
        ≥ size_t_of_int (-1) / 24) = true then 0
      else fix_int32 big r (List.take 4 r.file)).toNat { r with file := r.file.drop 4 }
      with ⟨o, r2, m2⟩
  rw [hx] at h
  cases o with
  | none => simp at h
  | some labels =>
    dsimp only at h ⊢
    rcases h3 : buf_read r2 4 false with ⟨o3, r3, m3⟩
    rw [h3] at h
    cases o3 with
    | none => simp at h
    | some bs4 =>
      obtain ⟨hl4, _, hr3⟩ := buf_read_4 r2 _ r3 m3 bs4 h3 rfl
      dsimp only at h ⊢
      by_cases ht : fix_int32 big r bs4 ≠ 4
      · rw [if_pos ht] at h; simp at h
      · rw [if_neg ht] at h ⊢
        rcases h4 : buf_read r3 4 false with ⟨o4, r4, m4⟩
        rw [h4] at h
        cases o4 with
        | none => simp at h
        | some bsn =>
          obtain ⟨hl5, _, hr4⟩ := buf_read_4 r3 _ r4 m4 bsn h4 rfl
          dsimp only at h ⊢
          by_cases hnv : fix_int32 big r bsn < 1 ∨ fix_int32 big r bsn > dict.var.length
          · rw [if_pos hnv] at h; simp at h
          · rw [if_neg hnv] at h ⊢
            rcases h5 : read_label_vars big dict var_by_idx (fix_int32 big r bsn).toNat r4
              with ⟨o5, r5, m5⟩
            rw [h5] at h
            cases o5 with
            | none => simp at h
            | some vars =>
              dsimp only at h ⊢
              obtain ⟨hlen, hall⟩ := read_label_vars_spec big dict var_by_idx _ r4 r5 vars m5 h5
              have hpos : 1 ≤ (fix_int32 big r bsn).toNat := by
                have : ¬ fix_int32 big r bsn < 1 := fun e => hnv (Or.inl e)
                omega
              rcases vars with _ | ⟨v0, vs⟩
              · simp at hlen; omega
              · by_cases hmix : (List.drop 1 (v0 :: vs)).any
                    (fun v => v.type ≠ ((v0 :: vs).head?.map (fun v => v.type)).getD Writer.NUMERIC)
                    = true
                · rw [if_pos hmix] at h; simp at h
                · rw [if_neg hmix]
                  simp only [List.head?_cons, Option.map_some', Option.getD_some] at hmix ⊢
                  have hr4' : r4 = { r2 with file := r2.file.drop 8 } := by
                    rw [hr4, hr3]
                    simp [List.drop_drop]
                  refine ⟨_, labels, r2, m2, v0 :: vs, r5, m5, v0, hx, ?_, rfl, ?_⟩
                  · rw [hlen, ← hr4']
                    exact h5
                  · intro v hv
                    have hty : v.type = v0.type := by
                      rcases List.mem_cons.mp hv with e | e
                      · rw [e]
                      · by_contra hc
                        apply hmix
                        simp only [List.drop_succ_cons, List.drop_zero, List.any_eq_true]
                        exact ⟨v, e, by simpa using hc⟩
                    refine ⟨hty, ?_⟩
                    obtain ⟨x, hx1, hx2⟩ := assign_labels_has env hrep
                      (labels.map (fun l =>
                        (if v0.type = Writer.ALPHA then l.1 else fix_flt64 r l.1, l.2)))
                      (v0 :: vs) dict
                      (fun w hw => by rw [(hall w hw).1]; rfl) v hv
                    refine ⟨x, hx1, ?_⟩
                    intro pre post l hl hne
                    have := hx2 (pre.map (fun l =>
                        (if v0.type = Writer.ALPHA then l.1 else fix_flt64 r l.1, l.2)))
                      (post.map (fun l =>
                        (if v0.type = Writer.ALPHA then l.1 else fix_flt64 r l.1, l.2)))
                      (if v0.type = Writer.ALPHA then l.1 else fix_flt64 r l.1, l.2)
                      (by rw [hl]; simp)
                      (by
                        intro y hy
                        obtain ⟨z, hz, rfl⟩ := List.mem_map.mp hy
                        have hzl := hne z hz
                        dsimp only
                        unfold fix_flt64 bswap_flt64
                        split_ifs
                        · exact hzl
                        · exact fun e => hzl (List.reverse_injective e)
                        · exact hzl)
                    unfold fix_flt64 at this
                    exact this

theorem example_val_labs_replace_ok (vls : List Writer.val_lab) (value label : List Nat) :
    (⟨value, label⟩ : Writer.val_lab) ∈ (example_val_labs_replace vls value label).2
    ∧ ∀ x ∈ vls, x.value ≠ value → x ∈ (example_val_labs_replace vls value label).2 := by
  unfold example_val_labs_replace
  by_cases h : vls.any (fun vl => decide (vl.value = value)) = true
  · rw [if_pos h]
    constructor
    · obtain ⟨vl, hvl, he⟩ := List.any_eq_true.mp h
      have he2 : vl.value = value := by simpa using he
      refine List.mem_map.mpr ⟨vl, hvl, ?_⟩
      rw [if_pos he2, ← he2]
    · intro x hx hne
      exact List.mem_map.mpr ⟨x, hx, by rw [if_neg hne]⟩
  · rw [if_neg h]
    constructor
    · simp
    · intro x hx _
      exact List.mem_append_left _ hx

/-- A record with the labels `A` and `B` for one numeric variable is read, and the
variable has both. -/
theorem read_value_labels_installs_witness :
    (read_value_labels false example_reader_host
        { new_reader false example_labels_record with value_cnt := 1 }
        (example_dict [example_numeric 65 0]) [some 0]).ret = 1
    ∧ ∃ (n : Nat) (labels : List (List Nat × List Nat)) (r2 : sfm_reader)
      (m2 : List dict_message) (vars : List Writer.variable_) (r5 : sfm_reader)
      (m5 : List dict_message) (v0 : Writer.variable_),
      read_label_tuples n
          { { new_reader false example_labels_record with value_cnt := 1 } with
            file := ({ new_reader false example_labels_record with
              value_cnt := 1 } : sfm_reader).file.drop 4 }
        = (some labels, r2, m2)
      ∧ read_label_vars false (example_dict [example_numeric 65 0]) [some 0] vars.length
            { r2 with file := r2.file.drop 8 }
          = (some vars, r5, m5)
      ∧ vars.head? = some v0
      ∧ ∀ v ∈ vars, v.type = v0.type
        ∧ ∃ x, var_lookup (read_value_labels false example_reader_host
              { new_reader false example_labels_record with value_cnt := 1 }
              (example_dict [example_numeric 65 0]) [some 0]).dict v.fv = some x
          ∧ ∀ (pre post : List (List Nat × List Nat)) (l : List Nat × List Nat),
              labels = pre ++ l :: post →
              (∀ y ∈ post, y.1 ≠ l.1) →
              (⟨if v0.type = Writer.ALPHA then l.1
                  else if ({ new_reader false example_labels_record with
                      value_cnt := 1 } : sfm_reader).reverse_endian
                    then bswap_flt64 l.1 else l.1, l.2⟩ :
                Writer.val_lab) ∈ x.val_labs :=
  ⟨by decide!,
    read_value_labels_installs false example_reader_host
      { new_reader false example_labels_record with value_cnt := 1 }
      (example_dict [example_numeric 65 0]) [some 0] example_val_labs_replace_ok
      (by decide!)⟩

/-- The dictionary that the example record leaves: the variable has the two labels, and
a second record with the label `B` for the first value replaces the label `A` with a
warning. -/
theorem read_value_labels_example :
    ((read_value_labels false example_reader_host
        { new_reader false example_labels_record with value_cnt := 1 }
        (example_dict [example_numeric 65 0]) [some 0]).dict.var.map (fun v => v.val_labs))
      = [[⟨[1, 0, 0, 0, 0, 0, 0, 0], [65]⟩, ⟨[2, 0, 0, 0, 0, 0, 0, 0], [66]⟩]]
    ∧ (read_value_labels false example_reader_host
        { new_reader false
            ([1, 0, 0, 0] ++ [1, 0, 0, 0, 0, 0, 0, 0] ++ [1, 66, 32, 32, 32, 32, 32, 32]
              ++ [4, 0, 0, 0] ++ [1, 0, 0, 0] ++ [1, 0, 0, 0]) with value_cnt := 1 }
        (example_dict [{ example_numeric 65 0 with
          val_labs := [⟨[1, 0, 0, 0, 0, 0, 0, 0], [65]⟩] }]) [some 0]).ret = 1
    ∧ ((read_value_labels false example_reader_host
        { new_reader false
            ([1, 0, 0, 0] ++ [1, 0, 0, 0, 0, 0, 0, 0] ++ [1, 66, 32, 32, 32, 32, 32, 32]
              ++ [4, 0, 0, 0] ++ [1, 0, 0, 0] ++ [1, 0, 0, 0]) with value_cnt := 1 }
        (example_dict [{ example_numeric 65 0 with
          val_labs := [⟨[1, 0, 0, 0, 0, 0, 0, 0], [65]⟩] }]) [some 0]).dict.var.map
          (fun v => v.val_labs))
      = [[⟨[1, 0, 0, 0, 0, 0, 0, 0], [66]⟩]]
    ∧ (read_value_labels false example_reader_host
        { new_reader false
            ([1, 0, 0, 0] ++ [1, 0, 0, 0, 0, 0, 0, 0] ++ [1, 66, 32, 32, 32, 32, 32, 32]
              ++ [4, 0, 0, 0] ++ [1, 0, 0, 0] ++ [1, 0, 0, 0]) with value_cnt := 1 }
        (example_dict [{ example_numeric 65 0 with
          val_labs := [⟨[1, 0, 0, 0, 0, 0, 0, 0], [65]⟩] }]) [some 0]).msgs
      = [dict_message.duplicate_label] := by
  decide!

end

section

open Reader

theorem blocks_append (a b : List Writer.variable_) : blocks (a ++ b) = blocks a ++ blocks b := by
  induction a with
  | nil => rfl
  | cons v vs ih => simp [blocks, ih]

theorem blocks_of_key : ∀ (a b : List Writer.variable_),
    a.map var_key = b.map var_key → blocks a = blocks b
  | [], [], _ => rfl
  | [], _ :: _, h => by simp at h
  | _ :: _, [], h => by simp at h
  | v :: vs, w :: ws, h => by
    simp only [List.map_cons, List.cons.injEq] at h
    have hk := h.1
    unfold var_key at hk
    simp only [Prod.mk.injEq] at hk
    simp only [blocks, hk.1, hk.2.1, blocks_of_key vs ws h.2]

theorem var_starts_of_key : ∀ (a b : List Writer.variable_) (s : Nat),
    a.map var_key = b.map var_key → var_starts s a → var_starts s b
  | [], [], _, _, _ => trivial
  | [], _ :: _, _, h, _ => by simp at h
  | _ :: _, [], _, h, _ => by simp at h
  | v :: vs, w :: ws, s, h, hs => by
    simp only [List.map_cons, List.cons.injEq] at h
    have hk := h.1
    unfold var_key at hk
    simp only [Prod.mk.injEq] at hk
    unfold var_starts at hs ⊢
    refine ⟨hk.1 ▸ hs.1, hk.2.1 ▸ hs.2.1, ?_⟩
    rw [← hk.2.1]
    exact var_starts_of_key vs ws _ h.2 hs.2.2

theorem var_starts_append (v : Writer.variable_) : ∀ (a : List Writer.variable_) (s : Nat),
    var_starts s a → v.fv = s + (a.map (fun x => x.nv)).sum → 1 ≤ v.nv →
    var_starts s (a ++ [v])
  | [], s, _, hv, h1 => by
    simp only [List.nil_append, var_starts]
    exact ⟨by simpa using hv, h1, trivial⟩
  | u :: us, s, hs, hv, h1 => by
    unfold var_starts at hs
    simp only [List.cons_append, var_starts]
    refine ⟨hs.1, hs.2.1, var_starts_append v us _ hs.2.2 ?_ h1⟩
    simp only [List.map_cons, List.sum_cons] at hv
    omega

theorem var_update_key (d : Writer.dictionary) (p : Nat)
    (f : Writer.variable_ → Writer.variable_) (hf : ∀ v, var_key (f v) = var_key v) :
    (var_update d p f).var.map var_key = d.var.map var_key := by
  unfold var_update
  simp only [List.map_map]
  apply List.map_congr_left
  intro v _
  simp only [Function.comp]
  split_ifs
  · exact hf v
  · rfl

theorem read_variable_rest_next (big : Bool) (env : host) (st : vars_state) (r1 : sfm_reader)
    (p : Nat) (dict : Writer.dictionary) (type hl nmiss pr wr : Int)
    (m0 : List dict_message) (st1 : vars_state) (c : loop_ctl)
    (h : read_variable_rest big env st r1 p dict type hl nmiss pr wr m0 = (c, st1))
    (hc : c ≠ loop_ctl.error) :
    st1.var_by_idx = st.var_by_idx ++ [some p]
    ∧ st1.long_string_count = nv_of_type type - 1
    ∧ st1.dict.var.map var_key = dict.var.map var_key := by
  unfold read_variable_rest at h
  dsimp only at h
  split at h
  · exact absurd (congrArg Prod.fst h).symm hc
  · split at h
    · exact absurd (congrArg Prod.fst h).symm hc
    · split at h
      · exact absurd (congrArg Prod.fst h).symm hc
      · split at h
        · exact absurd (congrArg Prod.fst h).symm hc
        · simp only [Prod.mk.injEq] at h
          obtain ⟨_, h⟩ := h
          subst h
          refine ⟨rfl, rfl, ?_⟩
          refine (var_update_key _ _ _ ?_).trans ?_
          · intro v; rfl
          refine (var_update_key _ _ _ ?_).trans ?_
          · intro v; rfl
          refine (var_update_key _ _ _ ?_).trans ?_
          · intro v; rfl
          refine (var_update_key _ _ _ ?_).trans rfl
          intro v; rfl

theorem dict_create_var_spec (env : host) (d : Writer.dictionary) (nm : List Nat)
    (width : Int) (p : Nat) (d1 : Writer.dictionary)
    (h : dict_create_var env d nm width = some (p, d1)) :
    p = dict_next_value_idx d
    ∧ ∃ v, d1.var = d.var ++ [v] ∧ v.fv = p
      ∧ v.nv = (if width = 0 then 1 else (Writer.DIV_RND_UP width 8).toNat)
      ∧ v.width = width
      ∧ v.type = (if width = 0 then Writer.NUMERIC else Writer.ALPHA) := by
  unfold dict_create_var at h
  by_cases hany : (d.var.any (fun v => same_var_name v.name nm)) = true
  · rw [if_pos hany] at h
    simp at h
  · rw [if_neg hany] at h
    dsimp only at h
    simp only [Option.some.injEq, Prod.mk.injEq] at h
    obtain ⟨h1, h2⟩ := h
    rw [← h1, ← h2]
    exact ⟨rfl, _, rfl, rfl, rfl, rfl, rfl⟩

theorem nv_of_type_pos (type : Int) (h0 : 0 ≤ type) : 1 ≤ nv_of_type type := by
  unfold nv_of_type Writer.DIV_RND_UP
  split_ifs with h
  · exact le_refl _
  · rw [Int.tdiv_eq_ediv (by omega) (by norm_num)]
    omega

theorem vars_lose_ne (st : vars_state) (r : sfm_reader) (m : List dict_message)
    (c : loop_ctl) (st1 : vars_state) (h : vars_lose st r m = (c, st1))
    (hc : c ≠ loop_ctl.error) : False :=
  hc (congrArg Prod.fst h).symm

theorem forall_of_key (Q : Nat × Nat × Int × Int → Prop) (a b : List Writer.variable_)
    (h : a.map var_key = b.map var_key) (ha : ∀ w ∈ a, Q (var_key w)) :
    ∀ w ∈ b, Q (var_key w) := by
  intro w hw
  have : var_key w ∈ a.map var_key := by
    rw [h]
    exact List.mem_map_of_mem _ hw
  obtain ⟨u, hu, e⟩ := List.mem_map.mp this
  rw [← e]
  exact ha u hu

theorem read_variable_record_inv (big : Bool) (env : host) (i : Nat) (st st1 : vars_state)
    (r1 : sfm_reader) (rec_type type hl nmiss pr wr : Int) (name : List Nat)
    (c : loop_ctl)
    (h : read_variable_record big env i st r1 rec_type type hl nmiss pr wr name = (c, st1))
    (hc : c ≠ loop_ctl.error) (hinv : vars_inv st) : vars_inv st1 := by
  unfold read_variable_record at h
  split at h
  · simp only [Prod.mk.injEq] at h
    rw [← h.2]
    exact hinv
  · split at h
    · split at h
      · exact (vars_lose_ne _ _ _ _ _ h hc).elim
      · rename_i _ hb _
        simp only [Prod.mk.injEq] at h
        rw [← h.2]
        obtain ⟨h1, h2, h3, h4⟩ := hinv
        refine ⟨?_, ?_, h3, h4⟩
        · show (st.var_by_idx ++ [none]) ++ List.replicate (st.long_string_count - 1).toNat none
            = blocks st.dict.var
          rw [← h1]
          have e : st.long_string_count.toNat = (st.long_string_count - 1).toNat + 1 := by
            omega
          rw [e, List.replicate_succ]
          simp
        · show 0 ≤ st.long_string_count - 1
          omega
    · split at h
      · exact (vars_lose_ne _ _ _ _ _ h hc).elim
      · split at h
        · exact (vars_lose_ne _ _ _ _ _ h hc).elim
        · split at h
          · exact (vars_lose_ne _ _ _ _ _ h hc).elim
          · split at h
            · exact (vars_lose_ne _ _ _ _ _ h hc).elim
            · split at h
              · exact (vars_lose_ne _ _ _ _ _ h hc).elim
              · dsimp only at h
                split at h
                · exact (vars_lose_ne _ _ _ _ _ h hc).elim
                · split at h
                  · exact (vars_lose_ne _ _ _ _ _ h hc).elim
                  · split at h
                    · exact (vars_lose_ne _ _ _ _ _ h hc).elim
                    · rename_i _ hlsc _ hty _ _ _ _ _ _ _ _ _ p dict hcreate
                      have hlsc0 : st.long_string_count = 0 := by
                        by_contra hne; exact hlsc hne
                      have hty0 : 0 ≤ type ∧ type ≤ 255 := by
                        constructor
                        · by_contra hne; exact hty (Or.inl (by omega))
                        · by_contra hne; exact hty (Or.inr (by omega))
                      obtain ⟨e1, e2, e3⟩ := read_variable_rest_next big env st r1 p _ type hl
                        nmiss pr wr _ st1 c h hc
                      obtain ⟨hp, v, hd, hfv, hnv, hw, hvt⟩ :=
                        dict_create_var_spec env st.dict _ type p dict hcreate
                      have hkey : (st.dict.var ++ [v]).map var_key = st1.dict.var.map var_key := by
                        rw [e3]
                        refine ((var_update_key _ _ _ ?_).trans ?_).symm
                        · intro w; rfl
                        · rw [hd]
                      obtain ⟨h1, h2, h3, h4⟩ := hinv
                      rw [hlsc0] at h1
                      simp only [Int.toNat_zero, List.replicate_zero, List.append_nil] at h1
                      have hnvI : (v.nv : Int) = nv_of_type type := by
                        rw [hnv]
                        unfold nv_of_type
                        split_ifs with h0
                        · rfl
                        · have := nv_of_type_pos type hty0.1
                          unfold nv_of_type at this
                          rw [if_neg h0] at this
                          exact Int.toNat_of_nonneg (by omega)
                      have hnv1 : 1 ≤ v.nv := by
                        have := nv_of_type_pos type hty0.1
                        omega
                      refine ⟨?_, ?_, ?_, ?_⟩
                      · rw [e1, e2, ← blocks_of_key _ _ hkey, blocks_append, ← h1]
                        simp only [blocks, List.append_nil, List.append_assoc,
                          List.singleton_append, hfv]
                        congr 3
                        omega
                      · rw [e2]
                        have := nv_of_type_pos type hty0.1
                        omega
                      · refine var_starts_of_key _ _ 0 hkey
                          (var_starts_append v st.dict.var 0 h3 ?_ hnv1)
                        rw [hfv, hp]
                        unfold dict_next_value_idx
                        omega
                      · refine forall_of_key (fun k => (k.2.1 : Int) = nv_of_type k.2.2.1
                            ∧ k.2.2.2 = (if k.2.2.1 = 0 then Writer.NUMERIC else Writer.ALPHA)
                            ∧ 0 ≤ k.2.2.1 ∧ k.2.2.1 ≤ 255) _ _ hkey ?_
                        intro w hw2
                        rcases List.mem_append.mp hw2 with hw3 | hw3
                        · exact h4 w hw3
                        · rw [List.mem_singleton] at hw3
                          subst hw3
                          show (w.nv : Int) = nv_of_type w.width
                            ∧ w.type = (if w.width = 0 then Writer.NUMERIC else Writer.ALPHA)
                            ∧ 0 ≤ w.width ∧ w.width ≤ 255
                          rw [hw]
                          exact ⟨hnvI, hvt, hty0.1, hty0.2⟩

theorem read_variables_step_inv (big : Bool) (env : host) (i : Nat) (st st1 : vars_state)
    (c : loop_ctl) (h : read_variables_step big env i st = (c, st1))
    (hc : c ≠ loop_ctl.error) (hinv : vars_inv st) : vars_inv st1 := by
  unfold read_variables_step at h
  split at h
  · simp only [Prod.mk.injEq] at h
    rw [← h.2]
    exact hinv
  · split at h
    · exact (vars_lose_ne _ _ _ _ _ h hc).elim
    · exact read_variable_record_inv big env i st st1 _ _ _ _ _ _ _ _ c h hc hinv

theorem read_variables_loop_inv (big : Bool) (env : host) :
    ∀ (fuel i : Nat) (st st1 : vars_state),
      read_variables_loop big env fuel i st = some (true, st1) → vars_inv st → vars_inv st1
  | 0, _, _, _, h, _ => by simp [read_variables_loop] at h
  | fuel + 1, i, st, st1, h, hinv => by
    unfold read_variables_loop at h
    rcases hs : read_variables_step big env i st with ⟨c, st2⟩
    rw [hs] at h
    cases c with
    | next =>
      exact read_variables_loop_inv big env fuel (i + 1) st2 st1 h
        (read_variables_step_inv big env i st st2 _ hs (by decide) hinv)
    | done =>
      simp only [Option.some.injEq, Prod.mk.injEq, true_and] at h
      rw [← h]
      exact read_variables_step_inv big env i st st2 _ hs (by decide) hinv
    | error => simp at h

end

section

open Reader

theorem var_starts_fv : ∀ (pre : List Writer.variable_) (v : Writer.variable_)
    (post : List Writer.variable_) (s : Nat), var_starts s (pre ++ v :: post) →
    v.fv = s + (pre.map (fun x => x.nv)).sum
  | [], v, post, s, h => by
    simp only [List.nil_append, var_starts] at h
    simpa using h.1
  | u :: pre, v, post, s, h => by
    simp only [List.cons_append, var_starts] at h
    have := var_starts_fv pre v post _ h.2.2
    simp only [List.map_cons, List.sum_cons]
    omega

theorem blocks_head : ∀ (pre : List Writer.variable_) (v : Writer.variable_)
    (post : List Writer.variable_) (s : Nat), var_starts s (pre ++ v :: post) →
    (blocks (pre ++ v :: post)).getD (pre.map (fun x => x.nv)).sum none = some v.fv
  | [], v, post, s, _ => by simp [blocks]
  | u :: pre, v, post, s, h => by
    simp only [List.cons_append, var_starts] at h
    have ih := blocks_head pre v post _ h.2.2
    have hlen : (some u.fv :: List.replicate (u.nv - 1) (none : Option Nat)).length = u.nv := by
      simp only [List.length_cons, List.length_replicate]
      omega
    simp only [List.cons_append, blocks, List.map_cons, List.sum_cons]
    rw [← List.cons_append, List.getD_append_right _ _ _ _ (by rw [hlen]; omega), hlen]
    simpa using ih

theorem var_starts_lookup : ∀ (pre : List Writer.variable_) (v : Writer.variable_)
    (post : List Writer.variable_) (s : Nat), var_starts s (pre ++ v :: post) →
    (pre ++ v :: post).find? (fun x => decide (x.fv = v.fv)) = some v
  | [], v, post, s, _ => by simp
  | u :: pre, v, post, s, h => by
    have hfv := var_starts_fv (u :: pre) v post s h
    simp only [List.cons_append, var_starts] at h
    simp only [List.map_cons, List.sum_cons] at hfv
    have hne : ¬ u.fv = v.fv := by omega
    simp only [List.cons_append, List.find?_cons, hne, decide_False]
    exact var_starts_lookup pre v post _ h.2.2

/-- The layout that `read_variables` leaves when it returns 1 for a dictionary that was
empty: `var_by_idx` holds, for every variable in turn, the pointer to it at the index
of its first value and null pointers at the indices of its further values. -/
theorem read_variables_blocks (big : Bool) (env : host) (r : sfm_reader)
    (dict : Writer.dictionary) (res : vars_result) (hempty : dict.var = [])
    (hread : read_variables big env r dict = some res) (hret : res.ret = 1) :
    res.var_by_idx = blocks res.dict.var
    ∧ var_starts 0 res.dict.var
    ∧ ∀ v ∈ res.dict.var, (v.nv : Int) = nv_of_type v.width
        ∧ v.type = (if v.width = 0 then Writer.NUMERIC else Writer.ALPHA)
        ∧ 0 ≤ v.width ∧ v.width ≤ 255 := by
  unfold read_variables at hread
  rcases hl : read_variables_loop big env (r.file.length / 32 + 2) 0
      { r := r, dict := dict, var_by_idx := [], long_string_count := 0,
        next_value := 0, msgs := [] } with _ | ⟨ok, st⟩
  · rw [hl] at hread
    simp at hread
  · rw [hl] at hread
    cases ok with
    | false =>
      simp only [Option.some.injEq] at hread
      rw [← hread] at hret
      simp at hret
    | true =>
      have hinv : vars_inv st := by
        refine read_variables_loop_inv big env _ 0 _ st hl ?_
        unfold vars_inv
        simp only [hempty, Int.toNat_zero, List.replicate_zero, List.append_nil, blocks,
          var_starts, le_refl, List.not_mem_nil, false_implies, implies_true, and_self]
      dsimp only at hread
      by_cases hlsc : st.long_string_count ≠ 0
      · rw [if_pos hlsc] at hread
        simp only [Option.some.injEq] at hread
        rw [← hread] at hret
        simp at hret
      · rw [if_neg hlsc] at hread
        simp only [Option.some.injEq] at hread
        rw [← hread]
        obtain ⟨h1, _, h3, h4⟩ := hinv
        have h0 : st.long_string_count = 0 := by
          by_contra hne; exact hlsc hne
        rw [h0] at h1
        simp only [Int.toNat_zero, List.replicate_zero, List.append_nil] at h1
        exact ⟨h1, h3, h4⟩

theorem write_all_value_labels_split (big : Bool) (env : Writer.host) (v : Writer.variable_)
    (post : List Writer.variable_) :
    ∀ (pre : List Writer.variable_) (idx : Int) (w : Writer.sfm_writer),
      (Writer.write_all_value_labels big env pre idx w).1 = true →
      Writer.write_all_value_labels big env (pre ++ v :: post) idx w
        = (match Writer.write_value_labels big env
              (Writer.write_all_value_labels big env pre idx w).2 v
              (idx + Writer.sum_flt64_cnt pre) with
          | (false, w1) => (false, w1)
          | (true, w1) =>
            Writer.write_all_value_labels big env post
              (idx + Writer.sum_flt64_cnt pre + Writer.var_flt64_cnt v) w1)
  | [], idx, w, _ => by
    simp only [List.nil_append, Writer.write_all_value_labels, Writer.sum_flt64_cnt, add_zero]
    try (rcases Writer.write_value_labels big env w v idx with ⟨ok, w1⟩; cases ok <;> rfl)
  | u :: pre, idx, w, h => by
    simp only [List.cons_append, Writer.write_all_value_labels, Writer.sum_flt64_cnt,
      List.append_eq] at h ⊢
    rcases hu : Writer.write_value_labels big env w u idx with ⟨ok, w1⟩
    rw [hu] at h
    cases ok with
    | false => simp at h
    | true =>
      dsimp only at h ⊢
      rw [write_all_value_labels_split big env v post pre _ w1 h]
      simp only [add_assoc]

theorem sum_flt64_cnt_widths : ∀ (ws : List Writer.variable_) (rs : List Writer.variable_),
    ws.map (fun x => x.width) = rs.map (fun x => x.width) →
    (∀ u ∈ ws, u.type = (if u.width = 0 then Writer.NUMERIC else Writer.ALPHA)) →
    (∀ x ∈ rs, (x.nv : Int) = nv_of_type x.width) →
    Writer.sum_flt64_cnt ws = ((rs.map (fun x => x.nv)).sum : Nat)
  | [], [], _, _, _ => by simp [Writer.sum_flt64_cnt]
  | [], _ :: _, h, _, _ => by simp at h
  | _ :: _, [], h, _, _ => by simp at h
  | u :: ws, x :: rs, h, ht, hn => by
    simp only [List.map_cons, List.cons.injEq] at h
    have ih := sum_flt64_cnt_widths ws rs h.2
      (fun a ha => ht a (List.mem_cons_of_mem _ ha))
      (fun a ha => hn a (List.mem_cons_of_mem _ ha))
    have h1 := ht u (List.mem_cons_self _ _)
    have h2 := hn x (List.mem_cons_self _ _)
    simp only [Writer.sum_flt64_cnt, List.map_cons, List.sum_cons, Nat.cast_add, ih, h2]
    congr 1
    unfold Writer.var_flt64_cnt nv_of_type
    rw [h1, ← h.1]
    by_cases h0 : u.width = 0
    · simp [h0]
    · simp [h0, Writer.NUMERIC, Writer.ALPHA]

end

section

open Writer

theorem does_dict_need_translation_from_eq : ∀ (vs : List variable_) (s : Nat),
    does_dict_need_translation_from vs s = if properly_ordered s vs then 1 else 0
  | [], s => by simp [does_dict_need_translation_from, properly_ordered]
  | v :: vs, s => by
    unfold does_dict_need_translation_from properly_ordered
    by_cases h : v.fv = s
    · rw [if_neg (by simpa using h), does_dict_need_translation_from_eq vs (s + v.nv)]
      simp [h]
    · rw [if_pos h]
      simp [h]

/-- C36: `does_dict_need_translation` returns 1 exactly when the dictionary is properly
ordered and 0 at the first variable whose `fv` differs from the running sum, so that
the flag `needs_translation` that `sfm_open_writer` stores is set exactly for the
properly ordered dictionaries: the reverse of what its name and its use in
`sfm_write_case` call for. -/
theorem needs_translation_reversed (big : Bool) (env : host) (io : List Bool) (d : dictionary)
    (opts : sfm_write_options) :
    does_dict_need_translation d = (if properly_ordered 0 d.var then 1 else 0)
    ∧ ∀ w, sfm_open_writer big env io d opts = some w →
        w.needs_translation = properly_ordered 0 d.var := by
  have h1 : does_dict_need_translation d = (if properly_ordered 0 d.var then 1 else 0) :=
    does_dict_need_translation_from_eq d.var 0
  refine ⟨h1, ?_⟩
  intro w hw
  rw [(sfm_open_writer_spec big env io d opts w hw).2.2.2.2.1, h1]
  cases properly_ordered 0 d.var <;> simp

/-- C36, failing input: two numeric variables of which the first has the case index 1
and the second the case index 0. The dictionary is not properly ordered, the flag is
0, and the uncompressed `sfm_write_case` copies the case array as it stands, the value
of the second variable first; for the two variables in proper order the flag is 1 and
the bounce buffer is used. -/
theorem needs_translation_example :
    (sfm_open_writer false example_host []
        (example_dict [example_numeric 65 1, example_numeric 66 0]) plain_opts).map
      (fun w => (w.needs_translation,
        (sfm_write_case false w
          [1, 1, 1, 1, 1, 1, 1, 1, 2, 2, 2, 2, 2, 2, 2, 2] []).2.file.drop w.file.length))
      = some (false, [1, 1, 1, 1, 1, 1, 1, 1, 2, 2, 2, 2, 2, 2, 2, 2])
    ∧ (sfm_open_writer false example_host []
        (example_dict [example_numeric 65 0, example_numeric 66 1]) plain_opts).map
      (fun w => w.needs_translation) = some true := by
  decide!

/-- C38: the writes of the variable records are not checked. With the second `fwrite`
failing (that of the record of the only variable) and every other one succeeding,
`sfm_open_writer` returns a writer, whose file lacks the variable record; with the
first `fwrite` failing (that of the header) it returns NULL. -/
theorem variable_record_failure_ignored :
    (sfm_open_writer false example_host [true, false]
        (example_dict [example_numeric 65 0]) plain_opts).isSome = true
    ∧ (write_variable false example_host
        { needs_translation := false, compress := false, case_cnt := 0, flt64_cnt := 1,
          buf := [], end_ := 0, ptr := 0, x := 0, y := 0, vars := [], file := [],
          io := [false] } (example_numeric 65 0)).1 = false
    ∧ (sfm_open_writer false example_host [true, false]
        (example_dict [example_numeric 65 0]) plain_opts).map (fun w => w.file.length)
      ≠ (sfm_open_writer false example_host []
        (example_dict [example_numeric 65 0]) plain_opts).map (fun w => w.file.length)
    ∧ sfm_open_writer false example_host [false]
        (example_dict [example_numeric 65 0]) plain_opts = none := by
  decide!

/-- C40: the padded length `ROUND_UP (min (strlen (label), 255), 4)` is 256 for every
label of 253 bytes or more, one more than the 255 bytes of the staging buffer
`l.label`; for shorter labels it is at most 252. -/
theorem label_ext_len (n : Nat) :
    (253 ≤ n → ROUND_UP (min (n : Int) 255) 4 = 256)
    ∧ (n ≤ 252 → ROUND_UP (min (n : Int) 255) 4 ≤ 252)
    ∧ (n : Int) ≤ ROUND_UP (min (n : Int) 255) 4 + (n - min (n : Int) 255) := by
  unfold ROUND_UP
  have h0 : (0 : Int) ≤ min (n : Int) 255 + (4 - 1) := by omega
  rw [Int.tdiv_eq_ediv h0 (by norm_num)]
  omega

/-- C40, failing input: for a label of 253 bytes `write_variable` lays down the length
and 256 bytes of label and padding, 260 bytes, where the staging structure has 259. -/
theorem label_ext_len_example :
    ROUND_UP (min ((List.replicate 253 65).length : Int) 255) 4 = 256
    ∧ ((write_variable false example_host
        { needs_translation := false, compress := false, case_cnt := 0, flt64_cnt := 1,
          buf := [], end_ := 0, ptr := 0, x := 0, y := 0, vars := [], file := [],
          io := [] }
        { example_numeric 65 0 with label := some (List.replicate 253 65) }).2.file.length
      = 32 + 260) := by
  decide!

end

section

open Reader

theorem buf_read_frame (r : sfm_reader) (n : Nat) (b : Bool) :
    (buf_read r n b).2.1.file.length ≤ r.file.length
    ∧ (buf_read r n b).2.1.value_cnt = r.value_cnt
    ∧ (buf_read r n b).2.1.weight_idx = r.weight_idx
    ∧ ((buf_read r n b).1 ≠ none → (buf_read r n b).2.1.file.length + n = r.file.length) := by
  unfold buf_read
  by_cases h0 : n = 0
  · rw [if_pos h0]
    subst h0
    exact ⟨le_refl _, rfl, rfl, fun _ => rfl⟩
  · rw [if_neg h0]
    by_cases h1 : n ≤ r.file.length
    · rw [if_pos h1]
      refine ⟨by simp, rfl, rfl, fun _ => ?_⟩
      simp only [List.length_drop]
      omega
    · rw [if_neg h1]
      exact ⟨by simp, rfl, rfl, fun h => absurd rfl h⟩

theorem buf_read_eq_frame (r r1 : sfm_reader) (n : Nat) (b : Bool) (o : Option (List Nat))
    (m : List dict_message) (h : buf_read r n b = (o, r1, m)) :
    r1.file.length ≤ r.file.length ∧ r1.value_cnt = r.value_cnt
    ∧ r1.weight_idx = r.weight_idx
    ∧ (o ≠ none → r1.file.length + n = r.file.length) := by
  have := buf_read_frame r n b
  rw [h] at this
  exact this

theorem read_var_label_frame (big : Bool) (r1 r2 : sfm_reader) (hl : Int)
    (o : Option (Option (List Nat))) (m : List dict_message)
    (h : read_var_label big r1 hl = (o, r2, m)) :
    r2.file.length ≤ r1.file.length ∧ r2.value_cnt = r1.value_cnt
    ∧ r2.weight_idx = r1.weight_idx := by
  unfold read_var_label at h
  split at h
  · rcases h1 : buf_read r1 4 false with ⟨o1, ra, m1⟩
    obtain ⟨f1, f2, f3, _⟩ := buf_read_eq_frame _ _ _ _ _ _ h1
    rw [h1] at h
    cases o1 with
    | none =>
      simp only [Prod.mk.injEq] at h
      rw [← h.2.1]
      exact ⟨f1, f2, f3⟩
    | some bs =>
      dsimp only at h
      split at h
      · simp only [Prod.mk.injEq] at h
        rw [← h.2.1]
        exact ⟨f1, f2, f3⟩
      · split at h
        · rcases h2 : buf_read ra (Writer.ROUND_UP (fix_int32 big r1 bs) 4).toNat true
            with ⟨o2, rb, m2⟩
          obtain ⟨g1, g2, g3, _⟩ := buf_read_eq_frame _ _ _ _ _ _ h2
          rw [h2] at h
          cases o2 <;>
          · simp only [Prod.mk.injEq] at h
            rw [← h.2.1]
            exact ⟨le_trans g1 f1, g2.trans f2, g3.trans f3⟩
        · simp only [Prod.mk.injEq] at h
          rw [← h.2.1]
          exact ⟨f1, f2, f3⟩
  · simp only [Prod.mk.injEq] at h
    rw [← h.2.1]
    exact ⟨le_refl _, rfl, rfl⟩

theorem read_missing_values_frame (big : Bool) (r2 r3 : sfm_reader) (nm type : Int)
    (o : Option Writer.missing_values) (m : List dict_message)
    (h : read_missing_values big r2 nm type = (o, r3, m)) :
    r3.file.length ≤ r2.file.length ∧ r3.value_cnt = r2.value_cnt
    ∧ r3.weight_idx = r2.weight_idx := by
  unfold read_missing_values at h
  split at h
  · split at h
    · simp only [Prod.mk.injEq] at h
      rw [← h.2.1]
      exact ⟨le_refl _, rfl, rfl⟩
    · rcases h1 : buf_read r2 (8 * nm.natAbs) false with ⟨o1, ra, m1⟩
      obtain ⟨f1, f2, f3, _⟩ := buf_read_eq_frame _ _ _ _ _ _ h1
      rw [h1] at h
      cases o1 <;>
      · simp only [Prod.mk.injEq] at h
        rw [← h.2.1]
        exact ⟨f1, f2, f3⟩
  · simp only [Prod.mk.injEq] at h
    rw [← h.2.1]
    exact ⟨le_refl _, rfl, rfl⟩

theorem read_variable_rest_frame (big : Bool) (env : host) (st : vars_state) (r1 : sfm_reader)
    (p : Nat) (dict : Writer.dictionary) (type hl nmiss pr wr : Int)
    (m0 : List dict_message) (st1 : vars_state) (c : loop_ctl)
    (h : read_variable_rest big env st r1 p dict type hl nmiss pr wr m0 = (c, st1)) :
    st1.r.file.length ≤ r1.file.length ∧ st1.r.value_cnt = r1.value_cnt
    ∧ st1.r.weight_idx = r1.weight_idx
    ∧ (c ≠ loop_ctl.error → st1.next_value = wrap32 (st.next_value + nv_of_type type))
    ∧ c ≠ loop_ctl.done := by
  unfold read_variable_rest at h
  dsimp only at h
  rcases h1 : read_var_label big r1 hl with ⟨o1, r2, m1⟩
  obtain ⟨a1, a2, a3⟩ := read_var_label_frame _ _ _ _ _ _ h1
  rw [h1] at h
  cases o1 with
  | none =>
    simp only [vars_lose, Prod.mk.injEq] at h
    rw [← h.2, ← h.1]
    exact ⟨a1, a2, a3, fun hc => absurd rfl hc, by decide⟩
  | some label =>
    dsimp only at h
    rcases h2 : read_missing_values big r2 nmiss type with ⟨o2, r3, m2⟩
    obtain ⟨b1, b2, b3⟩ := read_missing_values_frame _ _ _ _ _ _ _ h2
    rw [h2] at h
    cases o2 with
    | none =>
      simp only [vars_lose, Prod.mk.injEq] at h
      rw [← h.2, ← h.1]
      exact ⟨le_trans b1 a1, b2.trans a2, b3.trans a3, fun hc => absurd rfl hc, by decide⟩
    | some mvs =>
      dsimp only at h
      split at h
      · simp only [vars_lose, Prod.mk.injEq] at h
        rw [← h.2, ← h.1]
        exact ⟨le_trans b1 a1, b2.trans a2, b3.trans a3, fun hc => absurd rfl hc, by decide⟩
      · split at h
        · simp only [vars_lose, Prod.mk.injEq] at h
          rw [← h.2, ← h.1]
          exact ⟨le_trans b1 a1, b2.trans a2, b3.trans a3, fun hc => absurd rfl hc, by decide⟩
        · simp only [Prod.mk.injEq] at h
          rw [← h.2, ← h.1]
          exact ⟨le_trans b1 a1, b2.trans a2, b3.trans a3, fun _ => rfl, by decide⟩

theorem wrap32_id (x : Int) (h0 : 0 ≤ x) (h1 : x < (2 ^ 31 : Int)) : wrap32 x = x := by
  unfold wrap32 int32_of_bits bits_of_int32
  have hp : (0 : Int) < ((2 ^ 32 : Nat) : Int) := by norm_num
  have hlt := Int.emod_lt_of_pos x hp
  have hge := Int.emod_nonneg x (ne_of_gt hp)
  have hmod : x % ((2 ^ 32 : Nat) : Int) = x := Int.emod_eq_of_lt h0 (by norm_num at h1 ⊢; omega)
  have hcast : ((x % ((2 ^ 32 : Nat) : Int)).toNat : Int) = x % ((2 ^ 32 : Nat) : Int) :=
    Int.toNat_of_nonneg hge
  rw [hmod] at hcast ⊢
  norm_num at h1 hcast ⊢
  split_ifs with hc <;> omega

theorem nv_of_type_le (type : Int) (h0 : 0 ≤ type) (h1 : type ≤ 255) : nv_of_type type ≤ 32 := by
  unfold nv_of_type Writer.DIV_RND_UP
  split_ifs with h
  · norm_num
  · rw [Int.tdiv_eq_ediv (by omega) (by norm_num)]
    omega

theorem read_variable_record_count (big : Bool) (env : host) (i : Nat) (st st1 : vars_state)
    (r1 : sfm_reader) (rec_type type hl nmiss pr wr : Int) (name : List Nat)
    (c : loop_ctl) (L : Nat) (V : Int) (hL : L < 2 ^ 35)
    (h : read_variable_record big env i st r1 rec_type type hl nmiss pr wr name = (c, st1))
    (hr1 : r1.file.length + 32 = st.r.file.length) (hr2 : r1.value_cnt = st.r.value_cnt)
    (hlt : V ≠ -1 → (i : Int) < V)
    (hinv : vars_count_inv L V i st) :
    (c = loop_ctl.next → vars_count_inv L V (i + 1) st1)
    ∧ (c = loop_ctl.done →
        st1 = { st with r := { st.r with value_cnt := (i : Int) } }) := by
  obtain ⟨j1, j2, j3, j4, j5, j6⟩ := hinv
  unfold read_variable_record at h
  split at h
  · simp only [Prod.mk.injEq] at h
    rw [← h.1, ← h.2]
    exact ⟨fun e => absurd e (by decide), fun _ => rfl⟩
  · split at h
    · split at h
      · simp only [vars_lose, Prod.mk.injEq] at h
        rw [← h.1]
        exact ⟨fun e => absurd e (by decide), fun e => absurd e (by decide)⟩
      · rename_i _ hb _
        simp only [Prod.mk.injEq] at h
        rw [← h.1, ← h.2]
        refine ⟨fun _ => ⟨?_, ?_, ?_, ?_, ?_, ?_⟩, fun e => absurd e (by decide)⟩
        · simp [j1]
        · show 32 * (i + 1) + r1.file.length ≤ L
          omega
        · show st.next_value = ((i + 1 : Nat) : Int) + (st.long_string_count - 1)
          rw [j3]
          push_cast
          ring
        · show 0 ≤ st.long_string_count - 1
          omega
        · show r1.value_cnt = V
          rw [hr2, j5]
        · intro hv
          have := hlt hv
          push_cast
          omega
    · have lose : ∀ (r : sfm_reader) (m : List dict_message),
          vars_lose st r m = (c, st1) →
          (c = loop_ctl.next → vars_count_inv L V (i + 1) st1)
          ∧ (c = loop_ctl.done →
              st1 = { st with r := { st.r with value_cnt := (i : Int) } }) := by
        intro r m hh
        simp only [vars_lose, Prod.mk.injEq] at hh
        rw [← hh.1]
        exact ⟨fun e => absurd e (by decide), fun e => absurd e (by decide)⟩
      split at h
      · exact lose _ _ h
      · split at h
        · exact lose _ _ h
        · split at h
          · exact lose _ _ h
          · split at h
            · exact lose _ _ h
            · split at h
              · exact lose _ _ h
              · dsimp only at h
                split at h
                · exact lose _ _ h
                · split at h
                  · exact lose _ _ h
                  · split at h
                    · exact lose _ _ h
                    · rename_i _ hlsc _ hty _ _ _ _ _ _ _ _ _ p dict hcreate
                      have hlsc0 : st.long_string_count = 0 := by
                        by_contra hne; exact hlsc hne
                      have hty0 : 0 ≤ type ∧ type ≤ 255 := by
                        constructor
                        · by_contra hne; exact hty (Or.inl (by omega))
                        · by_contra hne; exact hty (Or.inr (by omega))
                      obtain ⟨f1, f2, _, f4, f5⟩ := read_variable_rest_frame big env st r1 p _
                        type hl nmiss pr wr _ st1 c h
                      refine ⟨fun hcn => ?_, fun e => absurd e f5⟩
                      have hce : c ≠ loop_ctl.error := by rw [hcn]; decide
                      obtain ⟨e1, e2, _⟩ := read_variable_rest_next big env st r1 p _ type hl
                        nmiss pr wr _ st1 c h hce
                      have hnv1 := nv_of_type_pos type hty0.1
                      have hnv2 := nv_of_type_le type hty0.1 hty0.2
                      have hnext := f4 hce
                      rw [j3, hlsc0, wrap32_id _ (by omega) (by omega)] at hnext
                      refine ⟨?_, ?_, ?_, ?_, ?_, ?_⟩
                      · rw [e1]; simp [j1]
                      · omega
                      · rw [hnext, e2]
                        push_cast
                        ring
                      · omega
                      · rw [f2, hr2, j5]
                      · intro hv
                        have := hlt hv
                        push_cast
                        omega

theorem read_variables_step_count (big : Bool) (env : host) (i : Nat) (st st1 : vars_state)
    (c : loop_ctl) (L : Nat) (V : Int) (hL : L < 2 ^ 35)
    (h : read_variables_step big env i st = (c, st1))
    (hinv : vars_count_inv L V i st) :
    (c = loop_ctl.next → vars_count_inv L V (i + 1) st1)
    ∧ (c = loop_ctl.done →
        st1.r.value_cnt = (i : Int) ∧ st1.var_by_idx = st.var_by_idx
        ∧ st1.next_value = st.next_value ∧ st1.long_string_count = st.long_string_count
        ∧ st1.msgs = st.msgs ∧ st1.dict = st.dict) := by
  unfold read_variables_step at h
  split at h
  · rename_i hcond
    simp only [Prod.mk.injEq] at h
    rw [← h.1, ← h.2]
    refine ⟨fun e => absurd e (by decide), fun _ => ⟨?_, rfl, rfl, rfl, rfl, rfl⟩⟩
    obtain ⟨_, _, _, _, j5, j6⟩ := hinv
    rw [j5] at hcond ⊢
    have := j6 hcond.1
    omega
  · rename_i hcond
    split at h
    · simp only [vars_lose, Prod.mk.injEq] at h
      rw [← h.1]
      exact ⟨fun e => absurd e (by decide), fun e => absurd e (by decide)⟩
    · rename_i sv r1 m hb
      obtain ⟨_, b2, _, b4⟩ := buf_read_eq_frame _ _ _ _ _ _ hb
      have hlt : V ≠ -1 → (i : Int) < V := by
        intro hv
        by_contra hne
        apply hcond
        rw [hinv.2.2.2.2.1]
        exact ⟨hv, by omega⟩
      obtain ⟨a1, a2⟩ := read_variable_record_count big env i st st1 r1 _ _ _ _ _ _ _ c L V hL h
        (b4 (by simp)) b2 hlt hinv
      refine ⟨a1, fun e => ?_⟩
      rw [a2 e]
      exact ⟨rfl, rfl, rfl, rfl, rfl, rfl⟩

theorem read_variables_loop_count (big : Bool) (env : host) (L : Nat) (V : Int)
    (hL : L < 2 ^ 35) :
    ∀ (fuel i : Nat) (st st1 : vars_state),
      read_variables_loop big env fuel i st = some (true, st1) → vars_count_inv L V i st →
      st1.r.value_cnt = (st1.var_by_idx.length : Int)
      ∧ st1.next_value = st1.r.value_cnt + st1.long_string_count
  | 0, _, _, _, h, _ => by simp [read_variables_loop] at h
  | fuel + 1, i, st, st1, h, hinv => by
    unfold read_variables_loop at h
    rcases hs : read_variables_step big env i st with ⟨c, st2⟩
    rw [hs] at h
    obtain ⟨a1, a2⟩ := read_variables_step_count big env i st st2 c L V hL hs hinv
    cases c with
    | next => exact read_variables_loop_count big env L V hL fuel (i + 1) st2 st1 h (a1 rfl)
    | done =>
      simp only [Option.some.injEq, Prod.mk.injEq, true_and] at h
      rw [← h]
      obtain ⟨c1, c2, c3, c4, _, _⟩ := a2 rfl
      obtain ⟨j1, _, j3, _, _, _⟩ := hinv
      rw [c1, c2, c3, c4, j1, j3]
      exact ⟨rfl, rfl⟩
    | error => simp at h

theorem read_variable_record_file (big : Bool) (env : host) (i : Nat) (st st1 : vars_state)
    (r1 : sfm_reader) (rec_type type hl nmiss pr wr : Int) (name : List Nat)
    (h : read_variable_record big env i st r1 rec_type type hl nmiss pr wr name
      = (loop_ctl.next, st1)) :
    st1.r.file.length ≤ r1.file.length := by
  unfold read_variable_record at h
  have lose : ∀ (r : sfm_reader) (m : List dict_message),
      vars_lose st r m = (loop_ctl.next, st1) → st1.r.file.length ≤ r1.file.length := by
    intro r m hh
    exact (vars_lose_ne _ _ _ _ _ hh (by decide)).elim
  split at h
  · simp at h
  · split at h
    · split at h
      · exact lose _ _ h
      · simp only [Prod.mk.injEq, true_and] at h
        rw [← h]
    · split at h
      · exact lose _ _ h
      · split at h
        · exact lose _ _ h
        · split at h
          · exact lose _ _ h
          · split at h
            · exact lose _ _ h
            · split at h
              · exact lose _ _ h
              · dsimp only at h
                split at h
                · exact lose _ _ h
                · split at h
                  · exact lose _ _ h
                  · split at h
                    · exact lose _ _ h
                    · exact (read_variable_rest_frame big env st r1 _ _ _ _ _ _ _ _ st1 _ h).1

theorem read_variables_step_file (big : Bool) (env : host) (i : Nat) (st st1 : vars_state)
    (h : read_variables_step big env i st = (loop_ctl.next, st1)) :
    st1.r.file.length + 32 ≤ st.r.file.length := by
  unfold read_variables_step at h
  split at h
  · simp at h
  · split at h
    · exact (vars_lose_ne _ _ _ _ _ h (by decide)).elim
    · rename_i sv r1 m hb
      obtain ⟨_, _, _, b4⟩ := buf_read_eq_frame _ _ _ _ _ _ hb
      have := read_variable_record_file big env i st st1 r1 _ _ _ _ _ _ _ h
      have := b4 (by simp)
      omega

theorem read_variables_loop_total (big : Bool) (env : host) :
    ∀ (fuel i : Nat) (st : vars_state), st.r.file.length / 32 + 1 ≤ fuel →
      ∃ res, read_variables_loop big env fuel i st = some res
  | 0, _, _, h => by omega
  | fuel + 1, i, st, hf => by
    unfold read_variables_loop
    rcases hs : read_variables_step big env i st with ⟨c, st2⟩
    cases c with
    | next =>
      have := read_variables_step_file big env i st st2 hs
      exact read_variables_loop_total big env fuel (i + 1) st2 (by omega)
    | done => exact ⟨_, rfl⟩
    | error => exact ⟨_, rfl⟩

theorem read_variables_total (big : Bool) (env : host) (r : sfm_reader)
    (dict : Writer.dictionary) : ∃ res, read_variables big env r dict = some res := by
  unfold read_variables
  obtain ⟨⟨ok, st⟩, hres⟩ := read_variables_loop_total big env (r.file.length / 32 + 2) 0
    { r := r, dict := dict, var_by_idx := [], long_string_count := 0,
      next_value := 0, msgs := [] } (by simp)
  rw [hres]
  cases ok with
  | false => exact ⟨_, rfl⟩
  | true =>
    dsimp only
    split_ifs <;> exact ⟨_, rfl⟩

theorem read_header_value_cnt (big : Bool) (r : sfm_reader) (want_info : Bool)
    (h : (read_header big r want_info).ret = 1) :
    -1 ≤ (read_header big r want_info).r.value_cnt := by
  unfold read_header at h ⊢
  by_cases h1 : r.file.length < 176
  · rw [if_pos h1] at h
    simp at h
  · rw [if_neg h1] at h ⊢
    dsimp only at h ⊢
    by_cases h2 : (header_of_bytes (r.file.take 176)).rec_type ≠ [36, 70, 76, 50]
    · rw [if_pos h2] at h
      simp at h
    · rw [if_neg h2] at h ⊢
      split_ifs at h ⊢
      all_goals first
        | (exfalso; simp at h; done)
        | (dsimp only; omega)

theorem blocks_length : ∀ (vs : List Writer.variable_) (s : Nat), var_starts s vs →
    (blocks vs).length = (vs.map (fun v => v.nv)).sum
  | [], _, _ => rfl
  | v :: vs, s, h => by
    simp only [var_starts] at h
    have ih := blocks_length vs _ h.2.2
    simp only [blocks, List.cons_append, List.length_cons, List.length_append,
      List.length_replicate, List.map_cons, List.sum_cons, ih]
    omega

/-- C39: `read_variables` returns, and whenever it returns 1 for the dictionary that
`sfm_open_reader` created (no variables yet) and a `value_cnt` as `read_header` leaves it
(-1 or more), `r->value_cnt` is the number of type 2 records that it took (one entry of
`var_by_idx` each), which is the sum of the numbers of values of the variables created,
1 for a numeric variable and the width over 8 rounded up for a string; `next_value`
equals `r->value_cnt` at the check behind the loop, so that the message about the
number of variable positions is not added. -/
theorem read_variables_value_cnt (big : Bool) (env : host) (r : sfm_reader)
    (dict : Writer.dictionary) (hV : -1 ≤ r.value_cnt) (hempty : dict.var = [])
    (hL : r.file.length < 2 ^ 35) :
    ∃ res, read_variables big env r dict = some res
      ∧ (res.ret = 1 →
          res.r.value_cnt = (res.var_by_idx.length : Int)
          ∧ res.var_by_idx.length = (res.dict.var.map (fun v => v.nv)).sum
          ∧ (∀ v ∈ res.dict.var,
              (v.nv : Int) = (if v.width = 0 then 1 else Writer.DIV_RND_UP v.width 8))
          ∧ ∃ st, read_variables_loop big env (r.file.length / 32 + 2) 0
                { r := r, dict := dict, var_by_idx := [], long_string_count := 0,
                  next_value := 0, msgs := [] } = some (true, st)
              ∧ st.long_string_count = 0
              ∧ st.next_value = st.r.value_cnt
              ∧ res.r = st.r
              ∧ res.msgs = st.msgs) := by
  obtain ⟨res, hres⟩ := read_variables_total big env r dict
  refine ⟨res, hres, fun hret => ?_⟩
  obtain ⟨b1, b2, b3⟩ := read_variables_blocks big env r dict res hempty hres hret
  have hlen := blocks_length _ _ b2
  unfold read_variables at hres
  rcases hl : read_variables_loop big env (r.file.length / 32 + 2) 0
      { r := r, dict := dict, var_by_idx := [], long_string_count := 0,
        next_value := 0, msgs := [] } with _ | ⟨ok, st⟩
  · rw [hl] at hres
    simp at hres
  · rw [hl] at hres
    cases ok with
    | false =>
      simp only [Option.some.injEq] at hres
      rw [← hres] at hret
      simp at hret
    | true =>
      obtain ⟨c1, c2⟩ := read_variables_loop_count big env r.file.length r.value_cnt hL _ 0 _ st
        hl ⟨rfl, by simp, by simp, le_refl _, rfl, fun hne => by
          simp only [Nat.cast_zero]
          omega⟩
      dsimp only at hres
      by_cases hlsc : st.long_string_count ≠ 0
      · rw [if_pos hlsc] at hres
        simp only [Option.some.injEq] at hres
        rw [← hres] at hret
        simp at hret
      · rw [if_neg hlsc] at hres
        have h0 : st.long_string_count = 0 := by
          by_contra hne; exact hlsc hne
        have hnext : st.next_value = st.r.value_cnt := by rw [c2, h0, add_zero]
        rw [if_neg (fun hne => hne hnext)] at hres
        simp only [Option.some.injEq, List.append_nil] at hres
        rw [← hres] at b1 hlen ⊢
        dsimp only at b1 hlen ⊢
        refine ⟨c1, ?_, fun v hv => (b3 v (by rw [← hres]; exact hv)).1, st, rfl, h0, hnext,
          rfl, rfl⟩
        rw [b1, hlen]

/-- Three type 2 records for a numeric variable and a string variable of 12 bytes, with
`value_cnt` not known from the header: `read_variables` returns 1 and leaves 3 in
`value_cnt`, the sum of the numbers of values 1 and 2. -/
theorem read_variables_value_cnt_witness :
    ((-1 : Int) ≤ ({ new_reader false example_variable_records with
        value_cnt := -1 } : sfm_reader).value_cnt
      ∧ dict_create.var = []
      ∧ ({ new_reader false example_variable_records with
          value_cnt := -1 } : sfm_reader).file.length < 2 ^ 35)
    ∧ (read_variables false example_reader_host
          { new_reader false example_variable_records with value_cnt := -1 }
          dict_create).map
        (fun res => (res.ret, res.r.value_cnt, res.dict.var.map (fun v => v.nv)))
        = some (1, 3, [1, 2])
    ∧ ∃ res, read_variables false example_reader_host
          { new_reader false example_variable_records with value_cnt := -1 }
          dict_create = some res
      ∧ (res.ret = 1 →
          res.r.value_cnt = (res.var_by_idx.length : Int)
          ∧ res.var_by_idx.length = (res.dict.var.map (fun v => v.nv)).sum
          ∧ (∀ v ∈ res.dict.var,
              (v.nv : Int) = (if v.width = 0 then 1 else Writer.DIV_RND_UP v.width 8))
          ∧ ∃ st, read_variables_loop false example_reader_host
                (({ new_reader false example_variable_records with
                  value_cnt := -1 } : sfm_reader).file.length / 32 + 2) 0
                { r := { new_reader false example_variable_records with value_cnt := -1 },
                  dict := dict_create, var_by_idx := [], long_string_count := 0,
                  next_value := 0, msgs := [] } = some (true, st)
              ∧ st.long_string_count = 0
              ∧ st.next_value = st.r.value_cnt
              ∧ res.r = st.r
              ∧ res.msgs = st.msgs) :=
  ⟨⟨by decide, rfl, by decide!⟩, by decide!,
    read_variables_value_cnt false example_reader_host
      { new_reader false example_variable_records with value_cnt := -1 } dict_create
      (by decide) rfl (by decide!)⟩

end

section

open Reader

theorem buf_read_file (r r1 : sfm_reader) (n : Nat) (b : Bool) (o : Option (List Nat))
    (m : List dict_message) (h : buf_read r n b = (o, r1, m)) :
    r1.file.length ≤ r.file.length :=
  (buf_read_eq_frame r r1 n b o m h).1

theorem read_machine_int32_info_file (big : Bool) (r : sfm_reader) (size count : Int) :
    (read_machine_int32_info big r size count).2.1.file.length ≤ r.file.length := by
  unfold read_machine_int32_info
  split
  · exact le_refl _
  · split
    · rename_i hb
      exact buf_read_file _ _ _ _ _ _ hb
    · rename_i hb
      have := buf_read_file _ _ _ _ _ _ hb
      dsimp only
      split_ifs <;> exact this

theorem read_machine_flt64_info_file (big : Bool) (r : sfm_reader) (size count : Int) :
    (read_machine_flt64_info big r size count).2.1.file.length ≤ r.file.length := by
  unfold read_machine_flt64_info
  split
  · exact le_refl _
  · split
    · rename_i hb
      exact buf_read_file _ _ _ _ _ _ hb
    · rename_i hb
      have := buf_read_file _ _ _ _ _ _ hb
      dsimp only
      split_ifs <;> exact this

theorem read_documents_file (big : Bool) (r : sfm_reader) (dict : Writer.dictionary) :
    (read_documents big r dict).2.1.file.length ≤ r.file.length := by
  unfold read_documents
  split
  · exact le_refl _
  · split
    · rename_i hb
      exact buf_read_file _ _ _ _ _ _ hb
    · rename_i hb
      have h1 := buf_read_file _ _ _ _ _ _ hb
      dsimp only
      split
      · exact h1
      · split
        · rename_i hb2
          exact le_trans (buf_read_file _ _ _ _ _ _ hb2) h1
        · rename_i hb2
          exact le_trans (buf_read_file _ _ _ _ _ _ hb2) h1

theorem read_label_tuples_file : ∀ (n : Nat) (r : sfm_reader),
    (read_label_tuples n r).2.1.file.length ≤ r.file.length
  | 0, r => le_refl _
  | n + 1, r => by
    unfold read_label_tuples
    split
    · rename_i hb
      exact buf_read_file _ _ _ _ _ _ hb
    · rename_i hb
      have h1 := buf_read_file _ _ _ _ _ _ hb
      split
      · rename_i hb2
        exact le_trans (buf_read_file _ _ _ _ _ _ hb2) h1
      · rename_i hb2
        have h2 := le_trans (buf_read_file _ _ _ _ _ _ hb2) h1
        dsimp only
        split
        · rename_i hb3
          exact le_trans (buf_read_file _ _ _ _ _ _ hb3) h2
        · rename_i hb3
          have h3 := le_trans (buf_read_file _ _ _ _ _ _ hb3) h2
          rename_i r3 _
          have ih := read_label_tuples_file n r3
          split
          · rename_i hrec
            rw [hrec] at ih
            exact le_trans ih h3
          · rename_i hrec
            rw [hrec] at ih
            exact le_trans ih h3

theorem read_label_vars_file (big : Bool) (dict : Writer.dictionary)
    (var_by_idx : List (Option Nat)) : ∀ (n : Nat) (r : sfm_reader),
    (read_label_vars big dict var_by_idx n r).2.1.file.length ≤ r.file.length
  | 0, r => le_refl _
  | n + 1, r => by
    unfold read_label_vars
    split
    · rename_i hb
      exact buf_read_file _ _ _ _ _ _ hb
    · rename_i bs r1 _ hb
      have h1 := buf_read_file _ _ _ _ _ _ hb
      dsimp only
      split
      · exact h1
      · split
        · exact h1
        · split
          · exact h1
          · have ih := read_label_vars_file big dict var_by_idx n r1
            split
            · rename_i hrec
              rw [hrec] at ih
              exact le_trans ih h1
            · rename_i hrec
              rw [hrec] at ih
              exact le_trans ih h1

theorem read_label_tuples_file_eq (n : Nat) (r r2 : sfm_reader)
    (o : Option (List (List Nat × List Nat))) (m : List dict_message)
    (h : read_label_tuples n r = (o, r2, m)) : r2.file.length ≤ r.file.length := by
  have := read_label_tuples_file n r
  rw [h] at this
  exact this

theorem read_label_vars_file_eq (big : Bool) (dict : Writer.dictionary)
    (var_by_idx : List (Option Nat)) (n : Nat) (r r2 : sfm_reader)
    (o : Option (List Writer.variable_)) (m : List dict_message)
    (h : read_label_vars big dict var_by_idx n r = (o, r2, m)) :
    r2.file.length ≤ r.file.length := by
  have := read_label_vars_file big dict var_by_idx n r
  rw [h] at this
  exact this

theorem read_value_labels_file (big : Bool) (env : host) (r : sfm_reader)
    (dict : Writer.dictionary) (var_by_idx : List (Option Nat)) :
    (read_value_labels big env r dict var_by_idx).r.file.length ≤ r.file.length := by
  unfold read_value_labels
  split
  · rename_i hb
    exact buf_read_file _ _ _ _ _ _ hb
  · rename_i bs r1 _ hb
    have h1 := buf_read_file _ _ _ _ _ _ hb
    dsimp only
    split
    · rename_i r2 _ ht
      exact le_trans (read_label_tuples_file_eq _ _ _ _ _ ht) h1
    · rename_i labels r2 _ ht
      have h2 := le_trans (read_label_tuples_file_eq _ _ _ _ _ ht) h1
      split
      · rename_i hb3
        exact le_trans (buf_read_file _ _ _ _ _ _ hb3) h2
      · rename_i hb3
        have h3 := le_trans (buf_read_file _ _ _ _ _ _ hb3) h2
        split
        · exact h3
        · split
          · rename_i hb4
            exact le_trans (buf_read_file _ _ _ _ _ _ hb4) h3
          · rename_i bsn r4 _ hb4
            have h4 := le_trans (buf_read_file _ _ _ _ _ _ hb4) h3
            split
            · exact h4
            · split
              · rename_i hv
                exact le_trans (read_label_vars_file_eq _ _ _ _ _ _ _ _ hv) h4
              · rename_i hv
                have h5 := le_trans (read_label_vars_file_eq _ _ _ _ _ _ _ _ hv) h4
                split
                · exact h5
                · exact h5

theorem read_display_params_file (big : Bool) : ∀ (n i : Nat) (r : sfm_reader)
    (dict : Writer.dictionary),
    (read_display_params big n i r dict).2.1.file.length ≤ r.file.length
  | 0, _, r, _ => le_refl _
  | n + 1, i, r, dict => by
    unfold read_display_params
    split
    · rename_i hb
      exact buf_read_file _ _ _ _ _ _ hb
    · rename_i params r1 _ hb
      have h1 := buf_read_file _ _ _ _ _ _ hb
      exact le_trans (read_display_params_file big n _ r1 _) h1

theorem read_display_params_file_eq (big : Bool) (n i : Nat) (r r2 : sfm_reader)
    (dict : Writer.dictionary) (o : Option Writer.dictionary) (m : List dict_message)
    (h : read_display_params big n i r dict = (o, r2, m)) :
    r2.file.length ≤ r.file.length := by
  have := read_display_params_file big n i r dict
  rw [h] at this
  exact this

theorem read_extension_file (big : Bool) (env : host) (st : open_state) :
    (read_extension big env st).2.r.file.length ≤ st.r.file.length := by
  unfold read_extension
  split
  · rename_i hb
    exact buf_read_file _ _ _ _ _ _ hb
  · rename_i data r1 _ hb
    have h1 := buf_read_file _ _ _ _ _ _ hb
    dsimp only
    split
    · exact h1
    · split
      · rename_i b st1 heq
        have key : st1.r.file.length ≤ r1.file.length := by
          split at heq
          · split at heq <;>
            · cases heq <;> exact read_machine_int32_info_file _ _ _ _
          · split at heq
            · split at heq <;>
              · cases heq <;> exact read_machine_flt64_info_file _ _ _ _
            · split at heq
              · cases heq <;> exact le_refl _
              · split at heq
                · split at heq <;>
                  · rename_i hd
                    cases heq <;> exact read_display_params_file_eq _ _ _ _ _ _ _ _ hd
                · split at heq
                  · split at heq
                    · rename_i hb2
                      cases heq <;> exact buf_read_file _ _ _ _ _ _ hb2
                    · rename_i hb2
                      split at heq <;>
                      · cases heq <;> exact buf_read_file _ _ _ _ _ _ hb2
                  · cases heq <;> exact le_refl _
        exact le_trans key h1
      · rename_i skip st1 heq
        have key : st1.r.file.length ≤ r1.file.length := by
          split at heq
          · split at heq <;>
            · cases heq <;> exact read_machine_int32_info_file _ _ _ _
          · split at heq
            · split at heq <;>
              · cases heq <;> exact read_machine_flt64_info_file _ _ _ _
            · split at heq
              · cases heq <;> exact le_refl _
              · split at heq
                · split at heq <;>
                  · rename_i hd
                    cases heq <;> exact read_display_params_file_eq _ _ _ _ _ _ _ _ hd
                · split at heq
                  · split at heq
                    · rename_i hb2
                      cases heq <;> exact buf_read_file _ _ _ _ _ _ hb2
                    · rename_i hb2
                      split at heq <;>
                      · cases heq <;> exact buf_read_file _ _ _ _ _ _ hb2
                  · cases heq <;> exact le_refl _
        split
        · split
          · rename_i hb3
            exact le_trans (buf_read_file _ _ _ _ _ _ hb3) (le_trans key h1)
          · rename_i hb3
            exact le_trans (buf_read_file _ _ _ _ _ _ hb3) (le_trans key h1)
        · exact le_trans key h1

theorem read_record_file (big : Bool) (env : host) (st st1 : open_state)
    (h : read_record big env st = (loop_ctl.next, st1)) :
    st1.r.file.length + 4 ≤ st.r.file.length := by
  unfold read_record at h
  split at h
  · simp [open_lose] at h
  · rename_i bs r1 _ hb
    have h1 := (buf_read_eq_frame _ _ _ _ _ _ hb).2.2.2 (by simp)
    dsimp only at h
    split at h
    · split at h
      · simp [open_lose] at h
      · cases h
        have := read_value_labels_file big env r1 st.dict st.var_by_idx
        show (read_value_labels big env r1 st.dict st.var_by_idx).r.file.length + 4 ≤ _
        omega
    · split at h
      · simp [open_lose] at h
      · split at h
        · have := read_documents_file big r1 st.dict
          split at h
          · simp [open_lose] at h
          · cases h
            show (read_documents big r1 st.dict).2.1.file.length + 4 ≤ _
            omega
        · split at h
          · have := read_extension_file big env { st with r := r1 }
            rw [h] at this
            dsimp only at this
            omega
          · split at h
            · split at h
              · simp [open_lose] at h
              · cases h
            · cases h
              show r1.file.length + 4 ≤ _
              omega

theorem record_loop_total (big : Bool) (env : host) :
    ∀ (fuel : Nat) (st : open_state), st.r.file.length / 4 + 1 ≤ fuel →
      ∃ res, record_loop big env fuel st = some res
  | 0, _, h => by omega
  | fuel + 1, st, hf => by
    unfold record_loop
    rcases hs : read_record big env st with ⟨c, st2⟩
    cases c with
    | next =>
      have := read_record_file big env st st2 hs
      exact record_loop_total big env fuel st2 (by omega)
    | done => exact ⟨_, rfl⟩
    | error => exact ⟨_, rfl⟩

/-- C34: `sfm_open_reader` returns on every file, and it either returns NULL and leaves
`*dict` NULL, or returns a reader and leaves the dictionary that it filled in `*dict`.
It does the first whenever a step fails: the open of the handle or of the file,
`read_header`, `read_variables`, the check of the weighting variable, or a record behind
the variables; it does the second only when every step succeeded and the record loop was
left by the jump to `success`, with the reader and the dictionary of that state. -/
theorem sfm_open_reader_null_or_both (big : Bool) (env : host) (file : List Nat)
    (want_info : Bool) :
    ∃ res, sfm_open_reader big env file want_info = some res
      ∧ ((res.reader = none ∧ res.dict = none)
          ∨ ∃ (v : vars_result) (dict1 : Writer.dictionary) (m : List dict_message)
              (st : open_state),
              env.fh_open_ok = true ∧ env.fn_open_ok = true
              ∧ (read_header big (new_reader big file) want_info).ret ≠ 0
              ∧ read_variables big env (read_header big (new_reader big file) want_info).r
                  { dict_create with
                    label := (read_header big (new_reader big file) want_info).label }
                = some v
              ∧ v.ret ≠ 0
              ∧ handle_weighting v.r v.dict v.var_by_idx = (some dict1, m)
              ∧ record_loop big env (v.r.file.length / 4 + 1)
                  { r := v.r, dict := dict1, var_by_idx := v.var_by_idx,
                    msgs := (read_header big (new_reader big file) want_info).msgs.map
                      header_msg ++ v.msgs } = some (true, st)
              ∧ res.reader = some st.r ∧ res.dict = some st.dict)
      ∧ (env.fh_open_ok = false → res.reader = none ∧ res.dict = none)
      ∧ (env.fn_open_ok = false → res.reader = none ∧ res.dict = none)
      ∧ ((read_header big (new_reader big file) want_info).ret = 0 →
          res.reader = none ∧ res.dict = none)
      ∧ (∀ v, read_variables big env (read_header big (new_reader big file) want_info).r
                { dict_create with
                  label := (read_header big (new_reader big file) want_info).label }
              = some v →
          (v.ret = 0 → res.reader = none ∧ res.dict = none)
          ∧ (∀ m, handle_weighting v.r v.dict v.var_by_idx = (none, m) →
              res.reader = none ∧ res.dict = none)
          ∧ (∀ dict1 m st, handle_weighting v.r v.dict v.var_by_idx = (some dict1, m) →
              record_loop big env (v.r.file.length / 4 + 1)
                  { r := v.r, dict := dict1, var_by_idx := v.var_by_idx,
                    msgs := (read_header big (new_reader big file) want_info).msgs.map
                      header_msg ++ v.msgs } = some (false, st) →
              res.reader = none ∧ res.dict = none)) := by
  unfold sfm_open_reader
  by_cases hfh : env.fh_open_ok = false
  · rw [if_pos hfh]
    exact ⟨_, rfl, Or.inl ⟨rfl, rfl⟩, fun _ => ⟨rfl, rfl⟩, fun _ => ⟨rfl, rfl⟩,
      fun _ => ⟨rfl, rfl⟩,
      fun _ _ => ⟨fun _ => ⟨rfl, rfl⟩, fun _ _ => ⟨rfl, rfl⟩, fun _ _ _ _ _ => ⟨rfl, rfl⟩⟩⟩
  rw [if_neg hfh]
  by_cases hfn : env.fn_open_ok = false
  · rw [if_pos hfn]
    exact ⟨_, rfl, Or.inl ⟨rfl, rfl⟩, fun _ => ⟨rfl, rfl⟩, fun _ => ⟨rfl, rfl⟩,
      fun _ => ⟨rfl, rfl⟩,
      fun _ _ => ⟨fun _ => ⟨rfl, rfl⟩, fun _ _ => ⟨rfl, rfl⟩, fun _ _ _ _ _ => ⟨rfl, rfl⟩⟩⟩
  rw [if_neg hfn]
  dsimp only
  by_cases hh : (read_header big (new_reader big file) want_info).ret = 0
  · rw [if_pos hh]
    exact ⟨_, rfl, Or.inl ⟨rfl, rfl⟩, fun _ => ⟨rfl, rfl⟩, fun _ => ⟨rfl, rfl⟩,
      fun _ => ⟨rfl, rfl⟩,
      fun _ _ => ⟨fun _ => ⟨rfl, rfl⟩, fun _ _ => ⟨rfl, rfl⟩, fun _ _ _ _ _ => ⟨rfl, rfl⟩⟩⟩
  rw [if_neg hh]
  obtain ⟨v, hv⟩ := read_variables_total big env
    (read_header big (new_reader big file) want_info).r
    { dict_create with label := (read_header big (new_reader big file) want_info).label }
  rw [hv]
  dsimp only
  by_cases hvr : v.ret = 0
  · rw [if_pos hvr]
    exact ⟨_, rfl, Or.inl ⟨rfl, rfl⟩, fun _ => ⟨rfl, rfl⟩, fun _ => ⟨rfl, rfl⟩,
      fun _ => ⟨rfl, rfl⟩,
      fun _ _ => ⟨fun _ => ⟨rfl, rfl⟩, fun _ _ => ⟨rfl, rfl⟩, fun _ _ _ _ _ => ⟨rfl, rfl⟩⟩⟩
  rw [if_neg hvr]
  rcases hw : handle_weighting v.r v.dict v.var_by_idx with ⟨_ | dict1, m⟩
  · exact ⟨_, rfl, Or.inl ⟨rfl, rfl⟩, fun _ => ⟨rfl, rfl⟩, fun _ => ⟨rfl, rfl⟩,
      fun _ => ⟨rfl, rfl⟩,
      fun _ _ => ⟨fun _ => ⟨rfl, rfl⟩, fun _ _ => ⟨rfl, rfl⟩, fun _ _ _ _ _ => ⟨rfl, rfl⟩⟩⟩
  dsimp only
  obtain ⟨⟨ok, st⟩, hl⟩ := record_loop_total big env (v.r.file.length / 4 + 1)
    { r := v.r, dict := dict1, var_by_idx := v.var_by_idx,
      msgs := (read_header big (new_reader big file) want_info).msgs.map header_msg
        ++ v.msgs } (le_refl _)
  rw [hl]
  cases ok with
  | false =>
    exact ⟨_, rfl, Or.inl ⟨rfl, rfl⟩, fun _ => ⟨rfl, rfl⟩, fun _ => ⟨rfl, rfl⟩,
      fun _ => ⟨rfl, rfl⟩,
      fun _ _ => ⟨fun _ => ⟨rfl, rfl⟩, fun _ _ => ⟨rfl, rfl⟩, fun _ _ _ _ _ => ⟨rfl, rfl⟩⟩⟩
  | true =>
    refine ⟨_, rfl, Or.inr ⟨v, dict1, m, st, ?_, ?_, hh, rfl, hvr, hw, hl, rfl, rfl⟩,
      fun e => absurd e hfh, fun e => absurd e hfn, fun e => absurd e hh, fun v2 hv2 => ?_⟩
    · cases h : env.fh_open_ok
      · exact absurd h hfh
      · rfl
    · cases h : env.fn_open_ok
      · exact absurd h hfn
      · rfl
    · have e : v2 = v := (Option.some.inj hv2).symm
      subst e
      refine ⟨fun e => absurd e hvr, fun m2 hm2 => ?_, fun d2 m2 st2 hw2 hl2 => ?_⟩
      · rw [hw] at hm2
        simp at hm2
      · rw [hw] at hw2
        simp only [Prod.mk.injEq, Option.some.injEq] at hw2
        obtain ⟨e1, _⟩ := hw2
        subst e1
        rw [hl] at hl2
        simp at hl2

end

section

open Reader

theorem header_of_bytes_mk (a0 a1 a2 a3 a4 a5 a6 a7 a8 a9 a10 a11 : List Nat)
    (h0 : a0.length = 4) (h1 : a1.length = 60) (h2 : a2.length = 4) (h3 : a3.length = 4) (h4 : a4.length = 4) (h5 : a5.length = 4) (h6 : a6.length = 4) (h7 : a7.length = 8) (h8 : a8.length = 9) (h9 : a9.length = 8) (h10 : a10.length = 64) (h11 : a11.length = 3) :
    header_of_bytes (a0 ++ a1 ++ a2 ++ a3 ++ a4 ++ a5 ++ a6 ++ a7 ++ a8 ++ a9 ++ a10 ++ a11)
      = ⟨a0, a1, a2, a3, a4, a5, a6, a7, a8, a9, a10, a11⟩ := by
  have e0 : mem_read (a0 ++ a1 ++ a2 ++ a3 ++ a4 ++ a5 ++ a6 ++ a7 ++ a8 ++ a9 ++ a10 ++ a11) 0 4 = a0 := by
    have hA : (([] : List Nat)).length = 0 := by
      simp only [List.length_append, List.length_nil, h0]
    have e : a0 ++ a1 ++ a2 ++ a3 ++ a4 ++ a5 ++ a6 ++ a7 ++ a8 ++ a9 ++ a10 ++ a11 = (([] : List Nat)) ++ a0 ++ (a1 ++ a2 ++ a3 ++ a4 ++ a5 ++ a6 ++ a7 ++ a8 ++ a9 ++ a10 ++ a11) := by
      simp only [List.append_assoc, List.nil_append, List.append_nil]
    rw [e, ← hA]
    exact mem_read_mid _ _ _ 4 h0
  have e1 : mem_read (a0 ++ a1 ++ a2 ++ a3 ++ a4 ++ a5 ++ a6 ++ a7 ++ a8 ++ a9 ++ a10 ++ a11) 4 60 = a1 := by
    have hA : (a0).length = 4 := by
      simp only [List.length_append, List.length_nil, h0]
    have e : a0 ++ a1 ++ a2 ++ a3 ++ a4 ++ a5 ++ a6 ++ a7 ++ a8 ++ a9 ++ a10 ++ a11 = (a0) ++ a1 ++ (a2 ++ a3 ++ a4 ++ a5 ++ a6 ++ a7 ++ a8 ++ a9 ++ a10 ++ a11) := by
      simp only [List.append_assoc, List.nil_append, List.append_nil]
    rw [e, ← hA]
    exact mem_read_mid _ _ _ 60 h1
  have e2 : mem_read (a0 ++ a1 ++ a2 ++ a3 ++ a4 ++ a5 ++ a6 ++ a7 ++ a8 ++ a9 ++ a10 ++ a11) 64 4 = a2 := by
    have hA : (a0 ++ a1).length = 64 := by
      simp only [List.length_append, List.length_nil, h0, h1]
    have e : a0 ++ a1 ++ a2 ++ a3 ++ a4 ++ a5 ++ a6 ++ a7 ++ a8 ++ a9 ++ a10 ++ a11 = (a0 ++ a1) ++ a2 ++ (a3 ++ a4 ++ a5 ++ a6 ++ a7 ++ a8 ++ a9 ++ a10 ++ a11) := by
      simp only [List.append_assoc, List.nil_append, List.append_nil]
    rw [e, ← hA]
    exact mem_read_mid _ _ _ 4 h2
  have e3 : mem_read (a0 ++ a1 ++ a2 ++ a3 ++ a4 ++ a5 ++ a6 ++ a7 ++ a8 ++ a9 ++ a10 ++ a11) 68 4 = a3 := by
    have hA : (a0 ++ a1 ++ a2).length = 68 := by
      simp only [List.length_append, List.length_nil, h0, h1, h2]
    have e : a0 ++ a1 ++ a2 ++ a3 ++ a4 ++ a5 ++ a6 ++ a7 ++ a8 ++ a9 ++ a10 ++ a11 = (a0 ++ a1 ++ a2) ++ a3 ++ (a4 ++ a5 ++ a6 ++ a7 ++ a8 ++ a9 ++ a10 ++ a11) := by
      simp only [List.append_assoc, List.nil_append, List.append_nil]
    rw [e, ← hA]
    exact mem_read_mid _ _ _ 4 h3
  have e4 : mem_read (a0 ++ a1 ++ a2 ++ a3 ++ a4 ++ a5 ++ a6 ++ a7 ++ a8 ++ a9 ++ a10 ++ a11) 72 4 = a4 := by
    have hA : (a0 ++ a1 ++ a2 ++ a3).length = 72 := by
      simp only [List.length_append, List.length_nil, h0, h1, h2, h3]
    have e : a0 ++ a1 ++ a2 ++ a3 ++ a4 ++ a5 ++ a6 ++ a7 ++ a8 ++ a9 ++ a10 ++ a11 = (a0 ++ a1 ++ a2 ++ a3) ++ a4 ++ (a5 ++ a6 ++ a7 ++ a8 ++ a9 ++ a10 ++ a11) := by
      simp only [List.append_assoc, List.nil_append, List.append_nil]
    rw [e, ← hA]
    exact mem_read_mid _ _ _ 4 h4
  have e5 : mem_read (a0 ++ a1 ++ a2 ++ a3 ++ a4 ++ a5 ++ a6 ++ a7 ++ a8 ++ a9 ++ a10 ++ a11) 76 4 = a5 := by
    have hA : (a0 ++ a1 ++ a2 ++ a3 ++ a4).length = 76 := by
      simp only [List.length_append, List.length_nil, h0, h1, h2, h3, h4]
    have e : a0 ++ a1 ++ a2 ++ a3 ++ a4 ++ a5 ++ a6 ++ a7 ++ a8 ++ a9 ++ a10 ++ a11 = (a0 ++ a1 ++ a2 ++ a3 ++ a4) ++ a5 ++ (a6 ++ a7 ++ a8 ++ a9 ++ a10 ++ a11) := by
      simp only [List.append_assoc, List.nil_append, List.append_nil]
    rw [e, ← hA]
    exact mem_read_mid _ _ _ 4 h5
  have e6 : mem_read (a0 ++ a1 ++ a2 ++ a3 ++ a4 ++ a5 ++ a6 ++ a7 ++ a8 ++ a9 ++ a10 ++ a11) 80 4 = a6 := by
    have hA : (a0 ++ a1 ++ a2 ++ a3 ++ a4 ++ a5).length = 80 := by
      simp only [List.length_append, List.length_nil, h0, h1, h2, h3, h4, h5]
    have e : a0 ++ a1 ++ a2 ++ a3 ++ a4 ++ a5 ++ a6 ++ a7 ++ a8 ++ a9 ++ a10 ++ a11 = (a0 ++ a1 ++ a2 ++ a3 ++ a4 ++ a5) ++ a6 ++ (a7 ++ a8 ++ a9 ++ a10 ++ a11) := by
      simp only [List.append_assoc, List.nil_append, List.append_nil]
    rw [e, ← hA]
    exact mem_read_mid _ _ _ 4 h6
  have e7 : mem_read (a0 ++ a1 ++ a2 ++ a3 ++ a4 ++ a5 ++ a6 ++ a7 ++ a8 ++ a9 ++ a10 ++ a11) 84 8 = a7 := by
    have hA : (a0 ++ a1 ++ a2 ++ a3 ++ a4 ++ a5 ++ a6).length = 84 := by
      simp only [List.length_append, List.length_nil, h0, h1, h2, h3, h4, h5, h6]
    have e : a0 ++ a1 ++ a2 ++ a3 ++ a4 ++ a5 ++ a6 ++ a7 ++ a8 ++ a9 ++ a10 ++ a11 = (a0 ++ a1 ++ a2 ++ a3 ++ a4 ++ a5 ++ a6) ++ a7 ++ (a8 ++ a9 ++ a10 ++ a11) := by
      simp only [List.append_assoc, List.nil_append, List.append_nil]
    rw [e, ← hA]
    exact mem_read_mid _ _ _ 8 h7
  have e8 : mem_read (a0 ++ a1 ++ a2 ++ a3 ++ a4 ++ a5 ++ a6 ++ a7 ++ a8 ++ a9 ++ a10 ++ a11) 92 9 = a8 := by
    have hA : (a0 ++ a1 ++ a2 ++ a3 ++ a4 ++ a5 ++ a6 ++ a7).length = 92 := by
      simp only [List.length_append, List.length_nil, h0, h1, h2, h3, h4, h5, h6, h7]
    have e : a0 ++ a1 ++ a2 ++ a3 ++ a4 ++ a5 ++ a6 ++ a7 ++ a8 ++ a9 ++ a10 ++ a11 = (a0 ++ a1 ++ a2 ++ a3 ++ a4 ++ a5 ++ a6 ++ a7) ++ a8 ++ (a9 ++ a10 ++ a11) := by
      simp only [List.append_assoc, List.nil_append, List.append_nil]
    rw [e, ← hA]
    exact mem_read_mid _ _ _ 9 h8
  have e9 : mem_read (a0 ++ a1 ++ a2 ++ a3 ++ a4 ++ a5 ++ a6 ++ a7 ++ a8 ++ a9 ++ a10 ++ a11) 101 8 = a9 := by
    have hA : (a0 ++ a1 ++ a2 ++ a3 ++ a4 ++ a5 ++ a6 ++ a7 ++ a8).length = 101 := by
      simp only [List.length_append, List.length_nil, h0, h1, h2, h3, h4, h5, h6, h7, h8]
    have e : a0 ++ a1 ++ a2 ++ a3 ++ a4 ++ a5 ++ a6 ++ a7 ++ a8 ++ a9 ++ a10 ++ a11 = (a0 ++ a1 ++ a2 ++ a3 ++ a4 ++ a5 ++ a6 ++ a7 ++ a8) ++ a9 ++ (a10 ++ a11) := by
      simp only [List.append_assoc, List.nil_append, List.append_nil]
    rw [e, ← hA]
    exact mem_read_mid _ _ _ 8 h9
  have e10 : mem_read (a0 ++ a1 ++ a2 ++ a3 ++ a4 ++ a5 ++ a6 ++ a7 ++ a8 ++ a9 ++ a10 ++ a11) 109 64 = a10 := by
    have hA : (a0 ++ a1 ++ a2 ++ a3 ++ a4 ++ a5 ++ a6 ++ a7 ++ a8 ++ a9).length = 109 := by
      simp only [List.length_append, List.length_nil, h0, h1, h2, h3, h4, h5, h6, h7, h8, h9]
    have e : a0 ++ a1 ++ a2 ++ a3 ++ a4 ++ a5 ++ a6 ++ a7 ++ a8 ++ a9 ++ a10 ++ a11 = (a0 ++ a1 ++ a2 ++ a3 ++ a4 ++ a5 ++ a6 ++ a7 ++ a8 ++ a9) ++ a10 ++ (a11) := by
      simp only [List.append_assoc, List.nil_append, List.append_nil]
    rw [e, ← hA]
    exact mem_read_mid _ _ _ 64 h10
  have e11 : mem_read (a0 ++ a1 ++ a2 ++ a3 ++ a4 ++ a5 ++ a6 ++ a7 ++ a8 ++ a9 ++ a10 ++ a11) 173 3 = a11 := by
    have hA : (a0 ++ a1 ++ a2 ++ a3 ++ a4 ++ a5 ++ a6 ++ a7 ++ a8 ++ a9 ++ a10).length = 173 := by
      simp only [List.length_append, List.length_nil, h0, h1, h2, h3, h4, h5, h6, h7, h8, h9, h10]
    have e : a0 ++ a1 ++ a2 ++ a3 ++ a4 ++ a5 ++ a6 ++ a7 ++ a8 ++ a9 ++ a10 ++ a11 = (a0 ++ a1 ++ a2 ++ a3 ++ a4 ++ a5 ++ a6 ++ a7 ++ a8 ++ a9 ++ a10) ++ a11 ++ (([] : List Nat)) := by
      simp only [List.append_assoc, List.nil_append, List.append_nil]
    rw [e, ← hA]
    exact mem_read_mid _ _ _ 3 h11
  unfold header_of_bytes
  rw [e0, e1, e2, e3, e4, e5, e6, e7, e8, e9, e10, e11]

theorem header_of_bytes_make_header (big : Bool) (env : Writer.host) (c : Bool)
    (d : Writer.dictionary) (t : List Nat) :
    header_of_bytes (((Writer.make_header big env c d).bytes ++ t).take 176)
      = Writer.make_header big env c d := by
  have hlen := make_header_length big env c d
  rw [List.take_append_of_le_length (by omega), List.take_of_length_le (by omega)]
  have key : ∀ h : Writer.sysfile_header, h.rec_type.length = 4 → h.prod_name.length = 60 →
      h.layout_code.length = 4 → h.case_size.length = 4 → h.compress.length = 4 →
      h.weight_idx.length = 4 → h.case_cnt.length = 4 → h.bias.length = 8 →
      h.creation_date.length = 9 → h.creation_time.length = 8 → h.file_label.length = 64 →
      h.padding.length = 3 → header_of_bytes h.bytes = h := by
    intro h h0 h1 h2 h3 h4 h5 h6 h7 h8 h9 h10 h11
    cases h
    exact header_of_bytes_mk _ _ _ _ _ _ _ _ _ _ _ _ h0 h1 h2 h3 h4 h5 h6 h7 h8 h9 h10 h11
  apply key
  · rfl
  · unfold Writer.make_header
    simp only [Writer.append_string_max, List.length_append, List.length_take,
      List.length_replicate, List.length_cons, List.length_nil]
    omega
  · exact int32_bytes_length _ _
  · exact int32_bytes_length _ _
  · exact int32_bytes_length _ _
  · unfold Writer.make_header
    dsimp only
    split <;> exact int32_bytes_length _ _
  · exact int32_bytes_length _ _
  · exact mem_bytes_length _ _ _
  · exact (creation_stamp_length env.time).1
  · exact (creation_stamp_length env.time).2
  · unfold Writer.make_header Writer.buf_copy_str_rpad
    simp only [List.length_append, List.length_take, List.length_replicate]
    omega
  · rfl

theorem file_label_of_skip (s : List Nat) : ∀ (k n : Nat),
    (∀ i, n ≤ i → i < n + k → isspace (s.getD i 0) = true ∨ s.getD i 0 = 0) →
    file_label_of (n + k) s = file_label_of n s
  | 0, _, _ => rfl
  | k + 1, n, h => by
    have hk := h (n + k) (by omega) (by omega)
    show file_label_of (n + k + 1) s = file_label_of n s
    have hc : ¬ ((!isspace (s.getD (n + k) 0)) = true ∧ s.getD (n + k) 0 ≠ 0) := by
      intro hcon
      rcases hk with hk | hk
      · rw [hk] at hcon
        exact absurd hcon.1 (by decide)
      · exact hcon.2 hk
    have step : file_label_of (n + k + 1) s = file_label_of (n + k) s := by
      conv_lhs => unfold file_label_of
      rw [if_neg hc]
    rw [step]
    exact file_label_of_skip s k n (fun i h1 h2 => h i h1 (by omega))

theorem file_label_of_blank (s : List Nat) (n : Nat)
    (h : ∀ i, i < n → isspace (s.getD i 0) = true ∨ s.getD i 0 = 0) :
    file_label_of n s = none := by
  have := file_label_of_skip s n 0 (fun i _ h2 => h i (by omega))
  rw [Nat.zero_add] at this
  rw [this]
  rfl

theorem takeWhile_no_nul : ∀ (l : List Nat), (∀ c ∈ l, c ≠ 0) →
    l.takeWhile (fun c => decide (c ≠ 0)) = l
  | [], _ => rfl
  | c :: l, h => by
    have hc : c ≠ 0 := h c (List.mem_cons_self _ _)
    rw [List.takeWhile_cons, if_pos (by simpa using hc),
      takeWhile_no_nul l (fun x hx => h x (List.mem_cons_of_mem _ hx))]

theorem file_label_of_rpad (label : List Nat) (h1 : 1 ≤ label.length)
    (h2 : label.length ≤ 64) (hnul : ∀ c ∈ label, c ≠ 0)
    (hlast : isspace (label.getD (label.length - 1) 0) = false) :
    file_label_of 64 (Writer.buf_copy_str_rpad 64 label) = some label := by
  unfold Writer.buf_copy_str_rpad
  rw [List.take_of_length_le h2]
  have e : 64 = label.length + (64 - label.length) := by omega
  rw [e, file_label_of_skip _ (64 - label.length) label.length]
  · rw [← e]
    obtain ⟨n, hn⟩ : ∃ n, label.length = n + 1 := ⟨label.length - 1, by omega⟩
    rw [hn]
    unfold file_label_of
    have hget : (label ++ List.replicate (64 - (n + 1)) 32).getD n 0 = label.getD n 0 := by
      rw [List.getD_append _ _ _ _ (by omega)]
    have hn1 : label.length - 1 = n := by omega
    rw [hn1] at hlast
    have hne : label.getD n 0 ≠ 0 := by
      rw [List.getD_eq_getElem _ _ (by omega)]
      exact hnul _ (List.getElem_mem _)
    rw [hget, if_pos ⟨by rw [hlast]; rfl, hne⟩, ← hn, List.take_left]
    rw [takeWhile_no_nul label hnul]
  · intro i hi1 hi2
    left
    rw [← e, List.getD_append_right _ _ _ _ hi1,
      List.getD_eq_getElem _ _ (by rw [List.length_replicate]; omega), List.getElem_replicate]
    rfl

theorem file_label_of_rpad_blank (label : List Nat)
    (h : ∀ c ∈ label, isspace c = true) :
    file_label_of 64 (Writer.buf_copy_str_rpad 64 label) = none := by
  apply file_label_of_blank
  intro i hi
  left
  unfold Writer.buf_copy_str_rpad
  have hlen : (label.take 64 ++ List.replicate (64 - label.length) 32).length = 64 := by
    simp only [List.length_append, List.length_take, List.length_replicate]
    omega
  rw [List.getD_eq_getElem _ _ (by omega)]
  have hmem := List.getElem_mem (l := label.take 64 ++ List.replicate (64 - label.length) 32)
    (n := i) (by omega)
  rcases List.mem_append.mp hmem with hm | hm
  · exact h _ (List.mem_of_mem_take hm)
  · rw [List.eq_of_mem_replicate hm]
    rfl

theorem read_header_written (big : Bool) (env : Writer.host) (c : Bool)
    (d : Writer.dictionary) (t : List Nat) (r : sfm_reader) (want_info : Bool)
    (hr : r.file = (Writer.make_header big env c d).bytes ++ t) :
    (read_header big r want_info).ret = 1
    ∧ (read_header big r want_info).label
        = file_label_of 64 (Writer.buf_copy_str_rpad 64 (d.label.getD [])) := by
  have hlen := make_header_length big env c d
  have hnl : ¬ r.file.length < 176 := by
    rw [hr, List.length_append]
    omega
  have hb : header_of_bytes (r.file.take 176) = Writer.make_header big env c d := by
    rw [hr]
    exact header_of_bytes_make_header big env c d t
  have hrt : (Writer.make_header big env c d).rec_type = [36, 70, 76, 50] := rfl
  have hlc : int32_val big (Writer.make_header big env c d).layout_code = 2 :=
    int32_val_bytes big 2 (by norm_num) (by norm_num)
  have hcc : int32_val big (Writer.make_header big env c d).case_cnt = -1 :=
    int32_val_bytes big (-1) (by norm_num) (by norm_num)
  have hfl : (Writer.make_header big env c d).file_label
      = Writer.buf_copy_str_rpad 64 (d.label.getD []) := rfl
  have hmax2 : Int.tdiv INT_MAX 2 = 1073741823 := by decide
  unfold read_header
  simp only [hnl, if_false, hb, hrt, ne_eq, not_true_eq_false, hlc, decide_True, if_true,
    Bool.true_eq_false, false_and, hcc, hmax2, hfl]
  norm_num

/-- C35: `read_header` accepts the header that `write_header` built for the dictionary
`d`, and the string that it hands to `dict_set_label` is the label of `d` whenever that
label has 1 to 64 bytes of which the last is no white space (a C string holds no
null); for a dictionary without a label, and for a label that is empty or all white
space, `read_header` sets no label. -/
theorem file_label_round_trip (big : Bool) (env : Writer.host) (c : Bool)
    (d : Writer.dictionary) (t : List Nat) (r : sfm_reader) (want_info : Bool)
    (label : List Nat) (hr : r.file = (Writer.make_header big env c d).bytes ++ t) :
    (read_header big r want_info).ret = 1
    ∧ (Writer.make_header big env c d).file_label.length = 64
    ∧ (d.label = some label → 1 ≤ label.length → label.length ≤ 64 →
        (∀ x ∈ label, x ≠ 0) → isspace (label.getD (label.length - 1) 0) = false →
        (read_header big r want_info).label = some label)
    ∧ (d.label = none → (read_header big r want_info).label = none)
    ∧ (d.label = some label → (∀ x ∈ label, isspace x = true) →
        (read_header big r want_info).label = none) := by
  obtain ⟨h1, h2⟩ := read_header_written big env c d t r want_info hr
  refine ⟨h1, ?_, fun hd a b hn hl => ?_, fun hd => ?_, fun hd hb => ?_⟩
  · show (Writer.buf_copy_str_rpad 64 (d.label.getD [])).length = 64
    unfold Writer.buf_copy_str_rpad
    simp only [List.length_append, List.length_take, List.length_replicate]
    omega
  · rw [h2, hd]
    exact file_label_of_rpad label a b hn hl
  · rw [h2, hd]
    exact file_label_of_rpad_blank [] (fun x hx => absurd hx (List.not_mem_nil x))
  · rw [h2, hd]
    exact file_label_of_rpad_blank label hb

/-- The label `Hi` of a dictionary comes back from the header written for it, and a
dictionary without a label gets none. -/
theorem file_label_round_trip_witness :
    (read_header false (new_reader false ((Writer.make_header false example_host false
        { example_dict [] with label := some [72, 105] }).bytes ++ [])) true).label
      = some [72, 105]
    ∧ (read_header false (new_reader false ((Writer.make_header false example_host false
        (example_dict [])).bytes ++ [])) true).label = none :=
  ⟨(file_label_round_trip false example_host false
      { example_dict [] with label := some [72, 105] } [] _ true [72, 105] rfl).2.2.1 rfl
      (by decide) (by decide) (by decide) (by decide),
   (file_label_round_trip false example_host false (example_dict []) [] _ true [] rfl).2.2.2.1
      rfl⟩

end

section

open Writer

theorem buf_write_buffer (w : sfm_writer) (data : List Nat) :
    (buf_write w data).2.buf = w.buf ∧ (buf_write w data).2.end_ = w.end_
    ∧ (buf_write w data).2.ptr = w.ptr ∧ (buf_write w data).2.x = w.x
    ∧ (buf_write w data).2.y = w.y := by
  unfold buf_write
  cases w.io with
  | nil => dsimp only; split <;> exact ⟨rfl, rfl, rfl, rfl, rfl⟩
  | cons ok rest => dsimp only; split <;> exact ⟨rfl, rfl, rfl, rfl, rfl⟩

theorem ensure_buf_space_buffer (w : sfm_writer) (h : cbuf_inv w) :
    (ensure_buf_space w).2.buf.length = 8 * 128 ∧ (ensure_buf_space w).2.end_ = 128
    ∧ (ensure_buf_space w).2.ptr < 128
    ∧ (ensure_buf_space w).2.x ≤ (ensure_buf_space w).2.y
    ∧ (ensure_buf_space w).2.y ≤ (ensure_buf_space w).2.x + 8
    ∧ (ensure_buf_space w).2.y ≤ 8 * 128
    ∧ ((ensure_buf_space w).1 = false → (ensure_buf_space w).2.ptr = 0) := by
  obtain ⟨h3, h4, h2, h5, h6, h7, h1⟩ := h
  unfold ensure_buf_space
  by_cases hp : w.ptr ≥ w.end_
  · rw [if_pos hp]
    dsimp only
    obtain ⟨b1, b2, b3, b4, b5⟩ := buf_write_buffer
      { w with buf := memset w.buf w.x 0 (w.y - w.x), x := w.y, ptr := 0 }
      (mem_read (memset w.buf w.x 0 (w.y - w.x)) 0 (8 * 128))
    rw [b1, b2, b3, b4, b5]
    dsimp only
    rw [memset_length]
    exact ⟨h1, h2, by norm_num, le_refl _, by omega, h7, fun _ => rfl⟩
  · rw [if_neg hp]
    dsimp only
    exact ⟨h1, h2, by omega, h5, h6, h7, fun e => by simp at e⟩

theorem put_instruction_buffer (w : sfm_writer) (instruction : Nat) (h : cbuf_inv w)
    (hok : w.x ≥ w.y → (ensure_buf_space w).1 = true) :
    cbuf_inv (put_instruction w instruction) := by
  have he := ensure_buf_space_buffer w h
  obtain ⟨h3, h4, h2, h5, h6, h7, h1⟩ := h
  unfold put_instruction
  by_cases hx : w.x ≥ w.y
  · rw [if_pos hx]
    have hok1 := hok hx
    rcases hens : ensure_buf_space w with ⟨ok, w1⟩
    rw [hens] at he hok1
    dsimp only at he hok1
    subst hok1
    dsimp only
    obtain ⟨e1, e2, e3, _, _, _, _⟩ := he
    unfold cbuf_inv
    dsimp only
    rw [List.length_set]
    exact ⟨by omega, by omega, e2, by omega, by omega, by omega, e1⟩
  · rw [if_neg hx]
    unfold cbuf_inv
    dsimp only
    rw [List.length_set]
    exact ⟨h3, h4, h2, by omega, by omega, h7, h1⟩

theorem put_element_buffer (w : sfm_writer) (elem : List Nat) (h : cbuf_inv w)
    (hok : (ensure_buf_space w).1 = true) : cbuf_inv (put_element w elem) := by
  have he := ensure_buf_space_buffer w h
  unfold put_element
  rcases hens : ensure_buf_space w with ⟨ok, w1⟩
  rw [hens] at he hok
  dsimp only at he hok
  subst hok
  dsimp only
  obtain ⟨e1, e2, e3, e4, e5, e6, _⟩ := he
  unfold cbuf_inv
  dsimp only
  rw [memcpy_length]
  exact ⟨by omega, by omega, e2, e4, e5, e6, e1⟩

theorem put_failed_flush (w : sfm_writer) (instruction : Nat) (elem : List Nat)
    (h : cbuf_inv w) (hfail : (ensure_buf_space w).1 = false) :
    (put_element w elem).ptr = 0
    ∧ (w.x ≥ w.y → (put_instruction w instruction).ptr = 0) := by
  have he := (ensure_buf_space_buffer w h).2.2.2.2.2.2 hfail
  unfold put_element put_instruction
  rcases hens : ensure_buf_space w with ⟨ok, w1⟩
  rw [hens] at he hfail
  dsimp only at he hfail
  subst hfail
  dsimp only
  refine ⟨he, fun hx => ?_⟩
  rw [if_pos hx]
  exact he

/-- C37, with the condition that the claim lacks: the compressing writer that
`sfm_open_writer` returns has its buffer in order (`buf < ptr <= end = buf + 128`, the
rest `[x, y)` of the instruction octet in the buffer with `0 <= y - x <= 8`), and
`put_instruction` and `put_element` keep it so as long as the `fwrite` of a flush that
they need does not fail; a flush in `ensure_buf_space` writes the 128 elements of the
buffer, and the flush in `sfm_close_writer` writes the `ptr - buf` elements in use, at
least one.  After a flush that failed `ptr` is `buf`. -/
theorem compression_buffer_invariant :
    (∀ (big : Bool) (env : host) (io : List Bool) (d : dictionary)
        (opts : sfm_write_options) (w : sfm_writer),
        sfm_open_writer big env io d opts = some w → w.compress = true → cbuf_inv w)
    ∧ ∀ w : sfm_writer, cbuf_inv w →
        (∀ instruction, (w.x ≥ w.y → (ensure_buf_space w).1 = true) →
          cbuf_inv (put_instruction w instruction))
        ∧ (∀ elem, (ensure_buf_space w).1 = true → cbuf_inv (put_element w elem))
        ∧ (∀ instruction elem, (ensure_buf_space w).1 = false →
            (put_element w elem).ptr = 0
            ∧ (w.x ≥ w.y → (put_instruction w instruction).ptr = 0))
        ∧ (w.ptr < w.end_ → ensure_buf_space w = (true, w))
        ∧ (w.ptr ≥ w.end_ →
            ensure_buf_space w
              = buf_write { w with buf := memset w.buf w.x 0 (w.y - w.x), x := w.y, ptr := 0 }
                  (mem_read (memset w.buf w.x 0 (w.y - w.x)) 0 (8 * 128))
            ∧ (mem_read (memset w.buf w.x 0 (w.y - w.x)) 0 (8 * 128)).length = 8 * 128)
        ∧ (∀ (big seek_ok write_ok : Bool),
            sfm_close_writer big w seek_ok write_ok
              = (if seek_ok && write_ok then
                  file_write_at
                    (buf_write { w with buf := memset w.buf w.x 0 (w.y - w.x) }
                      (mem_read (memset w.buf w.x 0 (w.y - w.x)) 0 (8 * w.ptr))).2.file
                    OFFSET_CASE_CNT
                    (int32_bytes big
                      (buf_write { w with buf := memset w.buf w.x 0 (w.y - w.x) }
                        (mem_read (memset w.buf w.x 0 (w.y - w.x)) 0
                          (8 * w.ptr))).2.case_cnt)
                else
                  (buf_write { w with buf := memset w.buf w.x 0 (w.y - w.x) }
                    (mem_read (memset w.buf w.x 0 (w.y - w.x)) 0 (8 * w.ptr))).2.file)
            ∧ (mem_read (memset w.buf w.x 0 (w.y - w.x)) 0 (8 * w.ptr)).length = 8 * w.ptr
            ∧ 1 ≤ w.ptr) := by
  refine ⟨fun big env io d opts w ho hc => ?_, fun w h => ⟨fun c hok =>
    put_instruction_buffer w c h hok, fun e hok => put_element_buffer w e h hok,
    fun c e hf => put_failed_flush w c e h hf, fun hp => ?_, fun hp => ⟨?_, ?_⟩,
    fun big s wo => ⟨?_, ?_, h.1⟩⟩⟩
  · obtain ⟨_, _, _, _, _, _, hb⟩ := sfm_open_writer_spec big env io d opts w ho
    obtain ⟨b1, b2, b3, b4, b5⟩ := hb hc
    unfold cbuf_inv
    rw [b1, b2, b3, b4, b5, alloc_length]
    norm_num
  · unfold ensure_buf_space
    rw [if_neg (by omega)]
  · unfold ensure_buf_space
    rw [if_pos hp]
  · unfold mem_read
    rw [List.drop_zero, List.length_take, memset_length, h.2.2.2.2.2.2]
    norm_num
  · unfold sfm_close_writer
    have hb : w.buf ≠ [] ∧ w.ptr > 0 := by
      refine ⟨fun e => ?_, h.1⟩
      have := h.2.2.2.2.2.2
      rw [e] at this
      simp at this
    rw [if_pos hb]
  · obtain ⟨h3, h4, h2, _, _, _, h1⟩ := h
    unfold mem_read
    rw [List.drop_zero, List.length_take, memset_length, h1]
    omega

/-- The writer opened for a string variable is in order, and so it is after a call of
`put_instruction` and a call of `put_element`. -/
theorem compression_buffer_invariant_witness :
    (sfm_open_writer false example_host [] (example_dict [example_string 65 0])
        compress_opts).isSome = true
    ∧ ∀ w ∈ sfm_open_writer false example_host [] (example_dict [example_string 65 0])
        compress_opts,
      cbuf_inv w ∧ cbuf_inv (put_instruction w 253)
      ∧ cbuf_inv (put_element (put_instruction w 253) [65, 66, 67, 68, 69, 70, 71, 72]) :=
  ⟨by decide!, fun w hw =>
    have hc : w.compress = true :=
      (sfm_open_writer_spec false example_host [] _ compress_opts w hw).2.2.2.1
    have h0 := compression_buffer_invariant.1 false example_host [] _ compress_opts w hw hc
    have hx : ¬ w.x ≥ w.y := by
      obtain ⟨_, _, _, b4, b5⟩ :=
        (sfm_open_writer_spec false example_host [] _ compress_opts w hw).2.2.2.2.2.2 hc
      omega
    have h1 := (compression_buffer_invariant.2 w h0).1 253 (fun h => absurd h hx)
    have hp : (put_instruction w 253).ptr < (put_instruction w 253).end_ := by
      obtain ⟨_, b2, b3, b4, b5⟩ :=
        (sfm_open_writer_spec false example_host [] _ compress_opts w hw).2.2.2.2.2.2 hc
      unfold put_instruction
      rw [if_neg hx]
      show w.ptr < w.end_
      omega
    ⟨h0, h1, (compression_buffer_invariant.2 _ h1).2.1 _ (by
      rw [(compression_buffer_invariant.2 _ h1).2.2.2.1 hp])⟩⟩

/-- C37 as claimed fails when the `fwrite` of a flush fails: 113 cases of one string
variable fill the buffer of the opened writer (`ptr` is `end`, 128 elements behind
`buf`, and 7 bytes of the instruction octet are left); with the next `fwrite` failing,
`sfm_write_case` returns 1 for the 114th case and leaves `ptr` at `buf`, so that the
buffer is not in order and `sfm_close_writer` flushes nothing. -/
theorem failed_flush_leaves_ptr_at_buf :
    (sfm_open_writer false example_host [] (example_dict [example_string 65 0])
        compress_opts).map (fun w0 =>
      ((write_cases false w0
          (List.replicate 113 ([65, 66, 67, 68, 69, 70, 71, 72], []))).ptr,
        (write_cases false w0
          (List.replicate 113 ([65, 66, 67, 68, 69, 70, 71, 72], []))).end_,
        (write_cases false w0
          (List.replicate 113 ([65, 66, 67, 68, 69, 70, 71, 72], []))).x,
        (write_cases false w0
          (List.replicate 113 ([65, 66, 67, 68, 69, 70, 71, 72], []))).y))
      = some (128, 128, 1009, 1016)
    ∧ (sfm_open_writer false example_host [] (example_dict [example_string 65 0])
        compress_opts).map (fun w0 =>
      ((sfm_write_case false { write_cases false w0
              (List.replicate 113 ([65, 66, 67, 68, 69, 70, 71, 72], [])) with
            io := [false] } [65, 66, 67, 68, 69, 70, 71, 72] []).1,
        (sfm_write_case false { write_cases false w0
              (List.replicate 113 ([65, 66, 67, 68, 69, 70, 71, 72], [])) with
            io := [false] } [65, 66, 67, 68, 69, 70, 71, 72] []).2.ptr,
        decide (cbuf_inv (sfm_write_case false { write_cases false w0
              (List.replicate 113 ([65, 66, 67, 68, 69, 70, 71, 72], [])) with
            io := [false] } [65, 66, 67, 68, 69, 70, 71, 72] []).2)))
      = some (1, 0, false)
    ∧ (sfm_open_writer false example_host [] (example_dict [example_string 65 0])
        compress_opts).map (fun w0 =>
        decide (sfm_close_writer false (sfm_write_case false { write_cases false w0
              (List.replicate 113 ([65, 66, 67, 68, 69, 70, 71, 72], [])) with
            io := [false] } [65, 66, 67, 68, 69, 70, 71, 72] []).2 false false
          = (write_cases false w0
          (List.replicate 113 ([65, 66, 67, 68, 69, 70, 71, 72], []))).file))
      = some true :=
  ⟨by decide!, by decide!, by decide!⟩

end

section

open Reader

theorem memcpy_getElem?_outside (p : List Nat) (off : Nat) (src : List Nat) (k : Nat)
    (h : k < off ∨ off + src.length ≤ k) : (memcpy p off src)[k]? = p[k]? := by
  unfold memcpy
  by_cases hk : k < p.length
  · rcases h with h | h
    · rw [List.append_assoc, List.getElem?_append_left (by rw [List.length_take]; omega),
        List.getElem?_take_of_lt h]
    · have hl : (p.take off ++ src.take (p.length - off)).length = off + src.length := by
        rw [List.length_append, List.length_take, List.length_take]
        omega
      rw [List.getElem?_append_right (by omega), hl, List.getElem?_drop]
      congr 1
      omega
  · have hlen := memcpy_length p off src
    unfold memcpy at hlen
    rw [List.getElem?_eq_none (by omega), List.getElem?_eq_none (by omega)]

theorem mem_read_congr (p q : List Nat) (a n : Nat)
    (h : ∀ k, a ≤ k → k < a + n → p[k]? = q[k]?) : mem_read p a n = mem_read q a n := by
  unfold mem_read
  apply List.ext_getElem?
  intro k
  by_cases hk : k < n
  · rw [List.getElem?_take_of_lt hk, List.getElem?_take_of_lt hk, List.getElem?_drop,
      List.getElem?_drop]
    exact h _ (by omega) (by omega)
  · rw [List.getElem?_take_eq_none (by omega), List.getElem?_take_eq_none (by omega)]

theorem case_cell_memcpy_outside (c : List Nat) (off : Nat) (src : List Nat) (j : Nat)
    (h : off + src.length ≤ 8 * j ∨ 8 * j + 8 ≤ off) :
    case_cell (memcpy c off src) j = case_cell c j := by
  unfold case_cell
  apply mem_read_congr
  intro k h1 h2
  exact memcpy_getElem?_outside c off src k (by omega)

theorem case_cell_memcpy_same (c : List Nat) (src : List Nat) (j : Nat)
    (hs : src.length = 8) (hc : 8 * j + 8 ≤ c.length) :
    case_cell (memcpy c (8 * j) src) j = src := by
  unfold case_cell
  rw [memcpy_eq c (8 * j) src (by omega)]
  have hA : (c.take (8 * j)).length = 8 * j := by
    rw [List.length_take]
    omega
  have := mem_read_mid (c.take (8 * j)) src (c.drop (8 * j + src.length)) 8 hs
  rw [hA] at this
  exact this

theorem SYSMIS_length (big : Bool) : (SYSMIS big).length = 8 := mem_bytes_length big 8 _

theorem numeric_cell_length (big : Bool) (r : sfm_reader) (e : List Nat)
    (he : e.length = 8) : (numeric_cell big r e).length = 8 := by
  unfold numeric_cell
  dsimp only
  split_ifs <;> simp only [SYSMIS_length, bswap_flt64, List.length_reverse, he]

theorem numeric_cell_length_le (big : Bool) (r : sfm_reader) (e : List Nat)
    (he : e.length ≤ 8) : (numeric_cell big r e).length ≤ 8 := by
  unfold numeric_cell
  dsimp only
  split_ifs <;> simp only [SYSMIS_length, bswap_flt64, List.length_reverse, he, le_refl]

theorem next_element_len8 (r r1 : sfm_reader) (e : List Nat)
    (hb : ∀ x ∈ r.buf, x.length = 8) (h : next_element r = (some e, r1)) :
    e.length = 8 ∧ ∀ x ∈ r1.buf, x.length = 8 := by
  unfold next_element at h
  cases hbuf : r.buf with
  | cons e0 rest =>
    rw [hbuf] at h hb
    simp only [Prod.mk.injEq, Option.some.injEq] at h
    rw [← h.1, ← h.2]
    exact ⟨hb e0 (List.mem_cons_self _ _), fun x hx => hb x (List.mem_cons_of_mem _ hx)⟩
  | nil =>
    rw [hbuf] at h
    unfold buffer_input at h
    have hall := elements_len8 (min 128 (r.file.length / 8)) r.file (by omega)
    cases hm : min 128 (r.file.length / 8) with
    | zero =>
      simp only [hm] at h
      simp at h
    | succ a =>
      rw [hm] at hall
      simp only [hm] at h
      simp only [Prod.mk.injEq, Option.some.injEq] at h
      rw [← h.1, ← h.2]
      dsimp only
      cases hel : elements (a + 1) r.file with
      | nil =>
        have := elements_length (a + 1) r.file
        rw [hel] at this
        simp at this
      | cons x xs =>
        rw [hel] at hall
        exact ⟨hall x (List.mem_cons_self _ _), fun y hy => hall y (List.mem_cons_of_mem _ hy)⟩

theorem biased_value_length (big : Bool) (r : sfm_reader) (k : Nat) :
    (biased_value big r k).length = 8 := by
  unfold biased_value
  dsimp only
  split
  · unfold bswap_flt64
    rw [List.length_reverse]
    exact mem_bytes_length big 8 _
  · exact mem_bytes_length big 8 _

theorem sysmis_value_length (r : sfm_reader) (hs : r.sysmis.length = 8) :
    (sysmis_value r).length = 8 := by
  unfold sysmis_value
  split
  · unfold bswap_flt64
    rw [List.length_reverse]
    exact hs
  · exact hs

theorem read_compressed_loop_len8 (big : Bool) :
    ∀ (fuel : Nat) (r : sfm_reader) (p : Nat) (out : List (List Nat)),
      (∀ x ∈ r.buf, x.length = 8) → r.sysmis.length = 8 → (∀ e ∈ out, e.length = 8) →
      ∀ e ∈ (read_compressed_loop big fuel r p out).out, e.length = 8
  | 0, r, p, out, _, _, ho => ho
  | fuel + 1, r, p, out, hb, hs, ho => by
    have happ : ∀ e : List Nat, e.length = 8 → ∀ x ∈ out ++ [e], x.length = 8 := by
      intro e he x hx
      rcases List.mem_append.mp hx with h | h
      · exact ho x h
      · rw [List.mem_singleton.mp h]
        exact he
    unfold read_compressed_loop
    split
    · dsimp only
      split
      · exact read_compressed_loop_len8 big fuel r (p + 1) out hb hs ho
      · split
        · exact ho
        · split
          · split
            · exact ho
            · rename_i e r1 hne
              obtain ⟨he, hb1⟩ := next_element_len8 r r1 e hb hne
              have hf := next_element_frame r r1 _ hne
              have hs1 : r1.sysmis.length = 8 := by rw [hf]; exact hs
              split
              · exact happ e he
              · exact read_compressed_loop_len8 big fuel r1 (p + 1) _ hb1 hs1 (happ e he)
          · have he : (if r.x.getD p 0 = 254 then List.replicate 8 32
                else if r.x.getD p 0 = 255 then sysmis_value r
                else biased_value big r (r.x.getD p 0)).length = 8 := by
              split
              · simp
              · split
                · exact sysmis_value_length r hs
                · exact biased_value_length big r _
            have key : ∀ E : List Nat, E.length = 8 →
                ∀ e ∈ (if r.value_cnt ≤ ((out ++ [E]).length : Int) then
                    (⟨1, { r with y := p + 1 }, out ++ [E], [], stop.success⟩ : read_result)
                  else read_compressed_loop big fuel r (p + 1) (out ++ [E])).out,
                  e.length = 8 := by
              intro E hE
              split
              · exact happ E hE
              · exact read_compressed_loop_len8 big fuel r (p + 1) _ hb hs (happ E hE)
            exact key _ he
    · split
      · exact ho
      · rename_i e r1 hne
        obtain ⟨he, hb1⟩ := next_element_len8 r r1 e hb hne
        have hf := next_element_frame r r1 _ hne
        have hs1 : r1.sysmis.length = 8 := by rw [hf]; exact hs
        exact read_compressed_loop_len8 big fuel { r1 with x := e } 0 out hb1 hs1 ho

theorem read_compressed_data_len8 (big : Bool) (r : sfm_reader)
    (hb : ∀ x ∈ r.buf, x.length = 8) (hs : r.sysmis.length = 8) :
    ∀ e ∈ (read_compressed_data big r).out, e.length = 8 :=
  read_compressed_loop_len8 big _ r r.y [] hb hs (fun _ h => absurd h (List.not_mem_nil _))

theorem copy_bounce_length (big : Bool) (r : sfm_reader) :
    ∀ (vs : List sfm_var) (out : List (List Nat)) (c : List Nat),
      (copy_bounce big r vs out c).length = c.length
  | [], _, _ => rfl
  | v :: vs, out, c => by
    unfold copy_bounce
    split
    · rw [copy_bounce_length big r vs, memcpy_length]
    · split
      · rw [copy_bounce_length big r vs, memcpy_length]
      · exact copy_bounce_length big r vs _ _

theorem copy_bounce_cons (big : Bool) (r : sfm_reader) (v : sfm_var) (vs : List sfm_var)
    (out : List (List Nat)) (c : List Nat) :
    copy_bounce big r (v :: vs) out c
      = if v.width = 0 then
          copy_bounce big r vs out.tail
            (memcpy c (8 * v.fv) (numeric_cell big r (out.headD [])))
        else if v.width ≠ -1 then
          copy_bounce big r vs (out.drop (Writer.DIV_RND_UP v.width 8).toNat)
            (memcpy c (8 * v.fv) (out.flatten.take v.width.toNat))
        else copy_bounce big r vs out c := by
  rw [copy_bounce]

theorem copy_bounce_append (big : Bool) (r : sfm_reader) :
    ∀ (pre vs : List sfm_var) (out : List (List Nat)) (c : List Nat),
      copy_bounce big r (pre ++ vs) out c
        = copy_bounce big r vs (out.drop (bounce_index pre)) (copy_bounce big r pre out c)
  | [], vs, out, c => by simp [bounce_index, copy_bounce]
  | v :: pre, vs, out, c => by
    rw [List.cons_append, copy_bounce_cons, copy_bounce_cons big r v pre]
    by_cases h0 : v.width = 0
    · have hb : bounce_index (v :: pre) = 1 + bounce_index pre := by
        simp only [bounce_index, if_pos h0]
      have ht : out.tail.drop (bounce_index pre) = out.drop (1 + bounce_index pre) := by
        cases out with
        | nil => simp
        | cons e es => rw [List.tail_cons, Nat.add_comm, List.drop_succ_cons]
      rw [if_pos h0, if_pos h0, copy_bounce_append big r pre vs, hb, ht]
    · rw [if_neg h0, if_neg h0]
      by_cases h1 : v.width ≠ -1
      · have hb : bounce_index (v :: pre)
            = (Writer.DIV_RND_UP v.width 8).toNat + bounce_index pre := by
          simp only [bounce_index, if_neg h0, if_pos h1]
        rw [if_pos h1, if_pos h1, copy_bounce_append big r pre vs, hb, List.drop_drop,
          Nat.add_comm]
      · have hb : bounce_index (v :: pre) = bounce_index pre := by
          simp only [bounce_index, if_neg h0, if_neg h1, Nat.zero_add]
        rw [if_neg h1, if_neg h1, copy_bounce_append big r pre vs, hb]

theorem copy_bounce_outside (big : Bool) (r : sfm_reader) (j : Nat) :
    ∀ (vs : List sfm_var) (out : List (List Nat)) (c : List Nat),
      (∀ e ∈ out, e.length = 8) → (∀ x ∈ vs, writes_outside x j) →
      case_cell (copy_bounce big r vs out c) j = case_cell c j
  | [], _, _, _, _ => rfl
  | v :: vs, out, c, ho, hv => by
    have hv0 := hv v (List.mem_cons_self _ _)
    have hvs : ∀ x ∈ vs, writes_outside x j := fun x hx => hv x (List.mem_cons_of_mem _ hx)
    rw [copy_bounce_cons]
    by_cases h0 : v.width = 0
    · rw [if_pos h0]
      have hfv : v.fv ≠ j := by
        rcases hv0 with h | h | h
        · rw [h0] at h
          exact absurd h (by decide)
        · exact h.2
        · exact absurd h0 h.1
      have hlen : (numeric_cell big r (out.headD [])).length ≤ 8 := by
        apply numeric_cell_length_le
        cases out with
        | nil => simp
        | cons e _ => exact le_of_eq (ho e (List.mem_cons_self _ _))
      rw [copy_bounce_outside big r j vs _ _
        (fun e he => ho e (List.mem_of_mem_tail he)) hvs]
      exact case_cell_memcpy_outside c _ _ j (by omega)
    · rw [if_neg h0]
      by_cases h1 : v.width ≠ -1
      · rw [if_pos h1]
        have hr : 8 * v.fv + v.width.toNat ≤ 8 * j ∨ 8 * j + 8 ≤ 8 * v.fv := by
          rcases hv0 with h | h | h
          · exact absurd h h1
          · exact absurd h.1 h0
          · exact h.2
        rw [copy_bounce_outside big r j vs _ _
          (fun e he => ho e (List.mem_of_mem_drop he)) hvs]
        apply case_cell_memcpy_outside
        have : (out.flatten.take v.width.toNat).length ≤ v.width.toNat := by
          rw [List.length_take]
          omega
        omega
      · rw [if_neg h1]
        exact copy_bounce_outside big r j vs out c ho hvs

theorem sfm_var_eta (v : sfm_var) : (⟨v.width, v.fv⟩ : sfm_var) = v := by
  cases v
  rfl

theorem copy_bounce_numeric_cell (big : Bool) (r : sfm_reader) (pre post : List sfm_var)
    (v : sfm_var) (out : List (List Nat)) (c : List Nat) (hw : v.width = 0)
    (ho : ∀ e ∈ out, e.length = 8) (hk : bounce_index pre < out.length)
    (hc : 8 * v.fv + 8 ≤ c.length) (hpost : ∀ x ∈ post, writes_outside x v.fv) :
    case_cell (copy_bounce big r (pre ++ v :: post) out c) v.fv
      = numeric_cell big r (out.getD (bounce_index pre) []) := by
  rw [copy_bounce_append]
  have hd : out.drop (bounce_index pre)
      = out.getD (bounce_index pre) [] :: out.drop (bounce_index pre + 1) := by
    rw [List.getD_eq_getElem _ _ hk]
    exact List.drop_eq_getElem_cons hk
  rw [hd, copy_bounce_cons, if_pos hw, List.headD_cons, List.tail_cons]
  have he : (out.getD (bounce_index pre) []).length = 8 := by
    rw [List.getD_eq_getElem _ _ hk]
    exact ho _ (List.getElem_mem _)
  rw [copy_bounce_outside big r v.fv post _ _ (by
    intro e hm
    exact ho e (List.mem_of_mem_drop hm)) hpost]
  exact case_cell_memcpy_same _ _ _ (numeric_cell_length big r _ he)
    (by rw [copy_bounce_length]; exact hc)

theorem case_cell_length_le (c : List Nat) (j : Nat) : (case_cell c j).length ≤ 8 := by
  unfold case_cell mem_read
  rw [List.length_take]
  omega

theorem case_cell_length (c : List Nat) (j : Nat) (h : 8 * j + 8 ≤ c.length) :
    (case_cell c j).length = 8 := by
  unfold case_cell mem_read
  rw [List.length_take, List.length_drop]
  omega

theorem fix_endian_length : ∀ (vs : List sfm_var) (c : List Nat),
    (fix_endian vs c).length = c.length
  | [], _ => rfl
  | v :: vs, c => by
    rw [fix_endian, fix_endian_length vs]
    split
    · exact memcpy_length _ _ _
    · rfl

theorem fix_endian_append : ∀ (pre vs : List sfm_var) (c : List Nat),
    fix_endian (pre ++ vs) c = fix_endian vs (fix_endian pre c)
  | [], _, _ => rfl
  | v :: pre, vs, c => by
    rw [List.cons_append, fix_endian, fix_endian_append pre vs, fix_endian]

theorem fix_endian_outside (j : Nat) : ∀ (vs : List sfm_var) (c : List Nat),
    (∀ x ∈ vs, x.width = 0 → x.fv ≠ j) → case_cell (fix_endian vs c) j = case_cell c j
  | [], _, _ => rfl
  | v :: vs, c, h => by
    rw [fix_endian, fix_endian_outside j vs _
      (fun x hx => h x (List.mem_cons_of_mem _ hx))]
    split
    · rename_i h0
      have hfv := h v (List.mem_cons_self _ _) h0
      apply case_cell_memcpy_outside
      have : (bswap_flt64 (case_cell c v.fv)).length ≤ 8 := by
        unfold bswap_flt64
        rw [List.length_reverse]
        exact case_cell_length_le c v.fv
      omega
    · rfl

theorem fix_endian_cell (pre post : List sfm_var) (v : sfm_var) (c : List Nat)
    (hw : v.width = 0) (hc : 8 * v.fv + 8 ≤ c.length)
    (hpre : ∀ x ∈ pre, x.width = 0 → x.fv ≠ v.fv)
    (hpost : ∀ x ∈ post, x.width = 0 → x.fv ≠ v.fv) :
    case_cell (fix_endian (pre ++ v :: post) c) v.fv = bswap_flt64 (case_cell c v.fv) := by
  rw [fix_endian_append, fix_endian, if_pos hw, fix_endian_outside v.fv post _ hpost]
  have hl : 8 * v.fv + 8 ≤ (fix_endian pre c).length := by
    rw [fix_endian_length]
    exact hc
  rw [case_cell_memcpy_same _ _ _ (by
    unfold bswap_flt64
    rw [List.length_reverse]
    exact case_cell_length _ _ hl) hl, fix_endian_outside v.fv pre c hpre]

theorem fix_sysmis_length (big : Bool) (s : List Nat) :
    ∀ (vs : List sfm_var) (i : Nat) (c : List Nat),
      (fix_sysmis big s vs i c).length = c.length
  | [], _, _ => rfl
  | v :: vs, i, c => by
    rw [fix_sysmis, fix_sysmis_length big s vs]
    split
    · exact memcpy_length _ _ _
    · rfl

theorem fix_sysmis_append (big : Bool) (s : List Nat) :
    ∀ (pre vs : List sfm_var) (i : Nat) (c : List Nat),
      fix_sysmis big s (pre ++ vs) i c
        = fix_sysmis big s vs (i + pre.length) (fix_sysmis big s pre i c)
  | [], _, _, _ => rfl
  | v :: pre, vs, i, c => by
    rw [List.cons_append, fix_sysmis, fix_sysmis_append big s pre vs, fix_sysmis,
      List.length_cons]
    congr 1
    omega

theorem fix_sysmis_outside (big : Bool) (s : List Nat) (j : Nat) :
    ∀ (vs : List sfm_var) (i : Nat) (c : List Nat),
      (∀ x ∈ vs, x.width = 0 → x.fv ≠ j) →
      case_cell (fix_sysmis big s vs i c) j = case_cell c j
  | [], _, _, _ => rfl
  | v :: vs, i, c, h => by
    rw [fix_sysmis, fix_sysmis_outside big s j vs _ _
      (fun x hx => h x (List.mem_cons_of_mem _ hx))]
    split
    · rename_i h0
      have hfv := h v (List.mem_cons_self _ _) h0.1
      apply case_cell_memcpy_outside
      have := SYSMIS_length big
      omega
    · rfl

theorem fix_sysmis_cell (big : Bool) (s : List Nat) (pre post : List sfm_var)
    (v : sfm_var) (c : List Nat) (hw : v.width = 0) (hfv : v.fv = pre.length)
    (hc : 8 * v.fv + 8 ≤ c.length)
    (hpre : ∀ x ∈ pre, x.width = 0 → x.fv ≠ v.fv)
    (hpost : ∀ x ∈ post, x.width = 0 → x.fv ≠ v.fv) :
    case_cell (fix_sysmis big s (pre ++ v :: post) 0 c) v.fv
      = if flt_eq (flt64_val big (case_cell c v.fv)) (flt64_val big s) = true
          then SYSMIS big else case_cell c v.fv := by
  rw [fix_sysmis_append, fix_sysmis, fix_sysmis_outside big s v.fv post _ _ hpost,
    Nat.zero_add, ← hfv]
  have hl : 8 * v.fv + 8 ≤ (fix_sysmis big s pre 0 c).length := by
    rw [fix_sysmis_length]
    exact hc
  have hcell := fix_sysmis_outside big s v.fv pre 0 c hpre
  rw [hcell]
  by_cases he : flt_eq (flt64_val big (case_cell c v.fv)) (flt64_val big s) = true
  · rw [if_pos ⟨hw, he⟩, if_pos he]
    exact case_cell_memcpy_same _ _ _ (SYSMIS_length big) hl
  · rw [if_neg (fun h => he h.2), if_neg he]
    exact hcell

theorem flt_eq_trans (a b c : flt_class) (h1 : flt_eq a b = true) (h2 : flt_eq b c = true) :
    flt_eq a c = true := by
  cases a <;> cases b <;> cases c <;> simp_all [flt_eq]

theorem SYSMIS_eq_self (big : Bool) :
    flt_eq (flt64_val big (SYSMIS big)) (flt64_val big (SYSMIS big)) = true := by
  cases big <;> decide!

theorem numeric_of_writes_outside (x : sfm_var) (j : Nat) (h : writes_outside x j)
    (hw : x.width = 0) : x.fv ≠ j := by
  rcases h with h | h | h
  · rw [hw] at h
    exact absurd h (by decide)
  · exact h.2
  · exact absurd hw h.1

theorem case_cell_read (c file : List Nat) (n j : Nat) (hj : j < n) (hc : 8 * n ≤ c.length)
    (hf : 8 * n ≤ file.length) :
    case_cell (memcpy c 0 (file.take (8 * n))) j = mem_read file (8 * j) 8 := by
  have hl : (file.take (8 * n)).length = 8 * n := by
    rw [List.length_take]
    omega
  unfold case_cell
  apply mem_read_congr
  intro k h1 h2
  rw [memcpy_eq c 0 _ (by omega), List.take_zero, List.nil_append,
    List.getElem?_append_left (by omega), List.getElem?_take_of_lt (by omega)]

/-- C31: for a reader with the file SYSMIS `r->sysmis` and a numeric variable of
`r->vars` that lies at its own index of the case, other entries storing elsewhere,
`sfm_read_case` succeeds and delivers for the variable: a value that compares equal to
the host SYSMIS when its segment, byte-reversed when `reverse_endian` is set, compares
equal (`==` on doubles) to the file SYSMIS, and otherwise the segment, byte-reversed
when `reverse_endian` is set, unchanged.  The segment is the variable's 8 bytes of the
case in the file when the file is not compressed, and its element of the output of
`read_compressed_data` when it is. -/
theorem sfm_read_case_sysmis (big : Bool) (r : sfm_reader) (c : List Nat)
    (pre post : List sfm_var) (v : sfm_var) (n : Nat)
    (hn : r.value_cnt = (n : Int)) (hvars : r.vars.take n = pre ++ v :: post)
    (hw : v.width = 0) (hfv : v.fv = pre.length)
    (hpre : ∀ x ∈ pre, x.width = 0 → x.fv ≠ v.fv)
    (hpost : ∀ x ∈ post, writes_outside x v.fv)
    (hc : 8 * n ≤ c.length) (h64 : c.length < 2 ^ 64) (hs : r.sysmis.length = 8) :
    (r.compressed = 0 → 8 * n ≤ r.file.length →
      (sfm_read_case big r c).ret = 1
      ∧ (flt_eq (flt64_val big (fix_flt64 r (mem_read r.file (8 * v.fv) 8)))
            (flt64_val big r.sysmis) = true →
          flt_eq (flt64_val big (case_cell (sfm_read_case big r c).c v.fv))
            (flt64_val big (SYSMIS big)) = true)
      ∧ (flt_eq (flt64_val big (fix_flt64 r (mem_read r.file (8 * v.fv) 8)))
            (flt64_val big r.sysmis) = false →
          case_cell (sfm_read_case big r c).c v.fv
            = fix_flt64 r (mem_read r.file (8 * v.fv) 8)))
    ∧ (r.compressed ≠ 0 → (∀ x ∈ r.buf, x.length = 8) →
        (read_compressed_data big r).ret ≠ 0 →
        bounce_index pre < (read_compressed_data big r).out.length →
      (sfm_read_case big r c).ret = 1
      ∧ (flt_eq (flt64_val big (fix_flt64 r
              ((read_compressed_data big r).out.getD (bounce_index pre) [])))
            (flt64_val big r.sysmis) = true →
          case_cell (sfm_read_case big r c).c v.fv = SYSMIS big
          ∧ flt_eq (flt64_val big (case_cell (sfm_read_case big r c).c v.fv))
            (flt64_val big (SYSMIS big)) = true)
      ∧ (flt_eq (flt64_val big (fix_flt64 r
              ((read_compressed_data big r).out.getD (bounce_index pre) [])))
            (flt64_val big r.sysmis) = false →
          case_cell (sfm_read_case big r c).c v.fv
            = fix_flt64 r ((read_compressed_data big r).out.getD (bounce_index pre) []))) := by
  have hlen : pre.length < n := by
    have := congrArg List.length hvars
    rw [List.length_take, List.length_append, List.length_cons] at this
    omega
  have hcell : 8 * v.fv + 8 ≤ c.length := by omega
  have hnum : ∀ x ∈ post, x.width = 0 → x.fv ≠ v.fv :=
    fun x hx h0 => numeric_of_writes_outside x v.fv (hpost x hx) h0
  have hnat : r.value_cnt.toNat = n := by
    rw [hn]
    exact Int.toNat_coe_nat n
  constructor
  · intro hcomp hfile
    have hbytes : ((8 * r.value_cnt) % ((2 ^ 64 : Nat) : Int)).toNat = 8 * n := by
      rw [hn]
      have h0 : (8 * (n : Int)) % ((2 ^ 64 : Nat) : Int) = 8 * (n : Int) :=
        Int.emod_eq_of_lt (by omega) (by push_cast; omega)
      rw [h0]
      omega
    have hread : fread_ok r (8 * n)
        = (true, r.file.take (8 * n), { r with file := r.file.drop (8 * n) }, []) := by
      unfold fread_ok
      rw [if_pos hfile]
    unfold sfm_read_case
    rw [if_pos hcomp, hbytes, hread]
    dsimp only
    rw [hnat, hvars]
    have h1 := case_cell_read c r.file n v.fv (by omega) hc hfile
    have hl1 : 8 * v.fv + 8 ≤ (memcpy c 0 (r.file.take (8 * n))).length := by
      rw [memcpy_length]
      exact hcell
    have h2 : case_cell (if r.reverse_endian = true
          then fix_endian (pre ++ v :: post) (memcpy c 0 (r.file.take (8 * n)))
          else memcpy c 0 (r.file.take (8 * n))) v.fv
        = fix_flt64 r (mem_read r.file (8 * v.fv) 8) := by
      unfold fix_flt64
      split
      · rw [fix_endian_cell pre post v _ hw hl1 hpre hnum, h1]
      · exact h1
    have hl2 : 8 * v.fv + 8 ≤ (if r.reverse_endian = true
          then fix_endian (pre ++ v :: post) (memcpy c 0 (r.file.take (8 * n)))
          else memcpy c 0 (r.file.take (8 * n))).length := by
      split
      · rw [fix_endian_length]
        exact hl1
      · exact hl1
    refine ⟨rfl, fun he => ?_, fun he => ?_⟩
    · by_cases hfix : flt_eq (flt64_val big r.sysmis) (flt64_val big (SYSMIS big)) = false
      · rw [if_pos hfix, fix_sysmis_cell big r.sysmis pre post v _ hw hfv hl2 hpre hnum, h2,
          if_pos he]
        exact SYSMIS_eq_self big
      · rw [if_neg hfix, h2]
        have hss : flt_eq (flt64_val big r.sysmis) (flt64_val big (SYSMIS big)) = true := by
          cases h : flt_eq (flt64_val big r.sysmis) (flt64_val big (SYSMIS big))
          · exact absurd h hfix
          · rfl
        exact flt_eq_trans _ _ _ he hss
    · have hne : ¬ flt_eq (flt64_val big (fix_flt64 r (mem_read r.file (8 * v.fv) 8)))
          (flt64_val big r.sysmis) = true := by
        rw [he]
        decide
      by_cases hfix : flt_eq (flt64_val big r.sysmis) (flt64_val big (SYSMIS big)) = false
      · rw [if_pos hfix, fix_sysmis_cell big r.sysmis pre post v _ hw hfv hl2 hpre hnum, h2,
          if_neg hne]
      · rw [if_neg hfix, h2]
  · intro hcomp hbuf hret hk
    have hout := read_compressed_data_len8 big r hbuf hs
    have hcb := copy_bounce_numeric_cell big r pre post v (read_compressed_data big r).out c
      hw hout hk hcell hpost
    unfold sfm_read_case
    rw [if_neg hcomp]
    dsimp only
    rw [if_neg hret, hnat, hvars]
    dsimp only
    rw [hcb]
    unfold numeric_cell fix_flt64
    dsimp only
    refine ⟨rfl, fun he => ?_, fun he => ?_⟩
    · unfold fix_flt64 at he
      rw [if_pos he]
      exact ⟨rfl, SYSMIS_eq_self big⟩
    · unfold fix_flt64 at he
      rw [he]
      simp

/-- A little-endian host reads a case of a big-endian file whose SYSMIS is 1.0, for a
numeric variable, a string of 12 bytes and a second numeric variable: the first value
1.0 comes out as the host SYSMIS and the last value 2.0 as 2.0 in host order, from
the plain case as from the compressed one (a literal, two strings of blanks and the
instruction 102). -/
theorem sfm_read_case_sysmis_witness :
    ((sfm_read_case false
        (mixed_case_reader false true 0 [0, 0, 0, 0, 0, 0, 240, 63]
          ([63, 240, 0, 0, 0, 0, 0, 0] ++ [65, 66, 67, 68, 69, 70, 71, 72]
            ++ [73, 74, 75, 76, 32, 32, 32, 32] ++ [64, 0, 0, 0, 0, 0, 0, 0]))
        (List.replicate 32 7)).ret = 1
      ∧ flt_eq (flt64_val false (case_cell (sfm_read_case false
        (mixed_case_reader false true 0 [0, 0, 0, 0, 0, 0, 240, 63]
          ([63, 240, 0, 0, 0, 0, 0, 0] ++ [65, 66, 67, 68, 69, 70, 71, 72]
            ++ [73, 74, 75, 76, 32, 32, 32, 32] ++ [64, 0, 0, 0, 0, 0, 0, 0]))
        (List.replicate 32 7)).c 0))
          (flt64_val false (SYSMIS false)) = true
      ∧ case_cell (sfm_read_case false
        (mixed_case_reader false true 0 [0, 0, 0, 0, 0, 0, 240, 63]
          ([63, 240, 0, 0, 0, 0, 0, 0] ++ [65, 66, 67, 68, 69, 70, 71, 72]
            ++ [73, 74, 75, 76, 32, 32, 32, 32] ++ [64, 0, 0, 0, 0, 0, 0, 0]))
        (List.replicate 32 7)).c 3 = [0, 0, 0, 0, 0, 0, 0, 64])
    ∧ ((sfm_read_case false
        (mixed_case_reader false true 1 [0, 0, 0, 0, 0, 0, 240, 63]
          ([253, 254, 254, 102, 0, 0, 0, 0] ++ [63, 240, 0, 0, 0, 0, 0, 0]))
        (List.replicate 32 7)).ret = 1
      ∧ case_cell (sfm_read_case false
        (mixed_case_reader false true 1 [0, 0, 0, 0, 0, 0, 240, 63]
          ([253, 254, 254, 102, 0, 0, 0, 0] ++ [63, 240, 0, 0, 0, 0, 0, 0]))
        (List.replicate 32 7)).c 0 = SYSMIS false
      ∧ case_cell (sfm_read_case false
        (mixed_case_reader false true 1 [0, 0, 0, 0, 0, 0, 240, 63]
          ([253, 254, 254, 102, 0, 0, 0, 0] ++ [63, 240, 0, 0, 0, 0, 0, 0]))
        (List.replicate 32 7)).c 3 = [0, 0, 0, 0, 0, 0, 0, 64]) :=
  ⟨⟨((sfm_read_case_sysmis false
        (mixed_case_reader false true 0 [0, 0, 0, 0, 0, 0, 240, 63]
          ([63, 240, 0, 0, 0, 0, 0, 0] ++ [65, 66, 67, 68, 69, 70, 71, 72]
            ++ [73, 74, 75, 76, 32, 32, 32, 32] ++ [64, 0, 0, 0, 0, 0, 0, 0]))
        (List.replicate 32 7) [] [⟨12, 1⟩, ⟨-1, 0⟩, ⟨0, 3⟩] ⟨0, 0⟩
        4 rfl rfl rfl rfl (by decide) (by decide) (by decide) (by decide) (by decide)).1
        rfl (by decide)).1,
    ((sfm_read_case_sysmis false
        (mixed_case_reader false true 0 [0, 0, 0, 0, 0, 0, 240, 63]
          ([63, 240, 0, 0, 0, 0, 0, 0] ++ [65, 66, 67, 68, 69, 70, 71, 72]
            ++ [73, 74, 75, 76, 32, 32, 32, 32] ++ [64, 0, 0, 0, 0, 0, 0, 0]))
        (List.replicate 32 7) [] [⟨12, 1⟩, ⟨-1, 0⟩, ⟨0, 3⟩] ⟨0, 0⟩
        4 rfl rfl rfl rfl (by decide) (by decide) (by decide) (by decide) (by decide)).1
        rfl (by decide)).2.1 (by decide!),
    (((sfm_read_case_sysmis false
        (mixed_case_reader false true 0 [0, 0, 0, 0, 0, 0, 240, 63]
          ([63, 240, 0, 0, 0, 0, 0, 0] ++ [65, 66, 67, 68, 69, 70, 71, 72]
            ++ [73, 74, 75, 76, 32, 32, 32, 32] ++ [64, 0, 0, 0, 0, 0, 0, 0]))
        (List.replicate 32 7) [⟨0, 0⟩, ⟨12, 1⟩, ⟨-1, 0⟩] [] ⟨0, 3⟩
        4 rfl rfl rfl rfl (by decide) (by decide) (by decide) (by decide) (by decide)).1
        rfl (by decide)).2.2 (by decide!)).trans (by decide!)⟩,
   ⟨((sfm_read_case_sysmis false
        (mixed_case_reader false true 1 [0, 0, 0, 0, 0, 0, 240, 63]
          ([253, 254, 254, 102, 0, 0, 0, 0] ++ [63, 240, 0, 0, 0, 0, 0, 0]))
        (List.replicate 32 7) [] [⟨12, 1⟩, ⟨-1, 0⟩, ⟨0, 3⟩] ⟨0, 0⟩
        4 rfl rfl rfl rfl (by decide) (by decide) (by decide) (by decide) (by decide)).2
        (by decide) (by decide) (by decide!) (by decide!)).1,
    (((sfm_read_case_sysmis false
        (mixed_case_reader false true 1 [0, 0, 0, 0, 0, 0, 240, 63]
          ([253, 254, 254, 102, 0, 0, 0, 0] ++ [63, 240, 0, 0, 0, 0, 0, 0]))
        (List.replicate 32 7) [] [⟨12, 1⟩, ⟨-1, 0⟩, ⟨0, 3⟩] ⟨0, 0⟩
        4 rfl rfl rfl rfl (by decide) (by decide) (by decide) (by decide) (by decide)).2
        (by decide) (by decide) (by decide!) (by decide!)).2.1 (by decide!)).1,
    (((sfm_read_case_sysmis false
        (mixed_case_reader false true 1 [0, 0, 0, 0, 0, 0, 240, 63]
          ([253, 254, 254, 102, 0, 0, 0, 0] ++ [63, 240, 0, 0, 0, 0, 0, 0]))
        (List.replicate 32 7) [⟨0, 0⟩, ⟨12, 1⟩, ⟨-1, 0⟩] [] ⟨0, 3⟩
        4 rfl rfl rfl rfl (by decide) (by decide) (by decide) (by decide) (by decide)).2
        (by decide) (by decide) (by decide!) (by decide!)).2.2 (by decide!)).trans
      (by decide!)⟩⟩

end

section

open Reader

theorem takeWhile_ne_append (d : Nat) : ∀ (tok rest : List Nat), (∀ c ∈ tok, c ≠ d) →
    (tok ++ d :: rest).takeWhile (fun c => decide (c ≠ d)) = tok
  | [], rest, _ => by simp
  | c :: tok, rest, h => by
    have hc : c ≠ d := h c (List.mem_cons_self _ _)
    rw [List.cons_append, List.takeWhile_cons, if_pos (by simpa using hc),
      takeWhile_ne_append d tok rest (fun x hx => h x (List.mem_cons_of_mem _ hx))]

theorem dropWhile_ne_append (d : Nat) : ∀ (tok rest : List Nat), (∀ c ∈ tok, c ≠ d) →
    (tok ++ d :: rest).dropWhile (fun c => decide (c ≠ d)) = d :: rest
  | [], rest, _ => by simp
  | c :: tok, rest, h => by
    have hc : c ≠ d := h c (List.mem_cons_self _ _)
    rw [List.cons_append, List.dropWhile_cons, if_pos (by simpa using hc),
      dropWhile_ne_append d tok rest (fun x hx => h x (List.mem_cons_of_mem _ hx))]

theorem takeWhile_ne_all (d : Nat) : ∀ (tok : List Nat), (∀ c ∈ tok, c ≠ d) →
    tok.takeWhile (fun c => decide (c ≠ d)) = tok
  | [], _ => rfl
  | c :: tok, h => by
    have hc : c ≠ d := h c (List.mem_cons_self _ _)
    rw [List.takeWhile_cons, if_pos (by simpa using hc),
      takeWhile_ne_all d tok (fun x hx => h x (List.mem_cons_of_mem _ hx))]

theorem dropWhile_ne_all (d : Nat) : ∀ (tok : List Nat), (∀ c ∈ tok, c ≠ d) →
    tok.dropWhile (fun c => decide (c ≠ d)) = []
  | [], _ => rfl
  | c :: tok, h => by
    have hc : c ≠ d := h c (List.mem_cons_self _ _)
    rw [List.dropWhile_cons, if_pos (by simpa using hc),
      dropWhile_ne_all d tok (fun x hx => h x (List.mem_cons_of_mem _ hx))]

theorem dropWhile_eq_head (d : Nat) (tok rest : List Nat) (hne : tok ≠ [])
    (h : ∀ c ∈ tok, c ≠ d) :
    (tok ++ rest).dropWhile (fun c => decide (c = d)) = tok ++ rest := by
  cases tok with
  | nil => exact absurd rfl hne
  | cons c tok =>
    have hc : c ≠ d := h c (List.mem_cons_self _ _)
    rw [List.cons_append, List.dropWhile_cons, if_neg (by simpa using hc)]

theorem strtok_r_token (d : Nat) (tok rest : List Nat) (hne : tok ≠ [])
    (h : ∀ c ∈ tok, c ≠ d) : strtok_r (tok ++ d :: rest) d = some (tok, rest) := by
  unfold strtok_r
  dsimp only
  rw [dropWhile_eq_head d tok _ hne h, if_neg (by
    cases tok with
    | nil => exact absurd rfl hne
    | cons c t => simp), takeWhile_ne_append d tok rest h, dropWhile_ne_append d tok rest h]
  rfl

theorem strtok_r_last (d : Nat) (tok : List Nat) (hne : tok ≠ [])
    (h : ∀ c ∈ tok, c ≠ d) : strtok_r tok d = some (tok, []) := by
  unfold strtok_r
  dsimp only
  have := dropWhile_eq_head d tok [] hne h
  rw [List.append_nil] at this
  rw [this, if_neg hne, takeWhile_ne_all d tok h, dropWhile_ne_all d tok h]
  rfl

theorem strtok_r_nil (d : Nat) : strtok_r [] d = none := by
  unfold strtok_r
  simp

theorem longvar_text_cons (p q : List Nat × List Nat) (ps : List (List Nat × List Nat)) :
    longvar_text (p :: q :: ps) = p.1 ++ 61 :: (p.2 ++ 9 :: longvar_text (q :: ps)) := by
  unfold longvar_text
  simp [List.intercalate, List.intersperse]

theorem longvar_text_single (p : List Nat × List Nat) :
    longvar_text [p] = p.1 ++ 61 :: p.2 := by
  unfold longvar_text
  simp [List.intercalate, List.intersperse]

theorem longvar_tokens_text : ∀ (ps : List (List Nat × List Nat)) (fuel : Nat),
    ps.length ≤ fuel →
    (∀ p ∈ ps, p.1 ≠ [] ∧ p.2 ≠ [] ∧ (∀ c ∈ p.1, c ≠ 61) ∧ (∀ c ∈ p.2, c ≠ 9)) →
    longvar_tokens fuel (longvar_text ps) = ps
  | [], 0, _, _ => rfl
  | [], fuel + 1, _, _ => by
    unfold longvar_tokens
    rw [show longvar_text [] = [] from rfl, strtok_r_nil]
  | [p], fuel + 1, _, h => by
    obtain ⟨h1, h2, h3, h4⟩ := h p (List.mem_cons_self _ _)
    unfold longvar_tokens
    rw [longvar_text_single, strtok_r_token 61 p.1 p.2 h1 h3]
    dsimp only
    rw [strtok_r_last 9 p.2 h2 h4]
    dsimp only
    cases fuel with
    | zero => rfl
    | succ f =>
      unfold longvar_tokens
      rw [strtok_r_nil]
  | p :: q :: ps, 0, hf, _ => by simp at hf
  | p :: q :: ps, fuel + 1, hf, h => by
    obtain ⟨h1, h2, h3, h4⟩ := h p (List.mem_cons_self _ _)
    unfold longvar_tokens
    rw [longvar_text_cons, strtok_r_token 61 p.1 _ h1 h3]
    dsimp only
    rw [strtok_r_token 9 p.2 _ h2 h4]
    dsimp only
    rw [longvar_tokens_text (q :: ps) fuel (by simpa using hf)
      (fun x hx => h x (List.mem_cons_of_mem _ hx))]

theorem long_names_loop_tokens (env : host) :
    ∀ (fuel : Nat) (s : List Nat) (idx : Nat) (dict : Writer.dictionary),
      (long_names_loop env fuel s idx dict).1
        = (rename_long_names env (longvar_tokens fuel s) idx dict).1
  | 0, _, _, _ => rfl
  | fuel + 1, s, idx, dict => by
    unfold long_names_loop longvar_tokens
    cases h1 : strtok_r s 61 with
    | none => rfl
    | some t1 =>
      obtain ⟨short_name, s1⟩ := t1
      dsimp only
      cases h2 : strtok_r s1 9 with
      | none => rfl
      | some t2 =>
        obtain ⟨long_name, s2⟩ := t2
        dsimp only
        unfold rename_long_names
        split
        · rfl
        · cases h3 : dict_lookup_var dict short_name with
          | none => rfl
          | some v =>
            dsimp only
            split
            · rfl
            · exact long_names_loop_tokens env fuel s2 (idx + 1) _

theorem long_name_map_false (v : Writer.variable_) (vs : List Writer.variable_) :
    Writer.long_name_map (v :: vs) false = 9 :: Writer.long_name_map (v :: vs) true := by
  simp [Writer.long_name_map]

theorem long_name_map_text : ∀ (vs : List Writer.variable_),
    Writer.long_name_map vs true = longvar_text (vs.map (fun v => (v.short_name, v.name)))
  | [] => rfl
  | [v] => by
    rw [List.map_singleton, longvar_text_single]
    simp [Writer.long_name_map]
  | v :: u :: vs => by
    have ih := long_name_map_text (u :: vs)
    rw [List.map_cons] at ih
    rw [List.map_cons, List.map_cons, longvar_text_cons, ← ih, Writer.long_name_map,
      long_name_map_false]
    simp

theorem c_string_no_nul (bs : List Nat) (h : ∀ b ∈ bs, b ≠ 0) : c_string bs = bs :=
  takeWhile_ne_all 0 bs h

theorem long_name_map_mem : ∀ (vs : List Writer.variable_) (first : Bool) (b : Nat),
    b ∈ Writer.long_name_map vs first →
    b = 9 ∨ b = 61 ∨ ∃ v ∈ vs, b ∈ v.short_name ∨ b ∈ v.name
  | [], _, b, h => by simp [Writer.long_name_map] at h
  | v :: vs, first, b, h => by
    rw [Writer.long_name_map] at h
    simp only [List.mem_append, List.mem_singleton] at h
    rcases h with (((h | h) | h) | h) | h
    · left
      cases first
      · simpa using h
      · simp at h
    · exact Or.inr (Or.inr ⟨v, List.mem_cons_self _ _, Or.inl h⟩)
    · exact Or.inr (Or.inl h)
    · exact Or.inr (Or.inr ⟨v, List.mem_cons_self _ _, Or.inr h⟩)
    · rcases long_name_map_mem vs false b h with h | h | ⟨u, hu, h⟩
      · exact Or.inl h
      · exact Or.inr (Or.inl h)
      · exact Or.inr (Or.inr ⟨u, List.mem_cons_of_mem _ hu, h⟩)

theorem long_name_map_length : ∀ (vs : List Writer.variable_) (first : Bool),
    vs.length ≤ (Writer.long_name_map vs first).length
  | [], _ => by simp [Writer.long_name_map]
  | v :: vs, first => by
    have := long_name_map_length vs false
    rw [Writer.long_name_map]
    simp only [List.length_append, List.length_cons, List.length_nil]
    omega

/-- C33: for a dictionary whose variables have short and long names that are not empty
and hold no `=`, no TAB and no null, the text that `write_longvar_table` builds is
`short1=long1`, TAB, `short2=long2`, ... in dictionary order; the record written holds
the length of the text as `n_elem` and then the text; and the calls of `strtok_r` in
`sfm_open_reader` (at `=`, then at TAB) take from that text the pairs of the short and
the long name of the variables, in order, which are the pairs that the loop of the
reader works on. -/
theorem longvar_table_round_trip (big : Bool) (env : host) (w : Writer.sfm_writer)
    (d dict : Writer.dictionary)
    (hnames : ∀ v ∈ d.var, v.short_name ≠ [] ∧ v.name ≠ []
      ∧ (∀ c ∈ v.short_name, c ≠ 61 ∧ c ≠ 9 ∧ c ≠ 0)
      ∧ (∀ c ∈ v.name, c ≠ 61 ∧ c ≠ 9 ∧ c ≠ 0)) :
    Writer.long_name_map d.var true
        = longvar_text (d.var.map (fun v => (v.short_name, v.name)))
    ∧ (w.io = [] → d.var ≠ [] →
        Writer.write_longvar_table big w d
          = (true, { w with file := w.file
              ++ (int32_bytes big 7 ++ int32_bytes big 13 ++ int32_bytes big 1
                ++ int32_bytes big (Writer.long_name_map d.var true).length)
              ++ Writer.long_name_map d.var true }))
    ∧ longvar_tokens ((Writer.long_name_map d.var true).length + 1)
          (c_string (Writer.long_name_map d.var true))
        = d.var.map (fun v => (v.short_name, v.name))
    ∧ (long_names_loop env ((Writer.long_name_map d.var true).length + 1)
          (c_string (Writer.long_name_map d.var true)) 0 dict).1
        = (rename_long_names env (d.var.map (fun v => (v.short_name, v.name))) 0 dict).1 := by
  have htext := long_name_map_text d.var
  have hnul : ∀ b ∈ Writer.long_name_map d.var true, b ≠ 0 := by
    intro b hb
    rcases long_name_map_mem d.var true b hb with h | h | ⟨v, hv, h | h⟩
    · rw [h]; decide
    · rw [h]; decide
    · exact ((hnames v hv).2.2.1 b h).2.2
    · exact ((hnames v hv).2.2.2 b h).2.2
  have htok : longvar_tokens ((Writer.long_name_map d.var true).length + 1)
      (c_string (Writer.long_name_map d.var true))
      = d.var.map (fun v => (v.short_name, v.name)) := by
    rw [c_string_no_nul _ hnul, htext]
    apply longvar_tokens_text
    · rw [List.length_map, ← htext]
      have := long_name_map_length d.var true
      omega
    · intro p hp
      obtain ⟨v, hv, rfl⟩ := List.mem_map.mp hp
      obtain ⟨h1, h2, h3, h4⟩ := hnames v hv
      exact ⟨h1, h2, fun c hc => (h3 c hc).1, fun c hc => (h4 c hc).2.1⟩
  refine ⟨htext, fun hio hne => ?_, htok, ?_⟩
  · unfold Writer.write_longvar_table
    dsimp only
    rw [buf_write_ok w _ hio (by
      simp only [List.length_append, int32_bytes_length]
      omega)]
    dsimp only
    exact buf_write_ok _ _ hio (by
      have h1 := long_name_map_length d.var true
      have h2 : 0 < d.var.length := List.length_pos.mpr hne
      omega)
  · rw [long_names_loop_tokens, htok]

/-- The map of a dictionary with the variables `A` (long name `Age`) and `B` (long name
`Bmi`) is `A=Age`, TAB, `B=Bmi`, and the reader takes the two pairs from it. -/
theorem longvar_table_round_trip_witness :
    Writer.long_name_map [{ example_numeric 65 0 with name := [65, 103, 101] },
        { example_numeric 66 1 with name := [66, 109, 105] }] true
      = [65, 61, 65, 103, 101, 9, 66, 61, 66, 109, 105]
    ∧ longvar_tokens 12 (c_string [65, 61, 65, 103, 101, 9, 66, 61, 66, 109, 105])
      = [([65], [65, 103, 101]), ([66], [66, 109, 105])] :=
  ⟨((longvar_table_round_trip false example_reader_host
      (Writer.sfm_writer.mk false false 0 0 [] 0 0 0 0 [] [] [])
      (example_dict [{ example_numeric 65 0 with name := [65, 103, 101] },
        { example_numeric 66 1 with name := [66, 109, 105] }]) (example_dict [])
      (by decide)).1).trans (by decide),
   (longvar_table_round_trip false example_reader_host
      (Writer.sfm_writer.mk false false 0 0 [] 0 0 0 0 [] [] [])
      (example_dict [{ example_numeric 65 0 with name := [65, 103, 101] },
        { example_numeric 66 1 with name := [66, 109, 105] }]) (example_dict [])
      (by decide)).2.2.1⟩

end

section

open Reader

theorem same_var_name_iff (a b : List Nat) :
    same_var_name a b = true ↔ name_key a = name_key b := by
  unfold same_var_name name_key
  exact decide_eq_true_iff

theorem same_var_name_false_iff (a b : List Nat) :
    same_var_name a b = false ↔ name_key a ≠ name_key b := by
  unfold same_var_name name_key
  exact decide_eq_false_iff_not

theorem find?_skip {α : Type} (p : α → Bool) (A l : List α) (h : ∀ x ∈ A, p x = false) :
    (A ++ l).find? p = l.find? p := by
  induction A with
  | nil => rfl
  | cons a A ih =>
    rw [List.cons_append, List.find?_cons, h a (List.mem_cons_self _ _)]
    exact ih (fun x hx => h x (List.mem_cons_of_mem _ hx))

theorem find?_none_of {α : Type} (p : α → Bool) (l : List α) (h : ∀ x ∈ l, p x = false) :
    l.find? p = none := by
  have := find?_skip p l [] h
  rw [List.append_nil] at this
  rw [this]
  rfl

theorem map_other {α : Type} (c : α → Prop) [DecidablePred c] (f : α → α) (A : List α)
    (h : ∀ x ∈ A, ¬ c x) : A.map (fun x => if c x then f x else x) = A := by
  induction A with
  | nil => rfl
  | cons a A ih =>
    rw [List.map_cons, if_neg (h a (List.mem_cons_self _ _)),
      ih (fun x hx => h x (List.mem_cons_of_mem _ hx))]

theorem rename_step (env : host) (s l : List Nat) (ps : List (List Nat × List Nat))
    (done A B : List Writer.variable_) (v : Writer.variable_) (dict : Writer.dictionary)
    (hvar : dict.var = done ++ A ++ v :: B)
    (hfv : ∀ u ∈ done ++ A ++ B, u.fv ≠ v.fv)
    (hpre : ∀ u ∈ done ++ A, same_var_name u.name s = false)
    (hv : same_var_name v.name s = true)
    (hdup : same_var_name s l = true
      ∨ ∀ u ∈ done ++ A ++ v :: B, same_var_name u.name l = false)
    (hvalid : env.var_is_valid_name l = true) :
    ∃ dict2, rename_long_names env ((s, l) :: ps) done.length dict
        = rename_long_names env ps (done.length + 1) dict2
      ∧ dict2.var = (done ++ [set_long_name (s, l) v]) ++ (A ++ B) := by
  have hlook : dict_lookup_var dict s = some v := by
    unfold dict_lookup_var
    rw [hvar, find?_skip _ _ _ hpre, List.find?_cons, hv]
  have hnodup : ¬ (same_var_name s l = false ∧ dict_lookup_var dict l ≠ none) := by
    rintro ⟨h1, h2⟩
    rcases hdup with h | h
    · rw [h] at h1
      exact absurd h1 (by decide)
    · apply h2
      unfold dict_lookup_var
      rw [hvar]
      exact find?_none_of _ _ h
  have hd : ∀ u ∈ done, u.fv ≠ v.fv := fun u hu =>
    hfv u (List.mem_append_left _ (List.mem_append_left _ hu))
  have hA : ∀ u ∈ A, u.fv ≠ v.fv := fun u hu =>
    hfv u (List.mem_append_left _ (List.mem_append_right _ hu))
  have hB : ∀ u ∈ B, u.fv ≠ v.fv := fun u hu => hfv u (List.mem_append_right _ hu)
  have hupd : (var_update dict v.fv (fun x =>
      { x with name := l, short_name := s })).var
      = done ++ A ++ set_long_name (s, l) v :: B := by
    unfold var_update
    dsimp only
    rw [hvar, List.map_append, List.map_append, List.map_cons, map_other _ _ done hd,
      map_other _ _ A hA, map_other _ _ B hB, if_pos rfl]
    rfl
  refine ⟨dict_reorder_var (var_update dict v.fv (fun x =>
      { x with name := l, short_name := s })) v.fv done.length, ?_, ?_⟩
  · rw [rename_long_names]
    rw [if_neg (by rw [hvalid]; decide), hlook]
    dsimp only
    rw [if_neg hnodup]
  · unfold dict_reorder_var
    have hfind : var_lookup (var_update dict v.fv (fun x =>
        { x with name := l, short_name := s })) v.fv = some (set_long_name (s, l) v) := by
      unfold var_lookup
      rw [hupd, find?_skip _ _ _ (by
        intro u hu
        rcases List.mem_append.mp hu with h | h
        · simpa using hd u h
        · simpa using hA u h), List.find?_cons]
      have : decide ((set_long_name (s, l) v).fv = v.fv) = true := by
        simp [set_long_name]
      rw [this]
    rw [hfind]
    dsimp only
    rw [hupd]
    have hfilter : (done ++ A ++ set_long_name (s, l) v :: B).filter
        (fun x => decide (x.fv ≠ v.fv)) = done ++ (A ++ B) := by
      rw [List.filter_append, List.filter_append, List.filter_cons,
        List.filter_eq_self.mpr (by intro u hu; simpa using hd u hu),
        List.filter_eq_self.mpr (by intro u hu; simpa using hA u hu),
        List.filter_eq_self.mpr (by intro u hu; simpa using hB u hu)]
      have : decide ((set_long_name (s, l) v).fv ≠ v.fv) = false := by
        simp [set_long_name]
      rw [this]
      simp
    rw [hfilter, List.take_left, List.drop_left]

theorem find?_remove {α : Type} (p : α → Bool) (A B : List α) (v : α) (h : p v = false) :
    (A ++ v :: B).find? p = (A ++ B).find? p := by
  induction A with
  | nil => rw [List.nil_append, List.nil_append, List.find?_cons, h]
  | cons a A ih => rw [List.cons_append, List.cons_append, List.find?_cons, List.find?_cons, ih]

theorem rename_long_names_spec (env : host) :
    ∀ (ps : List (List Nat × List Nat)) (done rest : List Writer.variable_)
      (dict : Writer.dictionary),
      dict.var = done ++ rest →
      ((done ++ rest).map (fun v => v.fv)).Nodup →
      (rest.map (fun v => name_key v.name)).Nodup →
      (∀ p ∈ ps, env.var_is_valid_name p.2 = true) →
      (∀ p ∈ ps, ∃ v ∈ rest, name_key v.name = name_key p.1) →
      (ps.map (fun p => name_key p.1)).Nodup →
      (ps.map (fun p => name_key p.2)).Nodup →
      (∀ p ∈ ps, ∀ u ∈ done,
        name_key u.name ≠ name_key p.1 ∧ name_key u.name ≠ name_key p.2) →
      (∀ p ∈ ps, ∀ u ∈ rest, name_key u.name = name_key p.2 →
        name_key u.name = name_key p.1) →
      ∃ dict2, rename_long_names env ps done.length dict = (some dict2, [])
        ∧ dict2.var = done ++ long_name_targets ps rest ++ long_name_others ps rest
  | [], done, rest, dict, hvar, _, _, _, _, _, _, _, _ => by
    refine ⟨dict, rfl, ?_⟩
    rw [hvar]
    simp [long_name_targets, long_name_others]
  | (s, l) :: ps, done, rest, dict, hvar, hfv, hnm, hvalid, hex, hsn, hln, hdone, hrest => by
    obtain ⟨v, hvmem, hvs⟩ := hex (s, l) (List.mem_cons_self _ _)
    obtain ⟨A, B, hAB⟩ := List.mem_iff_append.mp hvmem
    subst hAB
    -- the names and the pointers of the other variables
    have hnmAB : ∀ u ∈ A ++ B, name_key u.name ≠ name_key v.name := by
      intro u hu he
      rw [List.map_append, List.map_cons] at hnm
      have hn := List.nodup_middle.mp hnm
      rw [List.nodup_cons] at hn
      apply hn.1
      rw [← List.map_append, ← he]
      exact List.mem_map_of_mem (fun v : Writer.variable_ => name_key v.name) hu
    have hfvall : ∀ u ∈ done ++ A ++ B, u.fv ≠ v.fv := by
      intro u hu he
      rw [← List.append_assoc, List.map_append, List.map_cons] at hfv
      have hn := List.nodup_middle.mp hfv
      rw [List.nodup_cons] at hn
      apply hn.1
      rw [← List.map_append, ← he]
      exact List.mem_map_of_mem (fun v : Writer.variable_ => v.fv) hu
    have hshort : ∀ p ∈ ps, name_key p.1 ≠ name_key s := by
      intro p hp he
      rw [List.map_cons, List.nodup_cons] at hsn
      apply hsn.1
      show name_key s ∈ _
      rw [← he]
      exact List.mem_map_of_mem (fun p : List Nat × List Nat => name_key p.1) hp
    have hlong : ∀ p ∈ ps, name_key p.2 ≠ name_key l := by
      intro p hp he
      rw [List.map_cons, List.nodup_cons] at hln
      apply hln.1
      show name_key l ∈ _
      rw [← he]
      exact List.mem_map_of_mem (fun p : List Nat × List Nat => name_key p.2) hp
    -- the step
    obtain ⟨dict2, hstep, hvar2⟩ := rename_step env s l ps done A B v dict
      (by rw [hvar, List.append_assoc]) hfvall
      (by
        intro u hu
        rw [same_var_name_false_iff]
        rcases List.mem_append.mp hu with h | h
        · exact (hdone (s, l) (List.mem_cons_self _ _) u h).1
        · rw [← hvs]
          exact hnmAB u (List.mem_append_left _ h))
      ((same_var_name_iff _ _).mpr hvs)
      (by
        by_cases hsl : name_key s = name_key l
        · exact Or.inl ((same_var_name_iff _ _).mpr hsl)
        · right
          intro u hu
          rw [same_var_name_false_iff]
          rw [List.append_assoc] at hu
          rcases List.mem_append.mp hu with h | h
          · exact (hdone (s, l) (List.mem_cons_self _ _) u h).2
          · intro he
            have := hrest (s, l) (List.mem_cons_self _ _) u h he
            exact hsl (this.symm.trans he))
      (hvalid (s, l) (List.mem_cons_self _ _))
    -- the rest of the pairs
    have hfv2 : (((done ++ [set_long_name (s, l) v]) ++ (A ++ B)).map
        (fun v => v.fv)).Nodup := by
      have hperm : List.Perm (done ++ (A ++ v :: B)) ((done ++ [v]) ++ (A ++ B)) := by
        rw [List.append_assoc]
        apply List.Perm.append_left
        exact List.perm_middle
      have := (hperm.map (fun v => v.fv)).nodup_iff.mp hfv
      simpa [set_long_name] using this
    have hnm2 : ((A ++ B).map (fun v => name_key v.name)).Nodup := by
      rw [List.map_append, List.map_cons] at hnm
      have hn := List.nodup_middle.mp hnm
      rw [List.nodup_cons] at hn
      rw [List.map_append]
      exact hn.2
    have hex2 : ∀ p ∈ ps, ∃ u ∈ A ++ B, name_key u.name = name_key p.1 := by
      intro p hp
      obtain ⟨u, hu, he⟩ := hex p (List.mem_cons_of_mem _ hp)
      refine ⟨u, ?_, he⟩
      rcases List.mem_append.mp hu with h | h
      · exact List.mem_append_left _ h
      · rcases List.mem_cons.mp h with h | h
        · exfalso
          rw [h] at he
          exact hshort p hp (he.symm.trans hvs)
        · exact List.mem_append_right _ h
    have hdone2 : ∀ p ∈ ps, ∀ u ∈ done ++ [set_long_name (s, l) v],
        name_key u.name ≠ name_key p.1 ∧ name_key u.name ≠ name_key p.2 := by
      intro p hp u hu
      rcases List.mem_append.mp hu with h | h
      · exact hdone p (List.mem_cons_of_mem _ hp) u h
      · rw [List.mem_singleton.mp h]
        show name_key l ≠ name_key p.1 ∧ name_key l ≠ name_key p.2
        refine ⟨fun he => ?_, fun he => hlong p hp he.symm⟩
        obtain ⟨u2, hu2, he2⟩ := hex p (List.mem_cons_of_mem _ hp)
        have := hrest (s, l) (List.mem_cons_self _ _) u2 hu2 (he2.trans he.symm)
        exact hshort p hp (he2.symm.trans this)
    have hrest2 : ∀ p ∈ ps, ∀ u ∈ A ++ B, name_key u.name = name_key p.2 →
        name_key u.name = name_key p.1 := by
      intro p hp u hu
      apply hrest p (List.mem_cons_of_mem _ hp) u
      rcases List.mem_append.mp hu with h | h
      · exact List.mem_append_left _ h
      · exact List.mem_append_right _ (List.mem_cons_of_mem _ h)
    obtain ⟨dict3, hres, hvar3⟩ := rename_long_names_spec env ps
      (done ++ [set_long_name (s, l) v]) (A ++ B) dict2 hvar2 hfv2 hnm2
      (fun p hp => hvalid p (List.mem_cons_of_mem _ hp)) hex2
      (List.nodup_cons.mp hsn).2 (List.nodup_cons.mp hln).2 hdone2 hrest2
    refine ⟨dict3, ?_, ?_⟩
    · rw [hstep]
      rw [List.length_append, List.length_singleton] at hres
      exact hres
    · rw [hvar3]
      have hfindv : (A ++ v :: B).find? (fun u => same_var_name u.name s) = some v := by
        rw [find?_skip _ A _ (by
          intro u hu
          rw [same_var_name_false_iff, ← hvs]
          exact hnmAB u (List.mem_append_left _ hu)), List.find?_cons,
          (same_var_name_iff _ _).mpr hvs]
      have htargets : long_name_targets ((s, l) :: ps) (A ++ v :: B)
          = set_long_name (s, l) v :: long_name_targets ps (A ++ B) := by
        unfold long_name_targets
        rw [List.filterMap_cons]
        dsimp only
        rw [hfindv]
        dsimp only [Option.map_some']
        congr 1
        apply List.filterMap_congr
        intro p hp
        rw [find?_remove _ A B v (by
          rw [same_var_name_false_iff, hvs]
          exact fun he => hshort p hp he.symm)]
      have hothers : long_name_others ((s, l) :: ps) (A ++ v :: B)
          = long_name_others ps (A ++ B) := by
        unfold long_name_others
        rw [List.filter_append, List.filter_cons, List.filter_append]
        have hvout : (((s, l) :: ps).all (fun p => !same_var_name v.name p.1)) = false := by
          rw [List.all_cons, (same_var_name_iff _ _).mpr hvs]
          rfl
        rw [hvout]
        have hcongr : ∀ C : List Writer.variable_, (∀ u ∈ C, u ∈ A ++ B) →
            C.filter (fun u => ((s, l) :: ps).all (fun p => !same_var_name u.name p.1))
              = C.filter (fun u => ps.all (fun p => !same_var_name u.name p.1)) := by
          intro C hC
          apply List.filter_congr
          intro u hu
          rw [List.all_cons]
          have : same_var_name u.name s = false := by
            rw [same_var_name_false_iff, ← hvs]
            exact hnmAB u (hC u hu)
          rw [this]
          rfl
        rw [hcongr A (fun u hu => List.mem_append_left _ hu),
          hcongr B (fun u hu => List.mem_append_right _ hu)]
        simp
      rw [htargets, hothers]
      simp

theorem size_t_of_int_nat (n : Nat) (h : n < 2 ^ 64) : size_t_of_int (n : Int) = n := by
  unfold size_t_of_int
  have : ((n : Int) % ((2 ^ 64 : Nat) : Int)) = (n : Int) :=
    Int.emod_eq_of_lt (by omega) (by exact_mod_cast h)
  rw [this]
  exact Int.toNat_coe_nat n

theorem read_extension_13 (big : Bool) (env : host) (st : open_state) (m t : List Nat)
    (hm : 1 ≤ m.length) (hlen : m.length < 2 ^ 31)
    (hfile : st.r.file = int32_bytes (xor big st.r.reverse_endian) 13
      ++ int32_bytes (xor big st.r.reverse_endian) 1
      ++ int32_bytes (xor big st.r.reverse_endian) (m.length : Int) ++ m ++ t) :
    read_extension big env st
      = match long_names_loop env (m.length + 1) (c_string m) 0 st.dict with
        | (none, msgs) =>
          (loop_ctl.error, { st with r := { st.r with file := t }, msgs := st.msgs ++ msgs })
        | (some dict, msgs) =>
          (loop_ctl.next,
            { st with r := { st.r with file := t }, dict := dict, msgs := st.msgs ++ msgs }) := by
  have hl13 := int32_bytes_length (xor big st.r.reverse_endian) 13
  have hl1 := int32_bytes_length (xor big st.r.reverse_endian) 1
  have hln := int32_bytes_length (xor big st.r.reverse_endian) (m.length : Int)
  have hH : (int32_bytes (xor big st.r.reverse_endian) 13
      ++ int32_bytes (xor big st.r.reverse_endian) 1
      ++ int32_bytes (xor big st.r.reverse_endian) (m.length : Int)).length = 12 := by
    rw [List.length_append, List.length_append, hl13, hl1, hln]
  have htake : st.r.file.take 12 = int32_bytes (xor big st.r.reverse_endian) 13
      ++ int32_bytes (xor big st.r.reverse_endian) 1
      ++ int32_bytes (xor big st.r.reverse_endian) (m.length : Int) := by
    rw [hfile, List.append_assoc _ m t, List.take_left' hH]
  have hdrop : st.r.file.drop 12 = m ++ t := by
    rw [hfile, List.append_assoc _ m t, List.drop_left' hH]
  have hread : buf_read st.r 12 false
      = (some (st.r.file.take 12), { st.r with file := st.r.file.drop 12 }, []) :=
    buf_read_some st.r 12 false (by decide) (by
      rw [hfile]
      simp only [List.length_append, hl13, hl1, hln]
      omega)
  have e0 : fix_int32 big st.r (mem_read (st.r.file.take 12) 0 4) = 13 := by
    rw [fix_int32_file_order, htake]
    have := mem_read_mid [] (int32_bytes (xor big st.r.reverse_endian) 13)
      (int32_bytes (xor big st.r.reverse_endian) 1
        ++ int32_bytes (xor big st.r.reverse_endian) (m.length : Int)) 4 hl13
    rw [List.nil_append, List.length_nil, ← List.append_assoc] at this
    rw [this]
    exact int32_val_bytes _ 13 (by norm_num) (by norm_num)
  have e1 : fix_int32 big st.r (mem_read (st.r.file.take 12) 4 4) = 1 := by
    rw [fix_int32_file_order, htake]
    have := mem_read_mid (int32_bytes (xor big st.r.reverse_endian) 13)
      (int32_bytes (xor big st.r.reverse_endian) 1)
      (int32_bytes (xor big st.r.reverse_endian) (m.length : Int)) 4 hl1
    rw [hl13] at this
    rw [this]
    exact int32_val_bytes _ 1 (by norm_num) (by norm_num)
  have e2 : fix_int32 big st.r (mem_read (st.r.file.take 12) 8 4) = (m.length : Int) := by
    rw [fix_int32_file_order, htake]
    have := mem_read_mid (int32_bytes (xor big st.r.reverse_endian) 13
        ++ int32_bytes (xor big st.r.reverse_endian) 1)
      (int32_bytes (xor big st.r.reverse_endian) (m.length : Int)) [] 4 hln
    rw [List.length_append, hl13, hl1, List.append_nil] at this
    rw [this]
    exact int32_val_bytes _ _ (by omega) (by exact_mod_cast hlen)
  have hbytes : size_t_of_int (wrap32 (1 * (m.length : Int))) = m.length := by
    rw [one_mul, wrap32_id _ (by omega) (by exact_mod_cast hlen)]
    exact size_t_of_int_nat _ (by omega)
  have hone : size_t_of_int 1 = 1 := size_t_of_int_nat 1 (by norm_num)
  have hcnt : size_t_of_int (m.length : Int) = m.length := size_t_of_int_nat _ (by omega)
  have hread2 : buf_read { st.r with file := st.r.file.drop 12 } m.length false
      = (some m, { st.r with file := t }, []) := by
    rw [buf_read_some _ m.length false (by omega) (by
      show m.length ≤ (st.r.file.drop 12).length
      rw [hdrop, List.length_append]
      omega)]
    show (some ((st.r.file.drop 12).take m.length),
      { st.r with file := (st.r.file.drop 12).drop m.length }, []) = _
    rw [hdrop, List.take_left, List.drop_left]
  unfold read_extension
  rw [hread]
  dsimp only
  rw [e0, e1, e2, hbytes, hone, hcnt]
  rw [if_neg (by omega)]
  rw [if_neg (by decide), if_neg (by decide), if_neg (by decide), if_neg (by decide),
    if_pos rfl, hread2]
  dsimp only
  rcases long_names_loop env (m.length + 1) (c_string m) 0 st.dict with ⟨_ | d, msgs⟩
  · rfl
  · rfl

theorem rename_long_names_append (env : host) :
    ∀ (ps1 ps2 : List (List Nat × List Nat)) (idx : Nat) (d dk : Writer.dictionary),
      rename_long_names env ps1 idx d = (some dk, []) →
      rename_long_names env (ps1 ++ ps2) idx d
        = rename_long_names env ps2 (idx + ps1.length) dk
  | [], ps2, idx, d, dk, h => by
    rw [rename_long_names] at h
    simp only [Prod.mk.injEq, Option.some.injEq, and_true] at h
    rw [h]
    rfl
  | (s, l) :: ps1, ps2, idx, d, dk, h => by
    rw [rename_long_names] at h
    rw [List.cons_append, rename_long_names]
    split at h
    · simp at h
    · rename_i hvalid
      rw [if_neg hvalid]
      split at h
      · simp at h
      · rename_i v hlook
        split at h
        · simp at h
        · rename_i hdup
          rw [if_neg hdup]
          dsimp only at h ⊢
          rw [rename_long_names_append env ps1 ps2 (idx + 1) _ dk h, List.length_cons]
          congr 1
          omega

theorem longvar_text_mem : ∀ (ps : List (List Nat × List Nat)) (b : Nat),
    b ∈ longvar_text ps → b = 9 ∨ b = 61 ∨ ∃ p ∈ ps, b ∈ p.1 ∨ b ∈ p.2
  | [], b, h => by simp [longvar_text, List.intercalate] at h
  | [p], b, h => by
    rw [longvar_text_single] at h
    rcases List.mem_append.mp h with h | h
    · exact Or.inr (Or.inr ⟨p, List.mem_cons_self _ _, Or.inl h⟩)
    · rcases List.mem_cons.mp h with h | h
      · exact Or.inr (Or.inl h)
      · exact Or.inr (Or.inr ⟨p, List.mem_cons_self _ _, Or.inr h⟩)
  | p :: q :: ps, b, h => by
    rw [longvar_text_cons] at h
    rcases List.mem_append.mp h with h | h
    · exact Or.inr (Or.inr ⟨p, List.mem_cons_self _ _, Or.inl h⟩)
    · rcases List.mem_cons.mp h with h | h
      · exact Or.inr (Or.inl h)
      · rcases List.mem_append.mp h with h | h
        · exact Or.inr (Or.inr ⟨p, List.mem_cons_self _ _, Or.inr h⟩)
        · rcases List.mem_cons.mp h with h | h
          · exact Or.inl h
          · rcases longvar_text_mem (q :: ps) b h with h | h | ⟨x, hx, h⟩
            · exact Or.inl h
            · exact Or.inr (Or.inl h)
            · exact Or.inr (Or.inr ⟨x, List.mem_cons_of_mem _ hx, h⟩)

theorem longvar_text_length : ∀ (ps : List (List Nat × List Nat)),
    ps.length ≤ (longvar_text ps).length
  | [] => Nat.zero_le _
  | [p] => by
    rw [longvar_text_single]
    simp only [List.length_append, List.length_cons, List.length_nil]
    omega
  | p :: q :: ps => by
    have := longvar_text_length (q :: ps)
    rw [longvar_text_cons]
    simp only [List.length_append, List.length_cons] at this ⊢
    omega

theorem long_name_targets_forall₂ :
    ∀ (ps : List (List Nat × List Nat)) (rest : List Writer.variable_),
      (∀ p ∈ ps, ∃ v ∈ rest, name_key v.name = name_key p.1) →
      List.Forall₂ (fun p x => ∃ v ∈ rest, same_var_name v.name p.1 = true
          ∧ x = set_long_name p v) ps (long_name_targets ps rest)
  | [], _, _ => List.Forall₂.nil
  | p :: ps, rest, h => by
    obtain ⟨u, hu, he⟩ := h p (List.mem_cons_self _ _)
    have hsome : (rest.find? (fun v => same_var_name v.name p.1)).isSome = true := by
      rw [List.find?_isSome]
      exact ⟨u, hu, (same_var_name_iff _ _).mpr he⟩
    obtain ⟨v, hv⟩ := Option.isSome_iff_exists.mp hsome
    have hcons : long_name_targets (p :: ps) rest
        = set_long_name p v :: long_name_targets ps rest := by
      unfold long_name_targets
      rw [List.filterMap_cons, hv]
      rfl
    rw [hcons]
    have hpv : same_var_name v.name p.1 = true :=
      @List.find?_some _ (fun x : Writer.variable_ => same_var_name x.name p.1) v rest hv
    exact List.Forall₂.cons ⟨v, List.mem_of_find?_eq_some hv, hpv, rfl⟩
      (long_name_targets_forall₂ ps rest (fun q hq => h q (List.mem_cons_of_mem _ hq)))

theorem long_names_loop_text (env : host) (ps : List (List Nat × List Nat))
    (dict : Writer.dictionary)
    (hwf : ∀ p ∈ ps, p.1 ≠ [] ∧ p.2 ≠ []
      ∧ (∀ c ∈ p.1, c ≠ 61 ∧ c ≠ 9 ∧ c ≠ 0) ∧ (∀ c ∈ p.2, c ≠ 61 ∧ c ≠ 9 ∧ c ≠ 0)) :
    (long_names_loop env ((longvar_text ps).length + 1) (c_string (longvar_text ps)) 0
        dict).1 = (rename_long_names env ps 0 dict).1 := by
  have hnul : ∀ b ∈ longvar_text ps, b ≠ 0 := by
    intro b hb
    rcases longvar_text_mem ps b hb with h | h | ⟨p, hp, h | h⟩
    · rw [h]; decide
    · rw [h]; decide
    · exact ((hwf p hp).2.2.1 b h).2.2
    · exact ((hwf p hp).2.2.2 b h).2.2
  rw [long_names_loop_tokens, c_string_no_nul _ hnul,
    longvar_tokens_text ps _ (by have := longvar_text_length ps; omega) (by
      intro p hp
      obtain ⟨h1, h2, h3, h4⟩ := hwf p hp
      exact ⟨h1, h2, fun c hc => (h3 c hc).1, fun c hc => (h4 c hc).2.1⟩)]

/-- C32, for pairs whose short names differ from one another and whose long names
differ from one another, without regard to case: when a record of type 7, subtype 13,
holds the text of the pairs `ps`, every long name is valid, every short name is the
name of a variable, and a long name is the name of no variable but the one that its
short name finds, then `sfm_open_reader` goes on behind the record with the variable
found through the short name of pair `i` at position `i`, with the long name as its
name and the short name as its short name, and the other variables behind them in
their order.  When a pair is reached whose long name, different from its short name,
is the name of a variable at that time, the record ends in the jump to `error`.
`dict_lookup_var`, `dict_rename_var` and `dict_reorder_var` are modelled from the
specification. -/
theorem long_names_record (big : Bool) (env : host) (st : open_state)
    (ps : List (List Nat × List Nat)) (t : List Nat) (hps : ps ≠ [])
    (hlen : (longvar_text ps).length < 2 ^ 31)
    (hfile : st.r.file = int32_bytes (xor big st.r.reverse_endian) 13
      ++ int32_bytes (xor big st.r.reverse_endian) 1
      ++ int32_bytes (xor big st.r.reverse_endian) ((longvar_text ps).length : Int)
      ++ longvar_text ps ++ t)
    (hwf : ∀ p ∈ ps, p.1 ≠ [] ∧ p.2 ≠ []
      ∧ (∀ c ∈ p.1, c ≠ 61 ∧ c ≠ 9 ∧ c ≠ 0) ∧ (∀ c ∈ p.2, c ≠ 61 ∧ c ≠ 9 ∧ c ≠ 0)) :
    ((st.dict.var.map (fun v => v.fv)).Nodup
      ∧ (st.dict.var.map (fun v => name_key v.name)).Nodup
      ∧ (∀ p ∈ ps, env.var_is_valid_name p.2 = true)
      ∧ (∀ p ∈ ps, ∃ v ∈ st.dict.var, name_key v.name = name_key p.1)
      ∧ (ps.map (fun p => name_key p.1)).Nodup
      ∧ (ps.map (fun p => name_key p.2)).Nodup
      ∧ (∀ p ∈ ps, ∀ u ∈ st.dict.var, name_key u.name = name_key p.2 →
          name_key u.name = name_key p.1) →
      ∃ st1, read_extension big env st = (loop_ctl.next, st1)
        ∧ st1.r.file = t
        ∧ List.Forall₂ (fun p x => ∃ v ∈ st.dict.var, same_var_name v.name p.1 = true
            ∧ x = set_long_name p v) ps (st1.dict.var.take ps.length)
        ∧ st1.dict.var.drop ps.length = long_name_others ps st.dict.var)
    ∧ (∀ (ps1 ps2 : List (List Nat × List Nat)) (s l : List Nat) (dk : Writer.dictionary)
        (v : Writer.variable_),
        ps = ps1 ++ (s, l) :: ps2 →
        rename_long_names env ps1 0 st.dict = (some dk, []) →
        env.var_is_valid_name l = true → dict_lookup_var dk s = some v →
        same_var_name s l = false → dict_lookup_var dk l ≠ none →
        (read_extension big env st).1 = loop_ctl.error) := by
  have hm : 1 ≤ (longvar_text ps).length := by
    have h1 := longvar_text_length ps
    have h2 : 0 < ps.length := List.length_pos.mpr hps
    omega
  have hext := read_extension_13 big env st (longvar_text ps) t hm hlen hfile
  have hloop := long_names_loop_text env ps st.dict hwf
  constructor
  · rintro ⟨hfv, hnm, hvalid, hex, hsn, hln, hrest⟩
    obtain ⟨dict2, hren, hvar⟩ := rename_long_names_spec env ps [] st.dict.var st.dict
      rfl hfv hnm hvalid hex hsn hln
      (fun _ _ u hu => absurd hu (List.not_mem_nil u)) hrest
    rw [List.length_nil] at hren
    rw [hren] at hloop
    rcases hl : long_names_loop env ((longvar_text ps).length + 1)
      (c_string (longvar_text ps)) 0 st.dict with ⟨o, msgs⟩
    rw [hl] at hloop hext
    dsimp only at hloop
    subst hloop
    dsimp only at hext
    have hF := long_name_targets_forall₂ ps st.dict.var hex
    have hlenT : (long_name_targets ps st.dict.var).length = ps.length := hF.length_eq.symm
    refine ⟨_, hext, rfl, ?_, ?_⟩
    · show List.Forall₂ _ ps (dict2.var.take ps.length)
      rw [hvar, List.nil_append, ← hlenT, List.take_left]
      exact hF
    · show dict2.var.drop ps.length = _
      rw [hvar, List.nil_append, ← hlenT, List.drop_left]
  · intro ps1 ps2 s l dk v hsplit hren hvalid hlook hsl hdup
    have happ := rename_long_names_append env ps1 ((s, l) :: ps2) 0 st.dict dk hren
    rw [← hsplit] at happ
    have hnone : (rename_long_names env ps 0 st.dict).1 = none := by
      rw [happ, rename_long_names, if_neg (by rw [hvalid]; decide), hlook]
      dsimp only
      rw [if_pos ⟨hsl, hdup⟩]
    rw [hnone] at hloop
    rcases hl : long_names_loop env ((longvar_text ps).length + 1)
      (c_string (longvar_text ps)) 0 st.dict with ⟨o, msgs⟩
    rw [hl] at hloop hext
    dsimp only at hloop
    subst hloop
    rw [hext]

/-- The record with the text `B=Bmi`, TAB, `A=Age` for the variables `A` and `B`: the
reader goes on with the variables `Bmi` and `Age`, in the order of the record. -/
theorem long_names_record_witness :
    (∃ st1, read_extension false example_reader_host
          (example_open_state false false [example_numeric 65 0, example_numeric 66 1]
            ([13, 0, 0, 0, 1, 0, 0, 0, 11, 0, 0, 0]
              ++ [66, 61, 66, 109, 105, 9, 65, 61, 65, 103, 101]))
        = (loop_ctl.next, st1)
      ∧ st1.r.file = []
      ∧ List.Forall₂ (fun p x => ∃ v ∈ (example_open_state false false
              [example_numeric 65 0, example_numeric 66 1]
              ([13, 0, 0, 0, 1, 0, 0, 0, 11, 0, 0, 0]
                ++ [66, 61, 66, 109, 105, 9, 65, 61, 65, 103, 101])).dict.var,
            same_var_name v.name p.1 = true ∧ x = set_long_name p v)
          [([66], [66, 109, 105]), ([65], [65, 103, 101])]
          (st1.dict.var.take [([66], [66, 109, 105]), ([65], [65, 103, 101])].length)
      ∧ st1.dict.var.drop [([66], [66, 109, 105]), ([65], [65, 103, 101])].length
        = long_name_others [([66], [66, 109, 105]), ([65], [65, 103, 101])]
            (example_open_state false false [example_numeric 65 0, example_numeric 66 1]
              ([13, 0, 0, 0, 1, 0, 0, 0, 11, 0, 0, 0]
                ++ [66, 61, 66, 109, 105, 9, 65, 61, 65, 103, 101])).dict.var)
    ∧ (read_extension false example_reader_host
          (example_open_state false false [example_numeric 65 0, example_numeric 66 1]
            ([13, 0, 0, 0, 1, 0, 0, 0, 11, 0, 0, 0]
              ++ [66, 61, 66, 109, 105, 9, 65, 61, 65, 103, 101]))).2.dict.var.map
        (fun v => (v.name, v.short_name, v.fv))
      = [([66, 109, 105], [66], 1), ([65, 103, 101], [65], 0)] :=
  ⟨(long_names_record false example_reader_host
      (example_open_state false false [example_numeric 65 0, example_numeric 66 1]
        ([13, 0, 0, 0, 1, 0, 0, 0, 11, 0, 0, 0]
          ++ [66, 61, 66, 109, 105, 9, 65, 61, 65, 103, 101]))
      [([66], [66, 109, 105]), ([65], [65, 103, 101])] [] (by decide) (by decide)
      (by decide!) (by decide)).1
      ⟨by decide, by decide, by decide, by decide, by decide, by decide, by decide⟩,
    by decide!⟩

/-- C32 as claimed fails for a record that names a short name twice: with the variables
`A` and `Z` and the text `A=A`, TAB, `A=Y`, every long name is valid, every short name
is the name of a variable and no long name is the name of another variable, also at
the time its pair is reached, but the reader goes on with the variables `Z` and `Y`:
the variable found through `A` has the name `Y` and stands at position 1, not the name
`A` at position 0 as the first pair requires. -/
theorem repeated_short_name_renamed_twice :
    (read_extension false example_reader_host
        (example_open_state false false [example_numeric 65 0, example_numeric 90 1]
          ([13, 0, 0, 0, 1, 0, 0, 0, 7, 0, 0, 0] ++ [65, 61, 65, 9, 65, 61, 89]))).1
      = loop_ctl.next
    ∧ (read_extension false example_reader_host
        (example_open_state false false [example_numeric 65 0, example_numeric 90 1]
          ([13, 0, 0, 0, 1, 0, 0, 0, 7, 0, 0, 0] ++ [65, 61, 65, 9, 65, 61, 89]))).2.msgs = []
    ∧ (read_extension false example_reader_host
        (example_open_state false false [example_numeric 65 0, example_numeric 90 1]
          ([13, 0, 0, 0, 1, 0, 0, 0, 7, 0, 0, 0]
            ++ [65, 61, 65, 9, 65, 61, 89]))).2.dict.var.map
        (fun v => (v.name, v.short_name, v.fv))
      = [([90], [90], 1), ([89], [65], 0)] := by
  decide!

end

section

open Writer

/-- C11: on the bounce path the bytes of a string variable's segments behind its width
are not blanks but what the memory of the bounce buffer held before: for a writer with
one string variable of width `width`, not compressing, `sfm_write_case` adds to the file
the `width` bytes of the string and then the bytes of the fresh bounce buffer from the
offset `width` on. -/
theorem bounce_padding_is_junk (big : Bool) (w : sfm_writer) (c junk : List Nat)
    (v : sfm_var) (hv : w.vars = [v]) (hw0 : 0 < v.width)
    (hcnt : w.flt64_cnt = v.flt64_cnt) (hwid : v.width.toNat ≤ 8 * v.flt64_cnt)
    (hc : 8 * v.fv + v.width.toNat ≤ c.length) (hnt : w.needs_translation = true)
    (hcomp : w.compress = false) (hio : w.io = []) :
    (sfm_write_case big w c junk).1 = 1
    ∧ (sfm_write_case big w c junk).2.file
        = w.file ++ (mem_read c (8 * v.fv) v.width.toNat
          ++ (alloc junk (8 * v.flt64_cnt)).drop v.width.toNat)
    ∧ (8 * v.flt64_cnt ≤ junk.length →
        (alloc junk (8 * v.flt64_cnt)).drop v.width.toNat
          = (junk.take (8 * v.flt64_cnt)).drop v.width.toNat) := by
  have hwn : 0 < v.width.toNat := by omega
  have hsrc : (mem_read c (8 * v.fv) v.width.toNat).length = v.width.toNat := by
    unfold mem_read
    rw [List.length_take, List.length_drop]
    omega
  have hal := alloc_length junk (8 * v.flt64_cnt)
  have hfill : fill_bounce [v] c (alloc junk (8 * v.flt64_cnt)) 0
      = mem_read c (8 * v.fv) v.width.toNat
        ++ (alloc junk (8 * v.flt64_cnt)).drop v.width.toNat := by
    unfold fill_bounce
    dsimp only
    rw [if_neg (by omega), fill_bounce, memcpy_eq _ _ _ (by rw [hsrc, hal]; omega), hsrc]
    simp
  have hlen : (mem_read c (8 * v.fv) v.width.toNat
      ++ (alloc junk (8 * v.flt64_cnt)).drop v.width.toNat).length ≠ 0 := by
    rw [List.length_append, hsrc]
    omega
  refine ⟨(sfm_write_case_wrote big w c junk).1, ?_, fun hj => ?_⟩
  · unfold sfm_write_case
    dsimp only
    rw [hnt, hcomp, hv, hcnt, hfill]
    simp only [Bool.not_true, Bool.false_and, Bool.false_eq_true, if_false, Bool.not_false,
      if_true]
    have key : ∀ w2 : sfm_writer, w2.io = [] → w2.file = w.file →
        (buf_write w2 (mem_read c (8 * v.fv) v.width.toNat
          ++ (alloc junk (8 * v.flt64_cnt)).drop v.width.toNat)).2.file
        = w.file ++ (mem_read c (8 * v.fv) v.width.toNat
          ++ (alloc junk (8 * v.flt64_cnt)).drop v.width.toNat) := by
      intro w2 h1 h2
      rw [buf_write_ok w2 _ h1 hlen, ← h2]
    exact key _ hio rfl
  · unfold alloc
    rw [Nat.sub_eq_zero_of_le hj, List.replicate_zero, List.append_nil]

/-- C11, the failing input run: a string variable of width 5 with the value `HELLO`,
and a bounce buffer whose memory held the bytes 1 to 8: the segment written ends in
the bytes 6, 7, 8. -/
theorem bounce_padding_example :
    (sfm_write_case false
        { needs_translation := true, compress := false, case_cnt := 0, flt64_cnt := 1,
          buf := [], end_ := 0, ptr := 0, x := 0, y := 0, vars := [⟨5, 0, 1⟩], file := [],
          io := [] } [72, 69, 76, 76, 79, 32, 32, 32] [1, 2, 3, 4, 5, 6, 7, 8]).2.file
      = [72, 69, 76, 76, 79, 6, 7, 8] :=
  (bounce_padding_is_junk false
      { needs_translation := true, compress := false, case_cnt := 0, flt64_cnt := 1,
        buf := [], end_ := 0, ptr := 0, x := 0, y := 0, vars := [⟨5, 0, 1⟩], file := [],
        io := [] } [72, 69, 76, 76, 79, 32, 32, 32] [1, 2, 3, 4, 5, 6, 7, 8] ⟨5, 0, 1⟩
      rfl (by decide) rfl (by decide) (by decide) rfl rfl rfl).2.1.trans (by decide)

end

section

open Reader

theorem map_eq_append_cons {α β : Type} (f : α → β) :
    ∀ (l : List α) (pre : List β) (b : β) (post : List β), l.map f = pre ++ b :: post →
    ∃ lpre x lpost, l = lpre ++ x :: lpost ∧ lpre.map f = pre ∧ f x = b ∧ lpost.map f = post
  | [], pre, b, post, h => by
    cases pre <;> simp at h
  | a :: l, [], b, post, h => by
    simp only [List.map_cons, List.nil_append, List.cons.injEq] at h
    exact ⟨[], a, l, rfl, rfl, h.1, h.2⟩
  | a :: l, p :: pre, b, post, h => by
    simp only [List.map_cons, List.cons_append, List.cons.injEq] at h
    obtain ⟨lpre, x, lpost, h1, h2, h3, h4⟩ := map_eq_append_cons f l pre b post h.2
    exact ⟨a :: lpre, x, lpost, by rw [h1]; rfl, by simp [h.1, h2], h3, h4⟩

theorem sum_flt64_cnt_nonneg_of (rs : List Writer.variable_) (ws : List Writer.variable_)
    (h : Writer.sum_flt64_cnt ws = ((rs.map (fun x => x.nv)).sum : Nat)) :
    0 ≤ Writer.sum_flt64_cnt ws := by
  rw [h]
  exact Int.ofNat_nonneg _

/-- C22: the index that the writer stores for the variable `v` of a dictionary, in the
header's `weight_idx` when `v` is the weighting variable and in the type 4 record when
`v` has value labels, is 1 plus the sum of `var_flt64_cnt` over the variables before
`v`; and where `read_variables` returns 1 with the variables of the dictionary in their
order (the same widths), `var_by_idx` at that index less 1 points to the variable at
the position of `v`, not to a continuation record. -/
theorem stored_index_names_head (big : Bool) (wenv : Writer.host) (renv : host)
    (d : Writer.dictionary) (compress : Bool) (pre post : List Writer.variable_)
    (v : Writer.variable_) (r : sfm_reader) (rdict : Writer.dictionary) (res : vars_result)
    (hd : d.var = pre ++ v :: post)
    (htype : ∀ u ∈ d.var, u.type = (if u.width = 0 then Writer.NUMERIC else Writer.ALPHA))
    (hempty : rdict.var = [])
    (hread : read_variables big renv r rdict = some res) (hret : res.ret = 1)
    (hsame : res.dict.var.map (fun x => x.width) = d.var.map (fun x => x.width)) :
    (d.weight = some pre.length →
        (Writer.make_header big wenv compress d).weight_idx
          = int32_bytes big (1 + Writer.sum_flt64_cnt pre))
    ∧ (∀ w : Writer.sfm_writer, (Writer.write_all_value_labels big wenv pre 0 w).1 = true →
        Writer.write_all_value_labels big wenv d.var 0 w
          = (match Writer.write_value_labels big wenv
                (Writer.write_all_value_labels big wenv pre 0 w).2 v
                (0 + Writer.sum_flt64_cnt pre) with
            | (false, w1) => (false, w1)
            | (true, w1) =>
              Writer.write_all_value_labels big wenv post
                (0 + Writer.sum_flt64_cnt pre + Writer.var_flt64_cnt v) w1))
    ∧ (∀ (w w1 : Writer.sfm_writer) (idx : Int), v.val_labs.length ≠ 0 →
        Writer.buf_write w (int32_bytes big 3 ++ int32_bytes big v.val_labs.length
          ++ ((wenv.val_labs_sorted v.val_labs).map Writer.value_label_bytes).flatten)
          = (true, w1) →
        Writer.write_value_labels big wenv w v idx
          = Writer.buf_write w1
              (int32_bytes big 4 ++ int32_bytes big 1 ++ int32_bytes big (idx + 1)))
    ∧ 0 ≤ Writer.sum_flt64_cnt pre
    ∧ ∃ x rpre rpost, res.dict.var = rpre ++ x :: rpost ∧ rpre.length = pre.length
        ∧ x.width = v.width
        ∧ res.var_by_idx.getD ((1 + Writer.sum_flt64_cnt pre) - 1).toNat none = some x.fv
        ∧ var_lookup res.dict x.fv = some x := by
  obtain ⟨hb, hs, hv⟩ := read_variables_blocks big renv r rdict res hempty hread hret
  rw [hd, List.map_append, List.map_cons] at hsame
  obtain ⟨rpre, x, rpost, hr, hpre, hx, _⟩ :=
    map_eq_append_cons (fun x : Writer.variable_ => x.width) res.dict.var _ _ _ hsame
  have hsum : Writer.sum_flt64_cnt pre = ((rpre.map (fun x => x.nv)).sum : Nat) :=
    sum_flt64_cnt_widths pre rpre hpre.symm
      (fun u hu => htype u (by rw [hd]; exact List.mem_append_left _ hu))
      (fun y hy => (hv y (by rw [hr]; exact List.mem_append_left _ hy)).1)
  refine ⟨fun hw => ?_, fun w hw => ?_, fun w w1 idx hn hbw => ?_,
    sum_flt64_cnt_nonneg_of rpre pre hsum, x, rpre, rpost, hr, ?_, hx, ?_, ?_⟩
  · unfold Writer.make_header
    simp only [hw, hd, List.take_left']
  · rw [hd]
    exact write_all_value_labels_split big wenv v post pre 0 w hw
  · unfold Writer.write_value_labels
    rw [if_neg hn, hbw]
  · have := congrArg List.length hpre
    simpa using this
  · rw [hb, hr, hsum]
    have h1 : ((1 + (((rpre.map (fun x => x.nv)).sum : Nat) : Int)) - 1).toNat
        = (rpre.map (fun x => x.nv)).sum := by omega
    rw [h1]
    rw [hr] at hs
    exact blocks_head rpre x rpost 0 hs
  · rw [hr] at hs
    unfold var_lookup
    rw [hr]
    exact var_starts_lookup rpre x rpost 0 hs

/-- C22, an instance: the dictionary of the examples, a string variable of width 16 and
then the numeric weighting variable with a value label, written by `sfm_open_writer`
and its variable records read by `read_variables`: the index stored is 3, and
`var_by_idx` at 2 points to the numeric variable. -/
theorem stored_index_names_head_witness :
    (Writer.make_header false example_host_formats true example_weighted_dict).weight_idx
        = [3, 0, 0, 0]
    ∧ ∃ res, read_variables false example_reader_host
          { new_reader false (example_written_file.drop 176) with value_cnt := 3 }
          dict_create = some res
      ∧ res.ret = 1
      ∧ res.var_by_idx = [some 0, none, some 2]
      ∧ ∃ x rpre rpost, res.dict.var = rpre ++ x :: rpost ∧ rpre.length = 1
        ∧ x.width = 0
        ∧ res.var_by_idx.getD ((1 + Writer.sum_flt64_cnt
            [{ example_string 65 0 with width := 16, nv := 2 }]) - 1).toNat none = some x.fv
        ∧ var_lookup res.dict x.fv = some x := by
  have hs : (read_variables false example_reader_host
      { new_reader false (example_written_file.drop 176) with value_cnt := 3 }
      dict_create).map
        (fun res => (res.ret, res.var_by_idx, res.dict.var.map (fun x => x.width)))
      = some (1, [some 0, none, some 2], [16, 0]) := by decide!
  rcases hr : read_variables false example_reader_host
      { new_reader false (example_written_file.drop 176) with value_cnt := 3 }
      dict_create with _ | res
  · rw [hr] at hs
    simp at hs
  · rw [hr] at hs
    simp only [Option.map_some', Option.some.injEq, Prod.mk.injEq] at hs
    obtain ⟨h1, h2, h3⟩ := hs
    have h := stored_index_names_head false example_host_formats example_reader_host
      example_weighted_dict true [{ example_string 65 0 with width := 16, nv := 2 }] []
      { example_numeric 66 2 with
          val_labs := [{ value := [1, 0, 0, 0, 0, 0, 0, 0], label := [88] }] }
      _ dict_create res rfl (by decide) rfl hr h1 (by rw [h3]; rfl)
    exact ⟨(h.1 rfl).trans (by decide), res, rfl, h1, h2, h.2.2.2.2⟩

end

section

open Reader

theorem pack3_nat (t w d : Nat) (hw : w < 256) (hd : d < 256) :
    (t * 65536 ||| w * 256) ||| d = t * 65536 + w * 256 + d := by
  have h1 : 2 ^ 16 * t + w * 256 = 2 ^ 16 * t ||| w * 256 :=
    Nat.mul_add_lt_is_or (by omega) t
  have h2 : 2 ^ 8 * (t * 256 + w) + d = 2 ^ 8 * (t * 256 + w) ||| d :=
    Nat.mul_add_lt_is_or (by omega) _
  have e1 : t * 65536 = 2 ^ 16 * t := by omega
  have e2 : 2 ^ 16 * t + w * 256 = 2 ^ 8 * (t * 256 + w) := by omega
  rw [e1, ← h1, e2, ← h2]

theorem unpack3_nat (t w d : Nat) (ht : t < 256) (hw : w < 256) (hd : d < 256) :
    ((t * 65536 + w * 256 + d) >>> 16) &&& 255 = t
    ∧ ((t * 65536 + w * 256 + d) >>> 8) &&& 255 = w
    ∧ (t * 65536 + w * 256 + d) &&& 255 = d := by
  have e : (255 : Nat) = 2 ^ 8 - 1 := by norm_num
  rw [e]
  simp only [Nat.and_pow_two_sub_one_eq_mod, Nat.shiftRight_eq_div_pow]
  refine ⟨?_, ?_, ?_⟩ <;> omega

/-- C18: for a format whose SPSS type code, width and decimals each lie in 0..255, the
word of `write_format_spec` is `(t << 16) | (w << 8) | d`, which is the number
`65536 t + 256 w + d`; the `int32` stored in the record reads back as that word; the
three bytes that `parse_format_spec` takes from it are `t`, `w` and `d`; and where
`parse_format_spec` accepts the format it stores the translation of `t` with the
width `w` and the decimals `d`. -/
theorem format_spec_round_trip (big : Bool) (wenv : Writer.host) (renv : host)
    (src : Writer.fmt_spec) (vtype width : Int)
    (ht : 0 ≤ wenv.formats_spss src.type ∧ wenv.formats_spss src.type ≤ 255)
    (hw : 0 ≤ src.w ∧ src.w ≤ 255) (hd : 0 ≤ src.d ∧ src.d ≤ 255) :
    Writer.write_format_spec wenv src
        = Int.lor (Int.lor (wenv.formats_spss src.type * 65536) (src.w * 256)) src.d
    ∧ Writer.write_format_spec wenv src
        = wenv.formats_spss src.type * 65536 + src.w * 256 + src.d
    ∧ int32_val big (int32_bytes big (Writer.write_format_spec wenv src))
        = Writer.write_format_spec wenv src
    ∧ Int.land (Int.shiftRight (Writer.write_format_spec wenv src) 16) 255
        = wenv.formats_spss src.type
    ∧ Int.land (Int.shiftRight (Writer.write_format_spec wenv src) 8) 255 = src.w
    ∧ Int.land (Writer.write_format_spec wenv src) 255 = src.d
    ∧ (renv.translate_fmt (wenv.formats_spss src.type) ≠ -1 →
        xor (decide (vtype = Writer.ALPHA))
          (renv.fmt_is_string (renv.translate_fmt (wenv.formats_spss src.type))) = false →
        renv.check_output_specifier
          { type := (renv.translate_fmt (wenv.formats_spss src.type)).toNat,
            w := src.w, d := src.d } = true →
        renv.check_specifier_width
          { type := (renv.translate_fmt (wenv.formats_spss src.type)).toNat,
            w := src.w, d := src.d } width = true →
        parse_format_spec renv (Writer.write_format_spec wenv src) vtype width
          = (some { type := (renv.translate_fmt (wenv.formats_spss src.type)).toNat,
                    w := src.w, d := src.d }, [])) := by
  obtain ⟨T, hT⟩ := Int.eq_ofNat_of_zero_le ht.1
  obtain ⟨W, hW⟩ := Int.eq_ofNat_of_zero_le hw.1
  obtain ⟨D, hD⟩ := Int.eq_ofNat_of_zero_le hd.1
  have hT2 : T < 256 := by omega
  have hW2 : W < 256 := by omega
  have hD2 : D < 256 := by omega
  have hnum : Writer.write_format_spec wenv src = ((T * 65536 + W * 256 + D : Nat) : Int) := by
    unfold Writer.write_format_spec
    rw [hT, hW, hD, ← pack3_nat T W D hW2 hD2]
    rfl
  obtain ⟨u1, u2, u3⟩ := unpack3_nat T W D hT2 hW2 hD2
  have l1 : Int.land (Int.shiftRight (Writer.write_format_spec wenv src) 16) 255
      = wenv.formats_spss src.type := by
    rw [hnum, hT]
    exact congrArg Int.ofNat u1
  have l2 : Int.land (Int.shiftRight (Writer.write_format_spec wenv src) 8) 255 = src.w := by
    rw [hnum, hW]
    exact congrArg Int.ofNat u2
  have l3 : Int.land (Writer.write_format_spec wenv src) 255 = src.d := by
    rw [hnum, hD]
    exact congrArg Int.ofNat u3
  refine ⟨rfl, ?_, ?_, l1, l2, l3, fun h1 h2 h3 h4 => ?_⟩
  · rw [hnum, hT, hW, hD]
    push_cast
    rfl
  · apply int32_val_bytes
    · rw [hnum]
      have : (0 : Int) ≤ ((T * 65536 + W * 256 + D : Nat) : Int) := Int.ofNat_nonneg _
      omega
    · rw [hnum]
      have : ((T * 65536 + W * 256 + D : Nat) : Int) < 2 ^ 24 := by
        have : T * 65536 + W * 256 + D < 2 ^ 24 := by omega
        exact_mod_cast this
      omega
  · unfold parse_format_spec
    simp only [l1, l2, l3]
    rw [if_neg h1, h2]
    simp [h3, h4]

/-- C18, an instance: the format F8.2 with the SPSS code 5 is packed as 329730
(the bytes 2, 8, 5, 0 on a little-endian host) and parsed back as type 0, width 8,
2 decimals. -/
theorem format_spec_round_trip_witness :
    Writer.write_format_spec example_host { type := 0, w := 8, d := 2 } = 329730
    ∧ int32_bytes false (Writer.write_format_spec example_host { type := 0, w := 8, d := 2 })
        = [2, 8, 5, 0]
    ∧ parse_format_spec example_reader_host
        (Writer.write_format_spec example_host { type := 0, w := 8, d := 2 }) Writer.NUMERIC 0
        = (some { type := 0, w := 8, d := 2 }, []) :=
  have h := format_spec_round_trip false example_host example_reader_host
    { type := 0, w := 8, d := 2 } Writer.NUMERIC 0 (by decide) (by decide) (by decide)
  ⟨h.2.1, by decide, h.2.2.2.2.2.2 (by decide) (by decide) rfl rfl⟩

end

section

open Writer

theorem buf_write_app (w : sfm_writer) (pre data : List Nat) (hio : w.io = [])
    (hd : data.length ≠ 0) :
    buf_write { w with file := w.file ++ pre } data
      = (true, { w with file := w.file ++ (pre ++ data) }) := by
  exact (buf_write_ok { w with file := w.file ++ pre } data hio hd).trans
    (by simp only [List.append_assoc])

theorem continuation_record_eq (big : Bool) :
    sysfile_variable_bytes big (-1) 0 0 0 0 (List.replicate 8 0) = continuation_record big := by
  cases big <;> decide

theorem continuation_record_length (big : Bool) : (continuation_record big).length = 32 := by
  cases big <;> decide

theorem write_continuations_app (big : Bool) (w : sfm_writer) (hio : w.io = []) :
    ∀ (n : Nat) (pre : List Nat),
      write_continuations big n { w with file := w.file ++ pre }
        = (true, { w with file := w.file
            ++ (pre ++ (List.replicate n (continuation_record big)).flatten) })
  | 0, pre => by simp [write_continuations]
  | n + 1, pre => by
    rw [write_continuations, continuation_record_eq,
      buf_write_app w pre _ hio (by rw [continuation_record_length]; decide)]
    dsimp only
    rw [write_continuations_app big w hio n]
    simp [List.replicate_succ, List.append_assoc]

theorem head_record_length (big : Bool) (env : host) (v : variable_) :
    (head_record big env v).length = 32 := by
  unfold head_record sysfile_variable_bytes buf_copy_str_rpad
  simp only [List.length_append, int32_bytes_length, List.length_take, List.length_replicate]
  omega

theorem label_bytes_length (big : Bool) (v : variable_) (label : List Nat)
    (h : v.label = some label) : (label_bytes big v).length ≠ 0 := by
  unfold label_bytes
  rw [h]
  unfold stage_label
  simp only [List.length_append, int32_bytes_length]
  omega

theorem segments_eq (v : variable_) (h : v.type = NUMERIC ∨ (v.type = ALPHA ∧ 1 ≤ v.width)) :
    (segments v : Int) = var_flt64_cnt v ∧ 1 ≤ segments v
    ∧ (segments v : Int) = (if v.type = NUMERIC then 1 else (v.width + 7) / 8) := by
  unfold segments var_flt64_cnt DIV_RND_UP
  rcases h with h | ⟨h, hw⟩
  · simp [h]
  · have hn : ¬ v.type = NUMERIC := by rw [h]; decide
    rw [if_neg hn, if_neg hn, if_neg hn, Int.tdiv_eq_ediv (by omega) (by norm_num)]
    omega

theorem write_variable_file (big : Bool) (env : host) (w : sfm_writer) (v : variable_)
    (hio : w.io = []) (htype : v.type = NUMERIC ∨ (v.type = ALPHA ∧ 1 ≤ v.width))
    (hmiss : ∀ c ∈ missing_cells big v, c.length = 8) :
    write_variable big env w v
      = (true, { w with file := w.file ++ (variable_records big env v).flatten }) := by
  have hseg := segments_eq v htype
  have hhead := head_record_length big env v
  have hmb : missing_count big v ≠ 0 → (missing_cells big v).flatten.length ≠ 0 := by
    intro hne
    rcases hc : missing_cells big v with _ | ⟨c, cs⟩
    · exfalso
      apply hne
      unfold missing_count
      rw [hc]
      simp
    · have := hmiss c (by rw [hc]; exact List.mem_cons_self _ _)
      simp only [List.flatten_cons, List.length_append]
      omega
  have step1 : buf_write w (head_record big env v)
      = (true, { w with file := w.file ++ head_record big env v }) :=
    buf_write_ok w _ hio (by rw [hhead]; decide)
  have step2 : (match v.label with
      | some label =>
        buf_write { w with file := w.file ++ head_record big env v }
          ((stage_label big label).1 ++ (stage_label big label).2)
      | none => (true, { w with file := w.file ++ head_record big env v }))
      = (true, { w with file := w.file ++ (head_record big env v ++ label_bytes big v) }) := by
    rcases hl : v.label with _ | label
    · simp [label_bytes, hl]
    · dsimp only
      have := label_bytes_length big v label hl
      unfold label_bytes at this ⊢
      rw [hl] at this ⊢
      dsimp only at this ⊢
      exact buf_write_app w _ _ hio this
  have step3 : (if missing_count big v ≠ 0 then
        buf_write { w with file := w.file ++ (head_record big env v ++ label_bytes big v) }
          (missing_cells big v).flatten
      else (true, { w with file := w.file ++ (head_record big env v ++ label_bytes big v) }))
      = (true, { w with file := w.file
          ++ (head_record big env v ++ label_bytes big v ++ missing_bytes big v) }) := by
    unfold missing_bytes
    by_cases hne : missing_count big v ≠ 0
    · rw [if_pos hne, if_pos hne]
      exact buf_write_app w _ _ hio (hmb hne)
    · rw [if_neg hne, if_neg hne, List.append_nil]
  have step4 : (if v.type = ALPHA ∧ v.width > 8 then
        write_continuations big (DIV_RND_UP v.width 8 - 1).toNat
          { w with file := w.file
            ++ (head_record big env v ++ label_bytes big v ++ missing_bytes big v) }
      else (true, { w with file := w.file
            ++ (head_record big env v ++ label_bytes big v ++ missing_bytes big v) }))
      = (true, { w with file := w.file ++ (variable_records big env v).flatten }) := by
    unfold variable_records
    rw [List.flatten_cons]
    by_cases hc : v.type = ALPHA ∧ v.width > 8
    · rw [if_pos hc, write_continuations_app big w hio]
      have hn : (DIV_RND_UP v.width 8 - 1).toNat = segments v - 1 := by
        have hnn : ¬ v.type = NUMERIC := by rw [hc.1]; decide
        have h1 := hseg.1
        unfold var_flt64_cnt at h1
        rw [if_neg hnn] at h1
        omega
      rw [hn]
    · rw [if_neg hc]
      have hn : segments v - 1 = 0 := by
        unfold segments
        rcases htype with h | ⟨h, hw⟩
        · rw [if_pos h]
        · have hnn : ¬ v.type = NUMERIC := by rw [h]; decide
          rw [if_neg hnn]
          have : v.width ≤ 8 := by
            by_contra hgt
            exact hc ⟨h, by omega⟩
          omega
      rw [hn]
      simp
  unfold write_variable
  dsimp only
  split
  · rename_i w1 heq
    exact absurd (heq.symm.trans step1) (by simp)
  · rename_i w1 heq
    have hw1 : w1 = { w with file := w.file ++ head_record big env v } := by
      have := heq.symm.trans step1
      simp only [Prod.mk.injEq, true_and] at this
      exact this
    subst hw1
    split
    · rename_i w2 heq2
      exact absurd (heq2.symm.trans step2) (by simp)
    · rename_i w2 heq2
      have hw2 : w2 = { w with file := w.file
          ++ (head_record big env v ++ label_bytes big v) } := by
        have := heq2.symm.trans step2
        simp only [Prod.mk.injEq, true_and] at this
        exact this
      subst hw2
      split
      · rename_i w3 heq3
        exact absurd (heq3.symm.trans step3) (by simp)
      · rename_i w3 heq3
        have hw3 : w3 = { w with file := w.file
            ++ (head_record big env v ++ label_bytes big v ++ missing_bytes big v) } := by
          have := heq3.symm.trans step3
          simp only [Prod.mk.injEq, true_and] at this
          exact this
        subst hw3
        exact step4

theorem write_variables_file (big : Bool) (env : host) :
    ∀ (vs : List variable_) (w : sfm_writer), w.io = [] →
      (∀ v ∈ vs, (v.type = NUMERIC ∨ (v.type = ALPHA ∧ 1 ≤ v.width))
        ∧ ∀ c ∈ missing_cells big v, c.length = 8) →
      write_variables big env vs w
        = { w with file := w.file ++ ((vs.map (variable_records big env)).flatten).flatten }
  | [], w, _, _ => by simp [write_variables]
  | v :: vs, w, hio, h => by
    have hv := h v (List.mem_cons_self _ _)
    rw [write_variables, write_variable_file big env w v hio hv.1 hv.2]
    dsimp only
    exact (write_variables_file big env vs
      { w with file := w.file ++ (variable_records big env v).flatten } hio
      (fun u hu => h u (List.mem_cons_of_mem _ hu))).trans
      (by simp only [List.map_cons, List.flatten_cons, List.flatten_append,
        List.append_assoc])

theorem variable_records_length (big : Bool) (env : host) (v : variable_)
    (h : v.type = NUMERIC ∨ (v.type = ALPHA ∧ 1 ≤ v.width)) :
    (variable_records big env v).length = segments v := by
  have := (segments_eq v h).2.1
  unfold variable_records
  simp only [List.length_cons, List.length_replicate]
  omega

theorem records_count (big : Bool) (env : host) :
    ∀ vs : List variable_,
      (∀ v ∈ vs, v.type = NUMERIC ∨ (v.type = ALPHA ∧ 1 ≤ v.width)) →
      (((vs.map (variable_records big env)).flatten.length : Nat) : Int) = sum_flt64_cnt vs
  | [], _ => by simp [sum_flt64_cnt]
  | v :: vs, h => by
    have hv := h v (List.mem_cons_self _ _)
    have ih := records_count big env vs (fun u hu => h u (List.mem_cons_of_mem _ hu))
    simp only [List.map_cons, List.flatten_cons, List.length_append, sum_flt64_cnt,
      Nat.cast_add, ih, variable_records_length big env v hv, (segments_eq v hv).1]

/-- C12: where the writes succeed, `write_variable` lays down for a variable `v` (numeric,
or a string of width 1 at least) one head record, with the tag 2 and the width as its
type, and behind what belongs to it `segments v - 1` continuation records, which have
the type -1 and zeros in every other field: `segments v` records in all, 1 for a
numeric variable and the width over 8 rounded up for a string, more than one exactly
for a string wider than 8. The records of all the variables of a dictionary are as many
as the `case_size` that `write_header` stores. -/
theorem write_variable_record_count (big : Bool) (env : host) (compress : Bool)
    (d : dictionary)
    (hvars : ∀ v ∈ d.var, (v.type = NUMERIC ∨ (v.type = ALPHA ∧ 1 ≤ v.width))
      ∧ ∀ c ∈ missing_cells big v, c.length = 8) :
    (∀ v ∈ d.var,
        (∀ w : sfm_writer, w.io = [] →
          write_variable big env w v
            = (true, { w with file := w.file ++ (variable_records big env v).flatten }))
        ∧ (variable_records big env v).length = segments v
        ∧ (segments v : Int) = (if v.type = NUMERIC then 1 else (v.width + 7) / 8)
        ∧ (1 < segments v ↔ v.type = ALPHA ∧ v.width > 8)
        ∧ ((variable_records big env v).headD []).take 8
            = int32_bytes big 2 ++ int32_bytes big v.width
        ∧ (variable_records big env v).tail
            = List.replicate (segments v - 1) (continuation_record big)
        ∧ continuation_record big
            = sysfile_variable_bytes big (-1) 0 0 0 0 (List.replicate 8 0))
    ∧ (∀ w : sfm_writer, w.io = [] →
        write_variables big env d.var w
          = { w with file := w.file
                ++ ((d.var.map (variable_records big env)).flatten).flatten })
    ∧ (((d.var.map (variable_records big env)).flatten.length : Nat) : Int)
        = sum_flt64_cnt d.var
    ∧ (make_header big env compress d).case_size
        = int32_bytes big (((d.var.map (variable_records big env)).flatten.length : Nat) : Int)
        := by
  have hcount := records_count big env d.var (fun v hv => (hvars v hv).1)
  refine ⟨fun v hv => ⟨fun w hio => write_variable_file big env w v hio (hvars v hv).1
      (hvars v hv).2, variable_records_length big env v (hvars v hv).1,
      (segments_eq v (hvars v hv).1).2.2, ?_, ?_, rfl, (continuation_record_eq big).symm⟩,
    fun w hio => write_variables_file big env d.var w hio hvars, hcount, ?_⟩
  · have h3 := (segments_eq v (hvars v hv).1).2.2
    rcases (hvars v hv).1 with h | ⟨h, hw⟩
    · rw [if_pos h] at h3
      have hna : ¬ v.type = ALPHA := by rw [h]; decide
      constructor
      · intro h1
        omega
      · intro h1
        exact absurd h1.1 hna
    · have hnn : ¬ v.type = NUMERIC := by rw [h]; decide
      rw [if_neg hnn] at h3
      constructor
      · intro h1
        exact ⟨h, by omega⟩
      · intro h1
        have := h1.2
        omega
  · unfold variable_records head_record sysfile_variable_bytes
    simp only [List.headD_cons, List.append_assoc]
    rw [← List.append_assoc, List.take_append_of_le_length (by
      simp only [List.length_append, int32_bytes_length]
      omega)]
    rw [List.take_of_length_le (by simp only [List.length_append, int32_bytes_length]; omega)]
  · unfold make_header
    dsimp only
    rw [hcount]

/-- C12, an instance: the dictionary of the examples, a string variable of width 16 and
a numeric variable: three records, the second a continuation record, and the
`case_size` 3. -/
theorem write_variable_record_count_witness :
    (example_weighted_dict.var.map (variable_records false example_host_formats)).flatten.length
        = 3
    ∧ (example_weighted_dict.var.map (fun v => segments v)) = [2, 1]
    ∧ (make_header false example_host_formats true example_weighted_dict).case_size
        = [3, 0, 0, 0]
    ∧ (write_variables false example_host_formats example_weighted_dict.var
          { needs_translation := false, compress := false, case_cnt := 0, flt64_cnt := 3,
            buf := [], end_ := 0, ptr := 0, x := 0, y := 0, vars := [], file := [],
            io := [] }).file
        = ((example_weighted_dict.var.map
            (variable_records false example_host_formats)).flatten).flatten :=
  have h := write_variable_record_count false example_host_formats true
    example_weighted_dict (by decide)
  ⟨by decide, by decide, h.2.2.2.trans (by decide),
    (congrArg sfm_writer.file (h.2.1 _ rfl)).trans (List.nil_append _)⟩

end

section

open Reader

theorem round_up_4 (n : Nat) : Writer.ROUND_UP (n : Int) 4 = ((4 * ((n + 3) / 4) : Nat) : Int) := by
  unfold Writer.ROUND_UP
  rw [Int.tdiv_eq_ediv (by omega) (by norm_num)]
  omega

theorem stage_label_short (wb : Bool) (label : List Nat) (h2 : label.length ≤ 252) :
    (Writer.stage_label wb label).1 = int32_bytes wb label.length ++ (label
      ++ List.replicate (4 * ((label.length + 3) / 4) - label.length) 32)
    ∧ (Writer.stage_label wb label).2 = [] := by
  have hmin : min (label.length : Int) 255 = (label.length : Int) := by omega
  have hlen : (label ++ List.replicate (4 * ((label.length + 3) / 4) - label.length) 32).length
      ≤ Writer.label_capacity := by
    unfold Writer.label_capacity
    rw [List.length_append, List.length_replicate]
    omega
  have hpad : ((((4 * ((label.length + 3) / 4) : Nat) : Int)) - (label.length : Int)).toNat
      = 4 * ((label.length + 3) / 4) - label.length := by omega
  unfold Writer.stage_label
  dsimp only
  rw [hmin, round_up_4, Int.toNat_ofNat, List.take_of_length_le (le_refl _), hpad,
    List.take_of_length_le hlen, List.drop_eq_nil_of_le hlen]
  exact ⟨rfl, rfl⟩

theorem stage_label_long (wb : Bool) (label : List Nat) (h : 253 ≤ label.length) :
    (Writer.stage_label wb label).1.length = 4 + Writer.label_capacity
    ∧ (Writer.stage_label wb label).2 = [32] := by
  have hru : Writer.ROUND_UP (min (label.length : Int) 255) 4 = 256 := by
    unfold Writer.ROUND_UP
    rw [Int.tdiv_eq_ediv (by omega) (by norm_num)]
    omega
  have htl : (label.take (min (label.length : Int) 255).toNat).length
      = (min (label.length : Int) 255).toNat := by
    rw [List.length_take]
    omega
  have hle : (min (label.length : Int) 255).toNat ≤ 255 := by omega
  have hge : 253 ≤ (min (label.length : Int) 255).toNat := by omega
  unfold Writer.stage_label Writer.label_capacity
  dsimp only
  rw [hru]
  constructor
  · rw [List.length_append, int32_bytes_length, List.length_take, List.length_append, htl,
      List.length_replicate]
    omega
  · rw [List.drop_append_eq_append_drop, List.drop_eq_nil_of_le (by rw [htl]; exact hle),
      htl, List.drop_replicate, List.nil_append]
    have e : ((256 : Int) - min (label.length : Int) 255).toNat
        - (255 - (min (label.length : Int) 255).toNat) = 1 := by omega
    rw [e]
    rfl

theorem label_bytes_eq (wb : Bool) (v : Writer.variable_) (label : List Nat)
    (hl : v.label = some label) (h2 : label.length ≤ 252) :
    Writer.label_bytes wb v = int32_bytes wb label.length ++ label
      ++ List.replicate (4 * ((label.length + 3) / 4) - label.length) 32 := by
  obtain ⟨e1, e2⟩ := stage_label_short wb label h2
  unfold Writer.label_bytes
  rw [hl]
  dsimp only
  rw [e1, e2, List.append_nil, List.append_assoc]

theorem read_var_label_cases (big : Bool) (r : sfm_reader) (len : Int)
    (h4 : 4 ≤ r.file.length) (hlen : fix_int32 big r (r.file.take 4) = len) :
    ((len < 0 ∨ 255 < len) →
        (read_var_label big r 1).1 = none
        ∧ (read_var_label big r 1).2.2 = [dict_message.bad_label_length])
    ∧ (len = 0 → read_var_label big r 1 = (some none, { r with file := r.file.drop 4 }, []))
    ∧ (1 ≤ len → len ≤ 255 →
        (Writer.ROUND_UP len 4).toNat ≤ (r.file.drop 4).length →
        read_var_label big r 1
          = (some (some (c_string
                (((r.file.drop 4).take (Writer.ROUND_UP len 4).toNat).take len.toNat))),
              { r with file := (r.file.drop 4).drop (Writer.ROUND_UP len 4).toNat }, []))
    ∧ (1 ≤ len → len ≤ 255 →
        (r.file.drop 4).length < (Writer.ROUND_UP len 4).toNat →
        (read_var_label big r 1).1 = none) := by
  have hb := buf_read_some r 4 false (by norm_num) h4
  refine ⟨fun h => ?_, fun h => ?_, fun h1 h2 h3 => ?_, fun h1 h2 h3 => ?_⟩
  · unfold read_var_label
    rw [if_pos rfl, hb]
    dsimp only
    rw [hlen, if_pos (by omega)]
    exact ⟨rfl, rfl⟩
  · unfold read_var_label
    rw [if_pos rfl, hb]
    dsimp only
    rw [hlen, if_neg (by omega), if_neg (by omega)]
  · have hr : 0 < (Writer.ROUND_UP len 4).toNat := by
      unfold Writer.ROUND_UP
      rw [Int.tdiv_eq_ediv (by omega) (by norm_num)]
      omega
    unfold read_var_label
    rw [if_pos rfl, hb]
    dsimp only
    rw [hlen, if_neg (by omega), if_pos (by omega),
      buf_read_some { r with file := r.file.drop 4 } _ true hr h3]
  · unfold read_var_label
    rw [if_pos rfl, hb]
    dsimp only
    rw [hlen, if_neg (by omega), if_pos (by omega),
      buf_read_none { r with file := r.file.drop 4 } _ true h3]

theorem read_variable_rest_label_error (big : Bool) (env : host) (st : vars_state)
    (r : sfm_reader) (p : Nat) (dict : Writer.dictionary)
    (type hl nmiss print write : Int) (m0 : List dict_message)
    (h : (read_var_label big r hl).1 = none) :
    (read_variable_rest big env st r p dict type hl nmiss print write m0).1
      = loop_ctl.error := by
  unfold read_variable_rest
  dsimp only
  split
  · rfl
  · rename_i label r2 m heq
    rw [heq] at h
    simp at h

/-- C17: for a variable whose label has 1 to 252 bytes, none of them null, the label
block of `write_variable` lies inside the local `struct label`, and the bytes that
`write_variable` writes behind the head record for the label are the length as an
`int32`, the label, and blanks up to the next multiple of 4; the part of
`read_variables` that reads the label, on a file of that byte order that starts with
those bytes, takes exactly those bytes and gives the label back. That part accepts the
lengths 0 to 255, reads nothing behind the length 0, and jumps to `error` for every
other length, and `read_variables` with it. For a label of 253 bytes or more the
writer fills all the 259 bytes of `struct label` and stores one more blank behind the
struct, which `buf_write` is made to take from there: the block is not inside the
struct. -/
theorem var_label_round_trip_in_struct (wb big : Bool) (wenv : Writer.host) (v : Writer.variable_)
    (label rest : List Nat) (r1 : sfm_reader)
    (hl : v.label = some label) (h1 : 1 ≤ label.length) (h2 : label.length ≤ 252)
    (hnul : ∀ b ∈ label, b ≠ 0) (horder : xor big r1.reverse_endian = wb)
    (hfile : r1.file = Writer.label_bytes wb v ++ rest) :
    Writer.label_in_struct wb label = true
    ∧ Writer.label_bytes wb v = int32_bytes wb label.length ++ label
      ++ List.replicate (4 * ((label.length + 3) / 4) - label.length) 32
    ∧ (Writer.label_bytes wb v).length = 4 + 4 * ((label.length + 3) / 4)
    ∧ (∀ w : Writer.sfm_writer, w.io = [] →
        (v.type = Writer.NUMERIC ∨ (v.type = Writer.ALPHA ∧ 1 ≤ v.width)) →
        (∀ c ∈ Writer.missing_cells wb v, c.length = 8) →
        ∃ tail, Writer.write_variable wb wenv w v
          = (true, { w with file := w.file
              ++ (Writer.head_record wb wenv v ++ Writer.label_bytes wb v ++ tail) }))
    ∧ read_var_label big r1 1 = (some (some label), { r1 with file := rest }, [])
    ∧ (∀ (r : sfm_reader) (len : Int), 4 ≤ r.file.length →
        fix_int32 big r (r.file.take 4) = len →
        ((len < 0 ∨ 255 < len) →
            (read_var_label big r 1).1 = none
            ∧ (read_var_label big r 1).2.2 = [dict_message.bad_label_length])
        ∧ (len = 0 →
            read_var_label big r 1 = (some none, { r with file := r.file.drop 4 }, []))
        ∧ (1 ≤ len → len ≤ 255 →
            (Writer.ROUND_UP len 4).toNat ≤ (r.file.drop 4).length →
            read_var_label big r 1
              = (some (some (c_string
                    (((r.file.drop 4).take (Writer.ROUND_UP len 4).toNat).take len.toNat))),
                  { r with file := (r.file.drop 4).drop (Writer.ROUND_UP len 4).toNat },
                  []))
        ∧ (1 ≤ len → len ≤ 255 →
            (r.file.drop 4).length < (Writer.ROUND_UP len 4).toNat →
            (read_var_label big r 1).1 = none))
    ∧ (∀ (env : host) (st : vars_state) (r : sfm_reader) (p : Nat)
        (dict : Writer.dictionary) (type has_var_label nmiss print write : Int)
        (m0 : List dict_message), (read_var_label big r has_var_label).1 = none →
        (read_variable_rest big env st r p dict type has_var_label nmiss print write m0).1
          = loop_ctl.error)
    ∧ (∀ long : List Nat, 253 ≤ long.length →
        Writer.label_in_struct wb long = false
        ∧ (Writer.stage_label wb long).1.length = 4 + Writer.label_capacity
        ∧ (Writer.stage_label wb long).2 = [32]) := by
  have hbytes := label_bytes_eq wb v label hl h2
  have hwlen : (Writer.label_bytes wb v).length = 4 + 4 * ((label.length + 3) / 4) := by
    rw [hbytes]
    simp only [List.length_append, int32_bytes_length, List.length_replicate]
    omega
  refine ⟨by unfold Writer.label_in_struct; rw [(stage_label_short wb label h2).2]; rfl,
    hbytes, hwlen, fun w hio ht hm => ?_, ?_,
    fun r len h4 hlen => read_var_label_cases big r len h4 hlen,
    fun env st r p dict type hvl nmiss print write m0 h =>
      read_variable_rest_label_error big env st r p dict type hvl nmiss print write m0 h,
    fun long hlong =>
      ⟨by unfold Writer.label_in_struct; rw [(stage_label_long wb long hlong).2]; rfl,
        stage_label_long wb long hlong⟩⟩
  · refine ⟨Writer.missing_bytes wb v
      ++ (List.replicate (Writer.segments v - 1) (Writer.continuation_record wb)).flatten, ?_⟩
    rw [write_variable_file wb wenv w v hio ht hm]
    unfold Writer.variable_records
    simp only [List.flatten_cons, List.append_assoc]
  · have h4 : 4 ≤ r1.file.length := by
      rw [hfile, List.length_append, hwlen]
      omega
    have htake : r1.file.take 4 = int32_bytes wb label.length := by
      rw [hfile, hbytes, List.append_assoc, List.append_assoc,
        List.take_left' (int32_bytes_length _ _)]
    have hdrop : r1.file.drop 4
        = label ++ List.replicate (4 * ((label.length + 3) / 4) - label.length) 32 ++ rest := by
      rw [hfile, hbytes, List.append_assoc, List.append_assoc,
        List.drop_left' (int32_bytes_length _ _), List.append_assoc]
    have hval : fix_int32 big r1 (r1.file.take 4) = (label.length : Int) := by
      rw [fix_int32_file_order, horder, htake]
      exact int32_val_bytes wb _ (by omega) (by omega)
    have hru : (Writer.ROUND_UP (label.length : Int) 4).toNat = 4 * ((label.length + 3) / 4) := by
      rw [round_up_4, Int.toNat_ofNat]
    have hpad : (label
        ++ List.replicate (4 * ((label.length + 3) / 4) - label.length) 32).length
        = 4 * ((label.length + 3) / 4) := by
      rw [List.length_append, List.length_replicate]
      omega
    have h := (read_var_label_cases big r1 _ h4 hval).2.2.1 (by omega) (by omega)
      (by rw [hru, hdrop, List.length_append, hpad]; omega)
    rw [h, hru, hdrop, List.take_left' hpad, List.drop_left' hpad, Int.toNat_ofNat,
      List.take_left' rfl, c_string_no_nul label hnul]

/-- C17, an instance and the failing input: the label `Hi!` is written as the length 3,
the three bytes and one blank, inside the struct, and read back from a file that goes
on with two more bytes; for a label of 253 bytes the block is not inside the struct:
one blank is stored behind its 259 bytes. -/
theorem var_label_round_trip_in_struct_witness :
    Writer.label_bytes false { example_numeric 65 0 with label := some [72, 105, 33] }
        = [3, 0, 0, 0, 72, 105, 33, 32]
    ∧ read_var_label false
        (new_reader false (Writer.label_bytes false
          { example_numeric 65 0 with label := some [72, 105, 33] } ++ [9, 9])) 1
        = (some (some [72, 105, 33]),
            { new_reader false (Writer.label_bytes false
                { example_numeric 65 0 with label := some [72, 105, 33] } ++ [9, 9]) with
              file := [9, 9] }, [])
    ∧ Writer.label_in_struct false [72, 105, 33] = true
    ∧ Writer.label_in_struct false (List.replicate 253 65) = false
    ∧ (Writer.stage_label false (List.replicate 253 65)).1.length
        = 4 + Writer.label_capacity
    ∧ (Writer.stage_label false (List.replicate 253 65)).2 = [32] :=
  have h := var_label_round_trip_in_struct false false example_host
    { example_numeric 65 0 with label := some [72, 105, 33] } [72, 105, 33] [9, 9]
    (new_reader false (Writer.label_bytes false
      { example_numeric 65 0 with label := some [72, 105, 33] } ++ [9, 9]))
    rfl (by decide) (by decide) (by decide) rfl rfl
  ⟨h.2.1.trans (by decide), h.2.2.2.2.1, h.1,
    h.2.2.2.2.2.2.2 (List.replicate 253 65) (by rw [List.length_replicate])⟩

end

section

open Reader

theorem elements_take : ∀ (n : Nat) (l : List Nat), elements n (l.take (8 * n)) = elements n l
  | 0, _ => rfl
  | n + 1, l => by
    have h8 : 8 ≤ 8 * (n + 1) := by omega
    have e : 8 * (n + 1) - 8 = 8 * n := by omega
    rw [elements, elements, List.take_take, Nat.min_eq_left h8, List.drop_take, e,
      elements_take n]

theorem read_variable_rest_missing_error (big : Bool) (env : host) (st : vars_state)
    (r : sfm_reader) (p : Nat) (dict : Writer.dictionary)
    (type hl nmiss print write : Int) (m0 : List dict_message)
    (h : ∀ r2 : sfm_reader, (read_missing_values big r2 nmiss type).1 = none) :
    (read_variable_rest big env st r p dict type hl nmiss print write m0).1
      = loop_ctl.error := by
  unfold read_variable_rest
  dsimp only
  split
  · rfl
  · rename_i label r2 m heq
    split
    · rfl
    · rename_i mvs r3 m2 heq2
      have := h r2
      rw [heq2] at this
      simp at this

theorem read_missing_values_long (big : Bool) (r2 : sfm_reader) (nmiss type : Int)
    (h8 : 8 < type) (hn : nmiss ≠ 0) :
    read_missing_values big r2 nmiss type = (none, r2, [dict_message.long_string_missing]) := by
  unfold read_missing_values
  rw [if_pos hn, if_pos (by omega)]

theorem read_missing_values_string_range (big : Bool) (r2 : sfm_reader) (nmiss type : Int)
    (h0 : 0 < type) (hn : nmiss < 0) :
    (read_missing_values big r2 nmiss type).1 = none := by
  unfold read_missing_values
  have ht : ¬ type = 0 := by omega
  rw [if_pos (by omega)]
  by_cases h8 : type > 8
  · rw [if_pos h8]
  · rw [if_neg h8]
    split
    · rfl
    · rename_i bs r3 m heq
      dsimp only
      rw [if_neg ht]
      unfold set_missing
      rw [if_neg (by omega), if_pos rfl]

theorem read_missing_values_discrete (big : Bool) (r2 : sfm_reader) (nmiss type : Int)
    (h1 : 1 ≤ nmiss) (h3 : nmiss ≤ 3) (h8 : type ≤ 8)
    (hfile : 8 * nmiss.natAbs ≤ r2.file.length) :
    read_missing_values big r2 nmiss type
      = (some { range := none
                values := (elements nmiss.natAbs r2.file).map (fun e =>
                  if r2.reverse_endian = true ∧ type = 0 then bswap_flt64 e else e) },
          { r2 with file := r2.file.drop (8 * nmiss.natAbs) }, []) := by
  unfold read_missing_values
  rw [if_pos (by omega), if_neg (by omega), buf_read_some r2 _ false (by omega) hfile]
  dsimp only
  unfold set_missing
  rw [if_pos (by omega)]
  dsimp only
  rw [elements_take, List.take_of_length_le (by
    rw [List.length_map, elements_length]
    omega)]
  by_cases ht : type = 0
  · simp [ht, Writer.NUMERIC]
  · simp [ht, Writer.NUMERIC, Writer.ALPHA]

theorem read_missing_values_range (big : Bool) (r2 : sfm_reader) (nmiss : Int)
    (hk : nmiss = -2 ∨ nmiss = -3) (hfile : 8 * nmiss.natAbs ≤ r2.file.length) :
    read_missing_values big r2 nmiss 0
      = (some { range := some
                  (if flt_eq (flt64_val big (((elements nmiss.natAbs r2.file).map (fun e =>
                        if r2.reverse_endian = true then bswap_flt64 e else e)).getD 0 []))
                      (flt64_val big r2.lowest) = true
                    then (LOWEST big, ((elements nmiss.natAbs r2.file).map (fun e =>
                        if r2.reverse_endian = true then bswap_flt64 e else e)).getD 1 [])
                    else if flt_eq (flt64_val big (((elements nmiss.natAbs r2.file).map
                        (fun e => if r2.reverse_endian = true then bswap_flt64 e else e)).getD
                          1 [])) (flt64_val big r2.highest) = true
                    then (((elements nmiss.natAbs r2.file).map (fun e =>
                        if r2.reverse_endian = true then bswap_flt64 e else e)).getD 0 [],
                      HIGHEST big)
                    else (((elements nmiss.natAbs r2.file).map (fun e =>
                        if r2.reverse_endian = true then bswap_flt64 e else e)).getD 0 [],
                      ((elements nmiss.natAbs r2.file).map (fun e =>
                        if r2.reverse_endian = true then bswap_flt64 e else e)).getD 1 []))
                values := if nmiss = -3
                  then [((elements nmiss.natAbs r2.file).map (fun e =>
                        if r2.reverse_endian = true then bswap_flt64 e else e)).getD 2 []]
                  else [] },
          { r2 with file := r2.file.drop (8 * nmiss.natAbs) }, []) := by
  unfold read_missing_values
  rw [if_pos (by omega), if_neg (by omega), buf_read_some r2 _ false (by omega) hfile]
  dsimp only
  unfold set_missing
  rw [if_neg (by omega), if_neg (by decide)]
  dsimp only
  rw [elements_take]
  simp [Writer.NUMERIC]

theorem read_variable_record_bad_missing (big : Bool) (env : host) (i : Nat)
    (st : vars_state) (r1 : sfm_reader)
    (rec_type type has_var_label nmiss print write : Int) (name : List Nat)
    (hrec : rec_type = 2) (hlsc : st.long_string_count = 0)
    (hbad : nmiss < -3 ∨ nmiss > 3 ∨ nmiss = -1) :
    (read_variable_record big env i st r1 rec_type type has_var_label nmiss print write
      name).1 = loop_ctl.error := by
  unfold read_variable_record
  rw [if_neg (by rw [hrec]; decide), if_neg (by rw [hlsc]; decide)]
  by_cases c1 : type = -1
  · rw [if_pos c1]
    rfl
  · rw [if_neg c1]
    by_cases c2 : type < 0 ∨ type > 255
    · rw [if_pos c2]
      rfl
    · rw [if_neg c2]
      by_cases c3 : has_var_label ≠ 0 ∧ has_var_label ≠ 1
      · rw [if_pos c3]
        rfl
      · rw [if_neg c3, if_pos hbad]
        rfl

theorem read_variables_loop_error (big : Bool) (env : host) (fuel i : Nat)
    (st : vars_state) (h : (read_variables_step big env i st).1 = loop_ctl.error) :
    read_variables_loop big env (fuel + 1) i st
      = some (false, (read_variables_step big env i st).2) := by
  rw [read_variables_loop]
  rcases hs : read_variables_step big env i st with ⟨c, st1⟩
  rw [hs] at h
  dsimp only at h
  subst h
  rfl

/-- C14: `read_variables` jumps to `error` at every head record whose
`n_missing_values` is -1 or lies outside -3..3. For a numeric variable whose record
has the count `k`, one of 1, 2, 3, -2, -3, on a file that holds the values, the code
reads the `k.natAbs` values of 8 bytes that follow, `m`, and stores: for `k` of 1, 2
or 3 the values of `m` in their order; for -2 the range from the first to the second
of them; for -3 that range and the third value. An end of the range that equals the
lowest or the highest value is stored as the host's `LOWEST` or `HIGHEST`, which is
the same number. -/
theorem missing_values_of_record (big : Bool) (r2 : sfm_reader) (k : Int)
    (hk : k = 1 ∨ k = 2 ∨ k = 3 ∨ k = -2 ∨ k = -3)
    (hfile : 8 * k.natAbs ≤ r2.file.length)
    (hlow : r2.lowest = LOWEST big) (hhigh : r2.highest = HIGHEST big) :
    (∀ (env : host) (i : Nat) (st : vars_state) (r1 : sfm_reader)
        (rec_type type has_var_label nmiss print write : Int) (name : List Nat),
        rec_type = 2 → st.long_string_count = 0 → (nmiss < -3 ∨ nmiss > 3 ∨ nmiss = -1) →
        (read_variable_record big env i st r1 rec_type type has_var_label nmiss print write
          name).1 = loop_ctl.error)
    ∧ ((elements k.natAbs r2.file).map (fun e =>
          if r2.reverse_endian = true then bswap_flt64 e else e)).length = k.natAbs
    ∧ ∃ mvs, read_missing_values big r2 k 0
        = (some mvs, { r2 with file := r2.file.drop (8 * k.natAbs) }, [])
      ∧ (1 ≤ k → mvs = { range := none
                         values := (elements k.natAbs r2.file).map (fun e =>
                            if r2.reverse_endian = true then bswap_flt64 e else e) })
      ∧ (k < 0 → ∃ a b, mvs.range = some (a, b)
          ∧ (a = ((elements k.natAbs r2.file).map (fun e =>
                if r2.reverse_endian = true then bswap_flt64 e else e)).getD 0 []
              ∨ (a = LOWEST big
                ∧ flt_eq (flt64_val big (((elements k.natAbs r2.file).map (fun e =>
                    if r2.reverse_endian = true then bswap_flt64 e else e)).getD 0 []))
                  (flt64_val big (LOWEST big)) = true))
          ∧ (b = ((elements k.natAbs r2.file).map (fun e =>
                if r2.reverse_endian = true then bswap_flt64 e else e)).getD 1 []
              ∨ (b = HIGHEST big
                ∧ flt_eq (flt64_val big (((elements k.natAbs r2.file).map (fun e =>
                    if r2.reverse_endian = true then bswap_flt64 e else e)).getD 1 []))
                  (flt64_val big (HIGHEST big)) = true))
          ∧ mvs.values = (if k = -3
              then [((elements k.natAbs r2.file).map (fun e =>
                if r2.reverse_endian = true then bswap_flt64 e else e)).getD 2 []]
              else [])) := by
  refine ⟨fun env i st r1 rec_type type hvl nmiss print write name h1 h2 h3 =>
    read_variable_record_bad_missing big env i st r1 rec_type type hvl nmiss print write
      name h1 h2 h3, by rw [List.length_map, elements_length], ?_⟩
  by_cases hpos : 1 ≤ k
  · refine ⟨_, read_missing_values_discrete big r2 k 0 hpos (by omega) (by decide) hfile,
      fun _ => ?_, fun hneg => absurd hneg (by omega)⟩
    simp
  · have hneg : k = -2 ∨ k = -3 := by omega
    refine ⟨_, read_missing_values_range big r2 k hneg hfile, fun h => absurd h hpos,
      fun _ => ?_⟩
    dsimp only
    rw [hlow, hhigh]
    generalize (List.map (fun e => if r2.reverse_endian = true then bswap_flt64 e else e)
      (elements k.natAbs r2.file)) = m
    by_cases c1 : flt_eq (flt64_val big (m.getD 0 [])) (flt64_val big (LOWEST big)) = true
    · rw [if_pos c1]
      exact ⟨_, _, rfl, Or.inr ⟨rfl, c1⟩, Or.inl rfl, rfl⟩
    · rw [if_neg c1]
      by_cases c2 : flt_eq (flt64_val big (m.getD 1 [])) (flt64_val big (HIGHEST big)) = true
      · rw [if_pos c2]
        exact ⟨_, _, rfl, Or.inl rfl, Or.inr ⟨rfl, c2⟩, rfl⟩
      · rw [if_neg c2]
        exact ⟨_, _, rfl, Or.inl rfl, Or.inl rfl, rfl⟩

/-- C14, an instance: a numeric variable with the count -3 and the values second lowest,
5 and 9 in a little-endian file: the range from `LOWEST` to 5 and the value 9. -/
theorem missing_values_of_record_witness :
    (8 * (-3 : Int).natAbs
        ≤ (new_reader false ([254, 255, 255, 255, 255, 255, 239, 255]
            ++ [0, 0, 0, 0, 0, 0, 20, 64] ++ [0, 0, 0, 0, 0, 0, 34, 64])).file.length)
    ∧ read_missing_values false
        (new_reader false ([254, 255, 255, 255, 255, 255, 239, 255]
          ++ [0, 0, 0, 0, 0, 0, 20, 64] ++ [0, 0, 0, 0, 0, 0, 34, 64])) (-3) 0
        = (some { range := some (LOWEST false, [0, 0, 0, 0, 0, 0, 20, 64])
                  values := [[0, 0, 0, 0, 0, 0, 34, 64]] },
            { new_reader false ([254, 255, 255, 255, 255, 255, 239, 255]
                ++ [0, 0, 0, 0, 0, 0, 20, 64] ++ [0, 0, 0, 0, 0, 0, 34, 64]) with file := [] },
            [])
    ∧ ((elements (-3 : Int).natAbs
          (new_reader false ([254, 255, 255, 255, 255, 255, 239, 255]
            ++ [0, 0, 0, 0, 0, 0, 20, 64] ++ [0, 0, 0, 0, 0, 0, 34, 64])).file).map
        (fun e => if (new_reader false ([254, 255, 255, 255, 255, 255, 239, 255]
            ++ [0, 0, 0, 0, 0, 0, 20, 64]
            ++ [0, 0, 0, 0, 0, 0, 34, 64])).reverse_endian = true
          then bswap_flt64 e else e)).length = (-3 : Int).natAbs :=
  ⟨by decide, by decide!,
    (missing_values_of_record false
      (new_reader false ([254, 255, 255, 255, 255, 255, 239, 255]
        ++ [0, 0, 0, 0, 0, 0, 20, 64] ++ [0, 0, 0, 0, 0, 0, 34, 64])) (-3)
      (by decide) (by decide) rfl rfl).2.1⟩

theorem read_variable_record_rest_error (big : Bool) (env : host) (i : Nat)
    (st : vars_state) (r1 : sfm_reader)
    (rec_type type has_var_label nmiss print write : Int) (name : List Nat)
    (hrec : rec_type = 2) (hty : type ≠ -1)
    (hrest : ∀ (r : sfm_reader) (p : Nat) (dict : Writer.dictionary)
      (m0 : List dict_message),
      (read_variable_rest big env st r p dict type has_var_label nmiss print write m0).1
        = loop_ctl.error) :
    (read_variable_record big env i st r1 rec_type type has_var_label nmiss print write
      name).1 = loop_ctl.error := by
  unfold read_variable_record
  rw [if_neg (by rw [hrec]; decide)]
  by_cases c0 : st.long_string_count ≠ 0
  · rw [if_pos c0, if_pos hty]
    rfl
  · rw [if_neg c0, if_neg hty]
    by_cases c2 : type < 0 ∨ type > 255
    · rw [if_pos c2]
      rfl
    · rw [if_neg c2]
      by_cases c3 : has_var_label ≠ 0 ∧ has_var_label ≠ 1
      · rw [if_pos c3]
        rfl
      · rw [if_neg c3]
        by_cases c4 : nmiss < -3 ∨ nmiss > 3 ∨ nmiss = -1
        · rw [if_pos c4]
          rfl
        · rw [if_neg c4]
          by_cases c5 : isalpha (name.headD 0) = false ∧ name.headD 0 ≠ 64 ∧ name.headD 0 ≠ 35
          · rw [if_pos c5]
            rfl
          · rw [if_neg c5]
            dsimp only
            split
            · rfl
            · rename_i tail m heq
              by_cases cv : env.var_is_valid_name (toupper (name.headD 0) :: tail) = false
              · rw [if_pos cv]
                rfl
              · rw [if_neg cv]
                split
                · rfl
                · exact hrest _ _ _ _

/-- C15: `read_variables` jumps to `error` at every record of a string variable wider
than 8 bytes that has a count of missing values other than 0, and at every record of a
string variable, of any width, whose count is negative (a range). For a numeric
variable and for a string of 8 bytes at most, a count of 1 to 3 is accepted where the
file holds the values: they are stored in their order. -/
theorem string_missing_values (big : Bool) (env : host) (i : Nat) (st : vars_state)
    (r1 : sfm_reader) (rec_type type has_var_label nmiss print write : Int)
    (name : List Nat) :
    (rec_type = 2 → 8 < type → nmiss ≠ 0 →
        (read_variable_record big env i st r1 rec_type type has_var_label nmiss print write
          name).1 = loop_ctl.error)
    ∧ (rec_type = 2 → 0 < type → nmiss < 0 →
        (read_variable_record big env i st r1 rec_type type has_var_label nmiss print write
          name).1 = loop_ctl.error)
    ∧ (8 < type → nmiss ≠ 0 →
        ∀ r2 : sfm_reader, read_missing_values big r2 nmiss type
          = (none, r2, [dict_message.long_string_missing]))
    ∧ (0 < type → type ≤ 8 → nmiss < 0 →
        ∀ r2 : sfm_reader, 8 * nmiss.natAbs ≤ r2.file.length →
          read_missing_values big r2 nmiss type
            = (none, { r2 with file := r2.file.drop (8 * nmiss.natAbs) },
                [dict_message.string_range]))
    ∧ (type ≤ 8 → 1 ≤ nmiss → nmiss ≤ 3 →
        ∀ r2 : sfm_reader, 8 * nmiss.natAbs ≤ r2.file.length →
          read_missing_values big r2 nmiss type
            = (some { range := none
                      values := (elements nmiss.natAbs r2.file).map (fun e =>
                        if r2.reverse_endian = true ∧ type = 0 then bswap_flt64 e else e) },
                { r2 with file := r2.file.drop (8 * nmiss.natAbs) }, [])) := by
  refine ⟨fun h1 h2 h3 => ?_, fun h1 h2 h3 => ?_, fun h2 h3 r2 => ?_,
    fun h1 h2 h3 r2 hf => ?_, fun h1 h2 h3 r2 hf => ?_⟩
  · exact read_variable_record_rest_error big env i st r1 rec_type type has_var_label nmiss
      print write name h1 (by omega) (fun r p dict m0 =>
        read_variable_rest_missing_error big env st r p dict type has_var_label nmiss print
          write m0 (fun r2 => by rw [read_missing_values_long big r2 nmiss type h2 h3]))
  · exact read_variable_record_rest_error big env i st r1 rec_type type has_var_label nmiss
      print write name h1 (by omega) (fun r p dict m0 =>
        read_variable_rest_missing_error big env st r p dict type has_var_label nmiss print
          write m0 (fun r2 => read_missing_values_string_range big r2 nmiss type h2 h3))
  · exact read_missing_values_long big r2 nmiss type h2 h3
  · unfold read_missing_values
    rw [if_pos (by omega), if_neg (by omega), buf_read_some r2 _ false (by omega) hf]
    dsimp only
    rw [if_neg (by omega)]
    unfold set_missing
    rw [if_neg (by omega), if_pos rfl]
  · exact read_missing_values_discrete big r2 nmiss type h2 h3 h1 hf

/-- C15, an instance: a record of a string variable of width 12 with one missing value
makes the iteration jump to `error`; a string of width 4 with one missing value is
accepted. -/
theorem string_missing_values_witness :
    (read_variable_record false example_reader_host 0
        { r := new_reader false [], dict := dict_create, var_by_idx := [],
          long_string_count := 0, next_value := 0, msgs := [] }
        (new_reader false []) 2 12 0 1 65793 65793 [65, 32, 32, 32, 32, 32, 32, 32]).1
      = loop_ctl.error
    ∧ read_missing_values false (new_reader false [65, 66, 67, 68, 32, 32, 32, 32, 7]) 1 4
      = (some { range := none, values := [[65, 66, 67, 68, 32, 32, 32, 32]] },
          { new_reader false [65, 66, 67, 68, 32, 32, 32, 32, 7] with file := [7] }, []) :=
  have h := string_missing_values false example_reader_host 0
    { r := new_reader false [], dict := dict_create, var_by_idx := [],
      long_string_count := 0, next_value := 0, msgs := [] }
    (new_reader false []) 2 12 0 1 65793 65793 [65, 32, 32, 32, 32, 32, 32, 32]
  have h2 := string_missing_values false example_reader_host 0
    { r := new_reader false [], dict := dict_create, var_by_idx := [],
      long_string_count := 0, next_value := 0, msgs := [] }
    (new_reader false []) 2 4 0 1 65793 65793 [65, 32, 32, 32, 32, 32, 32, 32]
  ⟨h.1 rfl (by decide) (by decide),
    (h2.2.2.2.2 (by decide) (by decide) (by decide)
      (new_reader false [65, 66, 67, 68, 32, 32, 32, 32, 7]) (by decide)).trans (by decide)⟩

end

section

open Reader

theorem islower_isalnum (c : Nat) (h : islower c = true) : isalnum c = true := by
  unfold isalnum isalpha
  rw [h]
  rfl

theorem toupper_not_lower (c : Nat) (h : ¬ islower c = true) : toupper c = c := by
  unfold toupper
  rw [if_neg h]

theorem name_tail_spec : ∀ (cs tail : List Nat) (m : List dict_message),
    name_tail cs = (some tail, m) →
    (∀ c ∈ cs.takeWhile (fun c => !isspace c), name_char_ok c = true)
    ∧ tail = (cs.takeWhile (fun c => !isspace c)).map toupper
  | [], tail, m, h => by
    simp only [name_tail, Prod.mk.injEq, Option.some.injEq] at h
    simp [← h.1]
  | c :: cs, tail, m, h => by
    rw [name_tail] at h
    by_cases hs : isspace c = true
    · rw [if_pos hs] at h
      simp only [Prod.mk.injEq, Option.some.injEq] at h
      simp [hs, ← h.1]
    · rw [if_neg hs] at h
      have hs2 : (!isspace c) = true := by simpa using hs
      rw [List.takeWhile_cons, if_pos hs2]
      by_cases hl : islower c = true
      · rw [if_pos hl] at h
        dsimp only at h
        rcases hp : name_tail cs with ⟨_ | t, m2⟩
        · rw [hp] at h
          simp at h
        · rw [hp] at h
          simp only [Option.map_some', Prod.mk.injEq, Option.some.injEq] at h
          obtain ⟨ih1, ih2⟩ := name_tail_spec cs t m2 hp
          refine ⟨fun x hx => ?_, ?_⟩
          · rcases List.mem_cons.mp hx with hx | hx
            · rw [hx]
              unfold name_char_ok
              rw [islower_isalnum c hl]
              rfl
            · exact ih1 x hx
          · rw [← h.1, ih2, List.map_cons]
      · rw [if_neg hl] at h
        by_cases hok : isalnum c = true ∨ c = 46 ∨ c = 64 ∨ c = 35 ∨ c = 36 ∨ c = 95
        · rw [if_pos hok] at h
          dsimp only at h
          rcases hp : name_tail cs with ⟨_ | t, m2⟩
          · rw [hp] at h
            simp at h
          · rw [hp] at h
            simp only [Option.map_some', Prod.mk.injEq, Option.some.injEq] at h
            obtain ⟨ih1, ih2⟩ := name_tail_spec cs t m2 hp
            refine ⟨fun x hx => ?_, ?_⟩
            · rcases List.mem_cons.mp hx with hx | hx
              · rw [hx]
                unfold name_char_ok
                rcases hok with h1 | h1
                · rw [h1]
                  rfl
                · simp [h1]
              · exact ih1 x hx
            · rw [← h.1, ih2, List.map_cons, toupper_not_lower c hl]
        · rw [if_neg hok] at h
          simp at h

theorem var_update_names (d : Writer.dictionary) (p : Nat)
    (f : Writer.variable_ → Writer.variable_) (hf : ∀ v, (f v).name = v.name) :
    (var_update d p f).var.map (fun v => v.name) = d.var.map (fun v => v.name) := by
  unfold var_update
  simp only [List.map_map]
  apply List.map_congr_left
  intro v _
  simp only [Function.comp]
  split_ifs
  · exact hf v
  · rfl

theorem read_variable_rest_names (big : Bool) (env : host) (st : vars_state) (r1 : sfm_reader)
    (p : Nat) (dict : Writer.dictionary) (type hl nmiss pr wr : Int)
    (m0 : List dict_message) (st1 : vars_state) (c : loop_ctl)
    (h : read_variable_rest big env st r1 p dict type hl nmiss pr wr m0 = (c, st1))
    (hc : c ≠ loop_ctl.error) :
    st1.dict.var.map (fun v => v.name) = dict.var.map (fun v => v.name) := by
  unfold read_variable_rest at h
  dsimp only at h
  split at h
  · exact absurd (congrArg Prod.fst h).symm hc
  · split at h
    · exact absurd (congrArg Prod.fst h).symm hc
    · split at h
      · exact absurd (congrArg Prod.fst h).symm hc
      · split at h
        · exact absurd (congrArg Prod.fst h).symm hc
        · simp only [Prod.mk.injEq] at h
          obtain ⟨_, h⟩ := h
          subst h
          refine (var_update_names _ _ _ ?_).trans ?_
          · intro v; rfl
          refine (var_update_names _ _ _ ?_).trans ?_
          · intro v; rfl
          refine (var_update_names _ _ _ ?_).trans ?_
          · intro v; rfl
          refine (var_update_names _ _ _ ?_).trans rfl
          intro v; rfl

theorem dict_create_var_names (env : host) (d : Writer.dictionary) (nm : List Nat)
    (width : Int) (p : Nat) (d1 : Writer.dictionary)
    (h : dict_create_var env d nm width = some (p, d1)) :
    d1.var.map (fun v => v.name) = d.var.map (fun v => v.name) ++ [nm] := by
  unfold dict_create_var at h
  by_cases hany : (d.var.any (fun v => same_var_name v.name nm)) = true
  · rw [if_pos hany] at h
    simp at h
  · rw [if_neg hany] at h
    dsimp only at h
    simp only [Option.some.injEq, Prod.mk.injEq] at h
    rw [← h.2]
    simp

/-- C16: where the loop body of `read_variables` accepts a head record, the first byte of
its name field is a letter, `@` or `#`, every byte behind it up to the first white-space
byte (or the end of the field) is alphanumeric or one of `. @ # $ _`, and the name of
the variable created is the first byte and those bytes, lowercase letters turned into
uppercase. The bytes from the first white-space byte on are not looked at. -/
theorem short_name_first_blank (big : Bool) (env : host) (i : Nat) (st st1 : vars_state)
    (r1 : sfm_reader) (rec_type type has_var_label nmiss print write : Int)
    (name : List Nat) (hrec : rec_type = 2) (hlsc : st.long_string_count = 0)
    (hacc : read_variable_record big env i st r1 rec_type type has_var_label nmiss print
      write name = (loop_ctl.next, st1)) :
    (isalpha (name.headD 0) = true ∨ name.headD 0 = 64 ∨ name.headD 0 = 35)
    ∧ (∀ c ∈ ((name.drop 1).take 7).takeWhile (fun c => !isspace c), name_char_ok c = true)
    ∧ st1.dict.var.map (fun v => v.name)
        = st.dict.var.map (fun v => v.name)
          ++ [(name.headD 0 :: ((name.drop 1).take 7).takeWhile (fun c => !isspace c)).map
              toupper] := by
  have hne : loop_ctl.next ≠ loop_ctl.error := by decide
  unfold read_variable_record at hacc
  rw [if_neg (by rw [hrec]; decide), if_neg (by rw [hlsc]; decide)] at hacc
  by_cases c1 : type = -1
  · rw [if_pos c1] at hacc
    exact absurd hacc (fun h => vars_lose_ne _ _ _ _ _ h hne)
  rw [if_neg c1] at hacc
  by_cases c2 : type < 0 ∨ type > 255
  · rw [if_pos c2] at hacc
    exact absurd hacc (fun h => vars_lose_ne _ _ _ _ _ h hne)
  rw [if_neg c2] at hacc
  by_cases c3 : has_var_label ≠ 0 ∧ has_var_label ≠ 1
  · rw [if_pos c3] at hacc
    exact absurd hacc (fun h => vars_lose_ne _ _ _ _ _ h hne)
  rw [if_neg c3] at hacc
  by_cases c4 : nmiss < -3 ∨ nmiss > 3 ∨ nmiss = -1
  · rw [if_pos c4] at hacc
    exact absurd hacc (fun h => vars_lose_ne _ _ _ _ _ h hne)
  rw [if_neg c4] at hacc
  by_cases c5 : isalpha (name.headD 0) = false ∧ name.headD 0 ≠ 64 ∧ name.headD 0 ≠ 35
  · rw [if_pos c5] at hacc
    exact absurd hacc (fun h => vars_lose_ne _ _ _ _ _ h hne)
  rw [if_neg c5] at hacc
  dsimp only at hacc
  have hfirst : isalpha (name.headD 0) = true ∨ name.headD 0 = 64 ∨ name.headD 0 = 35 := by
    by_contra hcon
    apply c5
    simp only [not_or] at hcon
    exact ⟨by simpa using hcon.1, hcon.2.1, hcon.2.2⟩
  split at hacc
  · exact absurd hacc (fun h => vars_lose_ne _ _ _ _ _ h hne)
  · rename_i tail m heq
    obtain ⟨ht1, ht2⟩ := name_tail_spec _ tail m heq
    by_cases cv : env.var_is_valid_name (toupper (name.headD 0) :: tail) = false
    · rw [if_pos cv] at hacc
      exact absurd hacc (fun h => vars_lose_ne _ _ _ _ _ h hne)
    rw [if_neg cv] at hacc
    split at hacc
    · exact absurd hacc (fun h => vars_lose_ne _ _ _ _ _ h hne)
    · rename_i p dict hcreate
      have hn1 := read_variable_rest_names big env st r1 p _ type has_var_label nmiss
        print write _ st1 loop_ctl.next hacc hne
      have hn2 := dict_create_var_names env st.dict _ type p dict hcreate
      refine ⟨hfirst, ht1, ?_⟩
      rw [List.map_cons, ← ht2, ← hn2]
      exact hn1.trans (var_update_names _ _ _ (fun v => rfl))

/-- C16, an instance: the name field `ab` and six blanks of a numeric variable is
accepted and gives the name `AB`. -/
theorem short_name_first_blank_witness :
    (read_variable_record false example_reader_host 0
        { r := new_reader false [], dict := dict_create, var_by_idx := [],
          long_string_count := 0, next_value := 0, msgs := [] }
        (new_reader false []) 2 0 0 0 329730 329730 [97, 98, 32, 32, 32, 32, 32, 32]).1
      = loop_ctl.next
    ∧ (read_variable_record false example_reader_host 0
        { r := new_reader false [], dict := dict_create, var_by_idx := [],
          long_string_count := 0, next_value := 0, msgs := [] }
        (new_reader false []) 2 0 0 0 329730 329730
        [97, 98, 32, 32, 32, 32, 32, 32]).2.dict.var.map (fun v => v.name) = [[65, 66]] :=
  have h1 : (read_variable_record false example_reader_host 0
        { r := new_reader false [], dict := dict_create, var_by_idx := [],
          long_string_count := 0, next_value := 0, msgs := [] }
        (new_reader false []) 2 0 0 0 329730 329730 [97, 98, 32, 32, 32, 32, 32, 32]).1
      = loop_ctl.next := by decide
  ⟨h1, (short_name_first_blank false example_reader_host 0 _ _ (new_reader false []) 2 0 0 0
    329730 329730 [97, 98, 32, 32, 32, 32, 32, 32] rfl rfl (Prod.ext h1 rfl)).2.2.trans
      (by decide)⟩

/-- C16, the counterexample: the name field `AB CD` and three blanks is accepted,
although the blank at the third place stands before the trailing blanks and is not a
character of a name, and the variable is named `AB`, not the field without its
trailing blanks. -/
theorem blank_inside_name_accepted :
    (read_variable_record false example_reader_host 0
        { r := new_reader false [], dict := dict_create, var_by_idx := [],
          long_string_count := 0, next_value := 0, msgs := [] }
        (new_reader false []) 2 0 0 0 329730 329730 [65, 66, 32, 67, 68, 32, 32, 32]).1
      = loop_ctl.next
    ∧ (read_variable_record false example_reader_host 0
        { r := new_reader false [], dict := dict_create, var_by_idx := [],
          long_string_count := 0, next_value := 0, msgs := [] }
        (new_reader false []) 2 0 0 0 329730 329730
        [65, 66, 32, 67, 68, 32, 32, 32]).2.dict.var.map (fun v => v.name) = [[65, 66]]
    ∧ strip_trailing_spaces [65, 66, 32, 67, 68, 32, 32, 32] = [65, 66, 32, 67, 68]
    ∧ 32 ∈ (strip_trailing_spaces [65, 66, 32, 67, 68, 32, 32, 32]).drop 1
    ∧ name_char_ok 32 = false := by
  refine ⟨by decide, by decide, by decide, by decide, by decide⟩

end

section

open Reader

theorem width_blocks_append (a b : List Writer.variable_) :
    width_blocks (a ++ b) = width_blocks a ++ width_blocks b := by
  induction a with
  | nil => rfl
  | cons v vs ih => simp [width_blocks, ih]

theorem width_blocks_of_key : ∀ (a b : List Writer.variable_),
    a.map var_key = b.map var_key → width_blocks a = width_blocks b
  | [], [], _ => rfl
  | [], _ :: _, h => by simp at h
  | _ :: _, [], h => by simp at h
  | v :: vs, w :: ws, h => by
    simp only [List.map_cons, List.cons.injEq] at h
    have hk := h.1
    unfold var_key at hk
    simp only [Prod.mk.injEq] at hk
    simp only [width_blocks, hk.2.2.1, hk.2.1, width_blocks_of_key vs ws h.2]

theorem buf_read_vars (r : sfm_reader) (n : Nat) (b : Bool) :
    (buf_read r n b).2.1.vars = r.vars := by
  unfold buf_read
  split_ifs <;> rfl

theorem buf_read_eq_vars (r r1 : sfm_reader) (n : Nat) (b : Bool) (o : Option (List Nat))
    (m : List dict_message) (h : buf_read r n b = (o, r1, m)) : r1.vars = r.vars := by
  have := buf_read_vars r n b
  rw [h] at this
  exact this

theorem read_var_label_vars (big : Bool) (r1 r2 : sfm_reader) (hl : Int)
    (o : Option (Option (List Nat))) (m : List dict_message)
    (h : read_var_label big r1 hl = (o, r2, m)) : r2.vars = r1.vars := by
  unfold read_var_label at h
  split at h
  · rcases h1 : buf_read r1 4 false with ⟨o1, ra, m1⟩
    have f1 := buf_read_eq_vars _ _ _ _ _ _ h1
    rw [h1] at h
    cases o1 with
    | none =>
      simp only [Prod.mk.injEq] at h
      rw [← h.2.1]
      exact f1
    | some bs =>
      dsimp only at h
      split at h
      · simp only [Prod.mk.injEq] at h
        rw [← h.2.1]
        exact f1
      · split at h
        · rcases h2 : buf_read ra (Writer.ROUND_UP (fix_int32 big r1 bs) 4).toNat true
            with ⟨o2, rb, m2⟩
          have g1 := buf_read_eq_vars _ _ _ _ _ _ h2
          rw [h2] at h
          cases o2 <;>
          · simp only [Prod.mk.injEq] at h
            rw [← h.2.1]
            exact g1.trans f1
        · simp only [Prod.mk.injEq] at h
          rw [← h.2.1]
          exact f1
  · simp only [Prod.mk.injEq] at h
    rw [← h.2.1]

theorem read_missing_values_vars (big : Bool) (r2 r3 : sfm_reader) (nm type : Int)
    (o : Option Writer.missing_values) (m : List dict_message)
    (h : read_missing_values big r2 nm type = (o, r3, m)) : r3.vars = r2.vars := by
  unfold read_missing_values at h
  split at h
  · split at h
    · simp only [Prod.mk.injEq] at h
      rw [← h.2.1]
    · rcases h1 : buf_read r2 (8 * nm.natAbs) false with ⟨o1, ra, m1⟩
      have f1 := buf_read_eq_vars _ _ _ _ _ _ h1
      rw [h1] at h
      cases o1 <;>
      · simp only [Prod.mk.injEq] at h
        rw [← h.2.1]
        exact f1
  · simp only [Prod.mk.injEq] at h
    rw [← h.2.1]

theorem read_variable_rest_vars (big : Bool) (env : host) (st : vars_state) (r1 : sfm_reader)
    (p : Nat) (dict : Writer.dictionary) (type hl nmiss pr wr : Int)
    (m0 : List dict_message) (st1 : vars_state) (c : loop_ctl)
    (h : read_variable_rest big env st r1 p dict type hl nmiss pr wr m0 = (c, st1))
    (hc : c ≠ loop_ctl.error) :
    st1.r.vars = r1.vars ++ [{ width := type, fv := p }] := by
  unfold read_variable_rest at h
  dsimp only at h
  rcases h1 : read_var_label big r1 hl with ⟨o1, r2, m1⟩
  have a1 := read_var_label_vars _ _ _ _ _ _ h1
  rw [h1] at h
  cases o1 with
  | none => exact (vars_lose_ne _ _ _ _ _ h hc).elim
  | some label =>
    dsimp only at h
    rcases h2 : read_missing_values big r2 nmiss type with ⟨o2, r3, m2⟩
    have b1 := read_missing_values_vars _ _ _ _ _ _ _ h2
    rw [h2] at h
    cases o2 with
    | none => exact (vars_lose_ne _ _ _ _ _ h hc).elim
    | some mvs =>
      dsimp only at h
      split at h
      · exact (vars_lose_ne _ _ _ _ _ h hc).elim
      · split at h
        · exact (vars_lose_ne _ _ _ _ _ h hc).elim
        · simp only [Prod.mk.injEq] at h
          rw [← h.2]
          show r3.vars ++ _ = _
          rw [b1, a1]

theorem read_variable_record_widths (big : Bool) (env : host) (i : Nat) (st st1 : vars_state)
    (r1 : sfm_reader) (rec_type type hl nmiss pr wr : Int) (name : List Nat)
    (c : loop_ctl)
    (h : read_variable_record big env i st r1 rec_type type hl nmiss pr wr name = (c, st1))
    (hc : c ≠ loop_ctl.error) (hinv : vars_inv st) (hr1 : r1.vars = st.r.vars)
    (hw : st.r.vars.map (fun x => x.width) ++ List.replicate st.long_string_count.toNat (-1)
      = width_blocks st.dict.var) :
    st1.r.vars.map (fun x => x.width) ++ List.replicate st1.long_string_count.toNat (-1)
      = width_blocks st1.dict.var := by
  unfold read_variable_record at h
  split at h
  · simp only [Prod.mk.injEq] at h
    rw [← h.2]
    exact hw
  · split at h
    · split at h
      · exact (vars_lose_ne _ _ _ _ _ h hc).elim
      · rename_i _ hb _
        simp only [Prod.mk.injEq] at h
        rw [← h.2]
        obtain ⟨_, h2, _, _⟩ := hinv
        show (r1.vars ++ [({ width := -1, fv := 0 } : sfm_var)]).map
              (fun x : sfm_var => x.width)
            ++ List.replicate (st.long_string_count - 1).toNat (-1)
          = width_blocks st.dict.var
        rw [← hw, hr1]
        have e : st.long_string_count.toNat = (st.long_string_count - 1).toNat + 1 := by
          omega
        rw [e, List.replicate_succ]
        simp
    · split at h
      · exact (vars_lose_ne _ _ _ _ _ h hc).elim
      · split at h
        · exact (vars_lose_ne _ _ _ _ _ h hc).elim
        · split at h
          · exact (vars_lose_ne _ _ _ _ _ h hc).elim
          · split at h
            · exact (vars_lose_ne _ _ _ _ _ h hc).elim
            · split at h
              · exact (vars_lose_ne _ _ _ _ _ h hc).elim
              · dsimp only at h
                split at h
                · exact (vars_lose_ne _ _ _ _ _ h hc).elim
                · split at h
                  · exact (vars_lose_ne _ _ _ _ _ h hc).elim
                  · split at h
                    · exact (vars_lose_ne _ _ _ _ _ h hc).elim
                    · rename_i _ hlsc _ hty _ _ _ _ _ _ _ _ _ p dict hcreate
                      have hlsc0 : st.long_string_count = 0 := by
                        by_contra hne; exact hlsc hne
                      have hty0 : 0 ≤ type ∧ type ≤ 255 := by
                        constructor
                        · by_contra hne; exact hty (Or.inl (by omega))
                        · by_contra hne; exact hty (Or.inr (by omega))
                      obtain ⟨e1, e2, e3⟩ := read_variable_rest_next big env st r1 p _ type hl
                        nmiss pr wr _ st1 c h hc
                      have ev := read_variable_rest_vars big env st r1 p _ type hl
                        nmiss pr wr _ st1 c h hc
                      obtain ⟨hp, v, hd, hfv, hnv, hwd, hvt⟩ :=
                        dict_create_var_spec env st.dict _ type p dict hcreate
                      have hkey : (st.dict.var ++ [v]).map var_key = st1.dict.var.map var_key := by
                        rw [e3]
                        refine ((var_update_key _ _ _ ?_).trans ?_).symm
                        · intro w; rfl
                        · rw [hd]
                      rw [hlsc0] at hw
                      simp only [Int.toNat_zero, List.replicate_zero, List.append_nil] at hw
                      have hnvI : (v.nv : Int) = nv_of_type type := by
                        rw [hnv]
                        unfold nv_of_type
                        split_ifs with h0
                        · rfl
                        · have := nv_of_type_pos type hty0.1
                          unfold nv_of_type at this
                          rw [if_neg h0] at this
                          exact Int.toNat_of_nonneg (by omega)
                      rw [ev, e2, ← width_blocks_of_key _ _ hkey, width_blocks_append, ← hw, hr1]
                      simp only [width_blocks, List.append_nil, List.map_append, List.map_cons,
                        List.map_nil, List.append_assoc, List.singleton_append, hwd]
                      congr 3
                      omega

theorem read_variables_step_widths (big : Bool) (env : host) (i : Nat) (st st1 : vars_state)
    (c : loop_ctl) (h : read_variables_step big env i st = (c, st1))
    (hc : c ≠ loop_ctl.error) (hinv : vars_inv st)
    (hw : st.r.vars.map (fun x => x.width) ++ List.replicate st.long_string_count.toNat (-1)
      = width_blocks st.dict.var) :
    st1.r.vars.map (fun x => x.width) ++ List.replicate st1.long_string_count.toNat (-1)
      = width_blocks st1.dict.var := by
  unfold read_variables_step at h
  split at h
  · simp only [Prod.mk.injEq] at h
    rw [← h.2]
    exact hw
  · split at h
    · exact (vars_lose_ne _ _ _ _ _ h hc).elim
    · rename_i sv r1 m heq
      exact read_variable_record_widths big env i st st1 _ _ _ _ _ _ _ _ c h hc hinv
        (buf_read_eq_vars _ _ _ _ _ _ heq) hw

theorem read_variables_loop_widths (big : Bool) (env : host) :
    ∀ (fuel i : Nat) (st st1 : vars_state),
      read_variables_loop big env fuel i st = some (true, st1) → vars_inv st →
      st.r.vars.map (fun x => x.width) ++ List.replicate st.long_string_count.toNat (-1)
        = width_blocks st.dict.var →
      st1.r.vars.map (fun x => x.width) ++ List.replicate st1.long_string_count.toNat (-1)
        = width_blocks st1.dict.var
  | 0, _, _, _, h, _, _ => by simp [read_variables_loop] at h
  | fuel + 1, i, st, st1, h, hinv, hw => by
    unfold read_variables_loop at h
    rcases hs : read_variables_step big env i st with ⟨c, st2⟩
    rw [hs] at h
    cases c with
    | next =>
      exact read_variables_loop_widths big env fuel (i + 1) st2 st1 h
        (read_variables_step_inv big env i st st2 _ hs (by decide) hinv)
        (read_variables_step_widths big env i st st2 _ hs (by decide) hinv hw)
    | done =>
      simp only [Option.some.injEq, Prod.mk.injEq, true_and] at h
      rw [← h]
      exact read_variables_step_widths big env i st st2 _ hs (by decide) hinv hw
    | error => simp at h

theorem blocks_slice : ∀ (pre : List Writer.variable_) (v : Writer.variable_)
    (post : List Writer.variable_) (s : Nat), var_starts s (pre ++ v :: post) →
    ((blocks (pre ++ v :: post)).drop (pre.map (fun x => x.nv)).sum).take v.nv
      = some v.fv :: List.replicate (v.nv - 1) none
  | [], v, post, s, h => by
    simp only [List.nil_append, var_starts] at h
    simp only [List.nil_append, List.map_nil, List.sum_nil, List.drop_zero, blocks]
    exact List.take_left' (by simp only [List.length_cons, List.length_replicate]; omega)
  | u :: pre, v, post, s, h => by
    simp only [List.cons_append, var_starts] at h
    have ih := blocks_slice pre v post _ h.2.2
    have hlen : (some u.fv :: List.replicate (u.nv - 1) (none : Option Nat)).length = u.nv := by
      simp only [List.length_cons, List.length_replicate]
      omega
    have e : ((u :: pre).map (fun x => x.nv)).sum
        = (some u.fv :: List.replicate (u.nv - 1) (none : Option Nat)).length
          + (pre.map (fun x => x.nv)).sum := by
      rw [hlen, List.map_cons, List.sum_cons]
    rw [List.cons_append, blocks, e, List.drop_append]
    exact ih

theorem width_blocks_slice : ∀ (pre : List Writer.variable_) (v : Writer.variable_)
    (post : List Writer.variable_) (s : Nat), var_starts s (pre ++ v :: post) →
    ((width_blocks (pre ++ v :: post)).drop (pre.map (fun x => x.nv)).sum).take v.nv
      = v.width :: List.replicate (v.nv - 1) (-1)
  | [], v, post, s, h => by
    simp only [List.nil_append, var_starts] at h
    simp only [List.nil_append, List.map_nil, List.sum_nil, List.drop_zero, width_blocks]
    exact List.take_left' (by simp only [List.length_cons, List.length_replicate]; omega)
  | u :: pre, v, post, s, h => by
    simp only [List.cons_append, var_starts] at h
    have ih := width_blocks_slice pre v post _ h.2.2
    have hlen : (u.width :: List.replicate (u.nv - 1) (-1 : Int)).length = u.nv := by
      simp only [List.length_cons, List.length_replicate]
      omega
    have e : ((u :: pre).map (fun x => x.nv)).sum
        = (u.width :: List.replicate (u.nv - 1) (-1 : Int)).length
          + (pre.map (fun x => x.nv)).sum := by
      rw [hlen, List.map_cons, List.sum_cons]
    rw [List.cons_append, width_blocks, e, List.drop_append]
    exact ih

theorem read_variables_widths (big : Bool) (env : host) (r : sfm_reader)
    (dict : Writer.dictionary) (res : vars_result) (hempty : dict.var = [])
    (hvars : r.vars = [])
    (hread : read_variables big env r dict = some res) (hret : res.ret = 1) :
    res.r.vars.map (fun x => x.width) = width_blocks res.dict.var := by
  unfold read_variables at hread
  rcases hl : read_variables_loop big env (r.file.length / 32 + 2) 0
      { r := r, dict := dict, var_by_idx := [], long_string_count := 0,
        next_value := 0, msgs := [] } with _ | ⟨ok, st⟩
  · rw [hl] at hread
    simp at hread
  · rw [hl] at hread
    cases ok with
    | false =>
      simp only [Option.some.injEq] at hread
      rw [← hread] at hret
      simp at hret
    | true =>
      have hinv0 : vars_inv
          { r := r, dict := dict, var_by_idx := [], long_string_count := 0,
            next_value := 0, msgs := [] } := by
        unfold vars_inv
        simp only [hempty, Int.toNat_zero, List.replicate_zero, List.append_nil, blocks,
          var_starts, le_refl, List.not_mem_nil, false_implies, implies_true, and_self]
      have hw := read_variables_loop_widths big env _ 0 _ st hl hinv0 (by
        simp only [hvars, hempty, List.map_nil, Int.toNat_zero, List.replicate_zero,
          List.append_nil, width_blocks])
      dsimp only at hread
      by_cases hlsc : st.long_string_count ≠ 0
      · rw [if_pos hlsc] at hread
        simp only [Option.some.injEq] at hread
        rw [← hread] at hret
        simp at hret
      · rw [if_neg hlsc] at hread
        simp only [Option.some.injEq] at hread
        rw [← hread]
        have h0 : st.long_string_count = 0 := by
          by_contra hne; exact hlsc hne
        rw [h0] at hw
        simpa using hw

theorem read_variables_omitted (big : Bool) (env : host) (r : sfm_reader)
    (dict : Writer.dictionary) (st : vars_state)
    (hl : read_variables_loop big env (r.file.length / 32 + 2) 0
      { r := r, dict := dict, var_by_idx := [], long_string_count := 0,
        next_value := 0, msgs := [] } = some (true, st))
    (hlsc : st.long_string_count ≠ 0) :
    read_variables big env r dict
      = some ⟨0, st.r, st.dict, st.var_by_idx,
          st.msgs ++ [dict_message.continuations_omitted]⟩ := by
  unfold read_variables
  rw [hl]
  dsimp only
  rw [if_pos hlsc]

/-- C13: where `read_variables` returns 1 (for a dictionary without variables and a
reader without `vars`), `var_by_idx` and the widths in `r->vars` are laid out in
blocks, one for each variable created: the pointer to the variable and its width, and
then a null pointer and the width -1 for each further value; a variable takes 1 value
if it is numeric and its width over 8, rounded up, if it is a string, so that the
placeholders are those behind the strings wider than 8. An iteration jumps to `error`
at a record of a type other than -1 where a continuation is owed and at a record of
type -1 where none is owed, and `read_variables` returns 0 where the loop ends while
continuations are owed. -/
theorem continuation_placeholders (big : Bool) (env : host) (r : sfm_reader)
    (dict : Writer.dictionary) (res : vars_result) (hempty : dict.var = [])
    (hvars : r.vars = [])
    (hread : read_variables big env r dict = some res) (hret : res.ret = 1) :
    res.var_by_idx = blocks res.dict.var
    ∧ res.r.vars.map (fun x => x.width) = width_blocks res.dict.var
    ∧ (∀ v ∈ res.dict.var, 0 ≤ v.width ∧ v.width ≤ 255
        ∧ (v.nv : Int) = (if v.width = 0 then 1 else (v.width + 7) / 8)
        ∧ (v.width ≤ 8 → v.nv - 1 = 0))
    ∧ (∀ (pre post : List Writer.variable_) (v : Writer.variable_),
        res.dict.var = pre ++ v :: post →
        (res.var_by_idx.drop (pre.map (fun x => x.nv)).sum).take v.nv
            = some v.fv :: List.replicate (v.nv - 1) none
        ∧ ((res.r.vars.map (fun x => x.width)).drop (pre.map (fun x => x.nv)).sum).take v.nv
            = v.width :: List.replicate (v.nv - 1) (-1))
    ∧ (∀ (i : Nat) (st : vars_state) (r1 : sfm_reader)
        (type has_var_label nmiss print write : Int) (name : List Nat),
        (st.long_string_count ≠ 0 → type ≠ -1 →
          read_variable_record big env i st r1 2 type has_var_label nmiss print write name
            = vars_lose st r1 [dict_message.bad_continuation])
        ∧ (st.long_string_count = 0 → type = -1 →
          read_variable_record big env i st r1 2 type has_var_label nmiss print write name
            = vars_lose st r1 [dict_message.superfluous_continuation]))
    ∧ (∀ (fuel i : Nat) (st : vars_state),
        (read_variables_step big env i st).1 = loop_ctl.error →
        read_variables_loop big env (fuel + 1) i st
          = some (false, (read_variables_step big env i st).2))
    ∧ (∀ (r0 : sfm_reader) (dict0 : Writer.dictionary) (st : vars_state),
        read_variables_loop big env (r0.file.length / 32 + 2) 0
          { r := r0, dict := dict0, var_by_idx := [], long_string_count := 0,
            next_value := 0, msgs := [] } = some (true, st) →
        st.long_string_count ≠ 0 →
        read_variables big env r0 dict0
          = some ⟨0, st.r, st.dict, st.var_by_idx,
              st.msgs ++ [dict_message.continuations_omitted]⟩) := by
  obtain ⟨hb, hs, hv⟩ := read_variables_blocks big env r dict res hempty hread hret
  have hw := read_variables_widths big env r dict res hempty hvars hread hret
  refine ⟨hb, hw, fun v hv1 => ?_, fun pre post v hd => ?_,
    fun i st r1 type hvl nmiss print write name => ⟨fun h1 h2 => ?_, fun h1 h2 => ?_⟩,
    fun fuel i st h => read_variables_loop_error big env fuel i st h,
    fun r0 dict0 st hl hlsc => read_variables_omitted big env r0 dict0 st hl hlsc⟩
  · obtain ⟨h1, _, h3, h4⟩ := hv v hv1
    unfold nv_of_type Writer.DIV_RND_UP at h1
    refine ⟨h3, h4, ?_, fun h8 => ?_⟩
    · rw [h1]
      split_ifs
      · rfl
      · rw [Int.tdiv_eq_ediv (by omega) (by norm_num)]
        norm_num
    · split_ifs at h1 with h0
      · omega
      · rw [Int.tdiv_eq_ediv (by omega) (by norm_num)] at h1
        omega
  · rw [hd] at hs
    rw [hb, hw, hd]
    exact ⟨blocks_slice pre v post 0 hs, width_blocks_slice pre v post 0 hs⟩
  · unfold read_variable_record
    rw [if_neg (by decide), if_pos h1, if_pos h2]
  · unfold read_variable_record
    rw [if_neg (by decide), if_neg (by rw [h1]; decide), if_pos h2]

/-- C13, an instance: the variable records that `sfm_open_writer` wrote for a string
variable of width 16 and a numeric variable: the second position is the placeholder
of the string, with a null pointer and the width -1. -/
theorem continuation_placeholders_witness :
    ∃ res, read_variables false example_reader_host
          { new_reader false (example_written_file.drop 176) with value_cnt := 3 }
          dict_create = some res
      ∧ res.ret = 1
      ∧ res.var_by_idx = [some 0, none, some 2]
      ∧ res.r.vars.map (fun x => x.width) = [16, -1, 0]
      ∧ res.var_by_idx = blocks res.dict.var
      ∧ res.r.vars.map (fun x => x.width) = width_blocks res.dict.var := by
  have hs : (read_variables false example_reader_host
      { new_reader false (example_written_file.drop 176) with value_cnt := 3 }
      dict_create).map
        (fun res => (res.ret, res.var_by_idx, res.r.vars.map (fun x => x.width)))
      = some (1, [some 0, none, some 2], [16, -1, 0]) := by decide!
  rcases hr : read_variables false example_reader_host
      { new_reader false (example_written_file.drop 176) with value_cnt := 3 }
      dict_create with _ | res
  · rw [hr] at hs
    simp at hs
  · rw [hr] at hs
    simp only [Option.map_some', Option.some.injEq, Prod.mk.injEq] at hs
    obtain ⟨h1, h2, h3⟩ := hs
    have h := continuation_placeholders false example_reader_host _ dict_create res rfl rfl
      hr h1
    exact ⟨res, rfl, h1, h2, h3, h.1, h.2.1⟩

end

section

open Reader

theorem buf_read_prefix (r : sfm_reader) (pre rest : List Nat) (b : Bool)
    (h : r.file = pre ++ rest) (hpos : 0 < pre.length) :
    buf_read r pre.length b = (some pre, { r with file := rest }, []) := by
  rw [buf_read_some r _ b hpos (by rw [h, List.length_append]; omega), h,
    List.take_left' rfl, List.drop_left' rfl]

theorem value_label_pad (L : Nat) :
    (Writer.REM_RND_UP ((L : Int) + 1) 8).toNat + L + 1 = 8 * ((L + 8) / 8)
    ∧ (Writer.ROUND_UP ((L : Int) + 1) 8).toNat = 8 * ((L + 8) / 8) := by
  unfold Writer.REM_RND_UP Writer.ROUND_UP
  rw [Int.tmod_eq_emod (by omega) (by norm_num), Int.tdiv_eq_ediv (by omega) (by norm_num)]
  constructor
  · split_ifs <;> omega
  · omega

theorem value_label_bytes_length (vl : Writer.val_lab) (h8 : vl.value.length = 8) :
    (Writer.value_label_bytes vl).length = 8 + 8 * ((vl.label.length + 8) / 8) := by
  have hp := (value_label_pad vl.label.length).1
  unfold Writer.value_label_bytes
  simp only [List.length_append, List.length_cons, List.length_nil, List.length_replicate, h8]
  omega

theorem buf_read_prefix_of (r : sfm_reader) (pre rest : List Nat) (n : Nat) (b : Bool)
    (hn : pre.length = n) (hpos : 0 < n) :
    buf_read { r with file := pre ++ rest } n b = (some pre, { r with file := rest }, []) := by
  subst hn
  exact buf_read_prefix { r with file := pre ++ rest } pre rest b rfl hpos

theorem read_label_tuples_written_of : ∀ (ls : List Writer.val_lab) (r : sfm_reader)
    (rest : List Nat),
    (∀ vl ∈ ls, vl.value.length = 8 ∧ vl.label.length ≤ 255 ∧ ∀ b ∈ vl.label, b ≠ 0) →
    read_label_tuples ls.length
        { r with file := (ls.map Writer.value_label_bytes).flatten ++ rest }
      = (some (ls.map (fun vl => (vl.value, vl.label))), { r with file := rest }, [])
  | [], r, rest, _ => by
    simp only [List.length_nil, read_label_tuples, List.map_nil, List.flatten_nil,
      List.nil_append]
  | vl :: ls, r, rest, h => by
    obtain ⟨h8, h255, hnul⟩ := h vl (List.mem_cons_self _ _)
    have hp := value_label_pad vl.label.length
    have hmod : vl.label.length % 256 = vl.label.length := Nat.mod_eq_of_lt (by omega)
    have hfe : ((vl :: ls).map Writer.value_label_bytes).flatten ++ rest
        = vl.value ++ ([vl.label.length % 256]
        ++ ((vl.label ++ List.replicate
            (Writer.REM_RND_UP ((vl.label.length : Int) + 1) 8).toNat 32)
          ++ ((ls.map Writer.value_label_bytes).flatten ++ rest))) := by
      simp only [List.map_cons, List.flatten_cons, Writer.value_label_bytes,
        List.append_assoc]
    have hlen3 : (vl.label ++ List.replicate
        (Writer.REM_RND_UP ((vl.label.length : Int) + 1) 8).toNat 32).length
        = (Writer.ROUND_UP ((vl.label.length : Int) + 1) 8).toNat - 1 := by
      rw [List.length_append, List.length_replicate]
      omega
    have ih := read_label_tuples_written_of ls r rest
      (fun x hx => h x (List.mem_cons_of_mem _ hx))
    rw [hfe, List.length_cons, read_label_tuples,
      buf_read_prefix_of r vl.value _ 8 false h8 (by norm_num)]
    dsimp only
    rw [buf_read_prefix_of r [vl.label.length % 256] _ 1 false rfl (by norm_num)]
    simp only [List.headD_cons, hmod]
    rw [buf_read_prefix_of r _ _ _ false hlen3 (by omega)]
    dsimp only
    rw [ih]
    simp only [List.map_cons, List.take_left' rfl, c_string_no_nul vl.label hnul]

theorem read_label_tuples_written (ls : List Writer.val_lab) (r : sfm_reader)
    (rest : List Nat)
    (h : ∀ vl ∈ ls, vl.value.length = 8 ∧ vl.label.length ≤ 255 ∧ ∀ b ∈ vl.label, b ≠ 0)
    (hf : r.file = (ls.map Writer.value_label_bytes).flatten ++ rest) :
    read_label_tuples ls.length r
      = (some (ls.map (fun vl => (vl.value, vl.label))), { r with file := rest }, []) := by
  have e : r = { r with file := (ls.map Writer.value_label_bytes).flatten ++ rest } := by
    rw [← hf]
  rw [e]
  exact read_label_tuples_written_of ls r rest h

theorem fix_int32_written (big wb : Bool) (r : sfm_reader) (x : Int)
    (horder : xor big r.reverse_endian = wb) (h1 : -(2 ^ 31 : Int) ≤ x)
    (h2 : x < (2 ^ 31 : Int)) : fix_int32 big r (int32_bytes wb x) = x := by
  rw [fix_int32_file_order, horder]
  exact int32_val_bytes wb x h1 h2

theorem read_label_vars_one (big wb : Bool) (dict : Writer.dictionary)
    (var_by_idx : List (Option Nat)) (r : sfm_reader) (rest : List Nat) (idx : Int)
    (x : Writer.variable_) (horder : xor big r.reverse_endian = wb)
    (h0 : 0 ≤ idx) (h1 : idx + 1 ≤ r.value_cnt) (h2 : idx + 1 < (2 ^ 31 : Int))
    (hx : (var_by_idx.getD idx.toNat none).bind (var_lookup dict) = some x)
    (hshort : ¬ (x.type = Writer.ALPHA ∧ x.width > 8)) :
    read_label_vars big dict var_by_idx 1 { r with file := int32_bytes wb (idx + 1) ++ rest }
      = (some [x], { r with file := rest }, []) := by
  have hv : fix_int32 big { r with file := int32_bytes wb (idx + 1) ++ rest }
      (int32_bytes wb (idx + 1)) = idx + 1 :=
    fix_int32_written big wb _ _ horder (by omega) h2
  have hi : (idx + 1 - 1).toNat = idx.toNat := by
    congr 1
    omega
  rw [read_label_vars, buf_read_prefix_of r _ rest 4 false (int32_bytes_length _ _)
    (by norm_num)]
  dsimp only
  rw [hv, if_neg (by
    intro hcon
    rcases hcon with hcon | hcon
    · omega
    · exact absurd h1 (by
        show ¬ idx + 1 ≤ r.value_cnt
        have : r.value_cnt < idx + 1 := hcon
        omega)), hi, hx]
  dsimp only
  rw [if_neg hshort, read_label_vars]

theorem var_count_pos_of_lookup (dict : Writer.dictionary) (o : Option Nat)
    (x : Writer.variable_) (hx : o.bind (var_lookup dict) = some x) :
    1 ≤ dict.var.length := by
  obtain ⟨p, _, hp⟩ := Option.bind_eq_some.mp hx
  unfold var_lookup at hp
  have hm := List.mem_of_find?_eq_some hp
  exact List.length_pos_of_mem hm

theorem read_value_labels_written_of (big wb : Bool) (renv : host) (r : sfm_reader)
    (dict : Writer.dictionary) (var_by_idx : List (Option Nat)) (ls : List Writer.val_lab)
    (idx : Int) (x : Writer.variable_) (rest : List Nat)
    (hls : ∀ vl ∈ ls, vl.value.length = 8 ∧ vl.label.length ≤ 255 ∧ ∀ b ∈ vl.label, b ≠ 0)
    (hn : ls.length < 2 ^ 31) (horder : xor big r.reverse_endian = wb)
    (h0 : 0 ≤ idx) (h1 : idx + 1 ≤ r.value_cnt) (h2 : idx + 1 < (2 ^ 31 : Int))
    (hx : (var_by_idx.getD idx.toNat none).bind (var_lookup dict) = some x)
    (hshort : ¬ (x.type = Writer.ALPHA ∧ x.width > 8)) :
    read_value_labels big renv
        { r with file := int32_bytes wb (ls.length : Int)
          ++ ((ls.map Writer.value_label_bytes).flatten
            ++ (int32_bytes wb 4 ++ (int32_bytes wb 1
              ++ (int32_bytes wb (idx + 1) ++ rest)))) } dict var_by_idx
      = ⟨1, { r with file := rest },
          (assign_labels renv (ls.map (fun vl =>
            (if x.type = Writer.ALPHA then vl.value else fix_flt64 r vl.value, vl.label)))
            [x] dict).1,
          (assign_labels renv (ls.map (fun vl =>
            (if x.type = Writer.ALPHA then vl.value else fix_flt64 r vl.value, vl.label)))
            [x] dict).2⟩ := by
  have hvn : ∀ F : List Nat, fix_int32 big { r with file := F }
      (int32_bytes wb (ls.length : Int)) = (ls.length : Int) := fun F =>
    fix_int32_written big wb _ _ horder (by omega) (by exact_mod_cast hn)
  have hv4 : ∀ F : List Nat, fix_int32 big { r with file := F } (int32_bytes wb 4) = 4 :=
    fun F => fix_int32_written big wb _ _ horder (by norm_num) (by norm_num)
  have hv1 : ∀ F : List Nat, fix_int32 big { r with file := F } (int32_bytes wb 1) = 1 :=
    fun F => fix_int32_written big wb _ _ horder (by norm_num) (by norm_num)
  have hbad : ¬ (size_t_of_int (ls.length : Int) ≥ size_t_of_int (-1) / 24) := by
    rw [size_t_of_int_nat _ (by omega)]
    have : size_t_of_int (-1) = 2 ^ 64 - 1 := by decide
    rw [this]
    omega
  have hdict := var_count_pos_of_lookup dict _ x hx
  unfold read_value_labels
  rw [buf_read_prefix_of r _ _ 4 false (int32_bytes_length _ _) (by norm_num)]
  dsimp only
  rw [hvn]
  simp only [hbad, decide_False, Bool.false_eq_true, if_false, Int.toNat_ofNat,
    List.nil_append]
  rw [read_label_tuples_written_of ls r _ hls]
  dsimp only
  rw [buf_read_prefix_of r _ _ 4 false (int32_bytes_length _ _) (by norm_num)]
  dsimp only
  rw [hv4, if_neg (by decide),
    buf_read_prefix_of r _ _ 4 false (int32_bytes_length _ _) (by norm_num)]
  dsimp only
  rw [hv1, if_neg (by omega)]
  have e1 : (1 : Int).toNat = 1 := rfl
  rw [e1, read_label_vars_one big wb dict var_by_idx r rest idx x horder h0 h1 h2 hx hshort]
  have hfix : ∀ (F bs : List Nat), fix_flt64 { r with file := F } bs = fix_flt64 r bs :=
    fun _ _ => rfl
  simp [hfix, Function.comp_def]

theorem write_value_labels_file (wb : Bool) (wenv : Writer.host) (w : Writer.sfm_writer)
    (v : Writer.variable_) (idx : Int) (hio : w.io = []) (hne : v.val_labs.length ≠ 0) :
    Writer.write_value_labels wb wenv w v idx
      = (true, { w with file := w.file
          ++ ((int32_bytes wb 3 ++ int32_bytes wb v.val_labs.length
              ++ ((wenv.val_labs_sorted v.val_labs).map Writer.value_label_bytes).flatten)
            ++ (int32_bytes wb 4 ++ int32_bytes wb 1 ++ int32_bytes wb (idx + 1))) }) := by
  unfold Writer.write_value_labels
  rw [if_neg hne, buf_write_ok w _ hio (by
    simp only [List.length_append, int32_bytes_length]
    omega)]
  dsimp only
  exact buf_write_app w _ _ hio (by
    simp only [List.length_append, int32_bytes_length]
    omega)

theorem value_label_bytes_eq (vl : Writer.val_lab) (h255 : vl.label.length ≤ 255) :
    Writer.value_label_bytes vl
      = vl.value ++ [vl.label.length] ++ vl.label
        ++ List.replicate (8 * ((vl.label.length + 8) / 8) - (vl.label.length + 1)) 32 := by
  have hp := (value_label_pad vl.label.length).1
  unfold Writer.value_label_bytes
  rw [Nat.mod_eq_of_lt (by omega)]
  congr 2
  omega

/-- C19: for a variable with value labels of 255 bytes at most each (none of them with
a null byte, the values of 8 bytes), `write_value_labels` writes the type 3 record with
the count and, for every label in the sorted order, the 8 bytes of the value, one byte
with the length `L`, the label and blanks up to the next multiple of 8
(`8 + 8 * ((L + 8) / 8)` bytes), and behind it the type 4 record with the one index.
`read_value_labels` takes, for every label, exactly those bytes and gets the same
values and labels in the same order; on the whole record, for an index that names a
numeric or short string variable, it returns 1 at the end of the type 4 record and
gives the variable those labels. -/
theorem value_labels_round_trip (wb big : Bool) (wenv : Writer.host) (renv : host)
    (v : Writer.variable_) (idx : Int) (r : sfm_reader) (dict : Writer.dictionary)
    (var_by_idx : List (Option Nat)) (x : Writer.variable_) (rest : List Nat)
    (hne : v.val_labs.length ≠ 0)
    (hcount : (wenv.val_labs_sorted v.val_labs).length = v.val_labs.length)
    (hls : ∀ vl ∈ wenv.val_labs_sorted v.val_labs,
      vl.value.length = 8 ∧ vl.label.length ≤ 255 ∧ ∀ b ∈ vl.label, b ≠ 0)
    (hn : v.val_labs.length < 2 ^ 31) (horder : xor big r.reverse_endian = wb)
    (h0 : 0 ≤ idx) (h1 : idx + 1 ≤ r.value_cnt) (h2 : idx + 1 < (2 ^ 31 : Int))
    (hx : (var_by_idx.getD idx.toNat none).bind (var_lookup dict) = some x)
    (hshort : ¬ (x.type = Writer.ALPHA ∧ x.width > 8))
    (hfile : r.file = int32_bytes wb (v.val_labs.length : Int)
      ++ (((wenv.val_labs_sorted v.val_labs).map Writer.value_label_bytes).flatten
        ++ (int32_bytes wb 4 ++ (int32_bytes wb 1 ++ (int32_bytes wb (idx + 1) ++ rest))))) :
    (∀ w : Writer.sfm_writer, w.io = [] →
        Writer.write_value_labels wb wenv w v idx
          = (true, { w with file := w.file
              ++ ((int32_bytes wb 3 ++ int32_bytes wb v.val_labs.length
                  ++ ((wenv.val_labs_sorted v.val_labs).map Writer.value_label_bytes).flatten)
                ++ (int32_bytes wb 4 ++ int32_bytes wb 1 ++ int32_bytes wb (idx + 1))) }))
    ∧ (∀ vl ∈ wenv.val_labs_sorted v.val_labs,
        Writer.value_label_bytes vl
          = vl.value ++ [vl.label.length] ++ vl.label
            ++ List.replicate (8 * ((vl.label.length + 8) / 8) - (vl.label.length + 1)) 32
        ∧ (Writer.value_label_bytes vl).length = 8 + 8 * ((vl.label.length + 8) / 8))
    ∧ (∀ (r2 : sfm_reader) (rest2 : List Nat),
        r2.file = ((wenv.val_labs_sorted v.val_labs).map Writer.value_label_bytes).flatten
          ++ rest2 →
        read_label_tuples v.val_labs.length r2
          = (some ((wenv.val_labs_sorted v.val_labs).map (fun vl => (vl.value, vl.label))),
              { r2 with file := rest2 }, []))
    ∧ read_value_labels big renv r dict var_by_idx
        = ⟨1, { r with file := rest },
            (assign_labels renv ((wenv.val_labs_sorted v.val_labs).map (fun vl =>
              (if x.type = Writer.ALPHA then vl.value else fix_flt64 r vl.value, vl.label)))
              [x] dict).1,
            (assign_labels renv ((wenv.val_labs_sorted v.val_labs).map (fun vl =>
              (if x.type = Writer.ALPHA then vl.value else fix_flt64 r vl.value, vl.label)))
              [x] dict).2⟩ := by
  refine ⟨fun w hio => write_value_labels_file wb wenv w v idx hio hne,
    fun vl hvl => ⟨value_label_bytes_eq vl (hls vl hvl).2.1,
      value_label_bytes_length vl (hls vl hvl).1⟩,
    fun r2 rest2 hf => ?_, ?_⟩
  · rw [← hcount]
    exact read_label_tuples_written _ r2 rest2 hls hf
  · have e : r = { r with file := r.file } := rfl
    rw [e, hfile, ← hcount]
    exact read_value_labels_written_of big wb renv r dict var_by_idx _ idx x rest hls
      (by rw [hcount]; exact hn) horder h0 h1 h2 hx hshort

/-- C19, an instance: the label `X` of the example variable is written as the 8 bytes of
the value, the length 1, `X` and 6 blanks; `read_value_labels` takes the record that
was written for the index 2 and stops behind the type 4 record. -/
theorem value_labels_round_trip_witness :
    Writer.value_label_bytes { value := [1, 0, 0, 0, 0, 0, 0, 0], label := [88] }
        = [1, 0, 0, 0, 0, 0, 0, 0, 1, 88, 32, 32, 32, 32, 32, 32]
    ∧ (read_value_labels false example_reader_host example_labels_reader
          example_weighted_dict [some 0, none, some 2]).ret = 1
    ∧ (read_value_labels false example_reader_host example_labels_reader
          example_weighted_dict [some 0, none, some 2]).r.file = [7] :=
  have h := value_labels_round_trip false false example_host example_reader_host
    example_labelled_var 2 example_labels_reader example_weighted_dict
    [some 0, none, some 2] example_labelled_var [7]
    (by decide) (by decide) (by decide) (by decide) rfl (by decide) (by decide) (by decide)
    (by decide) (by decide) rfl
  ⟨by decide, congrArg labels_result.ret h.2.2.2,
    congrArg (fun res => res.r.file) h.2.2.2⟩

end

section

open Reader

theorem buf_read_keeps (r : sfm_reader) (n : Nat) (b : Bool) :
    (buf_read r n b).2.1.reverse_endian = r.reverse_endian
    ∧ (buf_read r n b).2.1.value_cnt = r.value_cnt := by
  unfold buf_read
  split_ifs <;> exact ⟨rfl, rfl⟩

theorem buf_read_eq_keeps (r r1 : sfm_reader) (n : Nat) (b : Bool) (o : Option (List Nat))
    (m : List dict_message) (h : buf_read r n b = (o, r1, m)) :
    r1.reverse_endian = r.reverse_endian ∧ r1.value_cnt = r.value_cnt := by
  have := buf_read_keeps r n b
  rw [h] at this
  exact this

theorem read_label_tuples_keeps : ∀ (n : Nat) (r r2 : sfm_reader)
    (o : Option (List (List Nat × List Nat))) (m : List dict_message),
    read_label_tuples n r = (o, r2, m) →
    r2.reverse_endian = r.reverse_endian ∧ r2.value_cnt = r.value_cnt
  | 0, r, r2, o, m, h => by
    simp only [read_label_tuples, Prod.mk.injEq] at h
    rw [← h.2.1]
    exact ⟨rfl, rfl⟩
  | n + 1, r, r2, o, m, h => by
    rw [read_label_tuples] at h
    rcases h1 : buf_read r 8 false with ⟨o1, ra, m1⟩
    have f1 := buf_read_eq_keeps _ _ _ _ _ _ h1
    rw [h1] at h
    cases o1 with
    | none =>
      simp only [Prod.mk.injEq] at h
      rw [← h.2.1]
      exact f1
    | some raw =>
      dsimp only at h
      rcases h2 : buf_read ra 1 false with ⟨o2, rb, m2⟩
      have f2 := buf_read_eq_keeps _ _ _ _ _ _ h2
      rw [h2] at h
      cases o2 with
      | none =>
        simp only [Prod.mk.injEq] at h
        rw [← h.2.1]
        exact ⟨f2.1.trans f1.1, f2.2.trans f1.2⟩
      | some len =>
        dsimp only at h
        rcases h3 : buf_read rb ((Writer.ROUND_UP ((len.headD 0 : Nat) + 1) 8).toNat - 1) false
          with ⟨o3, rc, m3⟩
        have f3 := buf_read_eq_keeps _ _ _ _ _ _ h3
        rw [h3] at h
        cases o3 with
        | none =>
          simp only [Prod.mk.injEq] at h
          rw [← h.2.1]
          exact ⟨f3.1.trans (f2.1.trans f1.1), f3.2.trans (f2.2.trans f1.2)⟩
        | some label =>
          dsimp only at h
          rcases h4 : read_label_tuples n rc with ⟨o4, rd, m4⟩
          have f4 := read_label_tuples_keeps n rc rd o4 m4 h4
          rw [h4] at h
          cases o4 <;>
          · simp only [Prod.mk.injEq] at h
            rw [← h.2.1]
            exact ⟨f4.1.trans (f3.1.trans (f2.1.trans f1.1)),
              f4.2.trans (f3.2.trans (f2.2.trans f1.2))⟩

theorem fix_int32_congr (big : Bool) (r r1 : sfm_reader) (bs : List Nat)
    (h : r1.reverse_endian = r.reverse_endian) : fix_int32 big r1 bs = fix_int32 big r bs := by
  unfold fix_int32
  rw [h]

theorem read_label_vars_checked (big : Bool) (dict : Writer.dictionary)
    (var_by_idx : List (Option Nat)) :
    ∀ (n : Nat) (r r1 : sfm_reader) (vars : List Writer.variable_) (m : List dict_message),
      read_label_vars big dict var_by_idx n r = (some vars, r1, m) →
      ∀ k, k < n →
        1 ≤ fix_int32 big r (mem_read r.file (4 * k) 4)
        ∧ fix_int32 big r (mem_read r.file (4 * k) 4) ≤ r.value_cnt
        ∧ ∃ v, vars.get? k = some v
          ∧ (var_by_idx.getD (fix_int32 big r (mem_read r.file (4 * k) 4) - 1).toNat
              none).bind (var_lookup dict) = some v
          ∧ ¬ (v.type = Writer.ALPHA ∧ v.width > 8)
  | 0, _, _, _, _, _, k, hk => absurd hk (Nat.not_lt_zero _)
  | n + 1, r, r1, vars, m, h, k, hk => by
    rw [read_label_vars] at h
    by_cases h4 : 4 ≤ r.file.length
    · rw [buf_read_some r 4 false (by norm_num) h4] at h
      dsimp only at h
      by_cases hi : fix_int32 big r (r.file.take 4) < 1
          ∨ fix_int32 big r (r.file.take 4) > r.value_cnt
      · rw [if_pos hi] at h
        simp at h
      · rw [if_neg hi] at h
        rcases hb : (var_by_idx.getD (fix_int32 big r (r.file.take 4) - 1).toNat none).bind
            (var_lookup dict) with _ | v
        · rw [hb] at h
          simp at h
        · rw [hb] at h
          dsimp only at h
          by_cases hlong : v.type = Writer.ALPHA ∧ v.width > 8
          · rw [if_pos hlong] at h
            simp at h
          · rw [if_neg hlong] at h
            rcases h2 : read_label_vars big dict var_by_idx n { r with file := r.file.drop 4 }
              with ⟨o2, r3, m2⟩
            rw [h2] at h
            cases o2 with
            | none => simp at h
            | some restv =>
              simp only [Prod.mk.injEq, Option.some.injEq] at h
              have ih := read_label_vars_checked big dict var_by_idx n _ r3 restv m2 h2
              cases k with
              | zero =>
                have e0 : mem_read r.file (4 * 0) 4 = r.file.take 4 := by
                  unfold mem_read
                  simp
                rw [e0]
                refine ⟨by omega, by omega, v, ?_, hb, hlong⟩
                rw [← h.1]
                rfl
              | succ j =>
                have ej : mem_read r.file (4 * (j + 1)) 4
                    = mem_read (r.file.drop 4) (4 * j) 4 := by
                  unfold mem_read
                  rw [List.drop_drop]
                  congr 2
                  omega
                obtain ⟨a1, a2, w, a3, a4, a5⟩ := ih j (by omega)
                rw [ej]
                refine ⟨a1, a2, w, ?_, a4, a5⟩
                rw [← h.1]
                exact a3
    · rw [buf_read_none r 4 false (by omega)] at h
      simp at h

theorem buf_read_some_inv (r r1 : sfm_reader) (n : Nat) (b : Bool) (bs : List Nat)
    (m : List dict_message) (hn : 0 < n) (h : buf_read r n b = (some bs, r1, m)) :
    bs = r.file.take n ∧ r1 = { r with file := r.file.drop n } := by
  by_cases hl : n ≤ r.file.length
  · rw [buf_read_some r n b hn hl] at h
    simp only [Prod.mk.injEq, Option.some.injEq] at h
    exact ⟨h.1.symm, h.2.1.symm⟩
  · rw [buf_read_none r n b (by omega)] at h
    simp at h

theorem read_value_labels_ret (big : Bool) (env : host) (r : sfm_reader)
    (dict : Writer.dictionary) (var_by_idx : List (Option Nat)) :
    ((read_value_labels big env r dict var_by_idx).ret = 0
      ∨ (read_value_labels big env r dict var_by_idx).ret = 1)
    ∧ ((read_value_labels big env r dict var_by_idx).ret = 0 →
        (read_value_labels big env r dict var_by_idx).dict = dict) := by
  unfold read_value_labels
  split
  · exact ⟨Or.inl rfl, fun _ => rfl⟩
  · dsimp only
    split
    · exact ⟨Or.inl rfl, fun _ => rfl⟩
    · split
      · exact ⟨Or.inl rfl, fun _ => rfl⟩
      · split
        · exact ⟨Or.inl rfl, fun _ => rfl⟩
        · split
          · exact ⟨Or.inl rfl, fun _ => rfl⟩
          · split
            · exact ⟨Or.inl rfl, fun _ => rfl⟩
            · split
              · exact ⟨Or.inl rfl, fun _ => rfl⟩
              · split
                · exact ⟨Or.inl rfl, fun _ => rfl⟩
                · exact ⟨Or.inr rfl, fun h => by simp at h⟩

theorem read_value_labels_accepts (big : Bool) (env : host) (r r1 r2 : sfm_reader)
    (dict : Writer.dictionary) (var_by_idx : List (Option Nat)) (bs : List Nat)
    (m1 m2 : List dict_message) (labels : List (List Nat × List Nat))
    (h1 : buf_read r 4 false = (some bs, r1, m1))
    (hT : read_label_tuples
      (if decide (size_t_of_int (fix_int32 big r bs) ≥ size_t_of_int (-1) / 24) = true
        then 0 else fix_int32 big r bs).toNat r1 = (some labels, r2, m2))
    (hret : (read_value_labels big env r dict var_by_idx).ret = 1) :
    fix_int32 big r (mem_read r2.file 0 4) = 4
    ∧ 1 ≤ fix_int32 big r (mem_read r2.file 4 4)
    ∧ fix_int32 big r (mem_read r2.file 4 4) ≤ dict.var.length
    ∧ ∃ vars : List Writer.variable_,
      (∀ k, k < (fix_int32 big r (mem_read r2.file 4 4)).toNat →
        1 ≤ fix_int32 big r (mem_read r2.file (8 + 4 * k) 4)
        ∧ fix_int32 big r (mem_read r2.file (8 + 4 * k) 4) ≤ r.value_cnt
        ∧ ∃ v, vars.get? k = some v
          ∧ (var_by_idx.getD (fix_int32 big r (mem_read r2.file (8 + 4 * k) 4) - 1).toNat
              none).bind (var_lookup dict) = some v
          ∧ ¬ (v.type = Writer.ALPHA ∧ v.width > 8))
      ∧ ∀ v ∈ vars, v.type = (vars.head?.map (fun v => v.type)).getD Writer.NUMERIC := by
  have k1 := buf_read_eq_keeps _ _ _ _ _ _ h1
  have k2 := read_label_tuples_keeps _ _ _ _ _ hT
  unfold read_value_labels at hret
  rw [h1] at hret
  dsimp only at hret
  rw [hT] at hret
  dsimp only at hret
  split at hret
  · simp at hret
  · rename_i bs4 r3 m3 hb3
    obtain ⟨e3, e3r⟩ := buf_read_some_inv _ _ _ _ _ _ (by norm_num) hb3
    split at hret
    · simp at hret
    · rename_i htag
      split at hret
      · simp at hret
      · rename_i bsn r4 m4 hb4
        obtain ⟨e4, e4r⟩ := buf_read_some_inv _ _ _ _ _ _ (by norm_num) hb4
        have hbsn : bsn = mem_read r2.file 4 4 := by
          rw [e4, e3r]
          rfl
        have hbs4 : bs4 = mem_read r2.file 0 4 := by
          rw [e3]
          rfl
        split at hret
        · simp at hret
        · rename_i hnv
          split at hret
          · simp at hret
          · rename_i vars r5 m5 hv
            split at hret
            · simp at hret
            · rename_i hmix
              have hr4 : r4.reverse_endian = r.reverse_endian ∧ r4.value_cnt = r.value_cnt := by
                rw [e4r, e3r]
                exact ⟨k2.1.trans k1.1, k2.2.trans k1.2⟩
              have hf4 : r4.file = r2.file.drop 8 := by
                rw [e4r, e3r]
                show (r2.file.drop 4).drop 4 = r2.file.drop 8
                rw [List.drop_drop]
              rw [hbsn] at hnv hv
              rw [hbs4] at htag
              refine ⟨by by_contra hc; exact htag hc, by omega, by omega, vars,
                fun k hk => ?_, fun v hvm => ?_⟩
              · have hc := read_label_vars_checked big dict var_by_idx _ r4 r5 vars m5 hv k hk
                have em : mem_read r4.file (4 * k) 4 = mem_read r2.file (8 + 4 * k) 4 := by
                  unfold mem_read
                  rw [hf4, List.drop_drop]
                rw [em, fix_int32_congr big r r4 _ hr4.1, hr4.2] at hc
                exact hc
              · cases vars with
                | nil => exact absurd hvm (List.not_mem_nil _)
                | cons a t =>
                  rcases List.mem_cons.mp hvm with hva | hvt
                  · rw [hva]
                    rfl
                  · by_contra hne
                    apply hmix
                    simp only [List.drop_succ_cons, List.drop_zero, List.any_eq_true]
                    exact ⟨v, hvt, by simpa using hne⟩

/-- C20: behind the tuples of a type 3 record, `read_value_labels` returns 0 and leaves
the dictionary as it was, with no label given to any variable, whenever the `n_vars`
of the type 4 record is below 1 or above the number of variables of the dictionary,
one of the `n_vars` indices listed is below 1 or above `value_cnt`, one of them names
a position of `var_by_idx` that holds a null pointer (a continuation of a long
string), one of them names a string variable wider than 8 bytes, or two of them name
variables of different types. It returns 0 or 1, and whenever it returns 0 the
dictionary is unchanged. -/
theorem value_label_vars_checked (big : Bool) (env : host) (r r1 r2 : sfm_reader)
    (dict : Writer.dictionary) (var_by_idx : List (Option Nat)) (bs : List Nat)
    (m1 m2 : List dict_message) (labels : List (List Nat × List Nat))
    (h1 : buf_read r 4 false = (some bs, r1, m1))
    (hT : read_label_tuples
      (if decide (size_t_of_int (fix_int32 big r bs) ≥ size_t_of_int (-1) / 24) = true
        then 0 else fix_int32 big r bs).toNat r1 = (some labels, r2, m2)) :
    ((fix_int32 big r (mem_read r2.file 4 4) < 1
        ∨ fix_int32 big r (mem_read r2.file 4 4) > dict.var.length) →
      (read_value_labels big env r dict var_by_idx).ret = 0
      ∧ (read_value_labels big env r dict var_by_idx).dict = dict)
    ∧ (∀ k, k < (fix_int32 big r (mem_read r2.file 4 4)).toNat →
        (fix_int32 big r (mem_read r2.file (8 + 4 * k) 4) < 1
          ∨ fix_int32 big r (mem_read r2.file (8 + 4 * k) 4) > r.value_cnt) →
        (read_value_labels big env r dict var_by_idx).ret = 0
        ∧ (read_value_labels big env r dict var_by_idx).dict = dict)
    ∧ (∀ k, k < (fix_int32 big r (mem_read r2.file 4 4)).toNat →
        var_by_idx.getD (fix_int32 big r (mem_read r2.file (8 + 4 * k) 4) - 1).toNat none
          = none →
        (read_value_labels big env r dict var_by_idx).ret = 0
        ∧ (read_value_labels big env r dict var_by_idx).dict = dict)
    ∧ (∀ k v, k < (fix_int32 big r (mem_read r2.file 4 4)).toNat →
        (var_by_idx.getD (fix_int32 big r (mem_read r2.file (8 + 4 * k) 4) - 1).toNat
          none).bind (var_lookup dict) = some v →
        v.type = Writer.ALPHA ∧ v.width > 8 →
        (read_value_labels big env r dict var_by_idx).ret = 0
        ∧ (read_value_labels big env r dict var_by_idx).dict = dict)
    ∧ (∀ j k vj vk, j < (fix_int32 big r (mem_read r2.file 4 4)).toNat →
        k < (fix_int32 big r (mem_read r2.file 4 4)).toNat →
        (var_by_idx.getD (fix_int32 big r (mem_read r2.file (8 + 4 * j) 4) - 1).toNat
          none).bind (var_lookup dict) = some vj →
        (var_by_idx.getD (fix_int32 big r (mem_read r2.file (8 + 4 * k) 4) - 1).toNat
          none).bind (var_lookup dict) = some vk →
        vj.type ≠ vk.type →
        (read_value_labels big env r dict var_by_idx).ret = 0
        ∧ (read_value_labels big env r dict var_by_idx).dict = dict)
    ∧ ((read_value_labels big env r dict var_by_idx).ret = 0
        ∨ (read_value_labels big env r dict var_by_idx).ret = 1)
    ∧ ((read_value_labels big env r dict var_by_idx).ret = 0 →
        (read_value_labels big env r dict var_by_idx).dict = dict) := by
  have A := read_value_labels_ret big env r dict var_by_idx
  have B := read_value_labels_accepts big env r r1 r2 dict var_by_idx bs m1 m2 labels h1 hT
  have key : ¬ (read_value_labels big env r dict var_by_idx).ret = 1 →
      (read_value_labels big env r dict var_by_idx).ret = 0
      ∧ (read_value_labels big env r dict var_by_idx).dict = dict := by
    intro hne
    rcases A.1 with h0 | h0
    · exact ⟨h0, A.2 h0⟩
    · exact absurd h0 hne
  refine ⟨fun hbad => key (fun hr => ?_), fun k hk hbad => key (fun hr => ?_),
    fun k hk hnone => key (fun hr => ?_), fun k v hk hv hlong => key (fun hr => ?_),
    fun j k vj vk hj hk hvj hvk hne => key (fun hr => ?_), A.1, A.2⟩
  · obtain ⟨_, b1, b2, _⟩ := B hr
    omega
  · obtain ⟨_, _, _, vars, b3, _⟩ := B hr
    obtain ⟨c1, c2, _⟩ := b3 k hk
    omega
  · obtain ⟨_, _, _, vars, b3, _⟩ := B hr
    obtain ⟨_, _, v, _, c3, _⟩ := b3 k hk
    rw [hnone] at c3
    simp at c3
  · obtain ⟨_, _, _, vars, b3, _⟩ := B hr
    obtain ⟨_, _, w, _, c3, c4⟩ := b3 k hk
    rw [hv] at c3
    exact c4 (Option.some.inj c3 ▸ hlong)
  · obtain ⟨_, _, _, vars, b3, b4⟩ := B hr
    obtain ⟨_, _, wj, gj, cj, _⟩ := b3 j hj
    obtain ⟨_, _, wk, gk, ck, _⟩ := b3 k hk
    rw [hvj] at cj
    rw [hvk] at ck
    have ej : vj = wj := Option.some.inj cj
    have ek : vk = wk := Option.some.inj ck
    apply hne
    rw [ej, ek, b4 wj (List.get?_mem gj), b4 wk (List.get?_mem gk)]

/-- C20, an instance: in a dictionary with a string variable of width 16 and a numeric
variable, the index 2 names the continuation of the string: `read_value_labels`
returns 0 and the dictionary is unchanged. -/
theorem value_label_vars_checked_witness :
    (read_value_labels false example_reader_host example_bad_index_reader
        example_weighted_dict [some 0, none, some 2]).ret = 0
    ∧ (read_value_labels false example_reader_host example_bad_index_reader
        example_weighted_dict [some 0, none, some 2]).dict = example_weighted_dict :=
  have h1 : (buf_read example_bad_index_reader 4 false).1 = some [1, 0, 0, 0] := by decide
  have hT : (read_label_tuples
      (if decide (size_t_of_int (fix_int32 false example_bad_index_reader [1, 0, 0, 0])
          ≥ size_t_of_int (-1) / 24) = true
        then 0 else fix_int32 false example_bad_index_reader [1, 0, 0, 0]).toNat
      (buf_read example_bad_index_reader 4 false).2.1).1
      = some [([1, 0, 0, 0, 0, 0, 0, 0], [88])] := by decide!
  (value_label_vars_checked false example_reader_host example_bad_index_reader _ _
    example_weighted_dict [some 0, none, some 2] [1, 0, 0, 0] _ _ _
    (Prod.ext h1 rfl) (Prod.ext hT rfl)).2.2.1 0 (by decide!) (by decide!)

end

end Sfm
